import Mathlib

/-! Mesh-corrected motion segmenter (`mesh_buffer_line`).

A shallow embedding of `VORON_12inch_Volume/Marlin/Mesh_Buffer_Line.cpp`.

* C `float` values are modelled in exact arithmetic by `Flt`: a rational, one of the two
  infinities, or NaN.  Rounding and overflow are not modelled; division by zero and NaN
  propagation are.  The model has a single zero, which behaves as `+0`.
* Numbers that the routine only adds, subtracts, multiplies or compares (the request, the
  machine position, the mesh-line tables) are finite and are typed `ℚ`; anything that comes out
  of a division or of the height samples is typed `Flt`.
* Calls into the planner, reads of the tables and of the sample grid, and the update of the
  tracked position are recorded, in program order, in a list of `Event`s.
* The three `while` loops take a fuel argument and return `none` when it runs out.
-/

namespace VoronUBL

/-- A C `float` in exact arithmetic. -/
inductive Flt where
  | fin (q : ℚ)
  | pinf
  | ninf
  | nan
  deriving DecidableEq

namespace Flt

/-- The C library test `isnan`. -/
def isnan : Flt → Bool
  | nan => true
  | _ => false

/-- Unary minus. -/
def neg : Flt → Flt
  | fin q => fin (-q)
  | pinf => ninf
  | ninf => pinf
  | nan => nan

/-- Addition: opposite infinities and NaN give NaN. -/
def add : Flt → Flt → Flt
  | fin a, fin b => fin (a + b)
  | fin _, pinf => pinf
  | fin _, ninf => ninf
  | pinf, fin _ => pinf
  | ninf, fin _ => ninf
  | pinf, pinf => pinf
  | ninf, ninf => ninf
  | _, _ => nan

/-- Subtraction. -/
def sub (a b : Flt) : Flt := add a (neg b)

/-- An infinity of the sign of `q` times the sign given by `pos`; NaN when `q = 0`. -/
def infTimes (pos : Bool) (q : ℚ) : Flt :=
  if q = 0 then nan else if (0 < q) = pos then pinf else ninf

/-- Multiplication: zero times an infinity is NaN. -/
def mul : Flt → Flt → Flt
  | fin a, fin b => fin (a * b)
  | fin a, pinf => infTimes true a
  | fin a, ninf => infTimes false a
  | pinf, fin b => infTimes true b
  | ninf, fin b => infTimes false b
  | pinf, pinf => pinf
  | ninf, ninf => pinf
  | pinf, ninf => ninf
  | ninf, pinf => ninf
  | _, _ => nan

/-- Division: a non-zero number over zero is an infinity of its sign, `0/0` is NaN. -/
def div : Flt → Flt → Flt
  | fin a, fin b =>
    if b = 0 then (if a = 0 then nan else if 0 < a then pinf else ninf) else fin (a / b)
  | fin _, pinf => fin 0
  | fin _, ninf => fin 0
  | pinf, fin b => if 0 ≤ b then pinf else ninf
  | ninf, fin b => if 0 ≤ b then ninf else pinf
  | _, _ => nan

/-- The C comparison `<`: false as soon as one side is NaN. -/
def lt : Flt → Flt → Bool
  | fin a, fin b => decide (a < b)
  | fin _, pinf => true
  | ninf, fin _ => true
  | ninf, pinf => true
  | _, _ => false

/-- The C comparison `==`: false as soon as one side is NaN. -/
def eq : Flt → Flt → Bool
  | nan, _ => false
  | _, nan => false
  | a, b => decide (a = b)

instance : Add Flt := ⟨add⟩
instance : Sub Flt := ⟨sub⟩
instance : Mul Flt := ⟨mul⟩
instance : Div Flt := ⟨div⟩
instance : Neg Flt := ⟨neg⟩

/-- A float that is an ordinary number (neither infinite nor NaN). -/
def IsFin : Flt → Prop
  | fin _ => True
  | _ => False

instance : DecidablePred IsFin := fun a =>
  match a with
  | fin _ => isTrue trivial
  | pinf => isFalse (fun h => h)
  | ninf => isFalse (fun h => h)
  | nan => isFalse (fun h => h)

end Flt

open Flt (fin pinf ninf nan)

/-- The machine position `current_position[X_AXIS .. E_AXIS]` (and `destination[]`). -/
structure Pos where
  x : ℚ
  y : ℚ
  z : ℚ
  e : ℚ
  deriving DecidableEq

/-- The arguments of `mesh_buffer_line`. -/
structure Req where
  x_end : ℚ
  y_end : ℚ
  z_end : ℚ
  e_end : ℚ
  feed_rate : ℚ
  extruder : Nat
  deriving DecidableEq

/-- The bed-leveling manager `blm` and the mesh constants of the configuration, which the
segmenter only reads.  `z_values i j` is what a read of `z_values[i][j]` returns, also for an
index outside `[0, MESH_NUM_X_POINTS) × [0, MESH_NUM_Y_POINTS)`, where it stands for whatever
the word at that address holds: a sample of a neighbouring row, or the memory next to the
array.  `fade` is `fade_scaling_factor_for_Z` and `z_offset` is `state.z_offset`. -/
structure Blm where
  MESH_NUM_X_POINTS : Nat
  MESH_NUM_Y_POINTS : Nat
  MESH_MIN_X : ℚ
  MESH_MIN_Y : ℚ
  MESH_X_DIST : ℚ
  MESH_Y_DIST : ℚ
  z_values : Int → Int → Flt
  fade : ℚ → ℚ
  z_offset : ℚ

/-- Modelled from the spec: the table `mesh_index_to_X_location` is declared outside the
sources at hand; mesh line `i` lies at the origin plus `i` times the pitch (evenly spaced). -/
def mesh_index_to_X_location (g : Blm) (i : Int) : ℚ := g.MESH_MIN_X + i * g.MESH_X_DIST

/-- Modelled from the spec: the table `mesh_index_to_Y_location`, evenly spaced like the X
table. -/
def mesh_index_to_Y_location (g : Blm) (j : Int) : ℚ := g.MESH_MIN_Y + j * g.MESH_Y_DIST

/-- Modelled from the spec: `get_cell_index_x` is defined outside the sources at hand; a world
coordinate maps to a (possibly out-of-range) cell index by floor-division against the grid's
origin and pitch. -/
def get_cell_index_x (g : Blm) (x : ℚ) : Int := ⌊(x - g.MESH_MIN_X) / g.MESH_X_DIST⌋

/-- Modelled from the spec: `get_cell_index_y`, as `get_cell_index_x`. -/
def get_cell_index_y (g : Blm) (y : ℚ) : Int := ⌊(y - g.MESH_MIN_Y) / g.MESH_Y_DIST⌋

/-- The test of line 86, also the spec's "queried cell index outside the valid range". -/
def off_grid (g : Blm) (xi yi : Int) : Prop :=
  xi < 0 ∨ yi < 0 ∨ xi ≥ g.MESH_NUM_X_POINTS ∨ yi ≥ g.MESH_NUM_Y_POINTS

instance (g : Blm) (xi yi : Int) : Decidable (off_grid g xi yi) := by
  unfold off_grid; infer_instance

/-- Modelled from the spec: `get_z_correction_along_horizontal_mesh_line_at_specific_X` is
defined outside the sources at hand.  It is the spec's `alongRow`: the 1D interpolation between
`sample(i,j)` and `sample(i+1,j)` at the local fraction along X, and 0 when the queried cell
index is outside the valid range. -/
def get_z_correction_along_horizontal_mesh_line_at_specific_X
    (g : Blm) (x0 : Flt) (x1_i yi : Int) : Flt :=
  if off_grid g x1_i yi then fin 0
  else
    let u := (x0 - fin (mesh_index_to_X_location g x1_i)) /
      (fin (mesh_index_to_X_location g (x1_i + 1)) - fin (mesh_index_to_X_location g x1_i))
    g.z_values x1_i yi + u * (g.z_values (x1_i + 1) yi - g.z_values x1_i yi)

/-- Modelled from the spec: `get_z_correction_along_vertical_mesh_line_at_specific_Y` is
defined outside the sources at hand.  It is the spec's `alongColumn`: the 1D interpolation
between `sample(i,j)` and `sample(i,j+1)` at the local fraction along Y, and 0 when the queried
cell index is outside the valid range. -/
def get_z_correction_along_vertical_mesh_line_at_specific_Y
    (g : Blm) (y0 : Flt) (xi y1_i : Int) : Flt :=
  if off_grid g xi y1_i then fin 0
  else
    let v := (y0 - fin (mesh_index_to_Y_location g y1_i)) /
      (fin (mesh_index_to_Y_location g (y1_i + 1)) - fin (mesh_index_to_Y_location g y1_i))
    g.z_values xi y1_i + v * (g.z_values xi (y1_i + 1) - g.z_values xi y1_i)

/-- What the routine does to the outside world, in program order. -/
inductive Event where
  /-- a read of `z_values[i][j]` -/
  | read_z (i j : Int)
  /-- a read of `mesh_index_to_X_location[i]` -/
  | read_X (i : Int)
  /-- a read of `mesh_index_to_Y_location[j]` -/
  | read_Y (j : Int)
  /-- a call `planner.buffer_line(x, y, z, e, feed_rate, extruder)` -/
  | buffer_line (x y z e : Flt) (feed_rate : ℚ) (extruder : Nat)
  /-- a call `set_current_to_destination()` -/
  | set_current_to_destination
  deriving DecidableEq

/-- Modelled from the spec: the reads made by `alongRow`, none when the query is off the grid. -/
def horizontal_reads (g : Blm) (x1_i yi : Int) : List Event :=
  if off_grid g x1_i yi then []
  else [Event.read_X x1_i, Event.read_X (x1_i + 1), Event.read_z x1_i yi,
        Event.read_z (x1_i + 1) yi]

/-- Modelled from the spec: the reads made by `alongColumn`, none when the query is off the
grid. -/
def vertical_reads (g : Blm) (xi y1_i : Int) : List Event :=
  if off_grid g xi y1_i then []
  else [Event.read_Y y1_i, Event.read_Y (y1_i + 1), Event.read_z xi y1_i,
        Event.read_z xi (y1_i + 1)]

/-- The guard `if (isnan(z0)) z0 = 0.0;` that follows every correction. -/
def nan_to_zero (z0 : Flt) : Flt := if z0.isnan then fin 0 else z0

/-- The block under the label `FINAL_MOVE` (lines 103-126): the correction at the destination
inside cell `(cell_dest_xi, cell_dest_yi)`, before fade scaling and the NaN guard. -/
def final_z0 (g : Blm) (r : Req) (cell_dest_xi cell_dest_yi : Int) : Flt :=
  let a0ma1diva2ma1 := (fin r.x_end - fin (mesh_index_to_X_location g cell_dest_xi)) *
    (fin 1 / fin g.MESH_X_DIST)
  let z1 := g.z_values cell_dest_xi cell_dest_yi +
    (g.z_values (cell_dest_xi + 1) cell_dest_yi - g.z_values cell_dest_xi cell_dest_yi) *
      a0ma1diva2ma1
  let z2 := g.z_values (cell_dest_xi + 1) (cell_dest_yi + 1) +
    (g.z_values cell_dest_xi (cell_dest_yi + 1) -
      g.z_values (cell_dest_xi + 1) (cell_dest_yi + 1)) * a0ma1diva2ma1
  let a0ma1diva2ma1 := (fin r.y_end - fin (mesh_index_to_Y_location g cell_dest_yi)) *
    (fin 1 / fin g.MESH_Y_DIST)
  z1 + (z2 - z1) * a0ma1diva2ma1

/-- The block under the label `FINAL_MOVE` (lines 103-126), with its reads, its one call to
the planner and the update of the tracked position. -/
def FINAL_MOVE (g : Blm) (r : Req) (cell_dest_xi cell_dest_yi : Int) : List Event :=
  let z0 := final_z0 g r cell_dest_xi cell_dest_yi
  let z0 := z0 * fin (g.fade r.z_end)
  let z0 := nan_to_zero z0
  [Event.read_X cell_dest_xi,
   Event.read_z cell_dest_xi cell_dest_yi,
   Event.read_z (cell_dest_xi + 1) cell_dest_yi,
   Event.read_z cell_dest_xi cell_dest_yi,
   Event.read_z (cell_dest_xi + 1) (cell_dest_yi + 1),
   Event.read_z cell_dest_xi (cell_dest_yi + 1),
   Event.read_z (cell_dest_xi + 1) (cell_dest_yi + 1),
   Event.read_Y cell_dest_yi,
   Event.buffer_line (fin r.x_end) (fin r.y_end) (fin r.z_end + z0 + fin g.z_offset)
     (fin r.e_end) r.feed_rate r.extruder,
   Event.set_current_to_destination]

/-- The locals of `mesh_buffer_line` that are fixed once the move has been classified (lines
136-194) and are only read by the three loops. -/
structure Locals where
  x_start : ℚ
  y_start : ℚ
  z_start : ℚ
  e_start : ℚ
  cell_start_xi : Int
  cell_start_yi : Int
  cell_dest_xi : Int
  cell_dest_yi : Int
  left_flag : Int
  down_flag : Int
  dxi : Int
  dyi : Int
  use_X_dist : Bool
  inf_normalized_flag : Bool
  inf_m_flag : Bool
  e_normalized_dist : Flt
  z_normalized_dist : Flt
  m : Flt
  c : Flt

/-- Lines 136-194: the direction flags, the dominant axis, the two scaling factors and the
line equation `y = m*x + c` of the requested move. -/
def setup (g : Blm) (cur : Pos) (r : Req) : Locals :=
  let x_start := cur.x
  let y_start := cur.y
  let z_start := cur.z
  let e_start := cur.e
  let cell_start_xi := get_cell_index_x g x_start
  let cell_start_yi := get_cell_index_y g y_start
  let cell_dest_xi := get_cell_index_x g r.x_end
  let cell_dest_yi := get_cell_index_y g r.y_end
  let dx := r.x_end - x_start
  let dy := r.y_end - y_start
  let dxi : Int := if dx < 0 then -1 else 1
  let adx := if dx < 0 then -dx else dx
  let dyi : Int := if dy < 0 then -1 else 1
  let ady := if dy < 0 then -dy else dy
  let left_flag : Int := if dx < 0 then 1 else 0
  let down_flag : Int := if dy < 0 then 1 else 0
  let dxi := if cell_start_xi = cell_dest_xi then 0 else dxi
  let dyi := if cell_start_yi = cell_dest_yi then 0 else dyi
  let use_X_dist := decide (adx > ady)
  let on_axis_distance := if adx > ady then r.x_end - x_start else r.y_end - y_start
  let e_position := r.e_end - e_start
  let e_normalized_dist := fin e_position / fin on_axis_distance
  let z_position := r.z_end - z_start
  let z_normalized_dist := fin z_position / fin on_axis_distance
  let inf_normalized_flag := Flt.eq e_normalized_dist pinf || Flt.eq e_normalized_dist ninf
  let m := fin dy / fin dx
  let c := fin y_start - m * fin x_start
  let inf_m_flag := Flt.eq m pinf || Flt.eq m ninf
  { x_start := x_start, y_start := y_start, z_start := z_start, e_start := e_start,
    cell_start_xi := cell_start_xi, cell_start_yi := cell_start_yi,
    cell_dest_xi := cell_dest_xi, cell_dest_yi := cell_dest_yi,
    left_flag := left_flag, down_flag := down_flag, dxi := dxi, dyi := dyi,
    use_X_dist := use_X_dist, inf_normalized_flag := inf_normalized_flag,
    inf_m_flag := inf_m_flag, e_normalized_dist := e_normalized_dist,
    z_normalized_dist := z_normalized_dist, m := m, c := c }

/-- The apportioned extrusion of an interior sub-move (lines 227-234, 278-285, 344-354,
373-383), given the on-axis distance covered so far. -/
def e_position_at (L : Locals) (on_axis_distance : Flt) : Flt :=
  if L.inf_normalized_flag = false then fin L.e_start + on_axis_distance * L.e_normalized_dist
  else fin L.e_start

/-- The apportioned, uncorrected Z of an interior sub-move (same lines as `e_position_at`). -/
def z_position_at (L : Locals) (on_axis_distance : Flt) : Flt :=
  if L.inf_normalized_flag = false then fin L.z_start + on_axis_distance * L.z_normalized_dist
  else fin L.z_start

/-- One pass through the body of the single-column loop (lines 203-237), entered with the
already advanced `current_yi`. -/
def vertical_step (g : Blm) (r : Req) (L : Locals) (current_xi current_yi : Int) :
    List Event :=
  let next_mesh_line_y := mesh_index_to_Y_location g current_yi
  let x := if L.inf_m_flag then fin L.x_start else (fin next_mesh_line_y - L.c) / L.m
  let z0 := get_z_correction_along_horizontal_mesh_line_at_specific_X g x current_xi current_yi
  let z0 := z0 * fin (g.fade r.z_end)
  let z0 := nan_to_zero z0
  let y := mesh_index_to_Y_location g current_yi
  [Event.read_Y current_yi] ++ horizontal_reads g current_xi current_yi ++
    [Event.read_Y current_yi] ++
    (if y ≠ L.y_start then
      let on_axis_distance := fin y - fin L.y_start
      [Event.buffer_line x (fin y)
        (z_position_at L on_axis_distance + z0 + fin g.z_offset)
        (e_position_at L on_axis_distance) r.feed_rate r.extruder]
    else [])

/-- The single-column loop `while (current_yi != cell_dest_yi + down_flag)` (lines 202-238). -/
def vertical_loop (g : Blm) (r : Req) (L : Locals) (current_xi : Int) :
    Nat → Int → Option (List Event)
  | 0, current_yi =>
    if current_yi ≠ L.cell_dest_yi + L.down_flag then none else some []
  | fuel + 1, current_yi =>
    if current_yi ≠ L.cell_dest_yi + L.down_flag then
      let current_yi := current_yi + L.dyi
      (vertical_loop g r L current_xi fuel current_yi).map
        (fun rest => vertical_step g r L current_xi current_yi ++ rest)
    else some []

/-- One pass through the body of the single-row loop (lines 258-288), entered with the already
advanced `current_xi`. -/
def horizontal_step (g : Blm) (r : Req) (L : Locals) (current_xi current_yi : Int) :
    List Event :=
  let next_mesh_line_x := mesh_index_to_X_location g current_xi
  let y := L.m * fin next_mesh_line_x + L.c
  let z0 := get_z_correction_along_vertical_mesh_line_at_specific_Y g y current_xi current_yi
  let z0 := z0 * fin (g.fade r.z_end)
  let z0 := nan_to_zero z0
  let x := mesh_index_to_X_location g current_xi
  [Event.read_X current_xi] ++ vertical_reads g current_xi current_yi ++
    [Event.read_X current_xi] ++
    (if x ≠ L.x_start then
      let on_axis_distance := fin x - fin L.x_start
      [Event.buffer_line (fin x) y
        (z_position_at L on_axis_distance + z0 + fin g.z_offset)
        (e_position_at L on_axis_distance) r.feed_rate r.extruder]
    else [])

/-- The single-row loop `while (current_xi != cell_dest_xi + left_flag)` (lines 257-289). -/
def horizontal_loop (g : Blm) (r : Req) (L : Locals) (current_yi : Int) :
    Nat → Int → Option (List Event)
  | 0, current_xi =>
    if current_xi ≠ L.cell_dest_xi + L.left_flag then none else some []
  | fuel + 1, current_xi =>
    if current_xi ≠ L.cell_dest_xi + L.left_flag then
      let current_xi := current_xi + L.dxi
      (horizontal_loop g r L current_yi fuel current_xi).map
        (fun rest => horizontal_step g r L current_xi current_yi ++ rest)
    else some []

/-- The test of line 330: the next Y mesh line is hit before the next X mesh line. -/
def hits_Y_line_first (L : Locals) (x : Flt) (next_mesh_line_x : ℚ) : Bool :=
  (L.left_flag ≠ 0 && Flt.lt (fin next_mesh_line_x) x) ||
    (!(L.left_flag ≠ 0) && Flt.lt x (fin next_mesh_line_x))

/-- The branch "Crossing a Y Mesh Line next" of the general loop (lines 334-355). -/
def cross_Y_line (g : Blm) (r : Req) (L : Locals) (current_xi current_yi : Int) : List Event :=
  let next_mesh_line_y := mesh_index_to_Y_location g (current_yi + L.dyi)
  let x := (fin next_mesh_line_y - L.c) / L.m
  let z0 := get_z_correction_along_horizontal_mesh_line_at_specific_X g x
    (current_xi - L.left_flag) (current_yi + L.dyi)
  let z0 := z0 * fin (g.fade r.z_end)
  let z0 := nan_to_zero z0
  let on_axis_distance :=
    if L.use_X_dist then x - fin L.x_start else fin next_mesh_line_y - fin L.y_start
  horizontal_reads g (current_xi - L.left_flag) (current_yi + L.dyi) ++
    [Event.buffer_line x (fin next_mesh_line_y)
      (z_position_at L on_axis_distance + z0 + fin g.z_offset)
      (e_position_at L on_axis_distance) r.feed_rate r.extruder]

/-- The branch "Crossing a X Mesh Line next" of the general loop (lines 363-385). -/
def cross_X_line (g : Blm) (r : Req) (L : Locals) (current_xi current_yi : Int) : List Event :=
  let next_mesh_line_x := mesh_index_to_X_location g (current_xi + L.dxi)
  let y := L.m * fin next_mesh_line_x + L.c
  let z0 := get_z_correction_along_vertical_mesh_line_at_specific_Y g y
    (current_xi + L.dxi) (current_yi - L.down_flag)
  let z0 := z0 * fin (g.fade r.z_end)
  let z0 := nan_to_zero z0
  let on_axis_distance :=
    if L.use_X_dist then fin next_mesh_line_x - fin L.x_start else y - fin L.y_start
  vertical_reads g (current_xi + L.dxi) (current_yi - L.down_flag) ++
    [Event.buffer_line (fin next_mesh_line_x) y
      (z_position_at L on_axis_distance + z0 + fin g.z_offset)
      (e_position_at L on_axis_distance) r.feed_rate r.extruder]

/-- The general loop `while (xi_cnt > 0 || yi_cnt > 0)` (lines 319-389); the arguments after
the fuel are `current_xi`, `current_yi`, `xi_cnt` and `yi_cnt`. -/
def general_loop (g : Blm) (r : Req) (L : Locals) :
    Nat → Int → Int → Int → Int → Option (List Event)
  | 0, _, _, xi_cnt, yi_cnt =>
    if xi_cnt > 0 ∨ yi_cnt > 0 then none else some []
  | fuel + 1, current_xi, current_yi, xi_cnt, yi_cnt =>
    if xi_cnt > 0 ∨ yi_cnt > 0 then
      let next_mesh_line_x := mesh_index_to_X_location g (current_xi + L.dxi)
      let next_mesh_line_y := mesh_index_to_Y_location g (current_yi + L.dyi)
      let x := (fin next_mesh_line_y - L.c) / L.m
      let reads := [Event.read_X (current_xi + L.dxi), Event.read_Y (current_yi + L.dyi)]
      if hits_Y_line_first L x next_mesh_line_x then
        (general_loop g r L fuel current_xi (current_yi + L.dyi) xi_cnt (yi_cnt - 1)).map
          (fun rest => reads ++ cross_Y_line g r L current_xi current_yi ++ rest)
      else
        (general_loop g r L fuel (current_xi + L.dxi) current_yi (xi_cnt - 1) yi_cnt).map
          (fun rest => reads ++ cross_X_line g r L current_xi current_yi ++ rest)
    else some []

/-- The tail shared by the three loops (lines 242-245, 290-293, 390-394): the final leg unless
the tracked position, which the loops never update, already is the destination. -/
def finish (g : Blm) (cur : Pos) (r : Req) (L : Locals) : List Event :=
  if cur.x ≠ r.x_end ∨ cur.y ≠ r.y_end then FINAL_MOVE g r L.cell_dest_xi L.cell_dest_yi
  else [Event.set_current_to_destination]

/-- The routine `mesh_buffer_line(x_end, y_end, z_end, e_end, feed_rate, extruder)`, started
with the tracked position `cur`; `none` when a loop is still running after `fuel` passes. -/
def mesh_buffer_line (g : Blm) (cur : Pos) (r : Req) (fuel : Nat) : Option (List Event) :=
  let L := setup g cur r
  if L.cell_start_xi = L.cell_dest_xi ∧ L.cell_start_yi = L.cell_dest_yi then
    if off_grid g L.cell_dest_xi L.cell_dest_yi then
      some [Event.buffer_line (fin r.x_end) (fin r.y_end) (fin r.z_end + fin g.z_offset)
        (fin r.e_end) r.feed_rate r.extruder, Event.set_current_to_destination]
    else some (FINAL_MOVE g r L.cell_dest_xi L.cell_dest_yi)
  else if L.dxi = 0 then
    (vertical_loop g r L L.cell_start_xi fuel (L.cell_start_yi + L.down_flag)).map
      (fun evs => evs ++ finish g cur r L)
  else if L.dyi = 0 then
    (horizontal_loop g r L L.cell_start_yi fuel (L.cell_start_xi + L.left_flag)).map
      (fun evs => evs ++ finish g cur r L)
  else
    let xi_cnt := if L.cell_start_xi - L.cell_dest_xi < 0
      then -(L.cell_start_xi - L.cell_dest_xi) else L.cell_start_xi - L.cell_dest_xi
    let yi_cnt := if L.cell_start_yi - L.cell_dest_yi < 0
      then -(L.cell_start_yi - L.cell_dest_yi) else L.cell_start_yi - L.cell_dest_yi
    (general_loop g r L fuel (L.cell_start_xi + L.left_flag) (L.cell_start_yi + L.down_flag)
      xi_cnt yi_cnt).map (fun evs => evs ++ finish g cur r L)

/-- A sub-move handed to the planner. -/
structure SubMove where
  x : Flt
  y : Flt
  z : Flt
  e : Flt
  feed_rate : ℚ
  extruder : Nat
  deriving DecidableEq

/-- The sub-moves of an event list, in the order in which they were emitted. -/
def sub_moves : List Event → List SubMove
  | [] => []
  | Event.buffer_line x y z e f t :: evs => ⟨x, y, z, e, f, t⟩ :: sub_moves evs
  | _ :: evs => sub_moves evs

/-- The indices of the sample grid read by an event list, in order. -/
def z_reads : List Event → List (Int × Int)
  | [] => []
  | Event.read_z i j :: evs => (i, j) :: z_reads evs
  | _ :: evs => z_reads evs

/-- Modelled from the spec: the grid of the spec's scenarios, with mesh lines at 0, 10 and 20
on both axes and all samples 0 except `Z[1][1] = 1`.  The samples are the C array
`float z_values[3][3]`, stored row by row: the index pair `(i, j)` reads the word at offset
`3 * i + j`, so a column index outside `[0, 3)` reads a word of a neighbouring row
(`z_values[0][3]` is `z_values[1][0]`), and only the offsets outside `[0, 9)` leave the array;
the memory there holds `pad`. -/
def scenario_grid (pad : Flt) (fade z_offset : ℚ) : Blm :=
  { MESH_NUM_X_POINTS := 3, MESH_NUM_Y_POINTS := 3,
    MESH_MIN_X := 0, MESH_MIN_Y := 0, MESH_X_DIST := 10, MESH_Y_DIST := 10,
    z_values := fun i j =>
      if 0 ≤ 3 * i + j ∧ 3 * i + j < 9 then (if 3 * i + j = 4 then fin 1 else fin 0) else pad,
    fade := fun _ => fade, z_offset := z_offset }


/-- A grid whose two pitches are positive. -/
def Blm.WF (g : Blm) : Prop := 0 < g.MESH_X_DIST ∧ 0 < g.MESH_Y_DIST

instance (g : Blm) : Decidable g.WF := by
  unfold Blm.WF; infer_instance

/-- The travel fraction (0 at the start, 1 at the destination) at which the requested path
meets the line `X = lx`. -/
def frac_X (cur : Pos) (r : Req) (lx : ℚ) : ℚ := (lx - cur.x) / (r.x_end - cur.x)

/-- The travel fraction at which the requested path meets the line `Y = ly`. -/
def frac_Y (cur : Pos) (r : Req) (ly : ℚ) : ℚ := (ly - cur.y) / (r.y_end - cur.y)

/-- The index of the X mesh line that the general loop looks at next, in terms of the
destination column and the remaining count `xi_cnt`. -/
def next_xi (cur : Pos) (r : Req) (cell_dest_xi xi_cnt : Int) : Int :=
  if r.x_end - cur.x < 0 then cell_dest_xi + xi_cnt else cell_dest_xi + 1 - xi_cnt

/-- The index of the Y mesh line that the general loop looks at next, in terms of the
destination row and the remaining count `yi_cnt`. -/
def next_yi (cur : Pos) (r : Req) (cell_dest_yi yi_cnt : Int) : Int :=
  if r.y_end - cur.y < 0 then cell_dest_yi + yi_cnt else cell_dest_yi + 1 - yi_cnt

/-- The classification "same cell": start and destination have identical cell indices. -/
def same_cell (g : Blm) (cur : Pos) (r : Req) : Prop :=
  get_cell_index_x g cur.x = get_cell_index_x g r.x_end ∧
    get_cell_index_y g cur.y = get_cell_index_y g r.y_end

instance (g : Blm) (cur : Pos) (r : Req) : Decidable (same_cell g cur r) := by
  unfold same_cell; infer_instance

/-- The destination cell index fails the test of line 86. -/
def dest_off_grid (g : Blm) (r : Req) : Prop :=
  off_grid g (get_cell_index_x g r.x_end) (get_cell_index_y g r.y_end)

instance (g : Blm) (r : Req) : Decidable (dest_off_grid g r) := by
  unfold dest_off_grid; infer_instance

/-- A number of loop passes that is enough for every request: one more than the number of
columns plus the number of rows between the start cell and the destination cell. -/
def enough_fuel (g : Blm) (cur : Pos) (r : Req) : Nat :=
  (get_cell_index_x g cur.x - get_cell_index_x g r.x_end).natAbs +
    (get_cell_index_y g cur.y - get_cell_index_y g r.y_end).natAbs + 1

/-- Spec-side definition, following the words of the spec's `bilinear(x, y, i, j)`: the weighted
sum of the four corner samples with weights `(1-u)(1-v)`, `u(1-v)`, `(1-u)v` and `uv`. -/
def spec_bilinear (g : Blm) (x y : ℚ) (i j : Int) : Flt :=
  let u := (fin x - fin (mesh_index_to_X_location g i)) /
    (fin (mesh_index_to_X_location g (i + 1)) - fin (mesh_index_to_X_location g i))
  let v := (fin y - fin (mesh_index_to_Y_location g j)) /
    (fin (mesh_index_to_Y_location g (j + 1)) - fin (mesh_index_to_Y_location g j))
  (fin 1 - u) * (fin 1 - v) * g.z_values i j + u * (fin 1 - v) * g.z_values (i + 1) j +
    (fin 1 - u) * v * g.z_values i (j + 1) + u * v * g.z_values (i + 1) (j + 1)

/-- Spec-side definition, following the words of the spec's on-axis apportioning: the start
value plus the fraction `d / D` of the way to the end value. -/
def spec_apportion (v_start v_end d D : ℚ) : ℚ := v_start + d / D * (v_end - v_start)

/-- The grid `g` with the sample at `(i0, j0)` replaced by `v`. -/
def set_sample (g : Blm) (i0 j0 : Int) (v : Flt) : Blm :=
  { g with z_values := fun i j => if i = i0 ∧ j = j0 then v else g.z_values i j }

/-- Lines 141-179: the signed displacement along the dominant axis, the divisor of the two
scaling factors (the local `on_axis_distance` before the loops reuse it). -/
def on_axis_distance (cur : Pos) (r : Req) : ℚ :=
  let dx := r.x_end - cur.x
  let dy := r.y_end - cur.y
  let adx := if dx < 0 then -dx else dx
  let ady := if dy < 0 then -dy else dy
  if adx > ady then r.x_end - cur.x else r.y_end - cur.y

/-- Modelled from the spec: `set_current_to_destination` is defined outside the sources at
hand; it sets the tracked position to the destination of the request.  The tracked position
after a list of events, starting from `cur`. -/
def tracked_position (destination : Pos) : Pos → List Event → Pos
  | cur, [] => cur
  | _, Event.set_current_to_destination :: evs => tracked_position destination destination evs
  | cur, _ :: evs => tracked_position destination cur evs

/-- The destination `(x_end, y_end, z_end, e_end)` of a request. -/
def Req.destination (r : Req) : Pos := ⟨r.x_end, r.y_end, r.z_end, r.e_end⟩

/-- The places of the routine at which a sub-move can be emitted, one for each pass through
a loop body and one for each way of ending the routine, with the loop variables `current_xi`
and `current_yi` of that pass. -/
inductive Site where
  /-- a pass of the single-column loop, with the already advanced `current_yi` -/
  | vertical (current_xi current_yi : Int)
  /-- a pass of the single-row loop, with the already advanced `current_xi` -/
  | horizontal (current_xi current_yi : Int)
  /-- a pass of the general loop that takes the branch "Crossing a Y Mesh Line next" -/
  | cross_Y (current_xi current_yi : Int)
  /-- a pass of the general loop that takes the branch "Crossing a X Mesh Line next" -/
  | cross_X (current_xi current_yi : Int)
  /-- the tail shared by the three loops -/
  | finish
  /-- the block `FINAL_MOVE` entered from the same-cell test -/
  | final_move
  /-- the raw move of lines 91-93 -/
  | raw
  deriving DecidableEq

/-- The events of the routine at a site. -/
def pass_at (g : Blm) (cur : Pos) (r : Req) : Site → List Event
  | Site.vertical cxi cyi => vertical_step g r (setup g cur r) cxi cyi
  | Site.horizontal cxi cyi => horizontal_step g r (setup g cur r) cxi cyi
  | Site.cross_Y cxi cyi =>
    [Event.read_X (cxi + (setup g cur r).dxi), Event.read_Y (cyi + (setup g cur r).dyi)] ++
      cross_Y_line g r (setup g cur r) cxi cyi
  | Site.cross_X cxi cyi =>
    [Event.read_X (cxi + (setup g cur r).dxi), Event.read_Y (cyi + (setup g cur r).dyi)] ++
      cross_X_line g r (setup g cur r) cxi cyi
  | Site.finish => finish g cur r (setup g cur r)
  | Site.final_move =>
    FINAL_MOVE g r (setup g cur r).cell_dest_xi (setup g cur r).cell_dest_yi
  | Site.raw =>
    [Event.buffer_line (fin r.x_end) (fin r.y_end) (fin r.z_end + fin g.z_offset)
      (fin r.e_end) r.feed_rate r.extruder, Event.set_current_to_destination]

/-- The sites visited by the single-column loop: the control flow of `vertical_loop`. -/
def vertical_sites (L : Locals) (current_xi : Int) : Nat → Int → Option (List Site)
  | 0, current_yi =>
    if current_yi ≠ L.cell_dest_yi + L.down_flag then none else some []
  | fuel + 1, current_yi =>
    if current_yi ≠ L.cell_dest_yi + L.down_flag then
      let current_yi := current_yi + L.dyi
      (vertical_sites L current_xi fuel current_yi).map
        (fun rest => Site.vertical current_xi current_yi :: rest)
    else some []

/-- The sites visited by the single-row loop: the control flow of `horizontal_loop`. -/
def horizontal_sites (L : Locals) (current_yi : Int) : Nat → Int → Option (List Site)
  | 0, current_xi =>
    if current_xi ≠ L.cell_dest_xi + L.left_flag then none else some []
  | fuel + 1, current_xi =>
    if current_xi ≠ L.cell_dest_xi + L.left_flag then
      let current_xi := current_xi + L.dxi
      (horizontal_sites L current_yi fuel current_xi).map
        (fun rest => Site.horizontal current_xi current_yi :: rest)
    else some []

/-- The sites visited by the general loop: the control flow of `general_loop`. -/
def general_sites (g : Blm) (L : Locals) :
    Nat → Int → Int → Int → Int → Option (List Site)
  | 0, _, _, xi_cnt, yi_cnt =>
    if xi_cnt > 0 ∨ yi_cnt > 0 then none else some []
  | fuel + 1, current_xi, current_yi, xi_cnt, yi_cnt =>
    if xi_cnt > 0 ∨ yi_cnt > 0 then
      let next_mesh_line_x := mesh_index_to_X_location g (current_xi + L.dxi)
      let next_mesh_line_y := mesh_index_to_Y_location g (current_yi + L.dyi)
      let x := (fin next_mesh_line_y - L.c) / L.m
      if hits_Y_line_first L x next_mesh_line_x then
        (general_sites g L fuel current_xi (current_yi + L.dyi) xi_cnt (yi_cnt - 1)).map
          (fun rest => Site.cross_Y current_xi current_yi :: rest)
      else
        (general_sites g L fuel (current_xi + L.dxi) current_yi (xi_cnt - 1) yi_cnt).map
          (fun rest => Site.cross_X current_xi current_yi :: rest)
    else some []

/-- The sites visited by a run of `mesh_buffer_line`, in order: its control flow, which does
not look at the height samples. -/
def mesh_buffer_line_sites (g : Blm) (cur : Pos) (r : Req) (fuel : Nat) : Option (List Site) :=
  let L := setup g cur r
  if L.cell_start_xi = L.cell_dest_xi ∧ L.cell_start_yi = L.cell_dest_yi then
    if off_grid g L.cell_dest_xi L.cell_dest_yi then some [Site.raw]
    else some [Site.final_move]
  else if L.dxi = 0 then
    (vertical_sites L L.cell_start_xi fuel (L.cell_start_yi + L.down_flag)).map
      (fun ss => ss ++ [Site.finish])
  else if L.dyi = 0 then
    (horizontal_sites L L.cell_start_yi fuel (L.cell_start_xi + L.left_flag)).map
      (fun ss => ss ++ [Site.finish])
  else
    let xi_cnt := if L.cell_start_xi - L.cell_dest_xi < 0
      then -(L.cell_start_xi - L.cell_dest_xi) else L.cell_start_xi - L.cell_dest_xi
    let yi_cnt := if L.cell_start_yi - L.cell_dest_yi < 0
      then -(L.cell_start_yi - L.cell_dest_yi) else L.cell_start_yi - L.cell_dest_yi
    (general_sites g L fuel (L.cell_start_xi + L.left_flag) (L.cell_start_yi + L.down_flag)
      xi_cnt yi_cnt).map (fun ss => ss ++ [Site.finish])

/-- The events of a list of sites, one after the other. -/
def events_at (g : Blm) (cur : Pos) (r : Req) : List Site → List Event
  | [] => []
  | s :: ss => pass_at g cur r s ++ events_at g cur r ss

/-- The apportioned, uncorrected Z that the routine uses at a site (`z_position` in the
loops, `z_end` in the final leg). -/
def apportioned_z (g : Blm) (cur : Pos) (r : Req) : Site → Flt
  | Site.vertical _ cyi =>
    z_position_at (setup g cur r) (fin (mesh_index_to_Y_location g cyi) - fin cur.y)
  | Site.horizontal cxi _ =>
    z_position_at (setup g cur r) (fin (mesh_index_to_X_location g cxi) - fin cur.x)
  | Site.cross_Y _ cyi =>
    z_position_at (setup g cur r) (if (setup g cur r).use_X_dist
      then (fin (mesh_index_to_Y_location g (cyi + (setup g cur r).dyi)) -
        (setup g cur r).c) / (setup g cur r).m - fin cur.x
      else fin (mesh_index_to_Y_location g (cyi + (setup g cur r).dyi)) - fin cur.y)
  | Site.cross_X cxi _ =>
    z_position_at (setup g cur r) (if (setup g cur r).use_X_dist
      then fin (mesh_index_to_X_location g (cxi + (setup g cur r).dxi)) - fin cur.x
      else (setup g cur r).m * fin (mesh_index_to_X_location g (cxi + (setup g cur r).dxi)) +
        (setup g cur r).c - fin cur.y)
  | Site.finish => fin r.z_end
  | Site.final_move => fin r.z_end
  | Site.raw => fin r.z_end

/-- No coordinate of the sub-move is undefined: X, Y and E are ordinary numbers and Z is not
NaN. -/
def SubMove.defined (sm : SubMove) : Prop :=
  sm.x.IsFin ∧ sm.y.IsFin ∧ sm.z.isnan = false ∧ sm.e.IsFin

/-- The classification of the move under which the routine can be at a site. -/
def site_in_class (g : Blm) (cur : Pos) (r : Req) : Site → Prop
  | Site.vertical _ _ =>
    get_cell_index_x g cur.x = get_cell_index_x g r.x_end ∧
      get_cell_index_y g cur.y ≠ get_cell_index_y g r.y_end
  | Site.horizontal _ _ =>
    get_cell_index_x g cur.x ≠ get_cell_index_x g r.x_end ∧
      get_cell_index_y g cur.y = get_cell_index_y g r.y_end
  | Site.cross_Y _ _ =>
    get_cell_index_x g cur.x ≠ get_cell_index_x g r.x_end ∧
      get_cell_index_y g cur.y ≠ get_cell_index_y g r.y_end
  | Site.cross_X _ _ =>
    get_cell_index_x g cur.x ≠ get_cell_index_x g r.x_end ∧
      get_cell_index_y g cur.y ≠ get_cell_index_y g r.y_end
  | Site.finish => ¬ same_cell g cur r
  | Site.final_move => same_cell g cur r
  | Site.raw => same_cell g cur r

/-- The point of the requested path at travel fraction `t` (0 at the start, 1 at the
destination). -/
def on_path (cur : Pos) (r : Req) (t : ℚ) : Flt × Flt :=
  (fin (cur.x + t * (r.x_end - cur.x)), fin (cur.y + t * (r.y_end - cur.y)))

/-- The point lies in the closed cell `[lineX(i), lineX(i+1)] x [lineY(j), lineY(j+1)]`, for
any integers `i` and `j`, on the grid or off it. -/
def in_closed_cell (g : Blm) (i j : Int) : Flt × Flt → Prop
  | (Flt.fin x, Flt.fin y) =>
    mesh_index_to_X_location g i ≤ x ∧ x ≤ mesh_index_to_X_location g (i + 1) ∧
      mesh_index_to_Y_location g j ≤ y ∧ y ≤ mesh_index_to_Y_location g (j + 1)
  | _ => False

/-- The two points lie within one common closed grid cell. -/
def share_cell (g : Blm) (p q : Flt × Flt) : Prop :=
  ∃ i j, in_closed_cell g i j p ∧ in_closed_cell g i j q

/-- The `(X, Y)` endpoints of the sub-moves of an event list, in order. -/
def endpoints (evs : List Event) : List (Flt × Flt) :=
  (sub_moves evs).map (fun sm => (sm.x, sm.y))

/-- The direction of travel along Y as a step of the row index: `-1` when `dy < 0`, else 1. -/
def dir_Y (cur : Pos) (r : Req) : Int := if r.y_end - cur.y < 0 then -1 else 1

/-- The flag `down_flag`: 1 when `dy < 0`, else 0. -/
def down_Y (cur : Pos) (r : Req) : Int := if r.y_end - cur.y < 0 then 1 else 0

/-- The direction of travel along X as a step of the column index. -/
def dir_X (cur : Pos) (r : Req) : Int := if r.x_end - cur.x < 0 then -1 else 1

/-- The flag `left_flag`: 1 when `dx < 0`, else 0. -/
def left_X (cur : Pos) (r : Req) : Int := if r.x_end - cur.x < 0 then 1 else 0

/-- The invariant of the single-column loop: the last point reached, at travel fraction `t`,
lies in the closed row `current_yi - down_flag`, not beyond the next mesh line, and
`current_yi` has not passed the destination row. -/
def vertical_inv (g : Blm) (cur : Pos) (r : Req) (t : ℚ) (cyi : Int) : Prop :=
  0 ≤ t ∧ t ≤ 1 ∧
    mesh_index_to_Y_location g (cyi - down_Y cur r) ≤ cur.y + t * (r.y_end - cur.y) ∧
    cur.y + t * (r.y_end - cur.y) ≤ mesh_index_to_Y_location g (cyi - down_Y cur r + 1) ∧
    t ≤ frac_Y cur r (mesh_index_to_Y_location g (cyi + dir_Y cur r)) ∧
    (if r.y_end - cur.y < 0 then get_cell_index_y g r.y_end + 1 ≤ cyi
      else cyi ≤ get_cell_index_y g r.y_end)

/-- The invariant of the single-row loop, as `vertical_inv` with the axes exchanged. -/
def horizontal_inv (g : Blm) (cur : Pos) (r : Req) (t : ℚ) (cxi : Int) : Prop :=
  0 ≤ t ∧ t ≤ 1 ∧
    mesh_index_to_X_location g (cxi - left_X cur r) ≤ cur.x + t * (r.x_end - cur.x) ∧
    cur.x + t * (r.x_end - cur.x) ≤ mesh_index_to_X_location g (cxi - left_X cur r + 1) ∧
    t ≤ frac_X cur r (mesh_index_to_X_location g (cxi + dir_X cur r)) ∧
    (if r.x_end - cur.x < 0 then get_cell_index_x g r.x_end + 1 ≤ cxi
      else cxi ≤ get_cell_index_x g r.x_end)

/-- The invariant of the general loop: the two counters determine the next mesh lines, the
last point reached lies in the closed cell `(current_xi - left_flag, current_yi - down_flag)`
and not beyond either of the next mesh lines; `xi_cnt` is -1 only after the extra pass that
the loop makes when the destination lies on an X mesh line reached heading left. -/
def general_inv (g : Blm) (cur : Pos) (r : Req) (t : ℚ) (cxi cyi xc yc : Int) : Prop :=
  cxi + dir_X cur r = next_xi cur r (get_cell_index_x g r.x_end) xc ∧
    cyi + dir_Y cur r = next_yi cur r (get_cell_index_y g r.y_end) yc ∧
    -1 ≤ xc ∧ 0 ≤ yc ∧
    (xc = -1 → r.x_end - cur.x < 0 ∧
      mesh_index_to_X_location g (get_cell_index_x g r.x_end) = r.x_end) ∧
    mesh_index_to_X_location g (cxi - left_X cur r) ≤ cur.x + t * (r.x_end - cur.x) ∧
    cur.x + t * (r.x_end - cur.x) ≤ mesh_index_to_X_location g (cxi - left_X cur r + 1) ∧
    mesh_index_to_Y_location g (cyi - down_Y cur r) ≤ cur.y + t * (r.y_end - cur.y) ∧
    cur.y + t * (r.y_end - cur.y) ≤ mesh_index_to_Y_location g (cyi - down_Y cur r + 1) ∧
    t ≤ frac_X cur r (mesh_index_to_X_location g (cxi + dir_X cur r)) ∧
    t ≤ frac_Y cur r (mesh_index_to_Y_location g (cyi + dir_Y cur r))

/-- The `n` mesh-line indices `k`, `k + step`, `k + 2 * step`, ..., in this order. -/
def mesh_lines_from (k step : Int) : Nat → List Int
  | 0 => []
  | n + 1 => k :: mesh_lines_from (k + step) step n

/-- The site is a pass of the general loop through the branch "Crossing a Y Mesh Line next". -/
def Site.crosses_Y : Site → Bool
  | Site.cross_Y _ _ => true
  | _ => false

/-- The site is a pass of the general loop through the branch "Crossing a X Mesh Line next". -/
def Site.crosses_X : Site → Bool
  | Site.cross_X _ _ => true
  | _ => false

/-- The site is a pass through the body of one of the three loops. -/
def Site.in_loop : Site → Bool
  | Site.vertical _ _ => true
  | Site.horizontal _ _ => true
  | Site.cross_Y _ _ => true
  | Site.cross_X _ _ => true
  | _ => false

/-- What holds when the general loop enters the pass of a site: the loop invariant at the point
reached so far, one of the two counters still positive, and the outcome of the test of line 330
in terms of the travel fractions of the next two mesh lines. -/
def entered (g : Blm) (cur : Pos) (r : Req) : Site → Prop
  | Site.cross_Y cxi cyi => ∃ t xc yc, general_inv g cur r t cxi cyi xc yc ∧ (xc > 0 ∨ yc > 0) ∧
      frac_Y cur r (mesh_index_to_Y_location g (cyi + dir_Y cur r)) <
        frac_X cur r (mesh_index_to_X_location g (cxi + dir_X cur r))
  | Site.cross_X cxi cyi => ∃ t xc yc, general_inv g cur r t cxi cyi xc yc ∧ (xc > 0 ∨ yc > 0) ∧
      frac_X cur r (mesh_index_to_X_location g (cxi + dir_X cur r)) ≤
        frac_Y cur r (mesh_index_to_Y_location g (cyi + dir_Y cur r))
  | _ => True

/-- Spec-side definition, following the words of the claim on the single-column walk: the X
at which the requested path meets the line `Y = ly`, that is `(ly - c) / m` with `m = dy / dx`
and `c = y_start - m * x_start`, or `x_start` when `dx = 0`. -/
def spec_x_on_Y_line (cur : Pos) (r : Req) (ly : ℚ) : ℚ :=
  let dx := r.x_end - cur.x
  let dy := r.y_end - cur.y
  let m := dy / dx
  let c := cur.y - m * cur.x
  if dx = 0 then cur.x else (ly - c) / m

/-- Spec-side definition, following the words of the claim on the single-row walk: the Y at
which the requested path meets the line `X = lx`, that is `m * lx + c` with `m = dy / dx` and
`c = y_start - m * x_start`. -/
def spec_y_on_X_line (cur : Pos) (r : Req) (lx : ℚ) : ℚ :=
  let dx := r.x_end - cur.x
  let dy := r.y_end - cur.y
  let m := dy / dx
  let c := cur.y - m * cur.x
  m * lx + c

/-- Spec-side definition, following the words of the claim on the single-row walk: the sub-move
for the mesh line `k`, at `X = lineX(k)` and `Y = m * lineX(k) + c`, whose correction is
`alongColumn(Y, k, cell_start_yi)`, scaled by the fade factor for `z_end` and replaced by 0 when
undefined.  The claim leaves the apportioning open: the correction is added to the Z that the
routine apportions at the line (`apportioned_z`) and to the Z offset, and the extrusion is the
one that the routine apportions there (`e_position_at`). -/
def spec_single_row_sub_move (g : Blm) (cur : Pos) (r : Req) (k : Int) : SubMove :=
  let x := mesh_index_to_X_location g k
  let y := spec_y_on_X_line cur r x
  ⟨fin x, fin y,
    apportioned_z g cur r (Site.horizontal k (get_cell_index_y g cur.y)) +
      nan_to_zero (get_z_correction_along_vertical_mesh_line_at_specific_Y g (fin y) k
        (get_cell_index_y g cur.y) * fin (g.fade r.z_end)) + fin g.z_offset,
    e_position_at (setup g cur r) (fin x - fin cur.x), r.feed_rate, r.extruder⟩

/-- The destination is a grid corner that the move approaches heading left and not down. -/
def corner_left_up (g : Blm) (cur : Pos) (r : Req) : Prop :=
  r.x_end - cur.x < 0 ∧ ¬ r.y_end - cur.y < 0 ∧
    mesh_index_to_X_location g (get_cell_index_x g r.x_end) = r.x_end ∧
    mesh_index_to_Y_location g (get_cell_index_y g r.y_end) = r.y_end

instance (g : Blm) (cur : Pos) (r : Req) : Decidable (corner_left_up g cur r) := by
  unfold corner_left_up; infer_instance

/-- The value returned by the edge interpolation that the routine calls at a loop site (lines
211, 262, 334 and 363), before fade scaling and the NaN guard; the sites of the final leg call
neither edge interpolation. -/
def along_value (g : Blm) (cur : Pos) (r : Req) : Site → Flt
  | Site.vertical cxi cyi =>
    get_z_correction_along_horizontal_mesh_line_at_specific_X g
      (if (setup g cur r).inf_m_flag then fin (setup g cur r).x_start
        else (fin (mesh_index_to_Y_location g cyi) - (setup g cur r).c) / (setup g cur r).m)
      cxi cyi
  | Site.horizontal cxi cyi =>
    get_z_correction_along_vertical_mesh_line_at_specific_Y g
      ((setup g cur r).m * fin (mesh_index_to_X_location g cxi) + (setup g cur r).c) cxi cyi
  | Site.cross_Y cxi cyi =>
    get_z_correction_along_horizontal_mesh_line_at_specific_X g
      ((fin (mesh_index_to_Y_location g (cyi + (setup g cur r).dyi)) - (setup g cur r).c) /
        (setup g cur r).m)
      (cxi - (setup g cur r).left_flag) (cyi + (setup g cur r).dyi)
  | Site.cross_X cxi cyi =>
    get_z_correction_along_vertical_mesh_line_at_specific_Y g
      ((setup g cur r).m * fin (mesh_index_to_X_location g (cxi + (setup g cur r).dxi)) +
        (setup g cur r).c)
      (cxi + (setup g cur r).dxi) (cyi - (setup g cur r).down_flag)
  | _ => fin 0

/-- The travel fraction (0 at the start, 1 at the destination) of the point of the requested
path at which a site emits its sub-move: where the path meets the mesh line of the pass, or
the destination. -/
def site_fraction (g : Blm) (cur : Pos) (r : Req) : Site → ℚ
  | Site.vertical _ cyi => frac_Y cur r (mesh_index_to_Y_location g cyi)
  | Site.horizontal cxi _ => frac_X cur r (mesh_index_to_X_location g cxi)
  | Site.cross_Y _ cyi => frac_Y cur r (mesh_index_to_Y_location g (cyi + dir_Y cur r))
  | Site.cross_X cxi _ => frac_X cur r (mesh_index_to_X_location g (cxi + dir_X cur r))
  | _ => 1

/-- The event reads the mesh-line tables and the sample grid inside their bounds: a table index
of X in `[0, MESH_NUM_X_POINTS)`, of Y in `[0, MESH_NUM_Y_POINTS)`, a sample index in both. -/
def Event.in_bounds (g : Blm) : Event → Prop
  | Event.read_z i j =>
    0 ≤ i ∧ i < g.MESH_NUM_X_POINTS ∧ 0 ≤ j ∧ j < g.MESH_NUM_Y_POINTS
  | Event.read_X i => 0 ≤ i ∧ i < g.MESH_NUM_X_POINTS
  | Event.read_Y j => 0 ≤ j ∧ j < g.MESH_NUM_Y_POINTS
  | _ => True

instance (g : Blm) (ev : Event) : Decidable (ev.in_bounds g) := by
  cases ev <;> unfold Event.in_bounds <;> infer_instance

/-- Start and destination lie in cells fully inside the grid: the cell indices are in
`[0, MESH_NUM_X_POINTS - 1) x [0, MESH_NUM_Y_POINTS - 1)`. -/
def cells_inside (g : Blm) (cur : Pos) (r : Req) : Prop :=
  (0 ≤ get_cell_index_x g cur.x ∧ get_cell_index_x g cur.x + 1 < g.MESH_NUM_X_POINTS) ∧
    (0 ≤ get_cell_index_y g cur.y ∧ get_cell_index_y g cur.y + 1 < g.MESH_NUM_Y_POINTS) ∧
    (0 ≤ get_cell_index_x g r.x_end ∧ get_cell_index_x g r.x_end + 1 < g.MESH_NUM_X_POINTS) ∧
    (0 ≤ get_cell_index_y g r.y_end ∧ get_cell_index_y g r.y_end + 1 < g.MESH_NUM_Y_POINTS)

instance (g : Blm) (cur : Pos) (r : Req) : Decidable (cells_inside g cur r) := by
  unfold cells_inside; infer_instance

/-- The two grids have the same numbers of points and the same mesh-line tables (origin and
pitch on both axes); they may differ in the height samples, the fade factor and the Z offset. -/
def same_tables (g1 g2 : Blm) : Prop :=
  g1.MESH_NUM_X_POINTS = g2.MESH_NUM_X_POINTS ∧ g1.MESH_NUM_Y_POINTS = g2.MESH_NUM_Y_POINTS ∧
    g1.MESH_MIN_X = g2.MESH_MIN_X ∧ g1.MESH_MIN_Y = g2.MESH_MIN_Y ∧
    g1.MESH_X_DIST = g2.MESH_X_DIST ∧ g1.MESH_Y_DIST = g2.MESH_Y_DIST

instance (g1 g2 : Blm) : Decidable (same_tables g1 g2) := by
  unfold same_tables; infer_instance

/-- The grid `g` with other height samples, another fade factor and another Z offset. -/
def with_heights (g : Blm) (z_values : Int → Int → Flt) (fade : ℚ → ℚ) (z_offset : ℚ) : Blm :=
  { g with z_values := z_values, fade := fade, z_offset := z_offset }

/-- Everything of a sub-move except its Z: X, Y, E, feed rate and extruder. -/
def SubMove.without_z (sm : SubMove) : Flt × Flt × Flt × ℚ × Nat :=
  (sm.x, sm.y, sm.e, sm.feed_rate, sm.extruder)

/-! ## Float arithmetic on ordinary numbers -/

@[simp] theorem Flt.fin_add (a b : ℚ) : fin a + fin b = fin (a + b) := rfl

@[simp] theorem Flt.fin_sub (a b : ℚ) : fin a - fin b = fin (a - b) := by
  show Flt.add (fin a) (Flt.neg (fin b)) = fin (a - b)
  simp [Flt.add, Flt.neg, sub_eq_add_neg]

@[simp] theorem Flt.fin_mul (a b : ℚ) : fin a * fin b = fin (a * b) := rfl

theorem Flt.fin_div (a b : ℚ) (h : b ≠ 0) : fin a / fin b = fin (a / b) := by
  show Flt.div (fin a) (fin b) = fin (a / b)
  simp [Flt.div, h]

@[simp] theorem Flt.nan_add (a : Flt) : nan + a = nan := by
  show Flt.add nan a = nan
  cases a <;> rfl

@[simp] theorem Flt.add_nan (a : Flt) : a + nan = nan := by
  show Flt.add a nan = nan
  cases a <;> rfl

@[simp] theorem Flt.nan_sub (a : Flt) : nan - a = nan := by
  show Flt.add nan (Flt.neg a) = nan
  cases a <;> rfl

@[simp] theorem Flt.sub_nan (a : Flt) : a - nan = nan := by
  show Flt.add a (Flt.neg nan) = nan
  cases a <;> rfl

@[simp] theorem Flt.nan_mul (a : Flt) : nan * a = nan := by
  show Flt.mul nan a = nan
  cases a <;> rfl

@[simp] theorem Flt.mul_nan (a : Flt) : a * nan = nan := by
  show Flt.mul a nan = nan
  cases a <;> rfl

@[simp] theorem nan_to_zero_nan : nan_to_zero nan = fin 0 := rfl

@[simp] theorem nan_to_zero_fin (q : ℚ) : nan_to_zero (fin q) = fin q := rfl

/-! ## Event lists -/

@[simp] theorem sub_moves_nil : sub_moves [] = [] := rfl

@[simp] theorem sub_moves_buffer_line (x y z e : Flt) (f : ℚ) (t : Nat) (evs : List Event) :
    sub_moves (Event.buffer_line x y z e f t :: evs) = ⟨x, y, z, e, f, t⟩ :: sub_moves evs := rfl

@[simp] theorem sub_moves_read_z (i j : Int) (evs : List Event) :
    sub_moves (Event.read_z i j :: evs) = sub_moves evs := rfl

@[simp] theorem sub_moves_read_X (i : Int) (evs : List Event) :
    sub_moves (Event.read_X i :: evs) = sub_moves evs := rfl

@[simp] theorem sub_moves_read_Y (i : Int) (evs : List Event) :
    sub_moves (Event.read_Y i :: evs) = sub_moves evs := rfl

@[simp] theorem sub_moves_set_current (evs : List Event) :
    sub_moves (Event.set_current_to_destination :: evs) = sub_moves evs := rfl

theorem sub_moves_append (xs ys : List Event) :
    sub_moves (xs ++ ys) = sub_moves xs ++ sub_moves ys := by
  induction xs with
  | nil => rfl
  | cons ev xs ih => cases ev <;> simp [ih]

/-- The one sub-move of the block `FINAL_MOVE`. -/
theorem sub_moves_FINAL_MOVE (g : Blm) (r : Req) (xi yi : Int) :
    sub_moves (FINAL_MOVE g r xi yi) =
      [⟨fin r.x_end, fin r.y_end,
        fin r.z_end + nan_to_zero (final_z0 g r xi yi * fin (g.fade r.z_end)) + fin g.z_offset,
        fin r.e_end, r.feed_rate, r.extruder⟩] := by
  simp [FINAL_MOVE]

/-- A NaN in one of the four corners of the cell makes the raw correction NaN. -/
theorem final_z0_nan (g : Blm) (r : Req) (xi yi : Int)
    (h : g.z_values xi yi = nan ∨ g.z_values (xi + 1) yi = nan ∨
      g.z_values xi (yi + 1) = nan ∨ g.z_values (xi + 1) (yi + 1) = nan) :
    final_z0 g r xi yi = nan := by
  unfold final_z0
  rcases h with h | h | h | h <;> simp [h]

/-! ## Mesh lines and cell indices -/

theorem line_le_of_floor (o d x : ℚ) (hd : 0 < d) : o + (⌊(x - o) / d⌋ : ℚ) * d ≤ x := by
  have h := Int.floor_le ((x - o) / d)
  have h2 := (le_div_iff₀ hd).mp h
  linarith

theorem lt_line_succ_of_floor (o d x : ℚ) (hd : 0 < d) :
    x < o + ((⌊(x - o) / d⌋ + 1 : Int) : ℚ) * d := by
  have h := Int.lt_floor_add_one ((x - o) / d)
  have h2 := (div_lt_iff₀ hd).mp h
  push_cast
  linarith

theorem line_mono (o d : ℚ) (hd : 0 < d) {i j : Int} (h : i ≤ j) :
    o + (i : ℚ) * d ≤ o + (j : ℚ) * d := by
  have : (i : ℚ) ≤ (j : ℚ) := by exact_mod_cast h
  nlinarith

theorem line_strict_mono (o d : ℚ) (hd : 0 < d) {i j : Int} (h : i < j) :
    o + (i : ℚ) * d < o + (j : ℚ) * d := by
  have : (i : ℚ) < (j : ℚ) := by exact_mod_cast h
  nlinarith

theorem floor_cell_mono (o d : ℚ) (hd : 0 < d) {x y : ℚ} (h : x ≤ y) :
    ⌊(x - o) / d⌋ ≤ ⌊(y - o) / d⌋ := by
  apply Int.floor_mono
  exact div_le_div_of_nonneg_right (by linarith) hd.le

theorem X_location_cell_le (g : Blm) (hg : g.WF) (x : ℚ) :
    mesh_index_to_X_location g (get_cell_index_x g x) ≤ x :=
  line_le_of_floor _ _ _ hg.1

theorem X_location_cell_succ_gt (g : Blm) (hg : g.WF) (x : ℚ) :
    x < mesh_index_to_X_location g (get_cell_index_x g x + 1) :=
  lt_line_succ_of_floor _ _ _ hg.1

theorem Y_location_cell_le (g : Blm) (hg : g.WF) (y : ℚ) :
    mesh_index_to_Y_location g (get_cell_index_y g y) ≤ y :=
  line_le_of_floor _ _ _ hg.2

theorem Y_location_cell_succ_gt (g : Blm) (hg : g.WF) (y : ℚ) :
    y < mesh_index_to_Y_location g (get_cell_index_y g y + 1) :=
  lt_line_succ_of_floor _ _ _ hg.2

theorem X_location_mono (g : Blm) (hg : g.WF) {i j : Int} (h : i ≤ j) :
    mesh_index_to_X_location g i ≤ mesh_index_to_X_location g j :=
  line_mono _ _ hg.1 h

theorem X_location_strict_mono (g : Blm) (hg : g.WF) {i j : Int} (h : i < j) :
    mesh_index_to_X_location g i < mesh_index_to_X_location g j :=
  line_strict_mono _ _ hg.1 h

theorem Y_location_mono (g : Blm) (hg : g.WF) {i j : Int} (h : i ≤ j) :
    mesh_index_to_Y_location g i ≤ mesh_index_to_Y_location g j :=
  line_mono _ _ hg.2 h

theorem Y_location_strict_mono (g : Blm) (hg : g.WF) {i j : Int} (h : i < j) :
    mesh_index_to_Y_location g i < mesh_index_to_Y_location g j :=
  line_strict_mono _ _ hg.2 h

theorem cell_index_x_mono (g : Blm) (hg : g.WF) {x y : ℚ} (h : x ≤ y) :
    get_cell_index_x g x ≤ get_cell_index_x g y :=
  floor_cell_mono _ _ hg.1 h

theorem cell_index_y_mono (g : Blm) (hg : g.WF) {x y : ℚ} (h : x ≤ y) :
    get_cell_index_y g x ≤ get_cell_index_y g y :=
  floor_cell_mono _ _ hg.2 h

/-! ## The classification of a move -/

theorem setup_dx_ne_zero (g : Blm) (cur : Pos) (r : Req)
    (hx : (setup g cur r).cell_start_xi ≠ (setup g cur r).cell_dest_xi) :
    r.x_end - cur.x ≠ 0 := by
  intro h
  apply hx
  have : r.x_end = cur.x := by linarith
  simp [setup, this]

theorem setup_dy_ne_zero (g : Blm) (cur : Pos) (r : Req)
    (hy : (setup g cur r).cell_start_yi ≠ (setup g cur r).cell_dest_yi) :
    r.y_end - cur.y ≠ 0 := by
  intro h
  apply hy
  have : r.y_end = cur.y := by linarith
  simp [setup, this]

/-- Heading left into another column, the destination column has the smaller index. -/
theorem dest_xi_lt_of_left (g : Blm) (hg : g.WF) (cur : Pos) (r : Req)
    (hx : (setup g cur r).cell_start_xi ≠ (setup g cur r).cell_dest_xi)
    (h : r.x_end - cur.x < 0) :
    (setup g cur r).cell_dest_xi < (setup g cur r).cell_start_xi := by
  have h1 : get_cell_index_x g r.x_end ≤ get_cell_index_x g cur.x :=
    cell_index_x_mono g hg (by linarith)
  exact lt_of_le_of_ne h1 (fun e => hx e.symm)

/-- Heading right into another column, the destination column has the larger index. -/
theorem start_xi_lt_of_right (g : Blm) (hg : g.WF) (cur : Pos) (r : Req)
    (hx : (setup g cur r).cell_start_xi ≠ (setup g cur r).cell_dest_xi)
    (h : ¬ r.x_end - cur.x < 0) :
    (setup g cur r).cell_start_xi < (setup g cur r).cell_dest_xi := by
  have h1 : get_cell_index_x g cur.x ≤ get_cell_index_x g r.x_end :=
    cell_index_x_mono g hg (by linarith)
  exact lt_of_le_of_ne h1 hx

/-- Heading down into another row, the destination row has the smaller index. -/
theorem dest_yi_lt_of_down (g : Blm) (hg : g.WF) (cur : Pos) (r : Req)
    (hy : (setup g cur r).cell_start_yi ≠ (setup g cur r).cell_dest_yi)
    (h : r.y_end - cur.y < 0) :
    (setup g cur r).cell_dest_yi < (setup g cur r).cell_start_yi := by
  have h1 : get_cell_index_y g r.y_end ≤ get_cell_index_y g cur.y :=
    cell_index_y_mono g hg (by linarith)
  exact lt_of_le_of_ne h1 (fun e => hy e.symm)

/-- Heading up into another row, the destination row has the larger index. -/
theorem start_yi_lt_of_up (g : Blm) (hg : g.WF) (cur : Pos) (r : Req)
    (hy : (setup g cur r).cell_start_yi ≠ (setup g cur r).cell_dest_yi)
    (h : ¬ r.y_end - cur.y < 0) :
    (setup g cur r).cell_start_yi < (setup g cur r).cell_dest_yi := by
  have h1 : get_cell_index_y g cur.y ≤ get_cell_index_y g r.y_end :=
    cell_index_y_mono g hg (by linarith)
  exact lt_of_le_of_ne h1 hy

/-! ## Termination of the single-column and single-row loops -/

theorem vertical_loop_some (g : Blm) (r : Req) (L : Locals) (current_xi : Int) :
    ∀ (n fuel : Nat) (current_yi : Int),
      current_yi + L.dyi * n = L.cell_dest_yi + L.down_flag → n ≤ fuel →
      ∃ evs, vertical_loop g r L current_xi fuel current_yi = some evs := by
  intro n
  induction n with
  | zero =>
    intro fuel current_yi h _
    have h0 : current_yi = L.cell_dest_yi + L.down_flag := by simpa using h
    cases fuel <;> exact ⟨[], by simp [vertical_loop, h0]⟩
  | succ n ih =>
    intro fuel current_yi h hf
    obtain ⟨f, rfl⟩ : ∃ f, fuel = f + 1 := ⟨fuel - 1, by omega⟩
    by_cases h0 : current_yi = L.cell_dest_yi + L.down_flag
    · exact ⟨[], by simp [vertical_loop, h0]⟩
    · obtain ⟨evs, he⟩ := ih f (current_yi + L.dyi) (by push_cast at h; linarith) (by omega)
      exact ⟨vertical_step g r L current_xi (current_yi + L.dyi) ++ evs,
        by simp [vertical_loop, h0, he]⟩

theorem horizontal_loop_some (g : Blm) (r : Req) (L : Locals) (current_yi : Int) :
    ∀ (n fuel : Nat) (current_xi : Int),
      current_xi + L.dxi * n = L.cell_dest_xi + L.left_flag → n ≤ fuel →
      ∃ evs, horizontal_loop g r L current_yi fuel current_xi = some evs := by
  intro n
  induction n with
  | zero =>
    intro fuel current_xi h _
    have h0 : current_xi = L.cell_dest_xi + L.left_flag := by simpa using h
    cases fuel <;> exact ⟨[], by simp [horizontal_loop, h0]⟩
  | succ n ih =>
    intro fuel current_xi h hf
    obtain ⟨f, rfl⟩ : ∃ f, fuel = f + 1 := ⟨fuel - 1, by omega⟩
    by_cases h0 : current_xi = L.cell_dest_xi + L.left_flag
    · exact ⟨[], by simp [horizontal_loop, h0]⟩
    · obtain ⟨evs, he⟩ := ih f (current_xi + L.dxi) (by push_cast at h; linarith) (by omega)
      exact ⟨horizontal_step g r L (current_xi + L.dxi) current_yi ++ evs,
        by simp [horizontal_loop, h0, he]⟩

/-! ## The general loop -/

theorem setup_m_eq (g : Blm) (cur : Pos) (r : Req) (hx : r.x_end - cur.x ≠ 0) :
    (setup g cur r).m = fin ((r.y_end - cur.y) / (r.x_end - cur.x)) := by
  simp [setup, Flt.fin_div _ _ hx]

theorem setup_c_eq (g : Blm) (cur : Pos) (r : Req) (hx : r.x_end - cur.x ≠ 0) :
    (setup g cur r).c = fin (cur.y - (r.y_end - cur.y) / (r.x_end - cur.x) * cur.x) := by
  simp [setup, Flt.fin_div _ _ hx]

/-- On a path that is neither vertical nor horizontal, the X at which the path meets the line
`Y = ly` is an ordinary number, the start X plus the travel fraction times `dx`. -/
theorem x_at_Y_line (g : Blm) (cur : Pos) (r : Req)
    (hx : r.x_end - cur.x ≠ 0) (hy : r.y_end - cur.y ≠ 0) (ly : ℚ) :
    (fin ly - (setup g cur r).c) / (setup g cur r).m =
      fin (cur.x + frac_Y cur r ly * (r.x_end - cur.x)) := by
  rw [setup_m_eq g cur r hx, setup_c_eq g cur r hx, Flt.fin_sub,
    Flt.fin_div _ _ (div_ne_zero hy hx)]
  congr 1
  unfold frac_Y
  field_simp
  ring

/-- The Y at which the path meets the line `X = lx` is an ordinary number, the start Y plus the
travel fraction times `dy`. -/
theorem y_at_X_line (g : Blm) (cur : Pos) (r : Req)
    (hx : r.x_end - cur.x ≠ 0) (lx : ℚ) :
    (setup g cur r).m * fin lx + (setup g cur r).c =
      fin (cur.y + frac_X cur r lx * (r.y_end - cur.y)) := by
  rw [setup_m_eq g cur r hx, setup_c_eq g cur r hx, Flt.fin_mul, Flt.fin_add]
  congr 1
  unfold frac_X
  field_simp
  ring

/-- The test of line 330 picks the Y mesh line exactly when its travel fraction is strictly
smaller than that of the X mesh line. -/
theorem hits_Y_line_first_iff (g : Blm) (cur : Pos) (r : Req)
    (hx : r.x_end - cur.x ≠ 0) (hy : r.y_end - cur.y ≠ 0) (ly lx : ℚ) :
    hits_Y_line_first (setup g cur r)
        ((fin ly - (setup g cur r).c) / (setup g cur r).m) lx = true ↔
      frac_Y cur r ly < frac_X cur r lx := by
  rw [x_at_Y_line g cur r hx hy]
  have hlx : lx = cur.x + frac_X cur r lx * (r.x_end - cur.x) := by
    unfold frac_X
    field_simp
  by_cases hneg : r.x_end - cur.x < 0
  · have hl : (setup g cur r).left_flag = 1 := by simp [setup, hneg]
    simp only [hits_Y_line_first, hl, Flt.lt]
    simp
    constructor
    · intro h
      rw [hlx] at h
      have := lt_of_add_lt_add_left h
      exact (mul_lt_mul_right_of_neg hneg).mp this
    · intro h
      have := (mul_lt_mul_right_of_neg hneg).mpr h
      calc lx = cur.x + frac_X cur r lx * (r.x_end - cur.x) := hlx
        _ < _ := by linarith
  · have hpos : 0 < r.x_end - cur.x := lt_of_le_of_ne (not_lt.mp hneg) (Ne.symm hx)
    have hl : (setup g cur r).left_flag = 0 := by simp [setup, hneg]
    simp only [hits_Y_line_first, hl, Flt.lt]
    simp
    constructor
    · intro h
      rw [hlx] at h
      have := lt_of_add_lt_add_left h
      exact (mul_lt_mul_right hpos).mp this
    · intro h
      have := (mul_lt_mul_right hpos).mpr h
      calc cur.x + frac_Y cur r ly * (r.x_end - cur.x)
          < cur.x + frac_X cur r lx * (r.x_end - cur.x) := by linarith
        _ = lx := hlx.symm

theorem frac_X_next_le_one (g : Blm) (hg : g.WF) (cur : Pos) (r : Req)
    (hx : r.x_end - cur.x ≠ 0) (xc : Int) (h : 1 ≤ xc) :
    frac_X cur r (mesh_index_to_X_location g
      (next_xi cur r (get_cell_index_x g r.x_end) xc)) ≤ 1 := by
  unfold frac_X next_xi
  by_cases hneg : r.x_end - cur.x < 0
  · rw [if_pos hneg, div_le_one_of_neg hneg]
    have h1 := X_location_cell_succ_gt g hg r.x_end
    have h2 : mesh_index_to_X_location g (get_cell_index_x g r.x_end + 1) ≤
        mesh_index_to_X_location g (get_cell_index_x g r.x_end + xc) :=
      X_location_mono g hg (by omega)
    linarith
  · have hpos : 0 < r.x_end - cur.x := lt_of_le_of_ne (not_lt.mp hneg) (Ne.symm hx)
    rw [if_neg hneg, div_le_one hpos]
    have h1 := X_location_cell_le g hg r.x_end
    have h2 : mesh_index_to_X_location g (get_cell_index_x g r.x_end + 1 - xc) ≤
        mesh_index_to_X_location g (get_cell_index_x g r.x_end) :=
      X_location_mono g hg (by omega)
    linarith

theorem one_lt_frac_X_next (g : Blm) (hg : g.WF) (cur : Pos) (r : Req)
    (hx : r.x_end - cur.x ≠ 0) :
    1 < frac_X cur r (mesh_index_to_X_location g
      (next_xi cur r (get_cell_index_x g r.x_end) (-1))) := by
  unfold frac_X next_xi
  by_cases hneg : r.x_end - cur.x < 0
  · rw [if_pos hneg, one_lt_div_of_neg hneg]
    have h1 := X_location_cell_le g hg r.x_end
    have h2 : mesh_index_to_X_location g (get_cell_index_x g r.x_end + -1) <
        mesh_index_to_X_location g (get_cell_index_x g r.x_end) :=
      X_location_strict_mono g hg (by omega)
    linarith
  · have hpos : 0 < r.x_end - cur.x := lt_of_le_of_ne (not_lt.mp hneg) (Ne.symm hx)
    rw [if_neg hneg, one_lt_div hpos]
    have h1 := X_location_cell_succ_gt g hg r.x_end
    have h2 : mesh_index_to_X_location g (get_cell_index_x g r.x_end + 1) <
        mesh_index_to_X_location g (get_cell_index_x g r.x_end + 1 - -1) :=
      X_location_strict_mono g hg (by omega)
    linarith

theorem frac_Y_next_le_one (g : Blm) (hg : g.WF) (cur : Pos) (r : Req)
    (hy : r.y_end - cur.y ≠ 0) (yc : Int) (h : 1 ≤ yc) :
    frac_Y cur r (mesh_index_to_Y_location g
      (next_yi cur r (get_cell_index_y g r.y_end) yc)) ≤ 1 := by
  unfold frac_Y next_yi
  by_cases hneg : r.y_end - cur.y < 0
  · rw [if_pos hneg, div_le_one_of_neg hneg]
    have h1 := Y_location_cell_succ_gt g hg r.y_end
    have h2 : mesh_index_to_Y_location g (get_cell_index_y g r.y_end + 1) ≤
        mesh_index_to_Y_location g (get_cell_index_y g r.y_end + yc) :=
      Y_location_mono g hg (by omega)
    linarith
  · have hpos : 0 < r.y_end - cur.y := lt_of_le_of_ne (not_lt.mp hneg) (Ne.symm hy)
    rw [if_neg hneg, div_le_one hpos]
    have h1 := Y_location_cell_le g hg r.y_end
    have h2 : mesh_index_to_Y_location g (get_cell_index_y g r.y_end + 1 - yc) ≤
        mesh_index_to_Y_location g (get_cell_index_y g r.y_end) :=
      Y_location_mono g hg (by omega)
    linarith

theorem one_le_frac_Y_next (g : Blm) (hg : g.WF) (cur : Pos) (r : Req)
    (hy : r.y_end - cur.y ≠ 0) :
    1 ≤ frac_Y cur r (mesh_index_to_Y_location g
      (next_yi cur r (get_cell_index_y g r.y_end) 0)) := by
  unfold frac_Y next_yi
  by_cases hneg : r.y_end - cur.y < 0
  · rw [if_pos hneg, one_le_div_of_neg hneg]
    have h1 := Y_location_cell_le g hg r.y_end
    simp only [add_zero]
    linarith
  · have hpos : 0 < r.y_end - cur.y := lt_of_le_of_ne (not_lt.mp hneg) (Ne.symm hy)
    rw [if_neg hneg, one_le_div hpos]
    have h1 := Y_location_cell_succ_gt g hg r.y_end
    simp only [sub_zero]
    linarith

theorem setup_dxi_eq (g : Blm) (cur : Pos) (r : Req)
    (hx : (setup g cur r).cell_start_xi ≠ (setup g cur r).cell_dest_xi) :
    (setup g cur r).dxi = if r.x_end - cur.x < 0 then -1 else 1 := by
  have hx2 : get_cell_index_x g cur.x ≠ get_cell_index_x g r.x_end := hx
  simp [setup, hx2]

theorem setup_dyi_eq (g : Blm) (cur : Pos) (r : Req)
    (hy : (setup g cur r).cell_start_yi ≠ (setup g cur r).cell_dest_yi) :
    (setup g cur r).dyi = if r.y_end - cur.y < 0 then -1 else 1 := by
  have hy2 : get_cell_index_y g cur.y ≠ get_cell_index_y g r.y_end := hy
  simp [setup, hy2]

theorem next_xi_pred (g : Blm) (cur : Pos) (r : Req)
    (hx : (setup g cur r).cell_start_xi ≠ (setup g cur r).cell_dest_xi) (b xc : Int) :
    next_xi cur r b (xc - 1) = next_xi cur r b xc + (setup g cur r).dxi := by
  rw [setup_dxi_eq g cur r hx]
  unfold next_xi
  split <;> omega

theorem next_yi_pred (g : Blm) (cur : Pos) (r : Req)
    (hy : (setup g cur r).cell_start_yi ≠ (setup g cur r).cell_dest_yi) (b yc : Int) :
    next_yi cur r b (yc - 1) = next_yi cur r b yc + (setup g cur r).dyi := by
  rw [setup_dyi_eq g cur r hy]
  unfold next_yi
  split <;> omega

/-- The general loop stops: with the next mesh-line indices tied to the two counters, it takes
at most `xi_cnt + 1 + yi_cnt` further passes. -/
theorem general_loop_some (g : Blm) (hg : g.WF) (cur : Pos) (r : Req)
    (hx : (setup g cur r).cell_start_xi ≠ (setup g cur r).cell_dest_xi)
    (hy : (setup g cur r).cell_start_yi ≠ (setup g cur r).cell_dest_yi) :
    ∀ (fuel : Nat) (current_xi current_yi xi_cnt yi_cnt : Int),
      current_xi + (setup g cur r).dxi =
        next_xi cur r (get_cell_index_x g r.x_end) xi_cnt →
      current_yi + (setup g cur r).dyi =
        next_yi cur r (get_cell_index_y g r.y_end) yi_cnt →
      -1 ≤ xi_cnt → 0 ≤ yi_cnt → xi_cnt + 1 + yi_cnt ≤ fuel →
      ∃ evs, general_loop g r (setup g cur r) fuel current_xi current_yi xi_cnt yi_cnt =
        some evs := by
  have hdx := setup_dx_ne_zero g cur r hx
  have hdy := setup_dy_ne_zero g cur r hy
  intro fuel
  induction fuel with
  | zero =>
    intro cxi cyi xc yc _ _ h1 h2 h3
    have : ¬ (xc > 0 ∨ yc > 0) := by push_cast at h3; omega
    exact ⟨[], by simp only [general_loop, if_neg this]⟩
  | succ f ih =>
    intro cxi cyi xc yc hxi hyi h1 h2 h3
    by_cases hc : xc > 0 ∨ yc > 0
    · simp only [general_loop, if_pos hc]
      by_cases hh : hits_Y_line_first (setup g cur r)
          ((fin (mesh_index_to_Y_location g (cyi + (setup g cur r).dyi)) -
            (setup g cur r).c) / (setup g cur r).m)
          (mesh_index_to_X_location g (cxi + (setup g cur r).dxi)) = true
      · have hlt := (hits_Y_line_first_iff g cur r hdx hdy _ _).mp hh
        have hyc : 1 ≤ yc := by
          by_contra hn
          have hy0 : yc = 0 := by omega
          have hxc : 1 ≤ xc := by omega
          have a1 := frac_X_next_le_one g hg cur r hdx xc hxc
          have a2 := one_le_frac_Y_next g hg cur r hdy
          rw [hxi, hyi, hy0] at hlt
          linarith
        obtain ⟨evs, he⟩ := ih cxi (cyi + (setup g cur r).dyi) xc (yc - 1) hxi
          (by rw [next_yi_pred g cur r hy, ← hyi]) h1 (by omega) (by push_cast at h3 ⊢; omega)
        rw [if_pos hh, he]
        exact ⟨_, rfl⟩
      · have hnlt : ¬ _ := fun h => hh ((hits_Y_line_first_iff g cur r hdx hdy _ _).mpr h)
        have hxc : 0 ≤ xc := by
          by_contra hn
          have hx0 : xc = -1 := by omega
          have hyc : 1 ≤ yc := by omega
          have a1 := one_lt_frac_X_next g hg cur r hdx
          have a2 := frac_Y_next_le_one g hg cur r hdy yc hyc
          rw [hxi, hyi, hx0] at hnlt
          exact hnlt (by linarith)
        obtain ⟨evs, he⟩ := ih (cxi + (setup g cur r).dxi) cyi (xc - 1) yc
          (by rw [next_xi_pred g cur r hx, ← hxi]) hyi (by omega) h2
          (by push_cast at h3 ⊢; omega)
        rw [if_neg hh, he]
        exact ⟨_, rfl⟩
    · exact ⟨[], by simp only [general_loop, if_neg hc]⟩

/-! ## The shape of a run -/

/-- A same-cell request whose destination cell is off the grid: one raw sub-move and the
update of the tracked position, whatever the fuel. -/
theorem mesh_buffer_line_same_cell_off_grid (g : Blm) (cur : Pos) (r : Req) (fuel : Nat)
    (hs : same_cell g cur r) (ho : dest_off_grid g r) :
    mesh_buffer_line g cur r fuel =
      some [Event.buffer_line (fin r.x_end) (fin r.y_end) (fin r.z_end + fin g.z_offset)
        (fin r.e_end) r.feed_rate r.extruder, Event.set_current_to_destination] := by
  have hs2 : (setup g cur r).cell_start_xi = (setup g cur r).cell_dest_xi ∧
      (setup g cur r).cell_start_yi = (setup g cur r).cell_dest_yi := hs
  have ho2 : off_grid g (setup g cur r).cell_dest_xi (setup g cur r).cell_dest_yi := ho
  simp only [mesh_buffer_line, if_pos hs2, if_pos ho2]

/-- A same-cell request whose destination cell passes the test of line 86: the block
`FINAL_MOVE` alone, whatever the fuel. -/
theorem mesh_buffer_line_same_cell_on_grid (g : Blm) (cur : Pos) (r : Req) (fuel : Nat)
    (hs : same_cell g cur r) (ho : ¬ dest_off_grid g r) :
    mesh_buffer_line g cur r fuel =
      some (FINAL_MOVE g r (get_cell_index_x g r.x_end) (get_cell_index_y g r.y_end)) := by
  have hs2 : (setup g cur r).cell_start_xi = (setup g cur r).cell_dest_xi ∧
      (setup g cur r).cell_start_yi = (setup g cur r).cell_dest_yi := hs
  have ho2 : ¬ off_grid g (setup g cur r).cell_dest_xi (setup g cur r).cell_dest_yi := ho
  simp only [mesh_buffer_line, if_pos hs2, if_neg ho2]
  rfl

/-- When start and destination lie in different cells, the tail shared by the three loops is
the block `FINAL_MOVE`: the tracked position still is the start, which is not the
destination. -/
theorem finish_of_not_same_cell (g : Blm) (cur : Pos) (r : Req) (hs : ¬ same_cell g cur r) :
    finish g cur r (setup g cur r) =
      FINAL_MOVE g r (get_cell_index_x g r.x_end) (get_cell_index_y g r.y_end) := by
  have h : cur.x ≠ r.x_end ∨ cur.y ≠ r.y_end := by
    by_contra hn
    push_neg at hn
    apply hs
    unfold same_cell
    rw [hn.1, hn.2]
    exact ⟨rfl, rfl⟩
  simp only [finish, if_pos h]
  rfl

/-- A request that leaves the start cell: with enough fuel the run is the events of one of the
three loops followed by the block `FINAL_MOVE`. -/
theorem mesh_buffer_line_not_same_cell (g : Blm) (hg : g.WF) (cur : Pos) (r : Req)
    (fuel : Nat) (hf : enough_fuel g cur r ≤ fuel) (hs : ¬ same_cell g cur r) :
    ∃ pre, mesh_buffer_line g cur r fuel =
      some (pre ++
        FINAL_MOVE g r (get_cell_index_x g r.x_end) (get_cell_index_y g r.y_end)) := by
  have hs2 : ¬ ((setup g cur r).cell_start_xi = (setup g cur r).cell_dest_xi ∧
      (setup g cur r).cell_start_yi = (setup g cur r).cell_dest_yi) := hs
  simp only [mesh_buffer_line, if_neg hs2, finish_of_not_same_cell g cur r hs]
  unfold enough_fuel at hf
  by_cases hx : (setup g cur r).cell_start_xi = (setup g cur r).cell_dest_xi
  · have hy : (setup g cur r).cell_start_yi ≠ (setup g cur r).cell_dest_yi :=
      fun h => hs2 ⟨hx, h⟩
    have hdxi : (setup g cur r).dxi = 0 := by
      have hx2 : get_cell_index_x g cur.x = get_cell_index_x g r.x_end := hx
      simp [setup, hx2]
    rw [if_pos hdxi]
    obtain ⟨evs, he⟩ := vertical_loop_some g r (setup g cur r) (setup g cur r).cell_start_xi
      (get_cell_index_y g cur.y - get_cell_index_y g r.y_end).natAbs fuel
      ((setup g cur r).cell_start_yi + (setup g cur r).down_flag)
      (by
        rw [setup_dyi_eq g cur r hy]
        show get_cell_index_y g cur.y + (setup g cur r).down_flag + _ =
          get_cell_index_y g r.y_end + (setup g cur r).down_flag
        by_cases hneg : r.y_end - cur.y < 0
        · have : get_cell_index_y g r.y_end < get_cell_index_y g cur.y :=
            dest_yi_lt_of_down g hg cur r hy hneg
          rw [if_pos hneg]
          omega
        · have : get_cell_index_y g cur.y < get_cell_index_y g r.y_end :=
            start_yi_lt_of_up g hg cur r hy hneg
          rw [if_neg hneg]
          omega)
      (by omega)
    exact ⟨evs, by rw [he]; rfl⟩
  · have hdxi : (setup g cur r).dxi ≠ 0 := by
      rw [setup_dxi_eq g cur r hx]
      split <;> decide
    rw [if_neg hdxi]
    by_cases hy : (setup g cur r).cell_start_yi = (setup g cur r).cell_dest_yi
    · have hdyi : (setup g cur r).dyi = 0 := by
        have hy2 : get_cell_index_y g cur.y = get_cell_index_y g r.y_end := hy
        simp [setup, hy2]
      rw [if_pos hdyi]
      obtain ⟨evs, he⟩ := horizontal_loop_some g r (setup g cur r)
        (setup g cur r).cell_start_yi
        (get_cell_index_x g cur.x - get_cell_index_x g r.x_end).natAbs fuel
        ((setup g cur r).cell_start_xi + (setup g cur r).left_flag)
        (by
          rw [setup_dxi_eq g cur r hx]
          show get_cell_index_x g cur.x + (setup g cur r).left_flag + _ =
            get_cell_index_x g r.x_end + (setup g cur r).left_flag
          by_cases hneg : r.x_end - cur.x < 0
          · have : get_cell_index_x g r.x_end < get_cell_index_x g cur.x :=
              dest_xi_lt_of_left g hg cur r hx hneg
            rw [if_pos hneg]
            omega
          · have : get_cell_index_x g cur.x < get_cell_index_x g r.x_end :=
              start_xi_lt_of_right g hg cur r hx hneg
            rw [if_neg hneg]
            omega)
        (by omega)
      exact ⟨evs, by rw [he]; rfl⟩
    · have hdyi : (setup g cur r).dyi ≠ 0 := by
        rw [setup_dyi_eq g cur r hy]
        split <;> decide
      rw [if_neg hdyi]
      have hlf : (setup g cur r).left_flag = if r.x_end - cur.x < 0 then 1 else 0 := rfl
      have hdf : (setup g cur r).down_flag = if r.y_end - cur.y < 0 then 1 else 0 := rfl
      have hxlt : r.x_end - cur.x < 0 →
          get_cell_index_x g r.x_end < get_cell_index_x g cur.x :=
        dest_xi_lt_of_left g hg cur r hx
      have hxgt : ¬ r.x_end - cur.x < 0 →
          get_cell_index_x g cur.x < get_cell_index_x g r.x_end :=
        start_xi_lt_of_right g hg cur r hx
      have hylt : r.y_end - cur.y < 0 →
          get_cell_index_y g r.y_end < get_cell_index_y g cur.y :=
        dest_yi_lt_of_down g hg cur r hy
      have hygt : ¬ r.y_end - cur.y < 0 →
          get_cell_index_y g cur.y < get_cell_index_y g r.y_end :=
        start_yi_lt_of_up g hg cur r hy
      obtain ⟨evs, he⟩ := general_loop_some g hg cur r hx hy fuel
        (get_cell_index_x g cur.x + (setup g cur r).left_flag)
        (get_cell_index_y g cur.y + (setup g cur r).down_flag)
        (if get_cell_index_x g cur.x - get_cell_index_x g r.x_end < 0
          then -(get_cell_index_x g cur.x - get_cell_index_x g r.x_end)
          else get_cell_index_x g cur.x - get_cell_index_x g r.x_end)
        (if get_cell_index_y g cur.y - get_cell_index_y g r.y_end < 0
          then -(get_cell_index_y g cur.y - get_cell_index_y g r.y_end)
          else get_cell_index_y g cur.y - get_cell_index_y g r.y_end)
        (by
          rw [setup_dxi_eq g cur r hx, hlf]
          unfold next_xi
          by_cases hneg : r.x_end - cur.x < 0
          · have := hxlt hneg
            simp only [if_pos hneg]
            split <;> omega
          · have := hxgt hneg
            simp only [if_neg hneg]
            split <;> omega)
        (by
          rw [setup_dyi_eq g cur r hy, hdf]
          unfold next_yi
          by_cases hneg : r.y_end - cur.y < 0
          · have := hylt hneg
            simp only [if_pos hneg]
            split <;> omega
          · have := hygt hneg
            simp only [if_neg hneg]
            split <;> omega)
        (by split <;> omega)
        (by split <;> omega)
        (by split <;> split <;> omega)
      refine ⟨evs, ?_⟩
      have he2 := congrArg (Option.map (fun evs => evs ++
        FINAL_MOVE g r (get_cell_index_x g r.x_end) (get_cell_index_y g r.y_end))) he
      exact he2

/-! ## The claims -/

/-- C2 (the code departs from the claim): inside cell (0,0) of the scenario grid, the move from
(2,2) to (8,8) with fade 1 and offset 0 is emitted with `Z = 1 + 4/25`, while the bilinear
formula of the claim gives `Z = 1 + 16/25`; the block `FINAL_MOVE` weights `sample(i+1,j+1)`
by `(1-u)v` and `sample(i,j+1)` by `uv`. -/
theorem C2_final_move_swaps_upper_corners :
    (mesh_buffer_line (scenario_grid nan 1 0) ⟨2, 2, 0, 0⟩ ⟨8, 8, 1, 1, 100, 0⟩ 0).map
        sub_moves = some [⟨fin 8, fin 8, fin (29 / 25), fin 1, 100, 0⟩] ∧
      fin 1 + fin 1 * spec_bilinear (scenario_grid nan 1 0) 8 8 0 0 + fin 0 = fin (41 / 25) := by
  decide!

/-- C3 (the code departs from the claim): the single-column move from (1,9) to (9,11) has
dominant axis X (`|dx| = 8 > |dy| = 2`); its interior sub-move at (5,10) is emitted with
`E = 1/8`, the Y displacement 1 times the X-based factor 1/8, while the claim's `d / D` with
`d = 5 - 1` and `D = 9 - 1` gives `E = 1/2`. -/
theorem C3_single_column_mixes_axes :
    (mesh_buffer_line (scenario_grid nan 1 0) ⟨1, 9, 0, 0⟩ ⟨9, 11, 1, 1, 100, 0⟩ 1).map
        sub_moves = some [⟨fin 5, fin 10, fin (5 / 8), fin (1 / 8), 100, 0⟩,
          ⟨fin 9, fin 11, fin (181 / 100), fin 1, 100, 0⟩] ∧
      spec_apportion 0 1 (5 - 1) (9 - 1) = 1 / 2 := by
  decide!

/-- C4 (the code departs from the claim): the single-column move from (9,9) to (1,11), with
extrusion going from 0 to 1, emits its interior sub-move at (5,10) with `E = -1/8`, below the
start value. -/
theorem C4_single_column_extrusion_undershoots :
    (mesh_buffer_line (scenario_grid nan 1 0) ⟨9, 9, 0, 0⟩ ⟨1, 11, 1, 1, 100, 0⟩ 1).map
        sub_moves = some [⟨fin 5, fin 10, fin (3 / 8), fin (-1 / 8), 100, 0⟩,
          ⟨fin 1, fin 11, fin (109 / 100), fin 1, 100, 0⟩] := by
  decide!

/-- C5 (the code departs from the claim): the single-column move from (5,5) to (5,10), whose
destination lies on the mesh line `Y = 10`, emits the destination twice, once from the loop
and once more from `FINAL_MOVE`. -/
theorem C5_destination_on_mesh_line_emitted_twice :
    (mesh_buffer_line (scenario_grid nan 1 0) ⟨5, 5, 0, 0⟩ ⟨5, 10, 1, 1, 100, 0⟩ 1).map
        sub_moves = some [⟨fin 5, fin 10, fin (3 / 2), fin 1, 100, 0⟩,
          ⟨fin 5, fin 10, fin (3 / 2), fin 1, 100, 0⟩] := by
  decide!

/-- C6: a request whose start and destination have identical cell indices, on or off the grid,
returns whatever the fuel and emits exactly one sub-move. -/
theorem C6_same_cell_emits_one_sub_move (g : Blm) (cur : Pos) (r : Req) (fuel : Nat)
    (hs : same_cell g cur r) :
    ∃ evs, mesh_buffer_line g cur r fuel = some evs ∧ (sub_moves evs).length = 1 := by
  by_cases ho : dest_off_grid g r
  · exact ⟨_, mesh_buffer_line_same_cell_off_grid g cur r fuel hs ho, rfl⟩
  · refine ⟨_, mesh_buffer_line_same_cell_on_grid g cur r fuel hs ho, ?_⟩
    rw [sub_moves_FINAL_MOVE]
    rfl

/-- C6, witness: the move from (2,2) to (8,8) inside cell (0,0) of the scenario grid. -/
theorem C6_same_cell_emits_one_sub_move_witness :
    same_cell (scenario_grid nan 1 0) ⟨2, 2, 0, 0⟩ ⟨8, 8, 1, 1, 100, 0⟩ ∧
      ∃ evs, mesh_buffer_line (scenario_grid nan 1 0) ⟨2, 2, 0, 0⟩
          ⟨8, 8, 1, 1, 100, 0⟩ 0 = some evs ∧ (sub_moves evs).length = 1 :=
  ⟨by decide!, C6_same_cell_emits_one_sub_move (scenario_grid nan 1 0) ⟨2, 2, 0, 0⟩
    ⟨8, 8, 1, 1, 100, 0⟩ 0 (by decide!)⟩

/-- C7: a same-cell request whose destination cell index fails the test of line 86 emits the
single sub-move `(x_end, y_end, z_end + z_offset, e_end, feed_rate, extruder)` and reads no
grid sample. -/
theorem C7_same_cell_off_grid_is_raw (g : Blm) (cur : Pos) (r : Req) (fuel : Nat)
    (hs : same_cell g cur r) (ho : dest_off_grid g r) :
    ∃ evs, mesh_buffer_line g cur r fuel = some evs ∧
      sub_moves evs = [⟨fin r.x_end, fin r.y_end, fin (r.z_end + g.z_offset), fin r.e_end,
        r.feed_rate, r.extruder⟩] ∧
      z_reads evs = [] :=
  ⟨_, mesh_buffer_line_same_cell_off_grid g cur r fuel hs ho, rfl, rfl⟩

/-- C7, witness: the move from (5,35) to (5,36), both in the off-grid cell (0,3) of the
scenario grid. -/
theorem C7_same_cell_off_grid_is_raw_witness :
    same_cell (scenario_grid (fin 7) 1 (1 / 2)) ⟨5, 35, 0, 0⟩ ⟨5, 36, 1, 1, 100, 0⟩ ∧
      dest_off_grid (scenario_grid (fin 7) 1 (1 / 2)) ⟨5, 36, 1, 1, 100, 0⟩ ∧
      ∃ evs, mesh_buffer_line (scenario_grid (fin 7) 1 (1 / 2)) ⟨5, 35, 0, 0⟩
          ⟨5, 36, 1, 1, 100, 0⟩ 0 = some evs ∧
        sub_moves evs = [⟨fin 5, fin 36, fin (1 + 1 / 2), fin 1, 100, 0⟩] ∧
        z_reads evs = [] :=
  ⟨by decide!, by decide!,
    C7_same_cell_off_grid_is_raw (scenario_grid (fin 7) 1 (1 / 2)) ⟨5, 35, 0, 0⟩
      ⟨5, 36, 1, 1, 100, 0⟩ 0 (by decide!) (by decide!)⟩

/-- C8 (the code departs from the claim): the single-column move from (5,25) to (5,35) ends in
cell (0,3), off the grid; the jump to `FINAL_MOVE` skips the test of line 86, so the final
sub-move reads `z_values[0][3]`, `z_values[1][3]`, `z_values[0][4]` and `z_values[1][4]`,
whose column indices are outside `[0, 3)`.  In the row-by-row array these are the words of
`Z[1][0]`, `Z[2][0]`, `Z[1][1]` and `Z[2][1]`; the sample `Z[1][1] = 1` enters the
interpolation, and the sub-move is emitted with `Z = 1 + 1/4` instead of `Z = 1 + 0`. -/
theorem C8_goto_final_move_skips_off_grid_test :
    dest_off_grid (scenario_grid (fin 7) 1 0) ⟨5, 35, 1, 1, 100, 0⟩ ∧
      (mesh_buffer_line (scenario_grid (fin 7) 1 0) ⟨5, 25, 0, 0⟩ ⟨5, 35, 1, 1, 100, 0⟩ 1).map
        sub_moves = some [⟨fin 5, fin 30, fin (1 / 2), fin (1 / 2), 100, 0⟩,
          ⟨fin 5, fin 35, fin (5 / 4), fin 1, 100, 0⟩] ∧
      (mesh_buffer_line (scenario_grid (fin 7) 1 0) ⟨5, 25, 0, 0⟩ ⟨5, 35, 1, 1, 100, 0⟩ 1).map
        z_reads = some [(0, 3), (1, 3), (0, 3), (1, 4), (0, 4), (1, 4)] := by
  decide!

/-- C9 (the code departs from the claim): on the scenario grid (3 x 3 samples) the same-cell
move from (25,5) to (26,6) lies in cell (2,0), which passes the test of line 86 because
`2 < MESH_NUM_X_POINTS`; `FINAL_MOVE` then reads the samples (3,0) and (3,1), outside
`[0,3) x [0,3)`. -/
theorem C9_last_column_passes_off_grid_test :
    ¬ dest_off_grid (scenario_grid nan 1 0) ⟨26, 6, 1, 1, 100, 0⟩ ∧
      (mesh_buffer_line (scenario_grid nan 1 0) ⟨25, 5, 0, 0⟩ ⟨26, 6, 1, 1, 100, 0⟩ 0).map
        z_reads = some [(2, 0), (3, 0), (2, 0), (3, 1), (2, 1), (3, 1)] := by
  decide!

/-- C10: when the final leg is computed by the block `FINAL_MOVE` (every request except a
same-cell one that fails the test of line 86) and one of the four corner samples of the
destination cell is NaN, the guarded correction is 0 and the last sub-move has
`Z = z_end + z_offset`, an ordinary number, whatever the other corners and the fade factor. -/
theorem C10_undefined_corner_gives_zero_correction (g : Blm) (hg : g.WF) (cur : Pos) (r : Req)
    (fuel : Nat) (hf : enough_fuel g cur r ≤ fuel)
    (hb : ¬ (same_cell g cur r ∧ dest_off_grid g r))
    (hnan : g.z_values (get_cell_index_x g r.x_end) (get_cell_index_y g r.y_end) = nan ∨
      g.z_values (get_cell_index_x g r.x_end + 1) (get_cell_index_y g r.y_end) = nan ∨
      g.z_values (get_cell_index_x g r.x_end) (get_cell_index_y g r.y_end + 1) = nan ∨
      g.z_values (get_cell_index_x g r.x_end + 1) (get_cell_index_y g r.y_end + 1) = nan) :
    nan_to_zero (final_z0 g r (get_cell_index_x g r.x_end) (get_cell_index_y g r.y_end) *
        fin (g.fade r.z_end)) = fin 0 ∧
      ∃ evs sm, mesh_buffer_line g cur r fuel = some evs ∧
        (sub_moves evs).getLast? = some sm ∧ sm.z = fin (r.z_end + g.z_offset) := by
  have hz := final_z0_nan g r _ _ hnan
  have hsm : sub_moves (FINAL_MOVE g r (get_cell_index_x g r.x_end)
      (get_cell_index_y g r.y_end)) =
      [⟨fin r.x_end, fin r.y_end, fin (r.z_end + g.z_offset), fin r.e_end, r.feed_rate,
        r.extruder⟩] := by
    rw [sub_moves_FINAL_MOVE, hz]
    simp
  refine ⟨by rw [hz]; simp, ?_⟩
  by_cases hs : same_cell g cur r
  · have ho : ¬ dest_off_grid g r := fun h => hb ⟨hs, h⟩
    refine ⟨_, ⟨fin r.x_end, fin r.y_end, fin (r.z_end + g.z_offset), fin r.e_end,
      r.feed_rate, r.extruder⟩,
      mesh_buffer_line_same_cell_on_grid g cur r fuel hs ho, ?_, rfl⟩
    rw [hsm]
    rfl
  · obtain ⟨pre, hp⟩ := mesh_buffer_line_not_same_cell g hg cur r fuel hf hs
    refine ⟨_, ⟨fin r.x_end, fin r.y_end, fin (r.z_end + g.z_offset), fin r.e_end,
      r.feed_rate, r.extruder⟩, hp, ?_, rfl⟩
    rw [sub_moves_append, hsm]
    simp

/-- C10, witness: the scenario grid with the sample (1,1) undefined and the fade factor 1/2;
the move from (5,5) to (5,8) ends in cell (0,0), of which (1,1) is a corner. -/
theorem C10_undefined_corner_gives_zero_correction_witness :
    nan_to_zero (final_z0 (set_sample (scenario_grid (fin 7) (1 / 2) 3) 1 1 nan)
        ⟨5, 8, 1, 1, 100, 0⟩
        (get_cell_index_x (set_sample (scenario_grid (fin 7) (1 / 2) 3) 1 1 nan) 5)
        (get_cell_index_y (set_sample (scenario_grid (fin 7) (1 / 2) 3) 1 1 nan) 8) *
        fin (1 / 2)) = fin 0 ∧
      ∃ evs sm, mesh_buffer_line (set_sample (scenario_grid (fin 7) (1 / 2) 3) 1 1 nan)
          ⟨5, 5, 0, 0⟩ ⟨5, 8, 1, 1, 100, 0⟩ 1 = some evs ∧
        (sub_moves evs).getLast? = some sm ∧ sm.z = fin (1 + 3) :=
  C10_undefined_corner_gives_zero_correction
    (set_sample (scenario_grid (fin 7) (1 / 2) 3) 1 1 nan) (by decide!)
    ⟨5, 5, 0, 0⟩ ⟨5, 8, 1, 1, 100, 0⟩ 1 (by decide!) (by decide!) (by decide!)

/-! ## The scaling factors -/

theorem setup_e_normalized_dist (g : Blm) (cur : Pos) (r : Req) :
    (setup g cur r).e_normalized_dist = fin (r.e_end - cur.e) / fin (on_axis_distance cur r) :=
  rfl

theorem setup_z_normalized_dist (g : Blm) (cur : Pos) (r : Req) :
    (setup g cur r).z_normalized_dist = fin (r.z_end - cur.z) / fin (on_axis_distance cur r) :=
  rfl

/-- The dominant-axis distance is zero only when start and destination have the same X and
the same Y. -/
theorem on_axis_distance_eq_zero (cur : Pos) (r : Req) (h : on_axis_distance cur r = 0) :
    cur.x = r.x_end ∧ cur.y = r.y_end := by
  unfold on_axis_distance at h
  simp only at h
  split_ifs at h with h1 h2 h3 h4 h5 h6 <;> constructor <;> linarith

theorem on_axis_distance_ne_zero (g : Blm) (cur : Pos) (r : Req) (hs : ¬ same_cell g cur r) :
    on_axis_distance cur r ≠ 0 := by
  intro h
  obtain ⟨hx, hy⟩ := on_axis_distance_eq_zero cur r h
  apply hs
  unfold same_cell
  rw [hx, hy]
  exact ⟨rfl, rfl⟩

theorem setup_inf_normalized_flag (g : Blm) (cur : Pos) (r : Req) (hs : ¬ same_cell g cur r) :
    (setup g cur r).inf_normalized_flag = false := by
  have h := on_axis_distance_ne_zero g cur r hs
  have he : (setup g cur r).inf_normalized_flag =
      (Flt.eq (fin (r.e_end - cur.e) / fin (on_axis_distance cur r)) pinf ||
        Flt.eq (fin (r.e_end - cur.e) / fin (on_axis_distance cur r)) ninf) := rfl
  rw [he, Flt.fin_div _ _ h]
  rfl

/-! ## Events of the loops -/

theorem horizontal_reads_sub_moves (g : Blm) (i j : Int) :
    sub_moves (horizontal_reads g i j) = [] := by
  unfold horizontal_reads
  split <;> rfl

theorem vertical_reads_sub_moves (g : Blm) (i j : Int) :
    sub_moves (vertical_reads g i j) = [] := by
  unfold vertical_reads
  split <;> rfl

/-- The sub-moves of one pass of the single-column loop: none when the mesh line is the
start Y, one otherwise. -/
theorem sub_moves_vertical_step (g : Blm) (r : Req) (L : Locals) (cxi cyi : Int) :
    sub_moves (vertical_step g r L cxi cyi) =
      if mesh_index_to_Y_location g cyi ≠ L.y_start then
        [⟨if L.inf_m_flag then fin L.x_start
            else (fin (mesh_index_to_Y_location g cyi) - L.c) / L.m,
          fin (mesh_index_to_Y_location g cyi),
          z_position_at L (fin (mesh_index_to_Y_location g cyi) - fin L.y_start) +
            nan_to_zero (get_z_correction_along_horizontal_mesh_line_at_specific_X g
              (if L.inf_m_flag then fin L.x_start
                else (fin (mesh_index_to_Y_location g cyi) - L.c) / L.m) cxi cyi *
              fin (g.fade r.z_end)) + fin g.z_offset,
          e_position_at L (fin (mesh_index_to_Y_location g cyi) - fin L.y_start),
          r.feed_rate, r.extruder⟩]
      else [] := by
  unfold vertical_step
  simp only [sub_moves_append, horizontal_reads_sub_moves, sub_moves_read_Y, sub_moves_nil,
    List.nil_append]
  split <;> simp

/-- The sub-moves of one pass of the single-row loop. -/
theorem sub_moves_horizontal_step (g : Blm) (r : Req) (L : Locals) (cxi cyi : Int) :
    sub_moves (horizontal_step g r L cxi cyi) =
      if mesh_index_to_X_location g cxi ≠ L.x_start then
        [⟨fin (mesh_index_to_X_location g cxi),
          L.m * fin (mesh_index_to_X_location g cxi) + L.c,
          z_position_at L (fin (mesh_index_to_X_location g cxi) - fin L.x_start) +
            nan_to_zero (get_z_correction_along_vertical_mesh_line_at_specific_Y g
              (L.m * fin (mesh_index_to_X_location g cxi) + L.c) cxi cyi *
              fin (g.fade r.z_end)) + fin g.z_offset,
          e_position_at L (fin (mesh_index_to_X_location g cxi) - fin L.x_start),
          r.feed_rate, r.extruder⟩]
      else [] := by
  unfold horizontal_step
  simp only [sub_moves_append, vertical_reads_sub_moves, sub_moves_read_X, sub_moves_nil,
    List.nil_append]
  split <;> simp

/-- The one sub-move of the branch "Crossing a Y Mesh Line next". -/
theorem sub_moves_cross_Y_line (g : Blm) (r : Req) (L : Locals) (cxi cyi : Int) :
    sub_moves (cross_Y_line g r L cxi cyi) =
      [⟨(fin (mesh_index_to_Y_location g (cyi + L.dyi)) - L.c) / L.m,
        fin (mesh_index_to_Y_location g (cyi + L.dyi)),
        z_position_at L (if L.use_X_dist
            then (fin (mesh_index_to_Y_location g (cyi + L.dyi)) - L.c) / L.m - fin L.x_start
            else fin (mesh_index_to_Y_location g (cyi + L.dyi)) - fin L.y_start) +
          nan_to_zero (get_z_correction_along_horizontal_mesh_line_at_specific_X g
            ((fin (mesh_index_to_Y_location g (cyi + L.dyi)) - L.c) / L.m)
            (cxi - L.left_flag) (cyi + L.dyi) * fin (g.fade r.z_end)) + fin g.z_offset,
        e_position_at L (if L.use_X_dist
            then (fin (mesh_index_to_Y_location g (cyi + L.dyi)) - L.c) / L.m - fin L.x_start
            else fin (mesh_index_to_Y_location g (cyi + L.dyi)) - fin L.y_start),
        r.feed_rate, r.extruder⟩] := by
  unfold cross_Y_line
  simp only [sub_moves_append, horizontal_reads_sub_moves, List.nil_append]
  rfl

/-- The one sub-move of the branch "Crossing a X Mesh Line next". -/
theorem sub_moves_cross_X_line (g : Blm) (r : Req) (L : Locals) (cxi cyi : Int) :
    sub_moves (cross_X_line g r L cxi cyi) =
      [⟨fin (mesh_index_to_X_location g (cxi + L.dxi)),
        L.m * fin (mesh_index_to_X_location g (cxi + L.dxi)) + L.c,
        z_position_at L (if L.use_X_dist
            then fin (mesh_index_to_X_location g (cxi + L.dxi)) - fin L.x_start
            else L.m * fin (mesh_index_to_X_location g (cxi + L.dxi)) + L.c - fin L.y_start) +
          nan_to_zero (get_z_correction_along_vertical_mesh_line_at_specific_Y g
            (L.m * fin (mesh_index_to_X_location g (cxi + L.dxi)) + L.c)
            (cxi + L.dxi) (cyi - L.down_flag) * fin (g.fade r.z_end)) + fin g.z_offset,
        e_position_at L (if L.use_X_dist
            then fin (mesh_index_to_X_location g (cxi + L.dxi)) - fin L.x_start
            else L.m * fin (mesh_index_to_X_location g (cxi + L.dxi)) + L.c - fin L.y_start),
        r.feed_rate, r.extruder⟩] := by
  unfold cross_X_line
  simp only [sub_moves_append, vertical_reads_sub_moves, List.nil_append]
  rfl

theorem vertical_loop_succ_some (g : Blm) (r : Req) (L : Locals) (cxi : Int) (fuel : Nat)
    (cyi : Int) (evs : List Event) (hc : cyi ≠ L.cell_dest_yi + L.down_flag)
    (h : vertical_loop g r L cxi (fuel + 1) cyi = some evs) :
    ∃ rest, vertical_loop g r L cxi fuel (cyi + L.dyi) = some rest ∧
      evs = vertical_step g r L cxi (cyi + L.dyi) ++ rest := by
  simp only [vertical_loop, if_pos hc, Option.map_eq_some'] at h
  obtain ⟨rest, h1, h2⟩ := h
  exact ⟨rest, h1, h2.symm⟩

theorem horizontal_loop_succ_some (g : Blm) (r : Req) (L : Locals) (cyi : Int) (fuel : Nat)
    (cxi : Int) (evs : List Event) (hc : cxi ≠ L.cell_dest_xi + L.left_flag)
    (h : horizontal_loop g r L cyi (fuel + 1) cxi = some evs) :
    ∃ rest, horizontal_loop g r L cyi fuel (cxi + L.dxi) = some rest ∧
      evs = horizontal_step g r L (cxi + L.dxi) cyi ++ rest := by
  simp only [horizontal_loop, if_pos hc, Option.map_eq_some'] at h
  obtain ⟨rest, h1, h2⟩ := h
  exact ⟨rest, h1, h2.symm⟩

theorem vertical_loop_done (g : Blm) (r : Req) (L : Locals) (cxi : Int) (fuel : Nat)
    (cyi : Int) (evs : List Event) (hc : cyi = L.cell_dest_yi + L.down_flag)
    (h : vertical_loop g r L cxi fuel cyi = some evs) : evs = [] := by
  cases fuel <;> simp [vertical_loop, hc] at h <;> exact h

theorem horizontal_loop_done (g : Blm) (r : Req) (L : Locals) (cyi : Int) (fuel : Nat)
    (cxi : Int) (evs : List Event) (hc : cxi = L.cell_dest_xi + L.left_flag)
    (h : horizontal_loop g r L cyi fuel cxi = some evs) : evs = [] := by
  cases fuel <;> simp [horizontal_loop, hc] at h <;> exact h

theorem vertical_loop_zero (g : Blm) (r : Req) (L : Locals) (cxi : Int)
    (cyi : Int) (evs : List Event) (h : vertical_loop g r L cxi 0 cyi = some evs) :
    cyi = L.cell_dest_yi + L.down_flag := by
  by_contra hc
  simp [vertical_loop, hc] at h

theorem horizontal_loop_zero (g : Blm) (r : Req) (L : Locals) (cyi : Int)
    (cxi : Int) (evs : List Event) (h : horizontal_loop g r L cyi 0 cxi = some evs) :
    cxi = L.cell_dest_xi + L.left_flag := by
  by_contra hc
  simp [horizontal_loop, hc] at h

/-- A property of event lists that holds for the empty list, is kept by appending, and holds
for every pass of the single-column loop, holds for the events of the loop. -/
theorem vertical_loop_induct (g : Blm) (r : Req) (L : Locals) (cxi : Int)
    (P : List Event → Prop) (h0 : P [])
    (hstep : ∀ cyi rest, P rest → P (vertical_step g r L cxi cyi ++ rest)) :
    ∀ (fuel : Nat) (cyi : Int) (evs : List Event),
      vertical_loop g r L cxi fuel cyi = some evs → P evs := by
  intro fuel
  induction fuel with
  | zero =>
    intro cyi evs h
    rw [vertical_loop_done g r L cxi 0 cyi evs (vertical_loop_zero g r L cxi cyi evs h) h]
    exact h0
  | succ f ih =>
    intro cyi evs h
    by_cases hc : cyi = L.cell_dest_yi + L.down_flag
    · rw [vertical_loop_done g r L cxi _ cyi evs hc h]
      exact h0
    · obtain ⟨rest, h1, h2⟩ := vertical_loop_succ_some g r L cxi f cyi evs hc h
      rw [h2]
      exact hstep _ _ (ih _ _ h1)

theorem horizontal_loop_induct (g : Blm) (r : Req) (L : Locals) (cyi : Int)
    (P : List Event → Prop) (h0 : P [])
    (hstep : ∀ cxi rest, P rest → P (horizontal_step g r L cxi cyi ++ rest)) :
    ∀ (fuel : Nat) (cxi : Int) (evs : List Event),
      horizontal_loop g r L cyi fuel cxi = some evs → P evs := by
  intro fuel
  induction fuel with
  | zero =>
    intro cxi evs h
    rw [horizontal_loop_done g r L cyi 0 cxi evs (horizontal_loop_zero g r L cyi cxi evs h) h]
    exact h0
  | succ f ih =>
    intro cxi evs h
    by_cases hc : cxi = L.cell_dest_xi + L.left_flag
    · rw [horizontal_loop_done g r L cyi _ cxi evs hc h]
      exact h0
    · obtain ⟨rest, h1, h2⟩ := horizontal_loop_succ_some g r L cyi f cxi evs hc h
      rw [h2]
      exact hstep _ _ (ih _ _ h1)

/-- The same induction principle for the general loop, whose passes are the two table reads
followed by one of the two crossing branches. -/
theorem general_loop_induct (g : Blm) (r : Req) (L : Locals)
    (P : List Event → Prop) (h0 : P [])
    (hY : ∀ cxi cyi rest, P rest →
      P ([Event.read_X (cxi + L.dxi), Event.read_Y (cyi + L.dyi)] ++
        cross_Y_line g r L cxi cyi ++ rest))
    (hX : ∀ cxi cyi rest, P rest →
      P ([Event.read_X (cxi + L.dxi), Event.read_Y (cyi + L.dyi)] ++
        cross_X_line g r L cxi cyi ++ rest)) :
    ∀ (fuel : Nat) (cxi cyi xc yc : Int) (evs : List Event),
      general_loop g r L fuel cxi cyi xc yc = some evs → P evs := by
  intro fuel
  induction fuel with
  | zero =>
    intro cxi cyi xc yc evs h
    by_cases hc : xc > 0 ∨ yc > 0
    · simp [general_loop, hc] at h
    · simp only [general_loop, if_neg hc, Option.some.injEq] at h
      rw [← h]
      exact h0
  | succ f ih =>
    intro cxi cyi xc yc evs h
    by_cases hc : xc > 0 ∨ yc > 0
    · simp only [general_loop, if_pos hc] at h
      split at h
      · simp only [Option.map_eq_some'] at h
        obtain ⟨rest, h1, h2⟩ := h
        rw [← h2]
        exact hY _ _ _ (ih _ _ _ _ _ h1)
      · simp only [Option.map_eq_some'] at h
        obtain ⟨rest, h1, h2⟩ := h
        rw [← h2]
        exact hX _ _ _ (ih _ _ _ _ _ h1)
    · simp only [general_loop, if_neg hc, Option.some.injEq] at h
      rw [← h]
      exact h0

/-- The events of a run that leaves the start cell: the events of one of the three loops,
then the block `FINAL_MOVE`. -/
theorem mesh_buffer_line_loop_events (g : Blm) (cur : Pos) (r : Req) (fuel : Nat)
    (hs : ¬ same_cell g cur r) (evs : List Event)
    (h : mesh_buffer_line g cur r fuel = some evs)
    (P : List Event → Prop) (h0 : P [])
    (hV : ∀ cxi cyi rest, P rest → P (vertical_step g r (setup g cur r) cxi cyi ++ rest))
    (hH : ∀ cxi cyi rest, P rest → P (horizontal_step g r (setup g cur r) cxi cyi ++ rest))
    (hY : ∀ cxi cyi rest, P rest →
      P ([Event.read_X (cxi + (setup g cur r).dxi), Event.read_Y (cyi + (setup g cur r).dyi)] ++
        cross_Y_line g r (setup g cur r) cxi cyi ++ rest))
    (hX : ∀ cxi cyi rest, P rest →
      P ([Event.read_X (cxi + (setup g cur r).dxi), Event.read_Y (cyi + (setup g cur r).dyi)] ++
        cross_X_line g r (setup g cur r) cxi cyi ++ rest)) :
    ∃ pre, P pre ∧ evs = pre ++
      FINAL_MOVE g r (get_cell_index_x g r.x_end) (get_cell_index_y g r.y_end) := by
  have hs2 : ¬ ((setup g cur r).cell_start_xi = (setup g cur r).cell_dest_xi ∧
      (setup g cur r).cell_start_yi = (setup g cur r).cell_dest_yi) := hs
  simp only [mesh_buffer_line, if_neg hs2, finish_of_not_same_cell g cur r hs] at h
  split at h
  · simp only [Option.map_eq_some'] at h
    obtain ⟨pre, h1, h2⟩ := h
    exact ⟨pre, vertical_loop_induct g r _ _ P h0 (fun cyi => hV _ cyi) _ _ _ h1, h2.symm⟩
  · split at h
    · simp only [Option.map_eq_some'] at h
      obtain ⟨pre, h1, h2⟩ := h
      exact ⟨pre, horizontal_loop_induct g r _ _ P h0 (fun cxi => hH cxi _) _ _ _ h1, h2.symm⟩
    · simp only [Option.map_eq_some'] at h
      obtain ⟨pre, h1, h2⟩ := h
      exact ⟨pre, general_loop_induct g r _ P h0 hY hX _ _ _ _ _ _ h1, h2.symm⟩

/-! ## The tracked position -/

theorem tracked_position_of_not_mem (dest : Pos) (evs : List Event) :
    ∀ cur : Pos, Event.set_current_to_destination ∉ evs → tracked_position dest cur evs = cur := by
  induction evs with
  | nil => intro cur _; rfl
  | cons ev evs ih =>
    intro cur h
    have h1 : ev ≠ Event.set_current_to_destination := fun e => h (by simp [e])
    have h2 : Event.set_current_to_destination ∉ evs := fun e => h (by simp [e])
    cases ev with
    | set_current_to_destination => exact absurd rfl h1
    | read_z i j => exact ih cur h2
    | read_X i => exact ih cur h2
    | read_Y i => exact ih cur h2
    | buffer_line x y z e f t => exact ih cur h2

theorem tracked_position_append_set (dest : Pos) (pre : List Event) :
    ∀ cur : Pos, tracked_position dest cur (pre ++ [Event.set_current_to_destination]) = dest := by
  induction pre with
  | nil => intro cur; rfl
  | cons ev pre ih =>
    intro cur
    cases ev with
    | set_current_to_destination => exact ih dest
    | read_z i j => exact ih cur
    | read_X i => exact ih cur
    | read_Y i => exact ih cur
    | buffer_line x y z e f t => exact ih cur

theorem not_set_current_horizontal_reads (g : Blm) (i j : Int) :
    Event.set_current_to_destination ∉ horizontal_reads g i j := by
  unfold horizontal_reads
  split <;> simp

theorem not_set_current_vertical_reads (g : Blm) (i j : Int) :
    Event.set_current_to_destination ∉ vertical_reads g i j := by
  unfold vertical_reads
  split <;> simp

theorem not_set_current_vertical_step (g : Blm) (r : Req) (L : Locals) (cxi cyi : Int) :
    Event.set_current_to_destination ∉ vertical_step g r L cxi cyi := by
  have h := not_set_current_horizontal_reads g cxi cyi
  unfold vertical_step
  simp only [List.mem_append, not_or]
  refine ⟨⟨⟨by simp, h⟩, by simp⟩, ?_⟩
  split <;> simp

theorem not_set_current_horizontal_step (g : Blm) (r : Req) (L : Locals) (cxi cyi : Int) :
    Event.set_current_to_destination ∉ horizontal_step g r L cxi cyi := by
  have h := not_set_current_vertical_reads g cxi cyi
  unfold horizontal_step
  simp only [List.mem_append, not_or]
  refine ⟨⟨⟨by simp, h⟩, by simp⟩, ?_⟩
  split <;> simp

theorem not_set_current_cross_Y_line (g : Blm) (r : Req) (L : Locals) (cxi cyi : Int) :
    Event.set_current_to_destination ∉ cross_Y_line g r L cxi cyi := by
  have h := not_set_current_horizontal_reads g (cxi - L.left_flag) (cyi + L.dyi)
  unfold cross_Y_line
  simp only [List.mem_append, not_or]
  exact ⟨h, by simp⟩

theorem not_set_current_cross_X_line (g : Blm) (r : Req) (L : Locals) (cxi cyi : Int) :
    Event.set_current_to_destination ∉ cross_X_line g r L cxi cyi := by
  have h := not_set_current_vertical_reads g (cxi + L.dxi) (cyi - L.down_flag)
  unfold cross_X_line
  simp only [List.mem_append, not_or]
  exact ⟨h, by simp⟩

/-- The block `FINAL_MOVE` is a list of reads and one planner call, none of which updates the
tracked position, followed by `set_current_to_destination`. -/
theorem FINAL_MOVE_eq_append_set (g : Blm) (r : Req) (xi yi : Int) :
    ∃ pre, FINAL_MOVE g r xi yi = pre ++ [Event.set_current_to_destination] ∧
      Event.set_current_to_destination ∉ pre := by
  refine ⟨(FINAL_MOVE g r xi yi).dropLast, ?_, ?_⟩
  · simp [FINAL_MOVE]
  · simp [FINAL_MOVE]

/-- Every run is a list of events that do not touch the tracked position, followed by one
call of `set_current_to_destination`. -/
theorem mesh_buffer_line_ends_with_set (g : Blm) (cur : Pos) (r : Req) (fuel : Nat)
    (evs : List Event) (h : mesh_buffer_line g cur r fuel = some evs) :
    ∃ pre, evs = pre ++ [Event.set_current_to_destination] ∧
      Event.set_current_to_destination ∉ pre := by
  by_cases hs : same_cell g cur r
  · by_cases ho : dest_off_grid g r
    · rw [mesh_buffer_line_same_cell_off_grid g cur r fuel hs ho] at h
      injection h with h
      exact ⟨[Event.buffer_line (fin r.x_end) (fin r.y_end) (fin r.z_end + fin g.z_offset)
        (fin r.e_end) r.feed_rate r.extruder], by rw [← h]; rfl, by simp⟩
    · rw [mesh_buffer_line_same_cell_on_grid g cur r fuel hs ho] at h
      injection h with h
      rw [← h]
      exact FINAL_MOVE_eq_append_set g r _ _
  · obtain ⟨pre, hp, he⟩ := mesh_buffer_line_loop_events g cur r fuel hs evs h
      (fun l => Event.set_current_to_destination ∉ l) (by simp)
      (fun cxi cyi rest hr => by
        simp only [List.mem_append, not_or]
        exact ⟨not_set_current_vertical_step g r _ cxi cyi, hr⟩)
      (fun cxi cyi rest hr => by
        simp only [List.mem_append, not_or]
        exact ⟨not_set_current_horizontal_step g r _ cxi cyi, hr⟩)
      (fun cxi cyi rest hr => by
        simp only [List.mem_append, not_or]
        exact ⟨⟨by simp, not_set_current_cross_Y_line g r _ cxi cyi⟩, hr⟩)
      (fun cxi cyi rest hr => by
        simp only [List.mem_append, not_or]
        exact ⟨⟨by simp, not_set_current_cross_X_line g r _ cxi cyi⟩, hr⟩)
    obtain ⟨fpre, hf1, hf2⟩ := FINAL_MOVE_eq_append_set g r (get_cell_index_x g r.x_end)
      (get_cell_index_y g r.y_end)
    refine ⟨pre ++ fpre, ?_, ?_⟩
    · rw [he, hf1, List.append_assoc]
    · simp only [List.mem_append, not_or]
      exact ⟨hp, hf2⟩

/-- With enough fuel every run returns. -/
theorem mesh_buffer_line_some (g : Blm) (hg : g.WF) (cur : Pos) (r : Req) (fuel : Nat)
    (hf : enough_fuel g cur r ≤ fuel) : ∃ evs, mesh_buffer_line g cur r fuel = some evs := by
  by_cases hs : same_cell g cur r
  · by_cases ho : dest_off_grid g r
    · exact ⟨_, mesh_buffer_line_same_cell_off_grid g cur r fuel hs ho⟩
    · exact ⟨_, mesh_buffer_line_same_cell_on_grid g cur r fuel hs ho⟩
  · obtain ⟨pre, hp⟩ := mesh_buffer_line_not_same_cell g hg cur r fuel hf hs
    exact ⟨_, hp⟩

/-! ## Claims C13, C14, C15 and C19 -/

/-- For a move with `x_end = x_start` that changes row, the slope is infinite. -/
theorem setup_inf_m_flag_of_vertical (g : Blm) (cur : Pos) (r : Req) (hx : cur.x = r.x_end)
    (hy : get_cell_index_y g cur.y ≠ get_cell_index_y g r.y_end) :
    (setup g cur r).inf_m_flag = true := by
  have hdy : r.y_end - cur.y ≠ 0 := setup_dy_ne_zero g cur r hy
  have he : (setup g cur r).inf_m_flag =
      (Flt.eq (fin (r.y_end - cur.y) / fin (r.x_end - cur.x)) pinf ||
        Flt.eq (fin (r.y_end - cur.y) / fin (r.x_end - cur.x)) ninf) := rfl
  have h0 : r.x_end - cur.x = 0 := by rw [hx]; ring
  rw [he, h0]
  show (Flt.eq (Flt.div (fin (r.y_end - cur.y)) (fin 0)) pinf ||
    Flt.eq (Flt.div (fin (r.y_end - cur.y)) (fin 0)) ninf) = true
  simp only [Flt.div, if_true, if_neg hdy]
  split <;> rfl

/-- C13: when start and destination lie in different cells, so that lines 172-187 are
reached, the dominant-axis distance by which the two scaling factors are divided is not zero,
both factors are ordinary numbers, and `inf_normalized_flag` stays false. -/
theorem C13_scaling_divisor_is_nonzero (g : Blm) (cur : Pos) (r : Req)
    (hs : ¬ same_cell g cur r) :
    on_axis_distance cur r ≠ 0 ∧
      (setup g cur r).e_normalized_dist =
        fin ((r.e_end - cur.e) / on_axis_distance cur r) ∧
      (setup g cur r).z_normalized_dist =
        fin ((r.z_end - cur.z) / on_axis_distance cur r) ∧
      (setup g cur r).inf_normalized_flag = false := by
  have h := on_axis_distance_ne_zero g cur r hs
  refine ⟨h, ?_, ?_, setup_inf_normalized_flag g cur r hs⟩
  · rw [setup_e_normalized_dist, Flt.fin_div _ _ h]
  · rw [setup_z_normalized_dist, Flt.fin_div _ _ h]

/-- C13, witness: the move from (5,5) to (15,15) of scenario 1. -/
theorem C13_scaling_divisor_is_nonzero_witness :
    ¬ same_cell (scenario_grid nan 1 0) ⟨5, 5, 0, 0⟩ ⟨15, 15, 1, 1, 100, 0⟩ ∧
      on_axis_distance ⟨5, 5, 0, 0⟩ ⟨15, 15, 1, 1, 100, 0⟩ ≠ 0 ∧
      (setup (scenario_grid nan 1 0) ⟨5, 5, 0, 0⟩ ⟨15, 15, 1, 1, 100, 0⟩).e_normalized_dist =
        fin ((1 - 0) / on_axis_distance ⟨5, 5, 0, 0⟩ ⟨15, 15, 1, 1, 100, 0⟩) ∧
      (setup (scenario_grid nan 1 0) ⟨5, 5, 0, 0⟩ ⟨15, 15, 1, 1, 100, 0⟩).z_normalized_dist =
        fin ((1 - 0) / on_axis_distance ⟨5, 5, 0, 0⟩ ⟨15, 15, 1, 1, 100, 0⟩) ∧
      (setup (scenario_grid nan 1 0) ⟨5, 5, 0, 0⟩
        ⟨15, 15, 1, 1, 100, 0⟩).inf_normalized_flag = false :=
  ⟨by decide!, C13_scaling_divisor_is_nonzero (scenario_grid nan 1 0) ⟨5, 5, 0, 0⟩
    ⟨15, 15, 1, 1, 100, 0⟩ (by decide!)⟩

/-- C14: a request with `x_end = x_start` that changes row is a single-column move whose
slope is infinite, so every pass of the loop takes `x = x_start` instead of dividing by the
slope; with enough fuel the run returns and every sub-move, the final one included, has
`X = x_start`. -/
theorem C14_vertical_move_keeps_x (g : Blm) (hg : g.WF) (cur : Pos) (r : Req) (fuel : Nat)
    (hf : enough_fuel g cur r ≤ fuel) (hx : r.x_end = cur.x)
    (hy : get_cell_index_y g cur.y ≠ get_cell_index_y g r.y_end) :
    (setup g cur r).dxi = 0 ∧ (setup g cur r).inf_m_flag = true ∧
      ∃ evs, mesh_buffer_line g cur r fuel = some evs ∧
        ∀ sm ∈ sub_moves evs, sm.x = fin cur.x := by
  have hinf := setup_inf_m_flag_of_vertical g cur r hx.symm hy
  have hs : ¬ same_cell g cur r := fun h => hy h.2
  have hdxi : (setup g cur r).dxi = 0 := by
    have hc : get_cell_index_x g cur.x = get_cell_index_x g r.x_end := by rw [hx]
    simp [setup, hc]
  refine ⟨hdxi, hinf, ?_⟩
  obtain ⟨evs, he⟩ := mesh_buffer_line_some g hg cur r fuel hf
  refine ⟨evs, he, ?_⟩
  have hs2 : ¬ ((setup g cur r).cell_start_xi = (setup g cur r).cell_dest_xi ∧
      (setup g cur r).cell_start_yi = (setup g cur r).cell_dest_yi) := hs
  simp only [mesh_buffer_line, if_neg hs2, if_pos hdxi, finish_of_not_same_cell g cur r hs,
    Option.map_eq_some'] at he
  obtain ⟨pre, h1, h2⟩ := he
  have hpre := vertical_loop_induct g r (setup g cur r) (setup g cur r).cell_start_xi
    (fun l => ∀ sm ∈ sub_moves l, sm.x = fin cur.x) (by simp)
    (fun cyi rest hr => by
      intro sm hsm
      rw [sub_moves_append, sub_moves_vertical_step, List.mem_append] at hsm
      rcases hsm with hsm | hsm
      · split at hsm
        · simp only [List.mem_singleton, hinf, if_true] at hsm
          rw [hsm]
          rfl
        · simp at hsm
      · exact hr sm hsm) _ _ _ h1
  intro sm hsm
  rw [← h2, sub_moves_append, List.mem_append] at hsm
  rcases hsm with hsm | hsm
  · exact hpre sm hsm
  · rw [sub_moves_FINAL_MOVE, List.mem_singleton] at hsm
    rw [hsm, hx]

/-- C14, witness: the move from (5,5) to (5,15) of scenario 2. -/
theorem C14_vertical_move_keeps_x_witness :
    (setup (scenario_grid nan 1 0) ⟨5, 5, 0, 0⟩ ⟨5, 15, 1, 1, 100, 0⟩).dxi = 0 ∧
      (setup (scenario_grid nan 1 0) ⟨5, 5, 0, 0⟩ ⟨5, 15, 1, 1, 100, 0⟩).inf_m_flag = true ∧
      ∃ evs, mesh_buffer_line (scenario_grid nan 1 0) ⟨5, 5, 0, 0⟩
          ⟨5, 15, 1, 1, 100, 0⟩ 2 = some evs ∧
        ∀ sm ∈ sub_moves evs, sm.x = fin 5 :=
  C14_vertical_move_keeps_x (scenario_grid nan 1 0) (by decide!) ⟨5, 5, 0, 0⟩
    ⟨5, 15, 1, 1, 100, 0⟩ 2 (by decide!) rfl (by decide!)

/-- C15: on a grid of positive pitch a run with enough fuel returns; the tracked position is
still the start after any part of the run that leaves a sub-move to be emitted, and after
the whole run it is the destination `(x_end, y_end, z_end, e_end)` of the request. -/
theorem C15_tracked_position_is_destination (g : Blm) (hg : g.WF) (cur : Pos) (r : Req)
    (fuel : Nat) (hf : enough_fuel g cur r ≤ fuel) :
    ∃ evs, mesh_buffer_line g cur r fuel = some evs ∧
      (∀ p q, evs = p ++ q → sub_moves q ≠ [] → tracked_position r.destination cur p = cur) ∧
      tracked_position r.destination cur evs = r.destination := by
  obtain ⟨evs, he⟩ := mesh_buffer_line_some g hg cur r fuel hf
  obtain ⟨pre, h1, h2⟩ := mesh_buffer_line_ends_with_set g cur r fuel evs he
  refine ⟨evs, he, ?_, ?_⟩
  · intro p q hpq hq
    rw [h1] at hpq
    rcases List.append_eq_append_iff.mp hpq with ⟨a, ha1, ha2⟩ | ⟨c, hc1, hc2⟩
    · exfalso
      rcases List.cons_eq_append_iff.mp ha2 with ⟨h3, h4⟩ | ⟨a2, h3, h4⟩
      · exact hq (by rw [h4]; rfl)
      · have h5 := List.append_eq_nil.mp h4.symm
        exact hq (by rw [h5.2]; rfl)
    · apply tracked_position_of_not_mem
      intro hmem
      exact h2 (by rw [hc1]; exact List.mem_append_left _ hmem)
  · rw [h1]
    exact tracked_position_append_set _ _ _

/-- C15, witness: the move from (5,5) to (15,15) of scenario 1. -/
theorem C15_tracked_position_is_destination_witness :
    (scenario_grid nan 1 0).WF ∧
      ∃ evs, mesh_buffer_line (scenario_grid nan 1 0) ⟨5, 5, 0, 0⟩
          ⟨15, 15, 1, 1, 100, 0⟩ 3 = some evs ∧
        (∀ p q, evs = p ++ q → sub_moves q ≠ [] →
          tracked_position ⟨15, 15, 1, 1⟩ ⟨5, 5, 0, 0⟩ p = ⟨5, 5, 0, 0⟩) ∧
        tracked_position ⟨15, 15, 1, 1⟩ ⟨5, 5, 0, 0⟩ evs = ⟨15, 15, 1, 1⟩ :=
  ⟨by decide!, C15_tracked_position_is_destination (scenario_grid nan 1 0) (by decide!)
    ⟨5, 5, 0, 0⟩ ⟨15, 15, 1, 1, 100, 0⟩ 3 (by decide!)⟩

/-- C19: a request with `x_end = x_start` and `y_end = y_start` is a same-cell request; for
any fuel, so without a single loop pass, the run is the same-cell block alone (the raw move
of lines 91-93 or the block `FINAL_MOVE`), which is left before the scaling factors of lines
172-184 are computed, and it emits exactly one sub-move, at `(x_end, y_end)` with
`E = e_end`. -/
theorem C19_pure_z_move_is_one_sub_move (g : Blm) (cur : Pos) (r : Req) (fuel : Nat)
    (hx : r.x_end = cur.x) (hy : r.y_end = cur.y) :
    same_cell g cur r ∧
      ∃ evs sm, mesh_buffer_line g cur r fuel = some evs ∧ sub_moves evs = [sm] ∧
        sm.x = fin r.x_end ∧ sm.y = fin r.y_end ∧ sm.e = fin r.e_end ∧
        (evs = [Event.buffer_line (fin r.x_end) (fin r.y_end) (fin r.z_end + fin g.z_offset)
            (fin r.e_end) r.feed_rate r.extruder, Event.set_current_to_destination] ∨
          evs = FINAL_MOVE g r (get_cell_index_x g r.x_end) (get_cell_index_y g r.y_end)) := by
  have hs : same_cell g cur r := by
    unfold same_cell
    rw [hx, hy]
    exact ⟨rfl, rfl⟩
  refine ⟨hs, ?_⟩
  by_cases ho : dest_off_grid g r
  · exact ⟨_, ⟨fin r.x_end, fin r.y_end, fin r.z_end + fin g.z_offset, fin r.e_end,
      r.feed_rate, r.extruder⟩, mesh_buffer_line_same_cell_off_grid g cur r fuel hs ho,
      rfl, rfl, rfl, rfl, Or.inl rfl⟩
  · exact ⟨_, ⟨fin r.x_end, fin r.y_end,
      fin r.z_end + nan_to_zero (final_z0 g r (get_cell_index_x g r.x_end)
        (get_cell_index_y g r.y_end) * fin (g.fade r.z_end)) + fin g.z_offset,
      fin r.e_end, r.feed_rate, r.extruder⟩,
      mesh_buffer_line_same_cell_on_grid g cur r fuel hs ho,
      sub_moves_FINAL_MOVE g r _ _, rfl, rfl, rfl, Or.inr rfl⟩

/-- C19, witness: the pure Z and E move at (5,5) from (Z,E) = (0,0) to (3,2). -/
theorem C19_pure_z_move_is_one_sub_move_witness :
    same_cell (scenario_grid nan 1 0) ⟨5, 5, 0, 0⟩ ⟨5, 5, 3, 2, 100, 0⟩ ∧
      ∃ evs sm, mesh_buffer_line (scenario_grid nan 1 0) ⟨5, 5, 0, 0⟩
          ⟨5, 5, 3, 2, 100, 0⟩ 0 = some evs ∧ sub_moves evs = [sm] ∧
        sm.x = fin 5 ∧ sm.y = fin 5 ∧ sm.e = fin 2 ∧
        (evs = [Event.buffer_line (fin 5) (fin 5) (fin 3 + fin 0) (fin 2) 100 0,
            Event.set_current_to_destination] ∨
          evs = FINAL_MOVE (scenario_grid nan 1 0) ⟨5, 5, 3, 2, 100, 0⟩
            (get_cell_index_x (scenario_grid nan 1 0) 5)
            (get_cell_index_y (scenario_grid nan 1 0) 5)) :=
  C19_pure_z_move_is_one_sub_move (scenario_grid nan 1 0) ⟨5, 5, 0, 0⟩ ⟨5, 5, 3, 2, 100, 0⟩ 0
    rfl rfl

/-! ## Evaluating the scenarios -/

theorem Flt.fin_div_eq (a b : ℚ) :
    fin a / fin b =
      if b = 0 then (if a = 0 then nan else if 0 < a then pinf else ninf) else fin (a / b) := rfl

@[simp] theorem Flt.eq_fin_pinf (a : ℚ) : Flt.eq (fin a) pinf = false := by
  simp [Flt.eq]

@[simp] theorem Flt.eq_fin_ninf (a : ℚ) : Flt.eq (fin a) ninf = false := by
  simp [Flt.eq]

@[simp] theorem Flt.eq_pinf_pinf : Flt.eq pinf pinf = true := rfl

@[simp] theorem Flt.eq_ninf_ninf : Flt.eq ninf ninf = true := rfl

@[simp] theorem Flt.eq_pinf_ninf : Flt.eq pinf ninf = false := rfl

@[simp] theorem Flt.eq_ninf_pinf : Flt.eq ninf pinf = false := rfl

theorem scn_cell_x (pad : Flt) (fade off : ℚ) (x : ℚ) :
    get_cell_index_x (scenario_grid pad fade off) x = ⌊x / 10⌋ := by
  simp [get_cell_index_x, scenario_grid]

theorem scn_cell_y (pad : Flt) (fade off : ℚ) (y : ℚ) :
    get_cell_index_y (scenario_grid pad fade off) y = ⌊y / 10⌋ := by
  simp [get_cell_index_y, scenario_grid]

theorem scn_X_location (pad : Flt) (fade off : ℚ) (i : Int) :
    mesh_index_to_X_location (scenario_grid pad fade off) i = i * 10 := by
  simp [mesh_index_to_X_location, scenario_grid]

theorem scn_Y_location (pad : Flt) (fade off : ℚ) (i : Int) :
    mesh_index_to_Y_location (scenario_grid pad fade off) i = i * 10 := by
  simp [mesh_index_to_Y_location, scenario_grid]

theorem scn_z_values (pad : Flt) (fade off : ℚ) (i j : Int) :
    (scenario_grid pad fade off).z_values i j =
      if 0 ≤ 3 * i + j ∧ 3 * i + j < 9 then (if 3 * i + j = 4 then fin 1 else fin 0)
      else pad := rfl

theorem scn_off_grid (pad : Flt) (fade off : ℚ) (i j : Int) :
    off_grid (scenario_grid pad fade off) i j ↔ (i < 0 ∨ j < 0 ∨ i ≥ 3 ∨ j ≥ 3) := by
  simp [off_grid, scenario_grid]

theorem scn_fade (pad : Flt) (fade off z : ℚ) : (scenario_grid pad fade off).fade z = fade :=
  rfl

theorem scn_z_offset (pad : Flt) (fade off : ℚ) : (scenario_grid pad fade off).z_offset = off :=
  rfl

theorem scn_X_DIST (pad : Flt) (fade off : ℚ) : (scenario_grid pad fade off).MESH_X_DIST = 10 :=
  rfl

theorem scn_Y_DIST (pad : Flt) (fade off : ℚ) : (scenario_grid pad fade off).MESH_Y_DIST = 10 :=
  rfl

theorem vertical_loop_stop (g : Blm) (r : Req) (L : Locals) (cxi : Int) (fuel : Nat)
    (cyi : Int) (h : cyi = L.cell_dest_yi + L.down_flag) :
    vertical_loop g r L cxi fuel cyi = some [] := by
  cases fuel <;> simp [vertical_loop, h]

theorem horizontal_loop_stop (g : Blm) (r : Req) (L : Locals) (cyi : Int) (fuel : Nat)
    (cxi : Int) (h : cxi = L.cell_dest_xi + L.left_flag) :
    horizontal_loop g r L cyi fuel cxi = some [] := by
  cases fuel <;> simp [horizontal_loop, h]

theorem general_loop_stop (g : Blm) (r : Req) (L : Locals) (fuel : Nat)
    (cxi cyi xc yc : Int) (h : ¬ (xc > 0 ∨ yc > 0)) :
    general_loop g r L fuel cxi cyi xc yc = some [] := by
  cases fuel <;> simp only [general_loop, if_neg h]

/-! ## Claims C16, C17, C18 and C20 -/

/-- C17: scenario 2.  On the scenario grid, whatever the fade factor, the Z offset and the Z
and E values, the move from (5,5) to (5,15) emits exactly two sub-moves: one at (5,10) with
half of the extrusion and half of the Z travel (plus the correction 1/2 found on the line
`Y = 10`, scaled by the fade factor, and the Z offset), then the final one at (5,15) with
`E = e_end`. -/
theorem C17_scenario_2 (pad : Flt) (fade off zs es ze ee f : ℚ) (t fuel : Nat) :
    (mesh_buffer_line (scenario_grid pad fade off) ⟨5, 5, zs, es⟩ ⟨5, 15, ze, ee, f, t⟩
        (fuel + 1)).map sub_moves =
      some [⟨fin 5, fin 10, fin (zs + (ze - zs) / 2 + 1 / 2 * fade + off),
          fin (es + (ee - es) / 2), f, t⟩,
        ⟨fin 5, fin 15, fin (ze + 1 / 4 * fade + off), fin ee, f, t⟩] := by
  have h5 : ⌊(5 : ℚ) / 10⌋ = 0 := by norm_num
  have h15 : ⌊(15 : ℚ) / 10⌋ = 1 := by norm_num
  simp only [mesh_buffer_line, setup, scn_cell_x, scn_cell_y, h5, h15]
  norm_num [vertical_loop, vertical_loop_stop, finish, sub_moves_append,
    sub_moves_vertical_step, sub_moves_FINAL_MOVE, scn_X_location, scn_Y_location,
    Flt.fin_div_eq, z_position_at, e_position_at,
    get_z_correction_along_horizontal_mesh_line_at_specific_X,
    scn_off_grid, scn_z_values, scn_fade, scn_z_offset, final_z0, scn_X_DIST, scn_Y_DIST]
  constructor <;> ring

/-- C16: scenario 1.  On the scenario grid, whatever the fade factor and the Z offset, the move
from (5,5,0,0) to (15,15,1,1) emits three sub-moves: the corner (10,10) twice, first as the
crossing of the line `X = 10` and then as the crossing of the line `Y = 10`, each with the
correction 1 interpolated on that line (times the fade factor) and `E = 1/2`, and last the
destination (15,15) with `E = 1`. -/
theorem C16_scenario_1 (pad : Flt) (fade off f : ℚ) (t fuel : Nat) :
    (mesh_buffer_line (scenario_grid pad fade off) ⟨5, 5, 0, 0⟩ ⟨15, 15, 1, 1, f, t⟩
        (fuel + 1 + 1)).map sub_moves =
      some [⟨fin 10, fin 10, fin (1 / 2 + 1 * fade + off), fin (1 / 2), f, t⟩,
        ⟨fin 10, fin 10, fin (1 / 2 + 1 * fade + off), fin (1 / 2), f, t⟩,
        ⟨fin 15, fin 15, fin (1 + 1 / 4 * fade + off), fin 1, f, t⟩] ∧
      get_z_correction_along_vertical_mesh_line_at_specific_Y (scenario_grid pad fade off)
        (fin 10) 1 0 = fin 1 ∧
      get_z_correction_along_horizontal_mesh_line_at_specific_X (scenario_grid pad fade off)
        (fin 10) 1 1 = fin 1 := by
  have h5 : ⌊(5 : ℚ) / 10⌋ = 0 := by norm_num
  have h15 : ⌊(15 : ℚ) / 10⌋ = 1 := by norm_num
  refine ⟨?_, ?_, ?_⟩
  · simp only [mesh_buffer_line, setup, scn_cell_x, scn_cell_y, h5, h15]
    norm_num [general_loop, general_loop_stop, finish, sub_moves_append,
      sub_moves_cross_Y_line, sub_moves_cross_X_line, hits_Y_line_first, Flt.lt,
      sub_moves_FINAL_MOVE, scn_X_location, scn_Y_location,
      Flt.fin_div_eq, z_position_at, e_position_at,
      get_z_correction_along_horizontal_mesh_line_at_specific_X,
      get_z_correction_along_vertical_mesh_line_at_specific_Y,
      scn_off_grid, scn_z_values, scn_fade, scn_z_offset, final_z0, scn_X_DIST, scn_Y_DIST]
  · norm_num [get_z_correction_along_vertical_mesh_line_at_specific_Y, scn_off_grid,
      scn_z_values, scn_Y_location, Flt.fin_div_eq]
  · norm_num [get_z_correction_along_horizontal_mesh_line_at_specific_X, scn_off_grid,
      scn_z_values, scn_X_location, Flt.fin_div_eq]

/-- C20, as stated, fails: in scenario 3 with fade factor 1/2 and Z offset 3 the one sub-move
of the move from (2,2,0,0) to (8,8,1,1) has `Z = 102/25`, not `z_end + z_offset = 4`. -/
theorem C20_scenario_3_correction_is_not_zero :
    (mesh_buffer_line (scenario_grid nan (1 / 2) 3) ⟨2, 2, 0, 0⟩ ⟨8, 8, 1, 1, 100, 0⟩ 0).map
        sub_moves = some [⟨fin 8, fin 8, fin (102 / 25), fin 1, 100, 0⟩] ∧
      (fin (102 / 25) : Flt) ≠ fin (1 + 3) := by
  decide!

/-- C20, amended: scenario 3.  On the scenario grid the move from (2,2) to (8,8) emits exactly
one sub-move, at (8,8) with `E = e_end`; the sample `Z[1][1] = 1` is a corner of its cell
(0,0), so the correction is not zero in general: `Z = z_end + z_offset` holds exactly when
the fade factor is 0. -/
theorem C20_scenario_3_amended (pad : Flt) (fade off zs es ze ee f : ℚ) (t fuel : Nat) :
    ∃ sm, (mesh_buffer_line (scenario_grid pad fade off) ⟨2, 2, zs, es⟩ ⟨8, 8, ze, ee, f, t⟩
        fuel).map sub_moves = some [sm] ∧
      sm.x = fin 8 ∧ sm.y = fin 8 ∧ sm.e = fin ee ∧ sm.feed_rate = f ∧ sm.extruder = t ∧
      (sm.z = fin (ze + off) ↔ fade = 0) := by
  have h2 : ⌊(2 : ℚ) / 10⌋ = 0 := by norm_num
  have h8 : ⌊(8 : ℚ) / 10⌋ = 0 := by norm_num
  have hs : same_cell (scenario_grid pad fade off) ⟨2, 2, zs, es⟩ ⟨8, 8, ze, ee, f, t⟩ := by
    simp [same_cell, scn_cell_x, scn_cell_y, h2, h8]
  have ho : ¬ dest_off_grid (scenario_grid pad fade off) ⟨8, 8, ze, ee, f, t⟩ := by
    simp [dest_off_grid, scn_off_grid, scn_cell_x, scn_cell_y, h8]
  refine ⟨⟨fin 8, fin 8, fin (ze + 4 / 25 * fade + off), fin ee, f, t⟩, ?_, rfl, rfl, rfl,
    rfl, rfl, ?_⟩
  · rw [mesh_buffer_line_same_cell_on_grid _ _ _ _ hs ho]
    simp only [Option.map_some', sub_moves_FINAL_MOVE, scn_cell_x, scn_cell_y, h8]
    norm_num [final_z0, scn_z_values, scn_X_location, scn_Y_location, scn_fade, scn_z_offset,
      scn_X_DIST, scn_Y_DIST, Flt.fin_div_eq]
  · show fin (ze + 4 / 25 * fade + off) = fin (ze + off) ↔ fade = 0
    constructor
    · intro h
      injection h with h
      linarith
    · intro h
      rw [h]
      congr 1
      ring

/-! ## The sites of a run -/

@[simp] theorem events_at_nil (g : Blm) (cur : Pos) (r : Req) : events_at g cur r [] = [] := rfl

@[simp] theorem events_at_cons (g : Blm) (cur : Pos) (r : Req) (s : Site) (ss : List Site) :
    events_at g cur r (s :: ss) = pass_at g cur r s ++ events_at g cur r ss := rfl

theorem events_at_append (g : Blm) (cur : Pos) (r : Req) (ss ts : List Site) :
    events_at g cur r (ss ++ ts) = events_at g cur r ss ++ events_at g cur r ts := by
  induction ss with
  | nil => rfl
  | cons s ss ih => simp [ih]

theorem vertical_loop_eq_sites (g : Blm) (cur : Pos) (r : Req) (cxi : Int) :
    ∀ (fuel : Nat) (cyi : Int),
      vertical_loop g r (setup g cur r) cxi fuel cyi =
        (vertical_sites (setup g cur r) cxi fuel cyi).map (events_at g cur r) := by
  intro fuel
  induction fuel with
  | zero =>
    intro cyi
    simp only [vertical_loop, vertical_sites]
    split <;> rfl
  | succ f ih =>
    intro cyi
    simp only [vertical_loop, vertical_sites]
    split
    · rw [ih, Option.map_map, Option.map_map]
      rfl
    · rfl

theorem horizontal_loop_eq_sites (g : Blm) (cur : Pos) (r : Req) (cyi : Int) :
    ∀ (fuel : Nat) (cxi : Int),
      horizontal_loop g r (setup g cur r) cyi fuel cxi =
        (horizontal_sites (setup g cur r) cyi fuel cxi).map (events_at g cur r) := by
  intro fuel
  induction fuel with
  | zero =>
    intro cxi
    simp only [horizontal_loop, horizontal_sites]
    split <;> rfl
  | succ f ih =>
    intro cxi
    simp only [horizontal_loop, horizontal_sites]
    split
    · rw [ih, Option.map_map, Option.map_map]
      rfl
    · rfl

theorem general_loop_eq_sites (g : Blm) (cur : Pos) (r : Req) :
    ∀ (fuel : Nat) (cxi cyi xc yc : Int),
      general_loop g r (setup g cur r) fuel cxi cyi xc yc =
        (general_sites g (setup g cur r) fuel cxi cyi xc yc).map (events_at g cur r) := by
  intro fuel
  induction fuel with
  | zero =>
    intro cxi cyi xc yc
    simp only [general_loop, general_sites]
    split <;> rfl
  | succ f ih =>
    intro cxi cyi xc yc
    simp only [general_loop, general_sites]
    split
    · split
      · rw [ih, Option.map_map, Option.map_map]
        rfl
      · rw [ih, Option.map_map, Option.map_map]
        rfl
    · rfl

/-- A run is the events of its sites, one site after the other. -/
theorem mesh_buffer_line_eq_sites (g : Blm) (cur : Pos) (r : Req) (fuel : Nat) :
    mesh_buffer_line g cur r fuel =
      (mesh_buffer_line_sites g cur r fuel).map (events_at g cur r) := by
  simp only [mesh_buffer_line, mesh_buffer_line_sites]
  split
  · split
    · rfl
    · simp [pass_at]
  · split
    · rw [vertical_loop_eq_sites, Option.map_map, Option.map_map]
      congr 1
      funext ss
      simp [events_at_append, pass_at]
    · split
      · rw [horizontal_loop_eq_sites, Option.map_map, Option.map_map]
        congr 1
        funext ss
        simp [events_at_append, pass_at]
      · rw [general_loop_eq_sites, Option.map_map, Option.map_map]
        congr 1
        funext ss
        simp [events_at_append, pass_at]

/-- Replacing one sample changes neither the classification of a move nor its line equation
and scaling factors. -/
theorem setup_set_sample (g : Blm) (i0 j0 : Int) (v : Flt) (cur : Pos) (r : Req) :
    setup (set_sample g i0 j0 v) cur r = setup g cur r := rfl

theorem general_sites_set_sample (g : Blm) (i0 j0 : Int) (v : Flt) (L : Locals) :
    ∀ (fuel : Nat) (cxi cyi xc yc : Int),
      general_sites (set_sample g i0 j0 v) L fuel cxi cyi xc yc =
        general_sites g L fuel cxi cyi xc yc := by
  intro fuel
  induction fuel with
  | zero => intro cxi cyi xc yc; rfl
  | succ f ih =>
    intro cxi cyi xc yc
    simp only [general_sites, ih]
    rfl

/-- The sites of a run do not depend on the samples. -/
theorem mesh_buffer_line_sites_set_sample (g : Blm) (i0 j0 : Int) (v : Flt) (cur : Pos)
    (r : Req) (fuel : Nat) :
    mesh_buffer_line_sites (set_sample g i0 j0 v) cur r fuel =
      mesh_buffer_line_sites g cur r fuel := by
  simp only [mesh_buffer_line_sites, setup_set_sample, general_sites_set_sample]
  rfl

/-! ## Reads of the sample grid -/

@[simp] theorem z_reads_nil : z_reads [] = [] := rfl

@[simp] theorem z_reads_read_z (i j : Int) (evs : List Event) :
    z_reads (Event.read_z i j :: evs) = (i, j) :: z_reads evs := rfl

@[simp] theorem z_reads_read_X (i : Int) (evs : List Event) :
    z_reads (Event.read_X i :: evs) = z_reads evs := rfl

@[simp] theorem z_reads_read_Y (i : Int) (evs : List Event) :
    z_reads (Event.read_Y i :: evs) = z_reads evs := rfl

@[simp] theorem z_reads_buffer_line (x y z e : Flt) (f : ℚ) (t : Nat) (evs : List Event) :
    z_reads (Event.buffer_line x y z e f t :: evs) = z_reads evs := rfl

@[simp] theorem z_reads_set_current (evs : List Event) :
    z_reads (Event.set_current_to_destination :: evs) = z_reads evs := rfl

theorem z_reads_append (xs ys : List Event) :
    z_reads (xs ++ ys) = z_reads xs ++ z_reads ys := by
  induction xs with
  | nil => rfl
  | cons ev xs ih => cases ev <;> simp [ih]

theorem z_reads_horizontal_reads (g : Blm) (i j : Int) :
    z_reads (horizontal_reads g i j) = if off_grid g i j then [] else [(i, j), (i + 1, j)] := by
  unfold horizontal_reads
  split <;> rfl

theorem z_reads_vertical_reads (g : Blm) (i j : Int) :
    z_reads (vertical_reads g i j) = if off_grid g i j then [] else [(i, j), (i, j + 1)] := by
  unfold vertical_reads
  split <;> rfl

theorem z_reads_vertical_step (g : Blm) (r : Req) (L : Locals) (cxi cyi : Int) :
    z_reads (vertical_step g r L cxi cyi) =
      if off_grid g cxi cyi then [] else [(cxi, cyi), (cxi + 1, cyi)] := by
  unfold vertical_step
  simp only [z_reads_append, z_reads_horizontal_reads, z_reads_read_Y, z_reads_nil,
    List.nil_append]
  split <;> split <;> simp

theorem z_reads_horizontal_step (g : Blm) (r : Req) (L : Locals) (cxi cyi : Int) :
    z_reads (horizontal_step g r L cxi cyi) =
      if off_grid g cxi cyi then [] else [(cxi, cyi), (cxi, cyi + 1)] := by
  unfold horizontal_step
  simp only [z_reads_append, z_reads_vertical_reads, z_reads_read_X, z_reads_nil,
    List.nil_append]
  split <;> split <;> simp

theorem z_reads_cross_Y_line (g : Blm) (r : Req) (L : Locals) (cxi cyi : Int) :
    z_reads (cross_Y_line g r L cxi cyi) =
      if off_grid g (cxi - L.left_flag) (cyi + L.dyi) then []
      else [(cxi - L.left_flag, cyi + L.dyi), (cxi - L.left_flag + 1, cyi + L.dyi)] := by
  unfold cross_Y_line
  simp only [z_reads_append, z_reads_horizontal_reads, z_reads_buffer_line, z_reads_nil]
  split <;> simp

theorem z_reads_cross_X_line (g : Blm) (r : Req) (L : Locals) (cxi cyi : Int) :
    z_reads (cross_X_line g r L cxi cyi) =
      if off_grid g (cxi + L.dxi) (cyi - L.down_flag) then []
      else [(cxi + L.dxi, cyi - L.down_flag), (cxi + L.dxi, cyi - L.down_flag + 1)] := by
  unfold cross_X_line
  simp only [z_reads_append, z_reads_vertical_reads, z_reads_buffer_line, z_reads_nil]
  split <;> simp

theorem z_reads_FINAL_MOVE (g : Blm) (r : Req) (xi yi : Int) :
    z_reads (FINAL_MOVE g r xi yi) =
      [(xi, yi), (xi + 1, yi), (xi, yi), (xi + 1, yi + 1), (xi, yi + 1), (xi + 1, yi + 1)] := by
  simp [FINAL_MOVE]

/-! ## Undefined samples in the edge interpolations -/

/-- A NaN in one of the two samples read by `alongRow` makes its value NaN. -/
theorem horizontal_correction_nan (g : Blm) (x0 : Flt) (i j : Int) (ho : ¬ off_grid g i j)
    (h : g.z_values i j = nan ∨ g.z_values (i + 1) j = nan) :
    get_z_correction_along_horizontal_mesh_line_at_specific_X g x0 i j = nan := by
  unfold get_z_correction_along_horizontal_mesh_line_at_specific_X
  rw [if_neg ho]
  rcases h with h | h <;> simp [h]

/-- A NaN in one of the two samples read by `alongColumn` makes its value NaN. -/
theorem vertical_correction_nan (g : Blm) (y0 : Flt) (i j : Int) (ho : ¬ off_grid g i j)
    (h : g.z_values i j = nan ∨ g.z_values i (j + 1) = nan) :
    get_z_correction_along_vertical_mesh_line_at_specific_Y g y0 i j = nan := by
  unfold get_z_correction_along_vertical_mesh_line_at_specific_Y
  rw [if_neg ho]
  rcases h with h | h <;> simp [h]

theorem set_sample_z_values_ne (g : Blm) (i0 j0 : Int) (v : Flt) (i j : Int)
    (h : (i, j) ≠ (i0, j0)) : (set_sample g i0 j0 v).z_values i j = g.z_values i j := by
  have h2 : ¬ (i = i0 ∧ j = j0) := fun e => h (by rw [e.1, e.2])
  simp only [set_sample, if_neg h2]

theorem off_grid_set_sample (g : Blm) (i0 j0 : Int) (v : Flt) (i j : Int) :
    off_grid (set_sample g i0 j0 v) i j ↔ off_grid g i j := Iff.rfl

/-- The value of `alongRow` depends only on the two samples it reads. -/
theorem horizontal_correction_set_sample (g : Blm) (i0 j0 : Int) (v : Flt) (x0 : Flt)
    (i j : Int) (h : (i0, j0) ∉ (if off_grid g i j then [] else [(i, j), (i + 1, j)])) :
    get_z_correction_along_horizontal_mesh_line_at_specific_X (set_sample g i0 j0 v) x0 i j =
      get_z_correction_along_horizontal_mesh_line_at_specific_X g x0 i j := by
  unfold get_z_correction_along_horizontal_mesh_line_at_specific_X
  by_cases ho : off_grid g i j
  · rw [if_pos ho, if_pos ((off_grid_set_sample g i0 j0 v i j).mpr ho)]
  · rw [if_neg ho] at h
    simp only [List.mem_cons, List.mem_singleton, not_or, List.mem_nil_iff, or_false] at h
    rw [if_neg ho, if_neg (fun e => ho ((off_grid_set_sample g i0 j0 v i j).mp e)),
      set_sample_z_values_ne g i0 j0 v i j (fun e => h.1 e.symm),
      set_sample_z_values_ne g i0 j0 v (i + 1) j (fun e => h.2 e.symm)]
    rfl

/-- The value of `alongColumn` depends only on the two samples it reads. -/
theorem vertical_correction_set_sample (g : Blm) (i0 j0 : Int) (v : Flt) (y0 : Flt)
    (i j : Int) (h : (i0, j0) ∉ (if off_grid g i j then [] else [(i, j), (i, j + 1)])) :
    get_z_correction_along_vertical_mesh_line_at_specific_Y (set_sample g i0 j0 v) y0 i j =
      get_z_correction_along_vertical_mesh_line_at_specific_Y g y0 i j := by
  unfold get_z_correction_along_vertical_mesh_line_at_specific_Y
  by_cases ho : off_grid g i j
  · rw [if_pos ho, if_pos ((off_grid_set_sample g i0 j0 v i j).mpr ho)]
  · rw [if_neg ho] at h
    simp only [List.mem_cons, List.mem_singleton, not_or, List.mem_nil_iff, or_false] at h
    rw [if_neg ho, if_neg (fun e => ho ((off_grid_set_sample g i0 j0 v i j).mp e)),
      set_sample_z_values_ne g i0 j0 v i j (fun e => h.1 e.symm),
      set_sample_z_values_ne g i0 j0 v i (j + 1) (fun e => h.2 e.symm)]
    rfl

/-- The raw correction of `FINAL_MOVE` depends only on the four corners it reads. -/
theorem final_z0_set_sample (g : Blm) (i0 j0 : Int) (v : Flt) (r : Req) (xi yi : Int)
    (h : (i0, j0) ∉ z_reads (FINAL_MOVE g r xi yi)) :
    final_z0 (set_sample g i0 j0 v) r xi yi = final_z0 g r xi yi := by
  rw [z_reads_FINAL_MOVE] at h
  simp only [List.mem_cons, List.mem_singleton, not_or, List.mem_nil_iff, or_false] at h
  unfold final_z0
  rw [set_sample_z_values_ne g i0 j0 v xi yi (fun e => h.1 e.symm),
    set_sample_z_values_ne g i0 j0 v (xi + 1) yi (fun e => h.2.1 e.symm),
    set_sample_z_values_ne g i0 j0 v (xi + 1) (yi + 1) (fun e => h.2.2.2.1 e.symm),
    set_sample_z_values_ne g i0 j0 v xi (yi + 1) (fun e => h.2.2.2.2.1 e.symm)]
  rfl

/-! ## One undefined sample -/

theorem X_location_set_sample (g : Blm) (i0 j0 : Int) (v : Flt) (i : Int) :
    mesh_index_to_X_location (set_sample g i0 j0 v) i = mesh_index_to_X_location g i := rfl

theorem Y_location_set_sample (g : Blm) (i0 j0 : Int) (v : Flt) (i : Int) :
    mesh_index_to_Y_location (set_sample g i0 j0 v) i = mesh_index_to_Y_location g i := rfl

theorem fade_set_sample (g : Blm) (i0 j0 : Int) (v : Flt) (z : ℚ) :
    (set_sample g i0 j0 v).fade z = g.fade z := rfl

theorem z_offset_set_sample (g : Blm) (i0 j0 : Int) (v : Flt) :
    (set_sample g i0 j0 v).z_offset = g.z_offset := rfl

theorem finish_eq (g : Blm) (cur : Pos) (r : Req) :
    finish g cur r (setup g cur r) =
      if cur.x ≠ r.x_end ∨ cur.y ≠ r.y_end then
        FINAL_MOVE g r (get_cell_index_x g r.x_end) (get_cell_index_y g r.y_end)
      else [Event.set_current_to_destination] := rfl

/-- At a site whose interpolation reads an undefined sample, the guarded correction is 0:
the emitted Z is the apportioned Z plus 0 plus the Z offset. -/
theorem site_correction_zero (g : Blm) (cur : Pos) (r : Req) (i0 j0 : Int)
    (hnan : g.z_values i0 j0 = nan) (s : Site)
    (hread : (i0, j0) ∈ z_reads (pass_at g cur r s)) :
    ∀ sm ∈ sub_moves (pass_at g cur r s),
      sm.z = apportioned_z g cur r s + fin 0 + fin g.z_offset := by
  intro sm hsm
  cases s with
  | vertical cxi cyi =>
    simp only [pass_at, z_reads_vertical_step] at hread
    simp only [pass_at, sub_moves_vertical_step] at hsm
    by_cases ho : off_grid g cxi cyi
    · simp [ho] at hread
    · rw [if_neg ho] at hread
      simp only [List.mem_cons, List.mem_singleton, List.mem_nil_iff, or_false,
        Prod.mk.injEq] at hread
      have hz := horizontal_correction_nan g
        (if (setup g cur r).inf_m_flag then fin (setup g cur r).x_start
          else (fin (mesh_index_to_Y_location g cyi) - (setup g cur r).c) / (setup g cur r).m)
        cxi cyi ho (by
          rcases hread with ⟨h1, h2⟩ | ⟨h1, h2⟩
          · left; rw [← h1, ← h2]; exact hnan
          · right; rw [← h1, ← h2]; exact hnan)
      split at hsm
      · simp only [List.mem_singleton] at hsm
        rw [hsm, hz]
        rfl
      · simp at hsm
  | horizontal cxi cyi =>
    simp only [pass_at, z_reads_horizontal_step] at hread
    simp only [pass_at, sub_moves_horizontal_step] at hsm
    by_cases ho : off_grid g cxi cyi
    · simp [ho] at hread
    · rw [if_neg ho] at hread
      simp only [List.mem_cons, List.mem_singleton, List.mem_nil_iff, or_false,
        Prod.mk.injEq] at hread
      have hz := vertical_correction_nan g
        ((setup g cur r).m * fin (mesh_index_to_X_location g cxi) + (setup g cur r).c)
        cxi cyi ho (by
          rcases hread with ⟨h1, h2⟩ | ⟨h1, h2⟩
          · left; rw [← h1, ← h2]; exact hnan
          · right; rw [← h1, ← h2]; exact hnan)
      split at hsm
      · simp only [List.mem_singleton] at hsm
        rw [hsm, hz]
        rfl
      · simp at hsm
  | cross_Y cxi cyi =>
    simp only [pass_at, z_reads_append, z_reads_cross_Y_line, z_reads_read_X, z_reads_read_Y,
      z_reads_nil, List.nil_append] at hread
    simp only [pass_at, sub_moves_append, sub_moves_cross_Y_line, sub_moves_read_X,
      sub_moves_read_Y, sub_moves_nil, List.nil_append, List.mem_singleton] at hsm
    by_cases ho : off_grid g (cxi - (setup g cur r).left_flag) (cyi + (setup g cur r).dyi)
    · simp [ho] at hread
    · rw [if_neg ho] at hread
      simp only [List.mem_cons, List.mem_singleton, List.mem_nil_iff, or_false,
        Prod.mk.injEq] at hread
      have hz := horizontal_correction_nan g
        ((fin (mesh_index_to_Y_location g (cyi + (setup g cur r).dyi)) - (setup g cur r).c) /
          (setup g cur r).m)
        (cxi - (setup g cur r).left_flag) (cyi + (setup g cur r).dyi) ho (by
          rcases hread with ⟨h1, h2⟩ | ⟨h1, h2⟩
          · left; rw [← h1, ← h2]; exact hnan
          · right; rw [← h1, ← h2]; exact hnan)
      rw [hsm, hz]
      rfl
  | cross_X cxi cyi =>
    simp only [pass_at, z_reads_append, z_reads_cross_X_line, z_reads_read_X, z_reads_read_Y,
      z_reads_nil, List.nil_append] at hread
    simp only [pass_at, sub_moves_append, sub_moves_cross_X_line, sub_moves_read_X,
      sub_moves_read_Y, sub_moves_nil, List.nil_append, List.mem_singleton] at hsm
    by_cases ho : off_grid g (cxi + (setup g cur r).dxi) (cyi - (setup g cur r).down_flag)
    · simp [ho] at hread
    · rw [if_neg ho] at hread
      simp only [List.mem_cons, List.mem_singleton, List.mem_nil_iff, or_false,
        Prod.mk.injEq] at hread
      have hz := vertical_correction_nan g
        ((setup g cur r).m * fin (mesh_index_to_X_location g (cxi + (setup g cur r).dxi)) +
          (setup g cur r).c)
        (cxi + (setup g cur r).dxi) (cyi - (setup g cur r).down_flag) ho (by
          rcases hread with ⟨h1, h2⟩ | ⟨h1, h2⟩
          · left; rw [← h1, ← h2]; exact hnan
          · right; rw [← h1, ← h2]; exact hnan)
      rw [hsm, hz]
      rfl
  | finish =>
    simp only [pass_at, finish_eq] at hread hsm
    split at hsm
    · rename_i hc
      rw [if_pos hc, z_reads_FINAL_MOVE] at hread
      simp only [List.mem_cons, List.mem_singleton, List.mem_nil_iff, or_false,
        Prod.mk.injEq] at hread
      have hz := final_z0_nan g r (get_cell_index_x g r.x_end) (get_cell_index_y g r.y_end) (by
        rcases hread with ⟨h1, h2⟩ | ⟨h1, h2⟩ | ⟨h1, h2⟩ | ⟨h1, h2⟩ | ⟨h1, h2⟩ | ⟨h1, h2⟩
        · left; rw [← h1, ← h2]; exact hnan
        · right; left; rw [← h1, ← h2]; exact hnan
        · left; rw [← h1, ← h2]; exact hnan
        · right; right; right; rw [← h1, ← h2]; exact hnan
        · right; right; left; rw [← h1, ← h2]; exact hnan
        · right; right; right; rw [← h1, ← h2]; exact hnan)
      rw [sub_moves_FINAL_MOVE, List.mem_singleton] at hsm
      rw [hsm, hz]
      rfl
    · simp at hsm
  | final_move =>
    simp only [pass_at] at hread hsm
    rw [z_reads_FINAL_MOVE] at hread
    simp only [List.mem_cons, List.mem_singleton, List.mem_nil_iff, or_false,
      Prod.mk.injEq] at hread
    have hz := final_z0_nan g r (setup g cur r).cell_dest_xi (setup g cur r).cell_dest_yi (by
      rcases hread with ⟨h1, h2⟩ | ⟨h1, h2⟩ | ⟨h1, h2⟩ | ⟨h1, h2⟩ | ⟨h1, h2⟩ | ⟨h1, h2⟩
      · left; rw [← h1, ← h2]; exact hnan
      · right; left; rw [← h1, ← h2]; exact hnan
      · left; rw [← h1, ← h2]; exact hnan
      · right; right; right; rw [← h1, ← h2]; exact hnan
      · right; right; left; rw [← h1, ← h2]; exact hnan
      · right; right; right; rw [← h1, ← h2]; exact hnan)
    rw [sub_moves_FINAL_MOVE, List.mem_singleton] at hsm
    rw [hsm, hz]
    rfl
  | raw =>
    simp [pass_at] at hread

/-- At a site whose interpolation does not read the sample `(i0, j0)`, replacing that sample
changes none of the emitted sub-moves. -/
theorem site_unaffected (g : Blm) (cur : Pos) (r : Req) (i0 j0 : Int) (v : Flt) (s : Site)
    (hread : (i0, j0) ∉ z_reads (pass_at g cur r s)) :
    sub_moves (pass_at (set_sample g i0 j0 v) cur r s) = sub_moves (pass_at g cur r s) := by
  cases s with
  | vertical cxi cyi =>
    simp only [pass_at, z_reads_vertical_step] at hread
    simp only [pass_at, sub_moves_vertical_step, setup_set_sample, Y_location_set_sample,
      fade_set_sample, z_offset_set_sample,
      horizontal_correction_set_sample g i0 j0 v _ cxi cyi hread]
  | horizontal cxi cyi =>
    simp only [pass_at, z_reads_horizontal_step] at hread
    simp only [pass_at, sub_moves_horizontal_step, setup_set_sample, X_location_set_sample,
      fade_set_sample, z_offset_set_sample,
      vertical_correction_set_sample g i0 j0 v _ cxi cyi hread]
  | cross_Y cxi cyi =>
    simp only [pass_at, z_reads_append, z_reads_cross_Y_line, z_reads_read_X, z_reads_read_Y,
      z_reads_nil, List.nil_append] at hread
    simp only [pass_at, sub_moves_append, sub_moves_cross_Y_line, setup_set_sample,
      Y_location_set_sample, fade_set_sample, z_offset_set_sample,
      horizontal_correction_set_sample g i0 j0 v _ _ _ hread]
  | cross_X cxi cyi =>
    simp only [pass_at, z_reads_append, z_reads_cross_X_line, z_reads_read_X, z_reads_read_Y,
      z_reads_nil, List.nil_append] at hread
    simp only [pass_at, sub_moves_append, sub_moves_cross_X_line, setup_set_sample,
      X_location_set_sample, fade_set_sample, z_offset_set_sample,
      vertical_correction_set_sample g i0 j0 v _ _ _ hread]
  | finish =>
    simp only [pass_at, finish_eq] at hread ⊢
    by_cases hc : cur.x ≠ r.x_end ∨ cur.y ≠ r.y_end
    · rw [if_pos hc] at hread
      rw [if_pos hc, if_pos hc, sub_moves_FINAL_MOVE, sub_moves_FINAL_MOVE]
      have h := final_z0_set_sample g i0 j0 v r _ _ hread
      have h2 : final_z0 (set_sample g i0 j0 v) r
          (get_cell_index_x (set_sample g i0 j0 v) r.x_end)
          (get_cell_index_y (set_sample g i0 j0 v) r.y_end) =
          final_z0 g r (get_cell_index_x g r.x_end) (get_cell_index_y g r.y_end) := h
      rw [h2]
      rfl
    · rw [if_neg hc, if_neg hc]
  | final_move =>
    simp only [pass_at] at hread ⊢
    rw [sub_moves_FINAL_MOVE, sub_moves_FINAL_MOVE]
    have h := final_z0_set_sample g i0 j0 v r _ _ hread
    have h2 : final_z0 (set_sample g i0 j0 v) r
        (setup (set_sample g i0 j0 v) cur r).cell_dest_xi
        (setup (set_sample g i0 j0 v) cur r).cell_dest_yi =
        final_z0 g r (setup g cur r).cell_dest_xi (setup g cur r).cell_dest_yi := h
    rw [h2]
    rfl
  | raw => rfl

/-! ## The sites of a run and the classification of the move -/

theorem vertical_sites_mem (L : Locals) (cxi : Int) :
    ∀ (fuel : Nat) (cyi : Int) (ss : List Site), vertical_sites L cxi fuel cyi = some ss →
      ∀ s ∈ ss, ∃ a b, s = Site.vertical a b := by
  intro fuel
  induction fuel with
  | zero =>
    intro cyi ss h s hs
    simp only [vertical_sites] at h
    split at h
    · exact absurd h (by simp)
    · injection h with h
      rw [← h] at hs
      simp at hs
  | succ f ih =>
    intro cyi ss h s hs
    simp only [vertical_sites] at h
    split at h
    · simp only [Option.map_eq_some'] at h
      obtain ⟨rest, h1, h2⟩ := h
      rw [← h2] at hs
      rcases List.mem_cons.mp hs with hs | hs
      · exact ⟨_, _, hs⟩
      · exact ih _ _ h1 s hs
    · injection h with h
      rw [← h] at hs
      simp at hs

theorem horizontal_sites_mem (L : Locals) (cyi : Int) :
    ∀ (fuel : Nat) (cxi : Int) (ss : List Site), horizontal_sites L cyi fuel cxi = some ss →
      ∀ s ∈ ss, ∃ a b, s = Site.horizontal a b := by
  intro fuel
  induction fuel with
  | zero =>
    intro cxi ss h s hs
    simp only [horizontal_sites] at h
    split at h
    · exact absurd h (by simp)
    · injection h with h
      rw [← h] at hs
      simp at hs
  | succ f ih =>
    intro cxi ss h s hs
    simp only [horizontal_sites] at h
    split at h
    · simp only [Option.map_eq_some'] at h
      obtain ⟨rest, h1, h2⟩ := h
      rw [← h2] at hs
      rcases List.mem_cons.mp hs with hs | hs
      · exact ⟨_, _, hs⟩
      · exact ih _ _ h1 s hs
    · injection h with h
      rw [← h] at hs
      simp at hs

theorem general_sites_mem (g : Blm) (L : Locals) :
    ∀ (fuel : Nat) (cxi cyi xc yc : Int) (ss : List Site),
      general_sites g L fuel cxi cyi xc yc = some ss →
      ∀ s ∈ ss, ∃ a b, s = Site.cross_Y a b ∨ s = Site.cross_X a b := by
  intro fuel
  induction fuel with
  | zero =>
    intro cxi cyi xc yc ss h s hs
    simp only [general_sites] at h
    split at h
    · exact absurd h (by simp)
    · injection h with h
      rw [← h] at hs
      simp at hs
  | succ f ih =>
    intro cxi cyi xc yc ss h s hs
    simp only [general_sites] at h
    split at h
    · split at h
      · simp only [Option.map_eq_some'] at h
        obtain ⟨rest, h1, h2⟩ := h
        rw [← h2] at hs
        rcases List.mem_cons.mp hs with hs | hs
        · exact ⟨_, _, Or.inl hs⟩
        · exact ih _ _ _ _ _ h1 s hs
      · simp only [Option.map_eq_some'] at h
        obtain ⟨rest, h1, h2⟩ := h
        rw [← h2] at hs
        rcases List.mem_cons.mp hs with hs | hs
        · exact ⟨_, _, Or.inr hs⟩
        · exact ih _ _ _ _ _ h1 s hs
    · injection h with h
      rw [← h] at hs
      simp at hs

theorem setup_dxi_eq_zero_iff (g : Blm) (cur : Pos) (r : Req) :
    (setup g cur r).dxi = 0 ↔ get_cell_index_x g cur.x = get_cell_index_x g r.x_end := by
  constructor
  · intro h
    by_contra hc
    rw [setup_dxi_eq g cur r hc] at h
    split at h <;> simp at h
  · intro h
    simp [setup, h]

theorem setup_dyi_eq_zero_iff (g : Blm) (cur : Pos) (r : Req) :
    (setup g cur r).dyi = 0 ↔ get_cell_index_y g cur.y = get_cell_index_y g r.y_end := by
  constructor
  · intro h
    by_contra hc
    rw [setup_dyi_eq g cur r hc] at h
    split at h <;> simp at h
  · intro h
    simp [setup, h]

/-- Every site of a run belongs to the classification of the move. -/
theorem mesh_buffer_line_sites_in_class (g : Blm) (cur : Pos) (r : Req) (fuel : Nat)
    (ss : List Site) (h : mesh_buffer_line_sites g cur r fuel = some ss) :
    ∀ s ∈ ss, site_in_class g cur r s := by
  intro s hs
  simp only [mesh_buffer_line_sites] at h
  split at h
  · rename_i hsame
    split at h
    · injection h with h
      rw [← h] at hs
      rw [List.mem_singleton.mp hs]
      exact hsame
    · injection h with h
      rw [← h] at hs
      rw [List.mem_singleton.mp hs]
      exact hsame
  · rename_i hsame
    have hns : ¬ same_cell g cur r := hsame
    split at h
    · rename_i hdxi
      have hx := (setup_dxi_eq_zero_iff g cur r).mp hdxi
      simp only [Option.map_eq_some'] at h
      obtain ⟨pre, h1, h2⟩ := h
      rw [← h2] at hs
      rcases List.mem_append.mp hs with hs | hs
      · obtain ⟨a, b, e⟩ := vertical_sites_mem _ _ _ _ _ h1 s hs
        rw [e]
        exact ⟨hx, fun hy => hns ⟨hx, hy⟩⟩
      · rw [List.mem_singleton.mp hs]
        exact hns
    · rename_i hdxi
      have hx : get_cell_index_x g cur.x ≠ get_cell_index_x g r.x_end :=
        fun e => hdxi ((setup_dxi_eq_zero_iff g cur r).mpr e)
      split at h
      · rename_i hdyi
        have hy := (setup_dyi_eq_zero_iff g cur r).mp hdyi
        simp only [Option.map_eq_some'] at h
        obtain ⟨pre, h1, h2⟩ := h
        rw [← h2] at hs
        rcases List.mem_append.mp hs with hs | hs
        · obtain ⟨a, b, e⟩ := horizontal_sites_mem _ _ _ _ _ h1 s hs
          rw [e]
          exact ⟨hx, hy⟩
        · rw [List.mem_singleton.mp hs]
          exact hns
      · rename_i hdyi
        have hy : get_cell_index_y g cur.y ≠ get_cell_index_y g r.y_end :=
          fun e => hdyi ((setup_dyi_eq_zero_iff g cur r).mpr e)
        simp only [Option.map_eq_some'] at h
        obtain ⟨pre, h1, h2⟩ := h
        rw [← h2] at hs
        rcases List.mem_append.mp hs with hs | hs
        · obtain ⟨a, b, e | e⟩ := general_sites_mem _ _ _ _ _ _ _ _ h1 s hs
          · rw [e]
            exact ⟨hx, hy⟩
          · rw [e]
            exact ⟨hx, hy⟩
        · rw [List.mem_singleton.mp hs]
          exact hns

/-! ## Emitted coordinates are defined -/

theorem nan_to_zero_isnan (z : Flt) : (nan_to_zero z).isnan = false := by
  cases z <;> rfl

theorem isnan_fin_add_add_fin (a c : ℚ) (b : Flt) (hb : b.isnan = false) :
    (fin a + b + fin c).isnan = false := by
  cases b with
  | fin q => rfl
  | pinf => rfl
  | ninf => rfl
  | nan => exact absurd hb (by decide)

/-- Away from the same-cell case the apportioned Z is an ordinary number: the start value plus
the on-axis distance times the scaling factor. -/
theorem z_position_at_fin (g : Blm) (cur : Pos) (r : Req) (hs : ¬ same_cell g cur r) (d : ℚ) :
    z_position_at (setup g cur r) (fin d) =
      fin (cur.z + d * ((r.z_end - cur.z) / on_axis_distance cur r)) := by
  unfold z_position_at
  rw [if_pos (setup_inf_normalized_flag g cur r hs), setup_z_normalized_dist,
    Flt.fin_div _ _ (on_axis_distance_ne_zero g cur r hs)]
  rfl

/-- Away from the same-cell case the apportioned extrusion is an ordinary number. -/
theorem e_position_at_fin (g : Blm) (cur : Pos) (r : Req) (hs : ¬ same_cell g cur r) (d : ℚ) :
    e_position_at (setup g cur r) (fin d) =
      fin (cur.e + d * ((r.e_end - cur.e) / on_axis_distance cur r)) := by
  unfold e_position_at
  rw [if_pos (setup_inf_normalized_flag g cur r hs), setup_e_normalized_dist,
    Flt.fin_div _ _ (on_axis_distance_ne_zero g cur r hs)]
  rfl

theorem setup_inf_m_flag_false (g : Blm) (cur : Pos) (r : Req) (hx : r.x_end - cur.x ≠ 0) :
    (setup g cur r).inf_m_flag = false := by
  have he : (setup g cur r).inf_m_flag =
      (Flt.eq (setup g cur r).m pinf || Flt.eq (setup g cur r).m ninf) := rfl
  rw [he, setup_m_eq g cur r hx]
  simp

/-- The X of a pass of the single-column loop is an ordinary number: the start X plus the
travel fraction times `dx`. -/
theorem vertical_x_eq (g : Blm) (cur : Pos) (r : Req)
    (hy : get_cell_index_y g cur.y ≠ get_cell_index_y g r.y_end) (ly : ℚ) :
    (if (setup g cur r).inf_m_flag then fin (setup g cur r).x_start
      else (fin ly - (setup g cur r).c) / (setup g cur r).m) =
      fin (cur.x + frac_Y cur r ly * (r.x_end - cur.x)) := by
  have hdy := setup_dy_ne_zero g cur r hy
  by_cases hx : r.x_end - cur.x = 0
  · have hinf := setup_inf_m_flag_of_vertical g cur r (by linarith) hy
    rw [hinf, if_pos rfl, hx, mul_zero, add_zero]
    rfl
  · rw [setup_inf_m_flag_false g cur r hx, x_at_Y_line g cur r hx hdy]
    simp

theorem SubMove.defined_mk (x y e a c : ℚ) (b : Flt) (f : ℚ) (t : Nat) :
    SubMove.defined ⟨fin x, fin y, fin a + nan_to_zero b + fin c, fin e, f, t⟩ :=
  ⟨trivial, trivial, isnan_fin_add_add_fin a c _ (nan_to_zero_isnan b), trivial⟩

/-- At every site of its classification the routine emits only defined coordinates. -/
theorem site_defined (g : Blm) (cur : Pos) (r : Req) (s : Site)
    (hc : site_in_class g cur r s) :
    ∀ sm ∈ sub_moves (pass_at g cur r s), sm.defined := by
  intro sm hsm
  cases s with
  | vertical cxi cyi =>
    have hs : ¬ same_cell g cur r := fun h => hc.2 h.2
    simp only [pass_at, sub_moves_vertical_step] at hsm
    split at hsm
    · simp only [List.mem_singleton] at hsm
      rw [hsm, vertical_x_eq g cur r hc.2]
      have h1 : (setup g cur r).y_start = cur.y := rfl
      rw [h1, Flt.fin_sub, z_position_at_fin g cur r hs, e_position_at_fin g cur r hs]
      exact SubMove.defined_mk _ _ _ _ _ _ _ _
    · simp at hsm
  | horizontal cxi cyi =>
    have hs : ¬ same_cell g cur r := fun h => hc.1 h.1
    have hdx := setup_dx_ne_zero g cur r hc.1
    simp only [pass_at, sub_moves_horizontal_step] at hsm
    split at hsm
    · simp only [List.mem_singleton] at hsm
      rw [hsm, y_at_X_line g cur r hdx]
      have h1 : (setup g cur r).x_start = cur.x := rfl
      rw [h1, Flt.fin_sub, z_position_at_fin g cur r hs, e_position_at_fin g cur r hs]
      exact SubMove.defined_mk _ _ _ _ _ _ _ _
    · simp at hsm
  | cross_Y cxi cyi =>
    have hs : ¬ same_cell g cur r := fun h => hc.1 h.1
    have hdx := setup_dx_ne_zero g cur r hc.1
    have hdy := setup_dy_ne_zero g cur r hc.2
    simp only [pass_at, sub_moves_append, sub_moves_cross_Y_line, sub_moves_read_X,
      sub_moves_read_Y, sub_moves_nil, List.nil_append, List.mem_singleton] at hsm
    have h1 : (setup g cur r).x_start = cur.x := rfl
    have h2 : (setup g cur r).y_start = cur.y := rfl
    rw [hsm, x_at_Y_line g cur r hdx hdy, h1, h2]
    cases (setup g cur r).use_X_dist
    · simp only [Bool.false_eq_true, if_false, Flt.fin_sub]
      rw [z_position_at_fin g cur r hs, e_position_at_fin g cur r hs]
      exact SubMove.defined_mk _ _ _ _ _ _ _ _
    · simp only [if_true, Flt.fin_sub]
      rw [z_position_at_fin g cur r hs, e_position_at_fin g cur r hs]
      exact SubMove.defined_mk _ _ _ _ _ _ _ _
  | cross_X cxi cyi =>
    have hs : ¬ same_cell g cur r := fun h => hc.1 h.1
    have hdx := setup_dx_ne_zero g cur r hc.1
    simp only [pass_at, sub_moves_append, sub_moves_cross_X_line, sub_moves_read_X,
      sub_moves_read_Y, sub_moves_nil, List.nil_append, List.mem_singleton] at hsm
    have h1 : (setup g cur r).x_start = cur.x := rfl
    have h2 : (setup g cur r).y_start = cur.y := rfl
    rw [hsm, y_at_X_line g cur r hdx, h1, h2]
    cases (setup g cur r).use_X_dist
    · simp only [Bool.false_eq_true, if_false, Flt.fin_sub]
      rw [z_position_at_fin g cur r hs, e_position_at_fin g cur r hs]
      exact SubMove.defined_mk _ _ _ _ _ _ _ _
    · simp only [if_true, Flt.fin_sub]
      rw [z_position_at_fin g cur r hs, e_position_at_fin g cur r hs]
      exact SubMove.defined_mk _ _ _ _ _ _ _ _
  | finish =>
    simp only [pass_at, finish_eq] at hsm
    split at hsm
    · rw [sub_moves_FINAL_MOVE, List.mem_singleton] at hsm
      rw [hsm]
      exact SubMove.defined_mk _ _ _ _ _ _ _ _
    · simp at hsm
  | final_move =>
    simp only [pass_at] at hsm
    rw [sub_moves_FINAL_MOVE, List.mem_singleton] at hsm
    rw [hsm]
    exact SubMove.defined_mk _ _ _ _ _ _ _ _
  | raw =>
    simp only [pass_at, sub_moves_buffer_line, sub_moves_set_current, sub_moves_nil,
      List.mem_singleton] at hsm
    rw [hsm]
    exact ⟨trivial, trivial, rfl, trivial⟩

/-! ## Claim C11 -/

/-- C11: on a grid of positive pitch with an undefined sample at `(i0, j0)`, a run with enough
fuel returns, and so does the run on the grid where that sample holds the number `v`; both
visit the same sites, and at each site: no emitted coordinate is undefined; if the
interpolation of the site reads `(i0, j0)`, the emitted Z is the apportioned Z plus a zero
correction plus the Z offset; if it does not, the same sub-move is emitted on both grids. -/
theorem C11_one_undefined_sample (g : Blm) (hg : g.WF) (cur : Pos) (r : Req) (fuel : Nat)
    (hf : enough_fuel g cur r ≤ fuel) (i0 j0 : Int) (hnan : g.z_values i0 j0 = nan) (v : ℚ) :
    ∃ ss, mesh_buffer_line_sites g cur r fuel = some ss ∧
      mesh_buffer_line g cur r fuel = some (events_at g cur r ss) ∧
      mesh_buffer_line (set_sample g i0 j0 (fin v)) cur r fuel =
        some (events_at (set_sample g i0 j0 (fin v)) cur r ss) ∧
      ∀ s ∈ ss,
        (∀ sm ∈ sub_moves (pass_at g cur r s), sm.defined) ∧
        ((i0, j0) ∈ z_reads (pass_at g cur r s) →
          ∀ sm ∈ sub_moves (pass_at g cur r s),
            sm.z = apportioned_z g cur r s + fin 0 + fin g.z_offset) ∧
        ((i0, j0) ∉ z_reads (pass_at g cur r s) →
          sub_moves (pass_at (set_sample g i0 j0 (fin v)) cur r s) =
            sub_moves (pass_at g cur r s)) := by
  obtain ⟨evs, he⟩ := mesh_buffer_line_some g hg cur r fuel hf
  have h1 := mesh_buffer_line_eq_sites g cur r fuel
  rw [he] at h1
  obtain ⟨ss, hss, hev⟩ := Option.map_eq_some'.mp h1.symm
  refine ⟨ss, hss, ?_, ?_, ?_⟩
  · rw [he, hev]
  · rw [mesh_buffer_line_eq_sites, mesh_buffer_line_sites_set_sample, hss]
    rfl
  · intro s hs
    exact ⟨site_defined g cur r s (mesh_buffer_line_sites_in_class g cur r fuel ss hss s hs),
      site_correction_zero g cur r i0 j0 hnan s,
      site_unaffected g cur r i0 j0 (fin v) s⟩

/-- C11, witness: the scenario grid with the sample (1,1) undefined, the move from (5,5) to
(15,15), and the value 1 for the comparison. -/
theorem C11_one_undefined_sample_witness :
    ∃ ss, mesh_buffer_line_sites (set_sample (scenario_grid (fin 0) 1 0) 1 1 nan) ⟨5, 5, 0, 0⟩
        ⟨15, 15, 1, 1, 100, 0⟩ 3 = some ss ∧
      mesh_buffer_line (set_sample (scenario_grid (fin 0) 1 0) 1 1 nan) ⟨5, 5, 0, 0⟩
        ⟨15, 15, 1, 1, 100, 0⟩ 3 =
        some (events_at (set_sample (scenario_grid (fin 0) 1 0) 1 1 nan) ⟨5, 5, 0, 0⟩
          ⟨15, 15, 1, 1, 100, 0⟩ ss) ∧
      mesh_buffer_line (set_sample (set_sample (scenario_grid (fin 0) 1 0) 1 1 nan) 1 1 (fin 1))
        ⟨5, 5, 0, 0⟩ ⟨15, 15, 1, 1, 100, 0⟩ 3 =
        some (events_at (set_sample (set_sample (scenario_grid (fin 0) 1 0) 1 1 nan) 1 1 (fin 1))
          ⟨5, 5, 0, 0⟩ ⟨15, 15, 1, 1, 100, 0⟩ ss) ∧
      ∀ s ∈ ss,
        (∀ sm ∈ sub_moves (pass_at (set_sample (scenario_grid (fin 0) 1 0) 1 1 nan)
          ⟨5, 5, 0, 0⟩ ⟨15, 15, 1, 1, 100, 0⟩ s), sm.defined) ∧
        (((1 : Int), (1 : Int)) ∈ z_reads (pass_at (set_sample (scenario_grid (fin 0) 1 0) 1 1 nan)
            ⟨5, 5, 0, 0⟩ ⟨15, 15, 1, 1, 100, 0⟩ s) →
          ∀ sm ∈ sub_moves (pass_at (set_sample (scenario_grid (fin 0) 1 0) 1 1 nan)
              ⟨5, 5, 0, 0⟩ ⟨15, 15, 1, 1, 100, 0⟩ s),
            sm.z = apportioned_z (set_sample (scenario_grid (fin 0) 1 0) 1 1 nan)
              ⟨5, 5, 0, 0⟩ ⟨15, 15, 1, 1, 100, 0⟩ s + fin 0 + fin 0) ∧
        (((1 : Int), (1 : Int)) ∉ z_reads (pass_at (set_sample (scenario_grid (fin 0) 1 0) 1 1 nan)
            ⟨5, 5, 0, 0⟩ ⟨15, 15, 1, 1, 100, 0⟩ s) →
          sub_moves (pass_at
              (set_sample (set_sample (scenario_grid (fin 0) 1 0) 1 1 nan) 1 1 (fin 1))
              ⟨5, 5, 0, 0⟩ ⟨15, 15, 1, 1, 100, 0⟩ s) =
            sub_moves (pass_at (set_sample (scenario_grid (fin 0) 1 0) 1 1 nan)
              ⟨5, 5, 0, 0⟩ ⟨15, 15, 1, 1, 100, 0⟩ s)) :=
  C11_one_undefined_sample (set_sample (scenario_grid (fin 0) 1 0) 1 1 nan) (by decide!)
    ⟨5, 5, 0, 0⟩ ⟨15, 15, 1, 1, 100, 0⟩ 3 (by decide!) 1 1 (by decide!) 1

/-! ## Containment: points of the path and closed cells -/

theorem endpoints_append (xs ys : List Event) :
    endpoints (xs ++ ys) = endpoints xs ++ endpoints ys := by
  simp [endpoints, sub_moves_append]

theorem endpoints_FINAL_MOVE (g : Blm) (r : Req) (xi yi : Int) :
    endpoints (FINAL_MOVE g r xi yi) = [(fin r.x_end, fin r.y_end)] := by
  simp [endpoints, sub_moves_FINAL_MOVE]

theorem on_path_one (cur : Pos) (r : Req) : on_path cur r 1 = (fin r.x_end, fin r.y_end) := by
  unfold on_path
  congr 2 <;> ring

theorem on_path_zero (cur : Pos) (r : Req) : on_path cur r 0 = (fin cur.x, fin cur.y) := by
  unfold on_path
  congr 2 <;> ring

theorem in_closed_cell_on_path (g : Blm) (i j : Int) (cur : Pos) (r : Req) (t : ℚ) :
    in_closed_cell g i j (on_path cur r t) ↔
      mesh_index_to_X_location g i ≤ cur.x + t * (r.x_end - cur.x) ∧
      cur.x + t * (r.x_end - cur.x) ≤ mesh_index_to_X_location g (i + 1) ∧
      mesh_index_to_Y_location g j ≤ cur.y + t * (r.y_end - cur.y) ∧
      cur.y + t * (r.y_end - cur.y) ≤ mesh_index_to_Y_location g (j + 1) := Iff.rfl

/-- The destination lies in the closed cell of its cell indices. -/
theorem dest_in_closed_cell (g : Blm) (hg : g.WF) (r : Req) :
    in_closed_cell g (get_cell_index_x g r.x_end) (get_cell_index_y g r.y_end)
      (fin r.x_end, fin r.y_end) :=
  ⟨X_location_cell_le g hg _, (X_location_cell_succ_gt g hg _).le,
    Y_location_cell_le g hg _, (Y_location_cell_succ_gt g hg _).le⟩

/-- The start lies in the closed cell of its cell indices. -/
theorem start_in_closed_cell (g : Blm) (hg : g.WF) (cur : Pos) :
    in_closed_cell g (get_cell_index_x g cur.x) (get_cell_index_y g cur.y)
      (fin cur.x, fin cur.y) :=
  ⟨X_location_cell_le g hg _, (X_location_cell_succ_gt g hg _).le,
    Y_location_cell_le g hg _, (Y_location_cell_succ_gt g hg _).le⟩

/-- A point between two points of an interval, on a line `a + t * d`, lies in the interval. -/
theorem between_of_frac (a d lo hi t1 t2 t3 : ℚ) (h12 : t1 ≤ t2) (h23 : t2 ≤ t3)
    (h1 : lo ≤ a + t1 * d ∧ a + t1 * d ≤ hi) (h3 : lo ≤ a + t3 * d ∧ a + t3 * d ≤ hi) :
    lo ≤ a + t2 * d ∧ a + t2 * d ≤ hi := by
  rcases le_total 0 d with hd | hd
  · have e1 : t1 * d ≤ t2 * d := mul_le_mul_of_nonneg_right h12 hd
    have e2 : t2 * d ≤ t3 * d := mul_le_mul_of_nonneg_right h23 hd
    constructor <;> linarith [h1.1, h3.2]
  · have e1 : t2 * d ≤ t1 * d := mul_le_mul_of_nonpos_right h12 hd
    have e2 : t3 * d ≤ t2 * d := mul_le_mul_of_nonpos_right h23 hd
    constructor <;> linarith [h3.1, h1.2]

theorem frac_Y_mul (cur : Pos) (r : Req) (hy : r.y_end - cur.y ≠ 0) (ly : ℚ) :
    cur.y + frac_Y cur r ly * (r.y_end - cur.y) = ly := by
  unfold frac_Y
  field_simp

theorem frac_X_mul (cur : Pos) (r : Req) (hx : r.x_end - cur.x ≠ 0) (lx : ℚ) :
    cur.x + frac_X cur r lx * (r.x_end - cur.x) = lx := by
  unfold frac_X
  field_simp

/-- The travel fraction of the Y mesh lines grows in the direction of travel. -/
theorem frac_Y_step (g : Blm) (hg : g.WF) (cur : Pos) (r : Req) (hy : r.y_end - cur.y ≠ 0)
    (k : Int) :
    frac_Y cur r (mesh_index_to_Y_location g k) <
      frac_Y cur r (mesh_index_to_Y_location g (k + dir_Y cur r)) := by
  unfold frac_Y dir_Y
  by_cases hneg : r.y_end - cur.y < 0
  · rw [if_pos hneg]
    have h := Y_location_strict_mono g hg (show k + -1 < k by omega)
    exact (div_lt_div_right_of_neg hneg).mpr (by linarith)
  · have hpos : 0 < r.y_end - cur.y := lt_of_le_of_ne (not_lt.mp hneg) (Ne.symm hy)
    rw [if_neg hneg]
    have h := Y_location_strict_mono g hg (show k < k + 1 by omega)
    exact (div_lt_div_iff_of_pos_right hpos).mpr (by linarith)

/-- The travel fraction of the X mesh lines grows in the direction of travel. -/
theorem frac_X_step (g : Blm) (hg : g.WF) (cur : Pos) (r : Req) (hx : r.x_end - cur.x ≠ 0)
    (k : Int) :
    frac_X cur r (mesh_index_to_X_location g k) <
      frac_X cur r (mesh_index_to_X_location g (k + dir_X cur r)) := by
  unfold frac_X dir_X
  by_cases hneg : r.x_end - cur.x < 0
  · rw [if_pos hneg]
    have h := X_location_strict_mono g hg (show k + -1 < k by omega)
    exact (div_lt_div_right_of_neg hneg).mpr (by linarith)
  · have hpos : 0 < r.x_end - cur.x := lt_of_le_of_ne (not_lt.mp hneg) (Ne.symm hx)
    rw [if_neg hneg]
    have h := X_location_strict_mono g hg (show k < k + 1 by omega)
    exact (div_lt_div_iff_of_pos_right hpos).mpr (by linarith)

/-! ## Containment in the single-column loop -/

theorem setup_dyi_eq_dir (g : Blm) (cur : Pos) (r : Req)
    (hy : get_cell_index_y g cur.y ≠ get_cell_index_y g r.y_end) :
    (setup g cur r).dyi = dir_Y cur r := setup_dyi_eq g cur r hy

theorem setup_dxi_eq_dir (g : Blm) (cur : Pos) (r : Req)
    (hx : get_cell_index_x g cur.x ≠ get_cell_index_x g r.x_end) :
    (setup g cur r).dxi = dir_X cur r := setup_dxi_eq g cur r hx

theorem setup_down_flag (g : Blm) (cur : Pos) (r : Req) :
    (setup g cur r).down_flag = down_Y cur r := rfl

theorem setup_left_flag (g : Blm) (cur : Pos) (r : Req) :
    (setup g cur r).left_flag = left_X cur r := rfl

/-- While start and destination lie in the same column, every point of the path between them
lies in the closed column. -/
theorem column_of_frac (g : Blm) (hg : g.WF) (cur : Pos) (r : Req)
    (hx : get_cell_index_x g cur.x = get_cell_index_x g r.x_end) (t : ℚ)
    (h0 : 0 ≤ t) (h1 : t ≤ 1) :
    mesh_index_to_X_location g (get_cell_index_x g r.x_end) ≤
        cur.x + t * (r.x_end - cur.x) ∧
      cur.x + t * (r.x_end - cur.x) ≤
        mesh_index_to_X_location g (get_cell_index_x g r.x_end + 1) := by
  have a1 := X_location_cell_le g hg cur.x
  have a2 := (X_location_cell_succ_gt g hg cur.x).le
  rw [hx] at a1 a2
  have b1 := X_location_cell_le g hg r.x_end
  have b2 := (X_location_cell_succ_gt g hg r.x_end).le
  exact between_of_frac cur.x (r.x_end - cur.x) _ _ 0 t 1 h0 h1
    ⟨by linarith, by linarith⟩ ⟨by linarith, by linarith⟩

/-- While start and destination lie in the same row, every point of the path between them
lies in the closed row. -/
theorem row_of_frac (g : Blm) (hg : g.WF) (cur : Pos) (r : Req)
    (hy : get_cell_index_y g cur.y = get_cell_index_y g r.y_end) (t : ℚ)
    (h0 : 0 ≤ t) (h1 : t ≤ 1) :
    mesh_index_to_Y_location g (get_cell_index_y g r.y_end) ≤
        cur.y + t * (r.y_end - cur.y) ∧
      cur.y + t * (r.y_end - cur.y) ≤
        mesh_index_to_Y_location g (get_cell_index_y g r.y_end + 1) := by
  have a1 := Y_location_cell_le g hg cur.y
  have a2 := (Y_location_cell_succ_gt g hg cur.y).le
  rw [hy] at a1 a2
  have b1 := Y_location_cell_le g hg r.y_end
  have b2 := (Y_location_cell_succ_gt g hg r.y_end).le
  exact between_of_frac cur.y (r.y_end - cur.y) _ _ 0 t 1 h0 h1
    ⟨by linarith, by linarith⟩ ⟨by linarith, by linarith⟩

/-- The endpoint emitted by a pass of the single-column loop is the point of the path on the
mesh line of the pass; nothing is emitted when that line is the start Y. -/
theorem endpoints_vertical_step (g : Blm) (cur : Pos) (r : Req)
    (hy : get_cell_index_y g cur.y ≠ get_cell_index_y g r.y_end) (cxi cyi : Int) :
    endpoints (vertical_step g r (setup g cur r) cxi cyi) =
      if mesh_index_to_Y_location g cyi ≠ cur.y then
        [on_path cur r (frac_Y cur r (mesh_index_to_Y_location g cyi))]
      else [] := by
  have hdy := setup_dy_ne_zero g cur r hy
  have h1 : (setup g cur r).y_start = cur.y := rfl
  unfold endpoints
  rw [sub_moves_vertical_step, h1]
  split
  · simp only [List.map_cons, List.map_nil, vertical_x_eq g cur r hy, on_path,
      frac_Y_mul cur r hdy]
  · rfl

theorem vertical_inv_init (g : Blm) (hg : g.WF) (cur : Pos) (r : Req)
    (hy : get_cell_index_y g cur.y ≠ get_cell_index_y g r.y_end) :
    vertical_inv g cur r 0 (get_cell_index_y g cur.y + down_Y cur r) := by
  have hdy := setup_dy_ne_zero g cur r hy
  have a1 := Y_location_cell_le g hg cur.y
  have a2 := (Y_location_cell_succ_gt g hg cur.y).le
  unfold vertical_inv down_Y dir_Y frac_Y
  by_cases hneg : r.y_end - cur.y < 0
  · have hlt : get_cell_index_y g r.y_end < get_cell_index_y g cur.y :=
      dest_yi_lt_of_down g hg cur r hy hneg
    simp only [if_pos hneg, zero_mul, add_zero]
    refine ⟨le_refl _, by norm_num, ?_, ?_, ?_, by omega⟩
    · rw [show get_cell_index_y g cur.y + 1 - 1 = get_cell_index_y g cur.y by ring]
      exact a1
    · rw [show get_cell_index_y g cur.y + 1 - 1 + 1 = get_cell_index_y g cur.y + 1 by ring]
      exact a2
    · rw [show get_cell_index_y g cur.y + 1 + -1 = get_cell_index_y g cur.y by ring]
      exact div_nonneg_of_nonpos (by linarith) hneg.le
  · have hpos : 0 < r.y_end - cur.y := lt_of_le_of_ne (not_lt.mp hneg) (Ne.symm hdy)
    have hlt : get_cell_index_y g cur.y < get_cell_index_y g r.y_end :=
      start_yi_lt_of_up g hg cur r hy hneg
    simp only [if_neg hneg, zero_mul, add_zero, sub_zero]
    refine ⟨le_refl _, by norm_num, a1, a2, ?_, by omega⟩
    exact div_nonneg (by linarith) hpos.le

theorem vertical_inv_step (g : Blm) (hg : g.WF) (cur : Pos) (r : Req)
    (hy : get_cell_index_y g cur.y ≠ get_cell_index_y g r.y_end) (t : ℚ) (cyi : Int)
    (hinv : vertical_inv g cur r t cyi)
    (hc : cyi ≠ get_cell_index_y g r.y_end + down_Y cur r) :
    vertical_inv g cur r (frac_Y cur r (mesh_index_to_Y_location g (cyi + dir_Y cur r)))
      (cyi + dir_Y cur r) := by
  have hdy := setup_dy_ne_zero g cur r hy
  obtain ⟨h0, h1, h2, h3, h4, h5⟩ := hinv
  have hstep := frac_Y_step g hg cur r hdy (cyi + dir_Y cur r)
  have b1 := Y_location_cell_le g hg r.y_end
  have b2 := Y_location_cell_succ_gt g hg r.y_end
  refine ⟨le_trans h0 h4, ?_, ?_, ?_, hstep.le, ?_⟩
  · unfold frac_Y
    unfold dir_Y down_Y at *
    by_cases hneg : r.y_end - cur.y < 0
    · simp only [if_pos hneg] at h5 hc ⊢
      rw [div_le_one_of_neg hneg]
      have := Y_location_mono g hg (show get_cell_index_y g r.y_end + 1 ≤ cyi + -1 by omega)
      linarith
    · have hpos : 0 < r.y_end - cur.y := lt_of_le_of_ne (not_lt.mp hneg) (Ne.symm hdy)
      simp only [if_neg hneg] at h5 hc ⊢
      rw [div_le_one hpos]
      have := Y_location_mono g hg (show cyi + 1 ≤ get_cell_index_y g r.y_end by omega)
      linarith
  · rw [frac_Y_mul cur r hdy]
    unfold dir_Y down_Y
    by_cases hneg : r.y_end - cur.y < 0
    · simp only [if_pos hneg]
      exact Y_location_mono g hg (by omega)
    · simp only [if_neg hneg]
      exact Y_location_mono g hg (by omega)
  · rw [frac_Y_mul cur r hdy]
    unfold dir_Y down_Y
    by_cases hneg : r.y_end - cur.y < 0
    · simp only [if_pos hneg]
      exact Y_location_mono g hg (by omega)
    · simp only [if_neg hneg]
      exact Y_location_mono g hg (by omega)
  · unfold dir_Y down_Y at *
    by_cases hneg : r.y_end - cur.y < 0
    · simp only [if_pos hneg] at h5 hc ⊢
      omega
    · simp only [if_neg hneg] at h5 hc ⊢
      omega

theorem vertical_share_step (g : Blm) (hg : g.WF) (cur : Pos) (r : Req)
    (hx : get_cell_index_x g cur.x = get_cell_index_x g r.x_end)
    (hy : get_cell_index_y g cur.y ≠ get_cell_index_y g r.y_end) (t : ℚ) (cyi : Int)
    (hinv : vertical_inv g cur r t cyi)
    (hc : cyi ≠ get_cell_index_y g r.y_end + down_Y cur r) :
    share_cell g (on_path cur r t)
      (on_path cur r (frac_Y cur r (mesh_index_to_Y_location g (cyi + dir_Y cur r)))) := by
  have hdy := setup_dy_ne_zero g cur r hy
  have hinv2 := vertical_inv_step g hg cur r hy t cyi hinv hc
  obtain ⟨h0, h1, h2, h3, h4, h5⟩ := hinv
  obtain ⟨k0, k1, _, _, _, _⟩ := hinv2
  have c1 := column_of_frac g hg cur r hx t h0 h1
  have c2 := column_of_frac g hg cur r hx _ k0 k1
  refine ⟨get_cell_index_x g r.x_end, cyi - down_Y cur r, ?_, ?_⟩
  · exact (in_closed_cell_on_path _ _ _ _ _ _).mpr ⟨c1.1, c1.2, h2, h3⟩
  · refine (in_closed_cell_on_path _ _ _ _ _ _).mpr ⟨c2.1, c2.2, ?_, ?_⟩
    · rw [frac_Y_mul cur r hdy]
      unfold dir_Y down_Y
      by_cases hneg : r.y_end - cur.y < 0
      · simp only [if_pos hneg]
        exact Y_location_mono g hg (by omega)
      · simp only [if_neg hneg]
        exact Y_location_mono g hg (by omega)
    · rw [frac_Y_mul cur r hdy]
      unfold dir_Y down_Y
      by_cases hneg : r.y_end - cur.y < 0
      · simp only [if_pos hneg]
        exact Y_location_mono g hg (by omega)
      · simp only [if_neg hneg]
        exact Y_location_mono g hg (by omega)

theorem vertical_share_final (g : Blm) (hg : g.WF) (cur : Pos) (r : Req)
    (hx : get_cell_index_x g cur.x = get_cell_index_x g r.x_end) (t : ℚ) (cyi : Int)
    (hinv : vertical_inv g cur r t cyi)
    (hc : cyi = get_cell_index_y g r.y_end + down_Y cur r) :
    share_cell g (on_path cur r t) (fin r.x_end, fin r.y_end) := by
  obtain ⟨h0, h1, h2, h3, h4, h5⟩ := hinv
  have c1 := column_of_frac g hg cur r hx t h0 h1
  refine ⟨get_cell_index_x g r.x_end, get_cell_index_y g r.y_end, ?_,
    dest_in_closed_cell g hg r⟩
  rw [hc] at h2 h3
  rw [show get_cell_index_y g r.y_end + down_Y cur r - down_Y cur r =
    get_cell_index_y g r.y_end by ring] at h2 h3
  exact (in_closed_cell_on_path _ _ _ _ _ _).mpr ⟨c1.1, c1.2, h2, h3⟩

/-- Containment along the single-column loop and its final leg. -/
theorem vertical_loop_chain (g : Blm) (hg : g.WF) (cur : Pos) (r : Req)
    (hx : get_cell_index_x g cur.x = get_cell_index_x g r.x_end)
    (hy : get_cell_index_y g cur.y ≠ get_cell_index_y g r.y_end) (cxi : Int) :
    ∀ (fuel : Nat) (cyi : Int) (evs : List Event) (t : ℚ),
      vertical_loop g r (setup g cur r) cxi fuel cyi = some evs →
      vertical_inv g cur r t cyi →
      List.Chain (share_cell g) (on_path cur r t)
        (endpoints evs ++ [(fin r.x_end, fin r.y_end)]) := by
  have hdy := setup_dy_ne_zero g cur r hy
  have htarget : (setup g cur r).cell_dest_yi + (setup g cur r).down_flag =
      get_cell_index_y g r.y_end + down_Y cur r := rfl
  have hdone : ∀ (fuel : Nat) (cyi : Int) (evs : List Event) (t : ℚ),
      vertical_loop g r (setup g cur r) cxi fuel cyi = some evs →
      vertical_inv g cur r t cyi → cyi = get_cell_index_y g r.y_end + down_Y cur r →
      List.Chain (share_cell g) (on_path cur r t)
        (endpoints evs ++ [(fin r.x_end, fin r.y_end)]) := by
    intro fuel cyi evs t h hinv hc
    rw [vertical_loop_done g r _ cxi fuel cyi evs hc h]
    exact List.Chain.cons (vertical_share_final g hg cur r hx t cyi hinv hc) List.Chain.nil
  intro fuel
  induction fuel with
  | zero =>
    intro cyi evs t h hinv
    exact hdone 0 cyi evs t h hinv (vertical_loop_zero g r _ cxi cyi evs h)
  | succ f ih =>
    intro cyi evs t h hinv
    by_cases hc : cyi = get_cell_index_y g r.y_end + down_Y cur r
    · exact hdone _ cyi evs t h hinv hc
    · obtain ⟨rest, h1, h2⟩ := vertical_loop_succ_some g r _ cxi f cyi evs hc h
      rw [setup_dyi_eq_dir g cur r hy] at h1 h2
      have hinv2 := vertical_inv_step g hg cur r hy t cyi hinv hc
      have hshare := vertical_share_step g hg cur r hx hy t cyi hinv hc
      have hrest := ih _ rest _ h1 hinv2
      rw [h2, endpoints_append, endpoints_vertical_step g cur r hy]
      by_cases hp : mesh_index_to_Y_location g (cyi + dir_Y cur r) ≠ cur.y
      · rw [if_pos hp]
        exact List.Chain.cons hshare hrest
      · rw [if_neg hp]
        have hp2 : mesh_index_to_Y_location g (cyi + dir_Y cur r) = cur.y := not_not.mp hp
        have ht0 : frac_Y cur r (mesh_index_to_Y_location g (cyi + dir_Y cur r)) = 0 := by
          unfold frac_Y
          rw [hp2, sub_self, zero_div]
        have ht : t = 0 := le_antisymm (by rw [← ht0]; exact hinv.2.2.2.2.1) hinv.1
        rw [ht0] at hrest
        rw [ht]
        exact hrest

/-! ## Containment in the single-row loop -/

/-- The endpoint emitted by a pass of the single-row loop is the point of the path on the
mesh line of the pass; nothing is emitted when that line is the start X. -/
theorem endpoints_horizontal_step (g : Blm) (cur : Pos) (r : Req)
    (hx : get_cell_index_x g cur.x ≠ get_cell_index_x g r.x_end) (cxi cyi : Int) :
    endpoints (horizontal_step g r (setup g cur r) cxi cyi) =
      if mesh_index_to_X_location g cxi ≠ cur.x then
        [on_path cur r (frac_X cur r (mesh_index_to_X_location g cxi))]
      else [] := by
  have hdx := setup_dx_ne_zero g cur r hx
  have h1 : (setup g cur r).x_start = cur.x := rfl
  unfold endpoints
  rw [sub_moves_horizontal_step, h1]
  split
  · simp only [List.map_cons, List.map_nil, y_at_X_line g cur r hdx, on_path,
      frac_X_mul cur r hdx]
  · rfl

theorem horizontal_inv_init (g : Blm) (hg : g.WF) (cur : Pos) (r : Req)
    (hx : get_cell_index_x g cur.x ≠ get_cell_index_x g r.x_end) :
    horizontal_inv g cur r 0 (get_cell_index_x g cur.x + left_X cur r) := by
  have hdx := setup_dx_ne_zero g cur r hx
  have a1 := X_location_cell_le g hg cur.x
  have a2 := (X_location_cell_succ_gt g hg cur.x).le
  unfold horizontal_inv left_X dir_X frac_X
  by_cases hneg : r.x_end - cur.x < 0
  · have hlt : get_cell_index_x g r.x_end < get_cell_index_x g cur.x :=
      dest_xi_lt_of_left g hg cur r hx hneg
    simp only [if_pos hneg, zero_mul, add_zero]
    refine ⟨le_refl _, by norm_num, ?_, ?_, ?_, by omega⟩
    · rw [show get_cell_index_x g cur.x + 1 - 1 = get_cell_index_x g cur.x by ring]
      exact a1
    · rw [show get_cell_index_x g cur.x + 1 - 1 + 1 = get_cell_index_x g cur.x + 1 by ring]
      exact a2
    · rw [show get_cell_index_x g cur.x + 1 + -1 = get_cell_index_x g cur.x by ring]
      exact div_nonneg_of_nonpos (by linarith) hneg.le
  · have hpos : 0 < r.x_end - cur.x := lt_of_le_of_ne (not_lt.mp hneg) (Ne.symm hdx)
    have hlt : get_cell_index_x g cur.x < get_cell_index_x g r.x_end :=
      start_xi_lt_of_right g hg cur r hx hneg
    simp only [if_neg hneg, zero_mul, add_zero, sub_zero]
    refine ⟨le_refl _, by norm_num, a1, a2, ?_, by omega⟩
    exact div_nonneg (by linarith) hpos.le

theorem horizontal_inv_step (g : Blm) (hg : g.WF) (cur : Pos) (r : Req)
    (hx : get_cell_index_x g cur.x ≠ get_cell_index_x g r.x_end) (t : ℚ) (cxi : Int)
    (hinv : horizontal_inv g cur r t cxi)
    (hc : cxi ≠ get_cell_index_x g r.x_end + left_X cur r) :
    horizontal_inv g cur r (frac_X cur r (mesh_index_to_X_location g (cxi + dir_X cur r)))
      (cxi + dir_X cur r) := by
  have hdx := setup_dx_ne_zero g cur r hx
  obtain ⟨h0, h1, h2, h3, h4, h5⟩ := hinv
  have hstep := frac_X_step g hg cur r hdx (cxi + dir_X cur r)
  have b1 := X_location_cell_le g hg r.x_end
  have b2 := X_location_cell_succ_gt g hg r.x_end
  refine ⟨le_trans h0 h4, ?_, ?_, ?_, hstep.le, ?_⟩
  · unfold frac_X
    unfold dir_X left_X at *
    by_cases hneg : r.x_end - cur.x < 0
    · simp only [if_pos hneg] at h5 hc ⊢
      rw [div_le_one_of_neg hneg]
      have := X_location_mono g hg (show get_cell_index_x g r.x_end + 1 ≤ cxi + -1 by omega)
      linarith
    · have hpos : 0 < r.x_end - cur.x := lt_of_le_of_ne (not_lt.mp hneg) (Ne.symm hdx)
      simp only [if_neg hneg] at h5 hc ⊢
      rw [div_le_one hpos]
      have := X_location_mono g hg (show cxi + 1 ≤ get_cell_index_x g r.x_end by omega)
      linarith
  · rw [frac_X_mul cur r hdx]
    unfold dir_X left_X
    by_cases hneg : r.x_end - cur.x < 0
    · simp only [if_pos hneg]
      exact X_location_mono g hg (by omega)
    · simp only [if_neg hneg]
      exact X_location_mono g hg (by omega)
  · rw [frac_X_mul cur r hdx]
    unfold dir_X left_X
    by_cases hneg : r.x_end - cur.x < 0
    · simp only [if_pos hneg]
      exact X_location_mono g hg (by omega)
    · simp only [if_neg hneg]
      exact X_location_mono g hg (by omega)
  · unfold dir_X left_X at *
    by_cases hneg : r.x_end - cur.x < 0
    · simp only [if_pos hneg] at h5 hc ⊢
      omega
    · simp only [if_neg hneg] at h5 hc ⊢
      omega

theorem horizontal_share_step (g : Blm) (hg : g.WF) (cur : Pos) (r : Req)
    (hx : get_cell_index_x g cur.x ≠ get_cell_index_x g r.x_end)
    (hy : get_cell_index_y g cur.y = get_cell_index_y g r.y_end) (t : ℚ) (cxi : Int)
    (hinv : horizontal_inv g cur r t cxi)
    (hc : cxi ≠ get_cell_index_x g r.x_end + left_X cur r) :
    share_cell g (on_path cur r t)
      (on_path cur r (frac_X cur r (mesh_index_to_X_location g (cxi + dir_X cur r)))) := by
  have hdx := setup_dx_ne_zero g cur r hx
  have hinv2 := horizontal_inv_step g hg cur r hx t cxi hinv hc
  obtain ⟨h0, h1, h2, h3, h4, h5⟩ := hinv
  obtain ⟨k0, k1, _, _, _, _⟩ := hinv2
  have c1 := row_of_frac g hg cur r hy t h0 h1
  have c2 := row_of_frac g hg cur r hy _ k0 k1
  refine ⟨cxi - left_X cur r, get_cell_index_y g r.y_end, ?_, ?_⟩
  · exact (in_closed_cell_on_path _ _ _ _ _ _).mpr ⟨h2, h3, c1.1, c1.2⟩
  · refine (in_closed_cell_on_path _ _ _ _ _ _).mpr ⟨?_, ?_, c2.1, c2.2⟩
    · rw [frac_X_mul cur r hdx]
      unfold dir_X left_X
      by_cases hneg : r.x_end - cur.x < 0
      · simp only [if_pos hneg]
        exact X_location_mono g hg (by omega)
      · simp only [if_neg hneg]
        exact X_location_mono g hg (by omega)
    · rw [frac_X_mul cur r hdx]
      unfold dir_X left_X
      by_cases hneg : r.x_end - cur.x < 0
      · simp only [if_pos hneg]
        exact X_location_mono g hg (by omega)
      · simp only [if_neg hneg]
        exact X_location_mono g hg (by omega)

theorem horizontal_share_final (g : Blm) (hg : g.WF) (cur : Pos) (r : Req)
    (hy : get_cell_index_y g cur.y = get_cell_index_y g r.y_end) (t : ℚ) (cxi : Int)
    (hinv : horizontal_inv g cur r t cxi)
    (hc : cxi = get_cell_index_x g r.x_end + left_X cur r) :
    share_cell g (on_path cur r t) (fin r.x_end, fin r.y_end) := by
  obtain ⟨h0, h1, h2, h3, h4, h5⟩ := hinv
  have c1 := row_of_frac g hg cur r hy t h0 h1
  refine ⟨get_cell_index_x g r.x_end, get_cell_index_y g r.y_end, ?_,
    dest_in_closed_cell g hg r⟩
  rw [hc] at h2 h3
  rw [show get_cell_index_x g r.x_end + left_X cur r - left_X cur r =
    get_cell_index_x g r.x_end by ring] at h2 h3
  exact (in_closed_cell_on_path _ _ _ _ _ _).mpr ⟨h2, h3, c1.1, c1.2⟩

/-- Containment along the single-row loop and its final leg. -/
theorem horizontal_loop_chain (g : Blm) (hg : g.WF) (cur : Pos) (r : Req)
    (hx : get_cell_index_x g cur.x ≠ get_cell_index_x g r.x_end)
    (hy : get_cell_index_y g cur.y = get_cell_index_y g r.y_end) (cyi : Int) :
    ∀ (fuel : Nat) (cxi : Int) (evs : List Event) (t : ℚ),
      horizontal_loop g r (setup g cur r) cyi fuel cxi = some evs →
      horizontal_inv g cur r t cxi →
      List.Chain (share_cell g) (on_path cur r t)
        (endpoints evs ++ [(fin r.x_end, fin r.y_end)]) := by
  have hdx := setup_dx_ne_zero g cur r hx
  have hdone : ∀ (fuel : Nat) (cxi : Int) (evs : List Event) (t : ℚ),
      horizontal_loop g r (setup g cur r) cyi fuel cxi = some evs →
      horizontal_inv g cur r t cxi → cxi = get_cell_index_x g r.x_end + left_X cur r →
      List.Chain (share_cell g) (on_path cur r t)
        (endpoints evs ++ [(fin r.x_end, fin r.y_end)]) := by
    intro fuel cxi evs t h hinv hc
    rw [horizontal_loop_done g r _ cyi fuel cxi evs hc h]
    exact List.Chain.cons (horizontal_share_final g hg cur r hy t cxi hinv hc) List.Chain.nil
  intro fuel
  induction fuel with
  | zero =>
    intro cxi evs t h hinv
    exact hdone 0 cxi evs t h hinv (horizontal_loop_zero g r _ cyi cxi evs h)
  | succ f ih =>
    intro cxi evs t h hinv
    by_cases hc : cxi = get_cell_index_x g r.x_end + left_X cur r
    · exact hdone _ cxi evs t h hinv hc
    · obtain ⟨rest, h1, h2⟩ := horizontal_loop_succ_some g r _ cyi f cxi evs hc h
      rw [setup_dxi_eq_dir g cur r hx] at h1 h2
      have hinv2 := horizontal_inv_step g hg cur r hx t cxi hinv hc
      have hshare := horizontal_share_step g hg cur r hx hy t cxi hinv hc
      have hrest := ih _ rest _ h1 hinv2
      rw [h2, endpoints_append, endpoints_horizontal_step g cur r hx]
      by_cases hp : mesh_index_to_X_location g (cxi + dir_X cur r) ≠ cur.x
      · rw [if_pos hp]
        exact List.Chain.cons hshare hrest
      · rw [if_neg hp]
        have hp2 : mesh_index_to_X_location g (cxi + dir_X cur r) = cur.x := not_not.mp hp
        have ht0 : frac_X cur r (mesh_index_to_X_location g (cxi + dir_X cur r)) = 0 := by
          unfold frac_X
          rw [hp2, sub_self, zero_div]
        have ht : t = 0 := le_antisymm (by rw [← ht0]; exact hinv.2.2.2.2.1) hinv.1
        rw [ht0] at hrest
        rw [ht]
        exact hrest

/-! ## Containment in the general loop -/

theorem general_loop_succ_some (g : Blm) (r : Req) (L : Locals) (fuel : Nat)
    (cxi cyi xc yc : Int) (evs : List Event) (hc : xc > 0 ∨ yc > 0)
    (h : general_loop g r L (fuel + 1) cxi cyi xc yc = some evs) :
    (hits_Y_line_first L ((fin (mesh_index_to_Y_location g (cyi + L.dyi)) - L.c) / L.m)
        (mesh_index_to_X_location g (cxi + L.dxi)) = true ∧
      ∃ rest, general_loop g r L fuel cxi (cyi + L.dyi) xc (yc - 1) = some rest ∧
        evs = [Event.read_X (cxi + L.dxi), Event.read_Y (cyi + L.dyi)] ++
          cross_Y_line g r L cxi cyi ++ rest) ∨
    (¬ hits_Y_line_first L ((fin (mesh_index_to_Y_location g (cyi + L.dyi)) - L.c) / L.m)
        (mesh_index_to_X_location g (cxi + L.dxi)) = true ∧
      ∃ rest, general_loop g r L fuel (cxi + L.dxi) cyi (xc - 1) yc = some rest ∧
        evs = [Event.read_X (cxi + L.dxi), Event.read_Y (cyi + L.dyi)] ++
          cross_X_line g r L cxi cyi ++ rest) := by
  simp only [general_loop, if_pos hc] at h
  split at h
  · rename_i hh
    simp only [Option.map_eq_some'] at h
    obtain ⟨rest, h1, h2⟩ := h
    exact Or.inl ⟨hh, rest, h1, h2.symm⟩
  · rename_i hh
    simp only [Option.map_eq_some'] at h
    obtain ⟨rest, h1, h2⟩ := h
    exact Or.inr ⟨hh, rest, h1, h2.symm⟩

theorem general_loop_zero (g : Blm) (r : Req) (L : Locals) (cxi cyi xc yc : Int)
    (evs : List Event) (h : general_loop g r L 0 cxi cyi xc yc = some evs) :
    ¬ (xc > 0 ∨ yc > 0) := by
  intro hc
  simp [general_loop, hc] at h

theorem general_loop_done (g : Blm) (r : Req) (L : Locals) (fuel : Nat) (cxi cyi xc yc : Int)
    (evs : List Event) (hc : ¬ (xc > 0 ∨ yc > 0))
    (h : general_loop g r L fuel cxi cyi xc yc = some evs) : evs = [] := by
  rw [general_loop_stop g r L fuel cxi cyi xc yc hc] at h
  injection h with h
  exact h.symm

theorem endpoints_cross_Y_line (g : Blm) (cur : Pos) (r : Req)
    (hx : get_cell_index_x g cur.x ≠ get_cell_index_x g r.x_end)
    (hy : get_cell_index_y g cur.y ≠ get_cell_index_y g r.y_end) (cxi cyi : Int) :
    endpoints ([Event.read_X (cxi + dir_X cur r), Event.read_Y (cyi + dir_Y cur r)] ++
        cross_Y_line g r (setup g cur r) cxi cyi) =
      [on_path cur r (frac_Y cur r (mesh_index_to_Y_location g (cyi + dir_Y cur r)))] := by
  have hdx := setup_dx_ne_zero g cur r hx
  have hdy := setup_dy_ne_zero g cur r hy
  unfold endpoints
  simp only [sub_moves_append, sub_moves_read_X, sub_moves_read_Y, sub_moves_nil,
    List.nil_append, sub_moves_cross_Y_line, List.map_cons, List.map_nil,
    x_at_Y_line g cur r hdx hdy, setup_dyi_eq_dir g cur r hy, on_path, frac_Y_mul cur r hdy]

theorem endpoints_cross_X_line (g : Blm) (cur : Pos) (r : Req)
    (hx : get_cell_index_x g cur.x ≠ get_cell_index_x g r.x_end) (cxi cyi : Int) :
    endpoints ([Event.read_X (cxi + dir_X cur r), Event.read_Y (cyi + dir_Y cur r)] ++
        cross_X_line g r (setup g cur r) cxi cyi) =
      [on_path cur r (frac_X cur r (mesh_index_to_X_location g (cxi + dir_X cur r)))] := by
  have hdx := setup_dx_ne_zero g cur r hx
  unfold endpoints
  simp only [sub_moves_append, sub_moves_read_X, sub_moves_read_Y, sub_moves_nil,
    List.nil_append, sub_moves_cross_X_line, List.map_cons, List.map_nil,
    y_at_X_line g cur r hdx, setup_dxi_eq_dir g cur r hx, on_path, frac_X_mul cur r hdx]

/-- The next X mesh line bounds the closed column of the current cell. -/
theorem next_X_line_in_column (g : Blm) (hg : g.WF) (cur : Pos) (r : Req) (cxi : Int) :
    mesh_index_to_X_location g (cxi - left_X cur r) ≤
        mesh_index_to_X_location g (cxi + dir_X cur r) ∧
      mesh_index_to_X_location g (cxi + dir_X cur r) ≤
        mesh_index_to_X_location g (cxi - left_X cur r + 1) := by
  unfold dir_X left_X
  by_cases hneg : r.x_end - cur.x < 0
  · simp only [if_pos hneg]
    exact ⟨X_location_mono g hg (by omega), X_location_mono g hg (by omega)⟩
  · simp only [if_neg hneg]
    exact ⟨X_location_mono g hg (by omega), X_location_mono g hg (by omega)⟩

/-- The next Y mesh line bounds the closed row of the current cell. -/
theorem next_Y_line_in_row (g : Blm) (hg : g.WF) (cur : Pos) (r : Req) (cyi : Int) :
    mesh_index_to_Y_location g (cyi - down_Y cur r) ≤
        mesh_index_to_Y_location g (cyi + dir_Y cur r) ∧
      mesh_index_to_Y_location g (cyi + dir_Y cur r) ≤
        mesh_index_to_Y_location g (cyi - down_Y cur r + 1) := by
  unfold dir_Y down_Y
  by_cases hneg : r.y_end - cur.y < 0
  · simp only [if_pos hneg]
    exact ⟨Y_location_mono g hg (by omega), Y_location_mono g hg (by omega)⟩
  · simp only [if_neg hneg]
    exact ⟨Y_location_mono g hg (by omega), Y_location_mono g hg (by omega)⟩

/-- The mesh line just crossed bounds the closed column of the cell entered. -/
theorem crossed_X_line_in_column (g : Blm) (hg : g.WF) (cur : Pos) (r : Req) (cxi : Int) :
    mesh_index_to_X_location g (cxi + dir_X cur r - left_X cur r) ≤
        mesh_index_to_X_location g (cxi + dir_X cur r) ∧
      mesh_index_to_X_location g (cxi + dir_X cur r) ≤
        mesh_index_to_X_location g (cxi + dir_X cur r - left_X cur r + 1) := by
  unfold dir_X left_X
  by_cases hneg : r.x_end - cur.x < 0
  · simp only [if_pos hneg]
    exact ⟨X_location_mono g hg (by omega), X_location_mono g hg (by omega)⟩
  · simp only [if_neg hneg]
    exact ⟨X_location_mono g hg (by omega), X_location_mono g hg (by omega)⟩

/-- The mesh line just crossed bounds the closed row of the cell entered. -/
theorem crossed_Y_line_in_row (g : Blm) (hg : g.WF) (cur : Pos) (r : Req) (cyi : Int) :
    mesh_index_to_Y_location g (cyi + dir_Y cur r - down_Y cur r) ≤
        mesh_index_to_Y_location g (cyi + dir_Y cur r) ∧
      mesh_index_to_Y_location g (cyi + dir_Y cur r) ≤
        mesh_index_to_Y_location g (cyi + dir_Y cur r - down_Y cur r + 1) := by
  unfold dir_Y down_Y
  by_cases hneg : r.y_end - cur.y < 0
  · simp only [if_pos hneg]
    exact ⟨Y_location_mono g hg (by omega), Y_location_mono g hg (by omega)⟩
  · simp only [if_neg hneg]
    exact ⟨Y_location_mono g hg (by omega), Y_location_mono g hg (by omega)⟩

theorem general_inv_init (g : Blm) (hg : g.WF) (cur : Pos) (r : Req)
    (hx : get_cell_index_x g cur.x ≠ get_cell_index_x g r.x_end)
    (hy : get_cell_index_y g cur.y ≠ get_cell_index_y g r.y_end) :
    general_inv g cur r 0 (get_cell_index_x g cur.x + left_X cur r)
      (get_cell_index_y g cur.y + down_Y cur r)
      (if get_cell_index_x g cur.x - get_cell_index_x g r.x_end < 0
        then -(get_cell_index_x g cur.x - get_cell_index_x g r.x_end)
        else get_cell_index_x g cur.x - get_cell_index_x g r.x_end)
      (if get_cell_index_y g cur.y - get_cell_index_y g r.y_end < 0
        then -(get_cell_index_y g cur.y - get_cell_index_y g r.y_end)
        else get_cell_index_y g cur.y - get_cell_index_y g r.y_end) := by
  have hdx := setup_dx_ne_zero g cur r hx
  have hdy := setup_dy_ne_zero g cur r hy
  have hv := vertical_inv_init g hg cur r hy
  have hh := horizontal_inv_init g hg cur r hx
  obtain ⟨_, _, v2, v3, v4, _⟩ := hv
  obtain ⟨_, _, w2, w3, w4, _⟩ := hh
  have hxlt := dest_xi_lt_of_left g hg cur r hx
  have hxgt := start_xi_lt_of_right g hg cur r hx
  have hylt := dest_yi_lt_of_down g hg cur r hy
  have hygt := start_yi_lt_of_up g hg cur r hy
  have e1 : (setup g cur r).cell_start_xi = get_cell_index_x g cur.x := rfl
  have e2 : (setup g cur r).cell_dest_xi = get_cell_index_x g r.x_end := rfl
  have e3 : (setup g cur r).cell_start_yi = get_cell_index_y g cur.y := rfl
  have e4 : (setup g cur r).cell_dest_yi = get_cell_index_y g r.y_end := rfl
  rw [e1, e2] at hxlt hxgt
  rw [e3, e4] at hylt hygt
  refine ⟨?_, ?_, ?_, ?_, ?_, w2, w3, v2, v3, w4, v4⟩
  · unfold next_xi dir_X left_X
    by_cases hneg : r.x_end - cur.x < 0
    · have := hxlt hneg
      simp only [if_pos hneg]
      split <;> omega
    · have := hxgt hneg
      simp only [if_neg hneg]
      split <;> omega
  · unfold next_yi dir_Y down_Y
    by_cases hneg : r.y_end - cur.y < 0
    · have := hylt hneg
      simp only [if_pos hneg]
      split <;> omega
    · have := hygt hneg
      simp only [if_neg hneg]
      split <;> omega
  · split <;> omega
  · split <;> omega
  · intro h
    exfalso
    split at h <;> omega

theorem next_xi_pred_dir (cur : Pos) (r : Req) (b xc : Int) :
    next_xi cur r b (xc - 1) = next_xi cur r b xc + dir_X cur r := by
  unfold next_xi dir_X
  split <;> omega

theorem next_yi_pred_dir (cur : Pos) (r : Req) (b yc : Int) :
    next_yi cur r b (yc - 1) = next_yi cur r b yc + dir_Y cur r := by
  unfold next_yi dir_Y
  split <;> omega

/-- A pass of the general loop through the branch "Crossing a Y Mesh Line next": the row
counter was positive, the invariant holds again at the crossing, and the point left and the
crossing share the current cell. -/
theorem general_step_Y (g : Blm) (hg : g.WF) (cur : Pos) (r : Req)
    (hx : get_cell_index_x g cur.x ≠ get_cell_index_x g r.x_end)
    (hy : get_cell_index_y g cur.y ≠ get_cell_index_y g r.y_end)
    (t : ℚ) (cxi cyi xc yc : Int) (hinv : general_inv g cur r t cxi cyi xc yc)
    (hc : xc > 0 ∨ yc > 0)
    (hlt : frac_Y cur r (mesh_index_to_Y_location g (cyi + dir_Y cur r)) <
      frac_X cur r (mesh_index_to_X_location g (cxi + dir_X cur r))) :
    1 ≤ yc ∧
      general_inv g cur r (frac_Y cur r (mesh_index_to_Y_location g (cyi + dir_Y cur r)))
        cxi (cyi + dir_Y cur r) xc (yc - 1) ∧
      share_cell g (on_path cur r t)
        (on_path cur r (frac_Y cur r (mesh_index_to_Y_location g (cyi + dir_Y cur r)))) := by
  have hdx := setup_dx_ne_zero g cur r hx
  have hdy := setup_dy_ne_zero g cur r hy
  obtain ⟨i1, i2, i3, i4, i5, i6, i7, i8, i9, i10, i11⟩ := hinv
  have hyc : 1 ≤ yc := by
    by_contra hn
    have hy0 : yc = 0 := by omega
    have hxc : 1 ≤ xc := by omega
    have a1 := frac_X_next_le_one g hg cur r hdx xc hxc
    have a2 := one_le_frac_Y_next g hg cur r hdy
    rw [i1, i2, hy0] at hlt
    linarith
  have hcol := between_of_frac cur.x (r.x_end - cur.x)
    (mesh_index_to_X_location g (cxi - left_X cur r))
    (mesh_index_to_X_location g (cxi - left_X cur r + 1)) t
    (frac_Y cur r (mesh_index_to_Y_location g (cyi + dir_Y cur r)))
    (frac_X cur r (mesh_index_to_X_location g (cxi + dir_X cur r))) i11 hlt.le ⟨i6, i7⟩
    (by rw [frac_X_mul cur r hdx]; exact next_X_line_in_column g hg cur r cxi)
  have hrow := next_Y_line_in_row g hg cur r cyi
  have hrow2 := crossed_Y_line_in_row g hg cur r cyi
  refine ⟨hyc, ⟨i1, ?_, i3, by omega, i5, hcol.1, hcol.2, ?_, ?_, hlt.le,
    (frac_Y_step g hg cur r hdy _).le⟩, ?_⟩
  · rw [next_yi_pred_dir, ← i2]
  · rw [frac_Y_mul cur r hdy]
    exact hrow2.1
  · rw [frac_Y_mul cur r hdy]
    exact hrow2.2
  · refine ⟨cxi - left_X cur r, cyi - down_Y cur r,
      (in_closed_cell_on_path _ _ _ _ _ _).mpr ⟨i6, i7, i8, i9⟩,
      (in_closed_cell_on_path _ _ _ _ _ _).mpr ⟨hcol.1, hcol.2, ?_, ?_⟩⟩
    · rw [frac_Y_mul cur r hdy]
      exact hrow.1
    · rw [frac_Y_mul cur r hdy]
      exact hrow.2

/-- A pass of the general loop through the branch "Crossing a X Mesh Line next": the column
counter was not negative, the invariant holds again at the crossing, and the point left and
the crossing share the current cell. -/
theorem general_step_X (g : Blm) (hg : g.WF) (cur : Pos) (r : Req)
    (hx : get_cell_index_x g cur.x ≠ get_cell_index_x g r.x_end)
    (hy : get_cell_index_y g cur.y ≠ get_cell_index_y g r.y_end)
    (t : ℚ) (cxi cyi xc yc : Int) (hinv : general_inv g cur r t cxi cyi xc yc)
    (hc : xc > 0 ∨ yc > 0)
    (hnlt : ¬ frac_Y cur r (mesh_index_to_Y_location g (cyi + dir_Y cur r)) <
      frac_X cur r (mesh_index_to_X_location g (cxi + dir_X cur r))) :
    0 ≤ xc ∧
      general_inv g cur r (frac_X cur r (mesh_index_to_X_location g (cxi + dir_X cur r)))
        (cxi + dir_X cur r) cyi (xc - 1) yc ∧
      share_cell g (on_path cur r t)
        (on_path cur r (frac_X cur r (mesh_index_to_X_location g (cxi + dir_X cur r)))) := by
  have hdx := setup_dx_ne_zero g cur r hx
  have hdy := setup_dy_ne_zero g cur r hy
  obtain ⟨i1, i2, i3, i4, i5, i6, i7, i8, i9, i10, i11⟩ := hinv
  have hle := not_lt.mp hnlt
  have hxc : 0 ≤ xc := by
    by_contra hn
    have hx0 : xc = -1 := by omega
    have hyc : 1 ≤ yc := by omega
    have a1 := one_lt_frac_X_next g hg cur r hdx
    have a2 := frac_Y_next_le_one g hg cur r hdy yc hyc
    rw [i1, i2, hx0] at hnlt
    exact hnlt (by linarith)
  have hrow := between_of_frac cur.y (r.y_end - cur.y)
    (mesh_index_to_Y_location g (cyi - down_Y cur r))
    (mesh_index_to_Y_location g (cyi - down_Y cur r + 1)) t
    (frac_X cur r (mesh_index_to_X_location g (cxi + dir_X cur r)))
    (frac_Y cur r (mesh_index_to_Y_location g (cyi + dir_Y cur r))) i10 hle ⟨i8, i9⟩
    (by rw [frac_Y_mul cur r hdy]; exact next_Y_line_in_row g hg cur r cyi)
  have hcol := next_X_line_in_column g hg cur r cxi
  have hcol2 := crossed_X_line_in_column g hg cur r cxi
  refine ⟨hxc, ⟨?_, i2, by omega, i4, ?_, ?_, ?_, hrow.1, hrow.2,
    (frac_X_step g hg cur r hdx _).le, hle⟩, ?_⟩
  · rw [next_xi_pred_dir, ← i1]
  · intro h1
    have hx0 : xc = 0 := by omega
    have hyc : 1 ≤ yc := by omega
    have a2 := frac_Y_next_le_one g hg cur r hdy yc hyc
    rw [i1, i2, hx0] at hle
    have a3 : frac_X cur r (mesh_index_to_X_location g
        (next_xi cur r (get_cell_index_x g r.x_end) 0)) ≤ 1 := le_trans hle a2
    unfold frac_X next_xi at a3
    by_cases hneg : r.x_end - cur.x < 0
    · rw [if_pos hneg, div_le_one_of_neg hneg, add_zero] at a3
      have b1 := X_location_cell_le g hg r.x_end
      exact ⟨hneg, by linarith⟩
    · exfalso
      have hpos : 0 < r.x_end - cur.x := lt_of_le_of_ne (not_lt.mp hneg) (Ne.symm hdx)
      rw [if_neg hneg, div_le_one hpos, sub_zero] at a3
      have b2 := X_location_cell_succ_gt g hg r.x_end
      linarith
  · rw [frac_X_mul cur r hdx]
    exact hcol2.1
  · rw [frac_X_mul cur r hdx]
    exact hcol2.2
  · refine ⟨cxi - left_X cur r, cyi - down_Y cur r,
      (in_closed_cell_on_path _ _ _ _ _ _).mpr ⟨i6, i7, i8, i9⟩,
      (in_closed_cell_on_path _ _ _ _ _ _).mpr ⟨?_, ?_, hrow.1, hrow.2⟩⟩
    · rw [frac_X_mul cur r hdx]
      exact hcol.1
    · rw [frac_X_mul cur r hdx]
      exact hcol.2

/-- When the general loop stops, the point reached and the destination share the current
cell. -/
theorem general_share_final (g : Blm) (hg : g.WF) (cur : Pos) (r : Req)
    (t : ℚ) (cxi cyi xc yc : Int) (hinv : general_inv g cur r t cxi cyi xc yc)
    (hc : ¬ (xc > 0 ∨ yc > 0)) :
    share_cell g (on_path cur r t) (fin r.x_end, fin r.y_end) := by
  obtain ⟨i1, i2, i3, i4, i5, i6, i7, i8, i9, i10, i11⟩ := hinv
  have hy0 : yc = 0 := by omega
  have b1 := X_location_cell_le g hg r.x_end
  have b2 := (X_location_cell_succ_gt g hg r.x_end).le
  have b3 := Y_location_cell_le g hg r.y_end
  have b4 := (Y_location_cell_succ_gt g hg r.y_end).le
  have hrow : cyi - down_Y cur r = get_cell_index_y g r.y_end := by
    rw [hy0] at i2
    unfold next_yi dir_Y at i2
    unfold down_Y
    by_cases hneg : r.y_end - cur.y < 0
    · simp only [if_pos hneg] at i2 ⊢
      omega
    · simp only [if_neg hneg] at i2 ⊢
      omega
  refine ⟨cxi - left_X cur r, cyi - down_Y cur r,
    (in_closed_cell_on_path _ _ _ _ _ _).mpr ⟨i6, i7, i8, i9⟩, ?_⟩
  rw [hrow]
  by_cases hx0 : xc = 0
  · have hcol : cxi - left_X cur r = get_cell_index_x g r.x_end := by
      rw [hx0] at i1
      unfold next_xi dir_X at i1
      unfold left_X
      by_cases hneg : r.x_end - cur.x < 0
      · simp only [if_pos hneg] at i1 ⊢
        omega
      · simp only [if_neg hneg] at i1 ⊢
        omega
    rw [hcol]
    exact dest_in_closed_cell g hg r
  · have hx1 : xc = -1 := by omega
    obtain ⟨hneg, hline⟩ := i5 hx1
    have hcol : cxi - left_X cur r = get_cell_index_x g r.x_end - 1 := by
      rw [hx1] at i1
      unfold next_xi dir_X at i1
      unfold left_X
      simp only [if_pos hneg] at i1 ⊢
      omega
    rw [hcol]
    refine ⟨?_, ?_, b3, b4⟩
    · have := X_location_mono g hg
        (show get_cell_index_x g r.x_end - 1 ≤ get_cell_index_x g r.x_end by omega)
      linarith
    · rw [show get_cell_index_x g r.x_end - 1 + 1 = get_cell_index_x g r.x_end by ring]
      exact hline.ge

/-- Containment along the general loop and its final leg. -/
theorem general_loop_chain (g : Blm) (hg : g.WF) (cur : Pos) (r : Req)
    (hx : get_cell_index_x g cur.x ≠ get_cell_index_x g r.x_end)
    (hy : get_cell_index_y g cur.y ≠ get_cell_index_y g r.y_end) :
    ∀ (fuel : Nat) (cxi cyi xc yc : Int) (evs : List Event) (t : ℚ),
      general_loop g r (setup g cur r) fuel cxi cyi xc yc = some evs →
      general_inv g cur r t cxi cyi xc yc →
      List.Chain (share_cell g) (on_path cur r t)
        (endpoints evs ++ [(fin r.x_end, fin r.y_end)]) := by
  have hdx := setup_dx_ne_zero g cur r hx
  have hdy := setup_dy_ne_zero g cur r hy
  have hdone : ∀ (fuel : Nat) (cxi cyi xc yc : Int) (evs : List Event) (t : ℚ),
      general_loop g r (setup g cur r) fuel cxi cyi xc yc = some evs →
      general_inv g cur r t cxi cyi xc yc → ¬ (xc > 0 ∨ yc > 0) →
      List.Chain (share_cell g) (on_path cur r t)
        (endpoints evs ++ [(fin r.x_end, fin r.y_end)]) := by
    intro fuel cxi cyi xc yc evs t h hinv hc
    rw [general_loop_done g r _ fuel cxi cyi xc yc evs hc h]
    exact List.Chain.cons (general_share_final g hg cur r t cxi cyi xc yc hinv hc)
      List.Chain.nil
  intro fuel
  induction fuel with
  | zero =>
    intro cxi cyi xc yc evs t h hinv
    exact hdone 0 cxi cyi xc yc evs t h hinv (general_loop_zero g r _ cxi cyi xc yc evs h)
  | succ f ih =>
    intro cxi cyi xc yc evs t h hinv
    by_cases hc : xc > 0 ∨ yc > 0
    · rcases general_loop_succ_some g r _ f cxi cyi xc yc evs hc h with
        ⟨hh, rest, h1, h2⟩ | ⟨hh, rest, h1, h2⟩
      · rw [setup_dxi_eq_dir g cur r hx, setup_dyi_eq_dir g cur r hy] at hh h2
        rw [setup_dyi_eq_dir g cur r hy] at h1
        have hlt := (hits_Y_line_first_iff g cur r hdx hdy _ _).mp hh
        obtain ⟨_, hinv2, hshare⟩ := general_step_Y g hg cur r hx hy t cxi cyi xc yc hinv hc hlt
        rw [h2, endpoints_append, endpoints_cross_Y_line g cur r hx hy]
        exact List.Chain.cons hshare (ih _ _ _ _ rest _ h1 hinv2)
      · rw [setup_dxi_eq_dir g cur r hx, setup_dyi_eq_dir g cur r hy] at hh h2
        rw [setup_dxi_eq_dir g cur r hx] at h1
        have hnlt : ¬ _ := fun e => hh ((hits_Y_line_first_iff g cur r hdx hdy _ _).mpr e)
        obtain ⟨_, hinv2, hshare⟩ := general_step_X g hg cur r hx hy t cxi cyi xc yc hinv hc hnlt
        rw [h2, endpoints_append, endpoints_cross_X_line g cur r hx]
        exact List.Chain.cons hshare (ih _ _ _ _ rest _ h1 hinv2)
    · exact hdone _ cxi cyi xc yc evs t h hinv hc

/-! ## Claim C12 -/

/-- C12: on a grid of positive pitch a run with enough fuel returns, and in the sequence made
of the start position followed by the endpoints of the emitted sub-moves, every two
consecutive points lie within one common closed cell
`[lineX(i), lineX(i+1)] x [lineY(j), lineY(j+1)]`, for some integers `i` and `j`. -/
theorem C12_sub_moves_stay_in_one_cell (g : Blm) (hg : g.WF) (cur : Pos) (r : Req)
    (fuel : Nat) (hf : enough_fuel g cur r ≤ fuel) :
    ∃ evs, mesh_buffer_line g cur r fuel = some evs ∧
      List.Chain (share_cell g) (fin cur.x, fin cur.y) (endpoints evs) := by
  obtain ⟨evs, he⟩ := mesh_buffer_line_some g hg cur r fuel hf
  refine ⟨evs, he, ?_⟩
  by_cases hs : same_cell g cur r
  · have hshare : share_cell g (fin cur.x, fin cur.y) (fin r.x_end, fin r.y_end) := by
      refine ⟨get_cell_index_x g r.x_end, get_cell_index_y g r.y_end, ?_,
        dest_in_closed_cell g hg r⟩
      have h := start_in_closed_cell g hg cur
      rw [hs.1, hs.2] at h
      exact h
    by_cases ho : dest_off_grid g r
    · rw [mesh_buffer_line_same_cell_off_grid g cur r fuel hs ho] at he
      injection he with he
      rw [← he]
      exact List.Chain.cons hshare List.Chain.nil
    · rw [mesh_buffer_line_same_cell_on_grid g cur r fuel hs ho] at he
      injection he with he
      rw [← he, endpoints_FINAL_MOVE]
      exact List.Chain.cons hshare List.Chain.nil
  · have hs2 : ¬ ((setup g cur r).cell_start_xi = (setup g cur r).cell_dest_xi ∧
        (setup g cur r).cell_start_yi = (setup g cur r).cell_dest_yi) := hs
    rw [← on_path_zero cur r]
    by_cases hx : get_cell_index_x g cur.x = get_cell_index_x g r.x_end
    · have hy : get_cell_index_y g cur.y ≠ get_cell_index_y g r.y_end := fun e => hs ⟨hx, e⟩
      have hdxi := (setup_dxi_eq_zero_iff g cur r).mpr hx
      simp only [mesh_buffer_line, if_neg hs2, if_pos hdxi,
        finish_of_not_same_cell g cur r hs, Option.map_eq_some'] at he
      obtain ⟨pre, h1, h2⟩ := he
      rw [← h2, endpoints_append, endpoints_FINAL_MOVE]
      exact vertical_loop_chain g hg cur r hx hy _ fuel _ pre 0 h1
        (vertical_inv_init g hg cur r hy)
    · have hdxi : ¬ (setup g cur r).dxi = 0 :=
        fun e => hx ((setup_dxi_eq_zero_iff g cur r).mp e)
      by_cases hy : get_cell_index_y g cur.y = get_cell_index_y g r.y_end
      · have hdyi := (setup_dyi_eq_zero_iff g cur r).mpr hy
        simp only [mesh_buffer_line, if_neg hs2, if_neg hdxi, if_pos hdyi,
          finish_of_not_same_cell g cur r hs, Option.map_eq_some'] at he
        obtain ⟨pre, h1, h2⟩ := he
        rw [← h2, endpoints_append, endpoints_FINAL_MOVE]
        exact horizontal_loop_chain g hg cur r hx hy _ fuel _ pre 0 h1
          (horizontal_inv_init g hg cur r hx)
      · have hdyi : ¬ (setup g cur r).dyi = 0 :=
          fun e => hy ((setup_dyi_eq_zero_iff g cur r).mp e)
        simp only [mesh_buffer_line, if_neg hs2, if_neg hdxi, if_neg hdyi,
          finish_of_not_same_cell g cur r hs, Option.map_eq_some'] at he
        obtain ⟨pre, h1, h2⟩ := he
        rw [← h2, endpoints_append, endpoints_FINAL_MOVE]
        exact general_loop_chain g hg cur r hx hy fuel _ _ _ _ pre 0 h1
          (general_inv_init g hg cur r hx hy)

/-- C12, witness: the move from (25,5) to (10,10) on the scenario grid, heading left and up to
a grid corner, which crosses the lines `X = 20` and `X = 10` and `Y = 10`. -/
theorem C12_sub_moves_stay_in_one_cell_witness :
    (scenario_grid nan 1 0).WF ∧
      ∃ evs, mesh_buffer_line (scenario_grid nan 1 0) ⟨25, 5, 0, 0⟩
          ⟨10, 10, 1, 1, 100, 0⟩ 3 = some evs ∧
        List.Chain (share_cell (scenario_grid nan 1 0)) (fin 25, fin 5) (endpoints evs) :=
  ⟨by decide!, C12_sub_moves_stay_in_one_cell (scenario_grid nan 1 0) (by decide!)
    ⟨25, 5, 0, 0⟩ ⟨10, 10, 1, 1, 100, 0⟩ 3 (by decide!)⟩

/-! ## The passes of the single-column and single-row loops -/

@[simp] theorem mesh_lines_from_length (k step : Int) (n : Nat) :
    (mesh_lines_from k step n).length = n := by
  induction n generalizing k with
  | zero => rfl
  | succ n ih => simp [mesh_lines_from, ih]

/-- The single-column loop, started `n` steps away from its target, makes exactly `n` passes,
over the mesh lines after `current_yi` in the direction of travel. -/
theorem vertical_sites_eq (L : Locals) (cxi : Int) (hd : L.dyi ≠ 0) :
    ∀ (n fuel : Nat) (cyi : Int), cyi + L.dyi * n = L.cell_dest_yi + L.down_flag → n ≤ fuel →
      vertical_sites L cxi fuel cyi =
        some ((mesh_lines_from (cyi + L.dyi) L.dyi n).map (Site.vertical cxi)) := by
  intro n
  induction n with
  | zero =>
    intro fuel cyi h _
    have h0 : cyi = L.cell_dest_yi + L.down_flag := by simpa using h
    cases fuel <;> simp [vertical_sites, h0, mesh_lines_from]
  | succ n ih =>
    intro fuel cyi h hf
    obtain ⟨f, rfl⟩ : ∃ f, fuel = f + 1 := ⟨fuel - 1, by omega⟩
    have h0 : cyi ≠ L.cell_dest_yi + L.down_flag := by
      intro e
      rw [e] at h
      have h2 : L.dyi * ((n + 1 : Nat) : Int) = 0 := by linarith
      rcases mul_eq_zero.mp h2 with h3 | h3
      · exact hd h3
      · omega
    have h1 := ih f (cyi + L.dyi) (by push_cast at h ⊢; linarith) (by omega)
    simp only [vertical_sites, if_pos h0, h1, mesh_lines_from, Option.map_some', List.map_cons]

/-- With fewer units of fuel than passes to make, the single-column loop does not return. -/
theorem vertical_sites_none (L : Locals) (cxi : Int) (hd : L.dyi ≠ 0) :
    ∀ (n fuel : Nat) (cyi : Int), cyi + L.dyi * n = L.cell_dest_yi + L.down_flag → fuel < n →
      vertical_sites L cxi fuel cyi = none := by
  intro n
  induction n with
  | zero => intro fuel cyi _ hf; omega
  | succ n ih =>
    intro fuel cyi h hf
    have h0 : cyi ≠ L.cell_dest_yi + L.down_flag := by
      intro e
      rw [e] at h
      have h2 : L.dyi * ((n + 1 : Nat) : Int) = 0 := by linarith
      rcases mul_eq_zero.mp h2 with h3 | h3
      · exact hd h3
      · omega
    cases fuel with
    | zero => simp only [vertical_sites, if_pos h0]
    | succ f =>
      have h1 := ih f (cyi + L.dyi) (by push_cast at h ⊢; linarith) (by omega)
      simp only [vertical_sites, if_pos h0, h1, Option.map_none']

/-- The single-row loop, started `n` steps away from its target, makes exactly `n` passes. -/
theorem horizontal_sites_eq (L : Locals) (cyi : Int) (hd : L.dxi ≠ 0) :
    ∀ (n fuel : Nat) (cxi : Int), cxi + L.dxi * n = L.cell_dest_xi + L.left_flag → n ≤ fuel →
      horizontal_sites L cyi fuel cxi =
        some ((mesh_lines_from (cxi + L.dxi) L.dxi n).map (fun k => Site.horizontal k cyi)) := by
  intro n
  induction n with
  | zero =>
    intro fuel cxi h _
    have h0 : cxi = L.cell_dest_xi + L.left_flag := by simpa using h
    cases fuel <;> simp [horizontal_sites, h0, mesh_lines_from]
  | succ n ih =>
    intro fuel cxi h hf
    obtain ⟨f, rfl⟩ : ∃ f, fuel = f + 1 := ⟨fuel - 1, by omega⟩
    have h0 : cxi ≠ L.cell_dest_xi + L.left_flag := by
      intro e
      rw [e] at h
      have h2 : L.dxi * ((n + 1 : Nat) : Int) = 0 := by linarith
      rcases mul_eq_zero.mp h2 with h3 | h3
      · exact hd h3
      · omega
    have h1 := ih f (cxi + L.dxi) (by push_cast at h ⊢; linarith) (by omega)
    simp only [horizontal_sites, if_pos h0, h1, mesh_lines_from, Option.map_some',
      List.map_cons]

/-- With fewer units of fuel than passes to make, the single-row loop does not return. -/
theorem horizontal_sites_none (L : Locals) (cyi : Int) (hd : L.dxi ≠ 0) :
    ∀ (n fuel : Nat) (cxi : Int), cxi + L.dxi * n = L.cell_dest_xi + L.left_flag → fuel < n →
      horizontal_sites L cyi fuel cxi = none := by
  intro n
  induction n with
  | zero => intro fuel cxi _ hf; omega
  | succ n ih =>
    intro fuel cxi h hf
    have h0 : cxi ≠ L.cell_dest_xi + L.left_flag := by
      intro e
      rw [e] at h
      have h2 : L.dxi * ((n + 1 : Nat) : Int) = 0 := by linarith
      rcases mul_eq_zero.mp h2 with h3 | h3
      · exact hd h3
      · omega
    cases fuel with
    | zero => simp only [horizontal_sites, if_pos h0]
    | succ f =>
      have h1 := ih f (cxi + L.dxi) (by push_cast at h ⊢; linarith) (by omega)
      simp only [horizontal_sites, if_pos h0, h1, Option.map_none']

theorem setup_dyi_ne_zero (g : Blm) (cur : Pos) (r : Req)
    (hy : get_cell_index_y g cur.y ≠ get_cell_index_y g r.y_end) : (setup g cur r).dyi ≠ 0 :=
  fun e => hy ((setup_dyi_eq_zero_iff g cur r).mp e)

theorem setup_dxi_ne_zero (g : Blm) (cur : Pos) (r : Req)
    (hx : get_cell_index_x g cur.x ≠ get_cell_index_x g r.x_end) : (setup g cur r).dxi ≠ 0 :=
  fun e => hx ((setup_dxi_eq_zero_iff g cur r).mp e)

/-- The number of rows between start and destination, walked in the direction of travel,
leads from the start row to the destination row. -/
theorem rows_to_walk (g : Blm) (hg : g.WF) (cur : Pos) (r : Req)
    (hy : get_cell_index_y g cur.y ≠ get_cell_index_y g r.y_end) :
    get_cell_index_y g cur.y + down_Y cur r +
        dir_Y cur r * ((get_cell_index_y g cur.y - get_cell_index_y g r.y_end).natAbs : Int) =
      get_cell_index_y g r.y_end + down_Y cur r := by
  unfold dir_Y down_Y
  by_cases hneg : r.y_end - cur.y < 0
  · have : get_cell_index_y g r.y_end < get_cell_index_y g cur.y :=
      dest_yi_lt_of_down g hg cur r hy hneg
    rw [if_pos hneg, if_pos hneg]
    omega
  · have : get_cell_index_y g cur.y < get_cell_index_y g r.y_end :=
      start_yi_lt_of_up g hg cur r hy hneg
    rw [if_neg hneg, if_neg hneg]
    omega

/-- The number of columns between start and destination, walked in the direction of travel,
leads from the start column to the destination column. -/
theorem columns_to_walk (g : Blm) (hg : g.WF) (cur : Pos) (r : Req)
    (hx : get_cell_index_x g cur.x ≠ get_cell_index_x g r.x_end) :
    get_cell_index_x g cur.x + left_X cur r +
        dir_X cur r * ((get_cell_index_x g cur.x - get_cell_index_x g r.x_end).natAbs : Int) =
      get_cell_index_x g r.x_end + left_X cur r := by
  unfold dir_X left_X
  by_cases hneg : r.x_end - cur.x < 0
  · have : get_cell_index_x g r.x_end < get_cell_index_x g cur.x :=
      dest_xi_lt_of_left g hg cur r hx hneg
    rw [if_pos hneg, if_pos hneg]
    omega
  · have : get_cell_index_x g cur.x < get_cell_index_x g r.x_end :=
      start_xi_lt_of_right g hg cur r hx hneg
    rw [if_neg hneg, if_neg hneg]
    omega

/-- The sites of a single-column run: one pass for each Y mesh line between the start row and
the destination row, in the direction of travel, then the tail. -/
theorem single_column_sites (g : Blm) (hg : g.WF) (cur : Pos) (r : Req)
    (hx : get_cell_index_x g cur.x = get_cell_index_x g r.x_end)
    (hy : get_cell_index_y g cur.y ≠ get_cell_index_y g r.y_end) (fuel : Nat)
    (hf : (get_cell_index_y g cur.y - get_cell_index_y g r.y_end).natAbs ≤ fuel) :
    mesh_buffer_line_sites g cur r fuel =
      some ((mesh_lines_from (get_cell_index_y g cur.y + down_Y cur r + dir_Y cur r)
          (dir_Y cur r) (get_cell_index_y g cur.y - get_cell_index_y g r.y_end).natAbs).map
        (Site.vertical (get_cell_index_x g cur.x)) ++ [Site.finish]) := by
  have hs2 : ¬ ((setup g cur r).cell_start_xi = (setup g cur r).cell_dest_xi ∧
      (setup g cur r).cell_start_yi = (setup g cur r).cell_dest_yi) := fun h => hy h.2
  have hdxi := (setup_dxi_eq_zero_iff g cur r).mpr hx
  have hd := setup_dyi_ne_zero g cur r hy
  have hw := rows_to_walk g hg cur r hy
  rw [← setup_dyi_eq_dir g cur r hy] at hw ⊢
  have h := vertical_sites_eq (setup g cur r) (get_cell_index_x g cur.x) hd _ fuel
    (get_cell_index_y g cur.y + down_Y cur r) hw hf
  simp only [mesh_buffer_line_sites, if_neg hs2, if_pos hdxi]
  exact congrArg (Option.map (fun ss => ss ++ [Site.finish])) h

/-- A single-column run with fewer units of fuel than rows to walk does not return. -/
theorem single_column_none (g : Blm) (hg : g.WF) (cur : Pos) (r : Req)
    (hx : get_cell_index_x g cur.x = get_cell_index_x g r.x_end)
    (hy : get_cell_index_y g cur.y ≠ get_cell_index_y g r.y_end) (fuel : Nat)
    (hf : fuel < (get_cell_index_y g cur.y - get_cell_index_y g r.y_end).natAbs) :
    mesh_buffer_line g cur r fuel = none := by
  have hs2 : ¬ ((setup g cur r).cell_start_xi = (setup g cur r).cell_dest_xi ∧
      (setup g cur r).cell_start_yi = (setup g cur r).cell_dest_yi) := fun h => hy h.2
  have hdxi := (setup_dxi_eq_zero_iff g cur r).mpr hx
  have hd := setup_dyi_ne_zero g cur r hy
  have hw := rows_to_walk g hg cur r hy
  rw [← setup_dyi_eq_dir g cur r hy] at hw
  have h := vertical_sites_none (setup g cur r) (get_cell_index_x g cur.x) hd _ fuel
    (get_cell_index_y g cur.y + down_Y cur r) hw hf
  rw [mesh_buffer_line_eq_sites]
  simp only [mesh_buffer_line_sites, if_neg hs2, if_pos hdxi]
  have h2 := congrArg (Option.map (fun ss => ss ++ [Site.finish])) h
  have h3 : (vertical_sites (setup g cur r) (setup g cur r).cell_start_xi fuel
      ((setup g cur r).cell_start_yi + (setup g cur r).down_flag)).map
      (fun ss => ss ++ [Site.finish]) = none := h2
  rw [h3]
  rfl

/-- The sites of a single-row run: one pass for each X mesh line between the start column and
the destination column, in the direction of travel, then the tail. -/
theorem single_row_sites (g : Blm) (hg : g.WF) (cur : Pos) (r : Req)
    (hx : get_cell_index_x g cur.x ≠ get_cell_index_x g r.x_end)
    (hy : get_cell_index_y g cur.y = get_cell_index_y g r.y_end) (fuel : Nat)
    (hf : (get_cell_index_x g cur.x - get_cell_index_x g r.x_end).natAbs ≤ fuel) :
    mesh_buffer_line_sites g cur r fuel =
      some ((mesh_lines_from (get_cell_index_x g cur.x + left_X cur r + dir_X cur r)
          (dir_X cur r) (get_cell_index_x g cur.x - get_cell_index_x g r.x_end).natAbs).map
        (fun k => Site.horizontal k (get_cell_index_y g cur.y)) ++ [Site.finish]) := by
  have hs2 : ¬ ((setup g cur r).cell_start_xi = (setup g cur r).cell_dest_xi ∧
      (setup g cur r).cell_start_yi = (setup g cur r).cell_dest_yi) := fun h => hx h.1
  have hdxi := setup_dxi_ne_zero g cur r hx
  have hdyi := (setup_dyi_eq_zero_iff g cur r).mpr hy
  have hw := columns_to_walk g hg cur r hx
  rw [← setup_dxi_eq_dir g cur r hx] at hw ⊢
  have h := horizontal_sites_eq (setup g cur r) (get_cell_index_y g cur.y) hdxi _ fuel
    (get_cell_index_x g cur.x + left_X cur r) hw hf
  simp only [mesh_buffer_line_sites, if_neg hs2, if_neg hdxi, if_pos hdyi]
  exact congrArg (Option.map (fun ss => ss ++ [Site.finish])) h

/-- A single-row run with fewer units of fuel than columns to walk does not return. -/
theorem single_row_none (g : Blm) (hg : g.WF) (cur : Pos) (r : Req)
    (hx : get_cell_index_x g cur.x ≠ get_cell_index_x g r.x_end)
    (hy : get_cell_index_y g cur.y = get_cell_index_y g r.y_end) (fuel : Nat)
    (hf : fuel < (get_cell_index_x g cur.x - get_cell_index_x g r.x_end).natAbs) :
    mesh_buffer_line g cur r fuel = none := by
  have hs2 : ¬ ((setup g cur r).cell_start_xi = (setup g cur r).cell_dest_xi ∧
      (setup g cur r).cell_start_yi = (setup g cur r).cell_dest_yi) := fun h => hx h.1
  have hdxi := setup_dxi_ne_zero g cur r hx
  have hdyi := (setup_dyi_eq_zero_iff g cur r).mpr hy
  have hw := columns_to_walk g hg cur r hx
  rw [← setup_dxi_eq_dir g cur r hx] at hw
  have h := horizontal_sites_none (setup g cur r) (get_cell_index_y g cur.y) hdxi _ fuel
    (get_cell_index_x g cur.x + left_X cur r) hw hf
  rw [mesh_buffer_line_eq_sites]
  simp only [mesh_buffer_line_sites, if_neg hs2, if_neg hdxi, if_pos hdyi]
  have h2 := congrArg (Option.map (fun ss => ss ++ [Site.finish])) h
  have h3 : (horizontal_sites (setup g cur r) (setup g cur r).cell_start_yi fuel
      ((setup g cur r).cell_start_xi + (setup g cur r).left_flag)).map
      (fun ss => ss ++ [Site.finish]) = none := h2
  rw [h3]
  rfl

/-! ## Travel fractions of the emitted endpoints -/

/-- Along the single-column loop the emitted endpoints are points of the path whose travel
fractions do not decrease, from the fraction reached so far up to at most 1. -/
theorem vertical_loop_fracs (g : Blm) (hg : g.WF) (cur : Pos) (r : Req)
    (hy : get_cell_index_y g cur.y ≠ get_cell_index_y g r.y_end) (cxi : Int) :
    ∀ (fuel : Nat) (cyi : Int) (evs : List Event) (t : ℚ),
      vertical_loop g r (setup g cur r) cxi fuel cyi = some evs →
      vertical_inv g cur r t cyi →
      ∃ ts : List ℚ, endpoints evs = ts.map (on_path cur r) ∧ ts.Pairwise (· ≤ ·) ∧
        ∀ u ∈ ts, t ≤ u ∧ u ≤ 1 := by
  have hdone : ∀ (fuel : Nat) (cyi : Int) (evs : List Event),
      vertical_loop g r (setup g cur r) cxi fuel cyi = some evs →
      cyi = get_cell_index_y g r.y_end + down_Y cur r → evs = [] :=
    fun fuel cyi evs h hc => vertical_loop_done g r _ cxi fuel cyi evs hc h
  intro fuel
  induction fuel with
  | zero =>
    intro cyi evs t h _
    rw [hdone 0 cyi evs h (vertical_loop_zero g r _ cxi cyi evs h)]
    exact ⟨[], rfl, List.Pairwise.nil, by simp⟩
  | succ f ih =>
    intro cyi evs t h hinv
    by_cases hc : cyi = get_cell_index_y g r.y_end + down_Y cur r
    · rw [hdone _ cyi evs h hc]
      exact ⟨[], rfl, List.Pairwise.nil, by simp⟩
    · obtain ⟨rest, h1, h2⟩ := vertical_loop_succ_some g r _ cxi f cyi evs hc h
      rw [setup_dyi_eq_dir g cur r hy] at h1 h2
      have hinv2 := vertical_inv_step g hg cur r hy t cyi hinv hc
      have hle : t ≤ frac_Y cur r (mesh_index_to_Y_location g (cyi + dir_Y cur r)) :=
        hinv.2.2.2.2.1
      obtain ⟨ts, e1, e2, e3⟩ := ih _ rest _ h1 hinv2
      rw [h2, endpoints_append, endpoints_vertical_step g cur r hy]
      by_cases hp : mesh_index_to_Y_location g (cyi + dir_Y cur r) ≠ cur.y
      · rw [if_pos hp]
        refine ⟨frac_Y cur r (mesh_index_to_Y_location g (cyi + dir_Y cur r)) :: ts, ?_, ?_, ?_⟩
        · rw [e1]
          rfl
        · exact List.pairwise_cons.mpr ⟨fun u hu => (e3 u hu).1, e2⟩
        · intro u hu
          rcases List.mem_cons.mp hu with hu | hu
          · rw [hu]
            exact ⟨hle, hinv2.2.1⟩
          · exact ⟨le_trans hle (e3 u hu).1, (e3 u hu).2⟩
      · rw [if_neg hp]
        exact ⟨ts, by rw [e1]; rfl, e2, fun u hu => ⟨le_trans hle (e3 u hu).1, (e3 u hu).2⟩⟩

/-- The same along the single-row loop. -/
theorem horizontal_loop_fracs (g : Blm) (hg : g.WF) (cur : Pos) (r : Req)
    (hx : get_cell_index_x g cur.x ≠ get_cell_index_x g r.x_end) (cyi : Int) :
    ∀ (fuel : Nat) (cxi : Int) (evs : List Event) (t : ℚ),
      horizontal_loop g r (setup g cur r) cyi fuel cxi = some evs →
      horizontal_inv g cur r t cxi →
      ∃ ts : List ℚ, endpoints evs = ts.map (on_path cur r) ∧ ts.Pairwise (· ≤ ·) ∧
        ∀ u ∈ ts, t ≤ u ∧ u ≤ 1 := by
  have hdone : ∀ (fuel : Nat) (cxi : Int) (evs : List Event),
      horizontal_loop g r (setup g cur r) cyi fuel cxi = some evs →
      cxi = get_cell_index_x g r.x_end + left_X cur r → evs = [] :=
    fun fuel cxi evs h hc => horizontal_loop_done g r _ cyi fuel cxi evs hc h
  intro fuel
  induction fuel with
  | zero =>
    intro cxi evs t h _
    rw [hdone 0 cxi evs h (horizontal_loop_zero g r _ cyi cxi evs h)]
    exact ⟨[], rfl, List.Pairwise.nil, by simp⟩
  | succ f ih =>
    intro cxi evs t h hinv
    by_cases hc : cxi = get_cell_index_x g r.x_end + left_X cur r
    · rw [hdone _ cxi evs h hc]
      exact ⟨[], rfl, List.Pairwise.nil, by simp⟩
    · obtain ⟨rest, h1, h2⟩ := horizontal_loop_succ_some g r _ cyi f cxi evs hc h
      rw [setup_dxi_eq_dir g cur r hx] at h1 h2
      have hinv2 := horizontal_inv_step g hg cur r hx t cxi hinv hc
      have hle : t ≤ frac_X cur r (mesh_index_to_X_location g (cxi + dir_X cur r)) :=
        hinv.2.2.2.2.1
      obtain ⟨ts, e1, e2, e3⟩ := ih _ rest _ h1 hinv2
      rw [h2, endpoints_append, endpoints_horizontal_step g cur r hx]
      by_cases hp : mesh_index_to_X_location g (cxi + dir_X cur r) ≠ cur.x
      · rw [if_pos hp]
        refine ⟨frac_X cur r (mesh_index_to_X_location g (cxi + dir_X cur r)) :: ts, ?_, ?_, ?_⟩
        · rw [e1]
          rfl
        · exact List.pairwise_cons.mpr ⟨fun u hu => (e3 u hu).1, e2⟩
        · intro u hu
          rcases List.mem_cons.mp hu with hu | hu
          · rw [hu]
            exact ⟨hle, hinv2.2.1⟩
          · exact ⟨le_trans hle (e3 u hu).1, (e3 u hu).2⟩
      · rw [if_neg hp]
        exact ⟨ts, by rw [e1]; rfl, e2, fun u hu => ⟨le_trans hle (e3 u hu).1, (e3 u hu).2⟩⟩

/-- The crossing emitted by a pass of the general loop is not beyond the destination. -/
theorem general_crossing_le_one (g : Blm) (hg : g.WF) (cur : Pos) (r : Req)
    (hx : get_cell_index_x g cur.x ≠ get_cell_index_x g r.x_end)
    (hy : get_cell_index_y g cur.y ≠ get_cell_index_y g r.y_end)
    (t : ℚ) (cxi cyi xc yc : Int) (hinv : general_inv g cur r t cxi cyi xc yc)
    (hc : xc > 0 ∨ yc > 0) :
    min (frac_X cur r (mesh_index_to_X_location g (cxi + dir_X cur r)))
      (frac_Y cur r (mesh_index_to_Y_location g (cyi + dir_Y cur r))) ≤ 1 := by
  have hdx := setup_dx_ne_zero g cur r hx
  have hdy := setup_dy_ne_zero g cur r hy
  obtain ⟨i1, i2, i3, i4, _⟩ := hinv
  rw [i1, i2]
  by_cases hyc : 1 ≤ yc
  · exact le_trans (min_le_right _ _) (frac_Y_next_le_one g hg cur r hdy yc hyc)
  · exact le_trans (min_le_left _ _) (frac_X_next_le_one g hg cur r hdx xc (by omega))

/-- The same along the general loop. -/
theorem general_loop_fracs (g : Blm) (hg : g.WF) (cur : Pos) (r : Req)
    (hx : get_cell_index_x g cur.x ≠ get_cell_index_x g r.x_end)
    (hy : get_cell_index_y g cur.y ≠ get_cell_index_y g r.y_end) :
    ∀ (fuel : Nat) (cxi cyi xc yc : Int) (evs : List Event) (t : ℚ),
      general_loop g r (setup g cur r) fuel cxi cyi xc yc = some evs →
      general_inv g cur r t cxi cyi xc yc →
      ∃ ts : List ℚ, endpoints evs = ts.map (on_path cur r) ∧ ts.Pairwise (· ≤ ·) ∧
        ∀ u ∈ ts, t ≤ u ∧ u ≤ 1 := by
  have hdx := setup_dx_ne_zero g cur r hx
  have hdy := setup_dy_ne_zero g cur r hy
  intro fuel
  induction fuel with
  | zero =>
    intro cxi cyi xc yc evs t h _
    rw [general_loop_done g r _ 0 cxi cyi xc yc evs (general_loop_zero g r _ cxi cyi xc yc evs h)
      h]
    exact ⟨[], rfl, List.Pairwise.nil, by simp⟩
  | succ f ih =>
    intro cxi cyi xc yc evs t h hinv
    by_cases hc : xc > 0 ∨ yc > 0
    · have hone := general_crossing_le_one g hg cur r hx hy t cxi cyi xc yc hinv hc
      rcases general_loop_succ_some g r _ f cxi cyi xc yc evs hc h with
        ⟨hh, rest, h1, h2⟩ | ⟨hh, rest, h1, h2⟩
      · rw [setup_dxi_eq_dir g cur r hx, setup_dyi_eq_dir g cur r hy] at hh h2
        rw [setup_dyi_eq_dir g cur r hy] at h1
        have hlt := (hits_Y_line_first_iff g cur r hdx hdy _ _).mp hh
        obtain ⟨_, hinv2, _⟩ := general_step_Y g hg cur r hx hy t cxi cyi xc yc hinv hc hlt
        have hle : t ≤ frac_Y cur r (mesh_index_to_Y_location g (cyi + dir_Y cur r)) :=
          hinv.2.2.2.2.2.2.2.2.2.2
        rw [min_eq_right hlt.le] at hone
        obtain ⟨ts, e1, e2, e3⟩ := ih _ _ _ _ rest _ h1 hinv2
        rw [h2, endpoints_append, endpoints_cross_Y_line g cur r hx hy]
        refine ⟨frac_Y cur r (mesh_index_to_Y_location g (cyi + dir_Y cur r)) :: ts, ?_, ?_, ?_⟩
        · rw [e1]
          rfl
        · exact List.pairwise_cons.mpr ⟨fun u hu => (e3 u hu).1, e2⟩
        · intro u hu
          rcases List.mem_cons.mp hu with hu | hu
          · rw [hu]
            exact ⟨hle, hone⟩
          · exact ⟨le_trans hle (e3 u hu).1, (e3 u hu).2⟩
      · rw [setup_dxi_eq_dir g cur r hx, setup_dyi_eq_dir g cur r hy] at hh h2
        rw [setup_dxi_eq_dir g cur r hx] at h1
        have hnlt : ¬ _ := fun e => hh ((hits_Y_line_first_iff g cur r hdx hdy _ _).mpr e)
        obtain ⟨_, hinv2, _⟩ := general_step_X g hg cur r hx hy t cxi cyi xc yc hinv hc hnlt
        have hle : t ≤ frac_X cur r (mesh_index_to_X_location g (cxi + dir_X cur r)) :=
          hinv.2.2.2.2.2.2.2.2.2.1
        rw [min_eq_left (not_lt.mp hnlt)] at hone
        obtain ⟨ts, e1, e2, e3⟩ := ih _ _ _ _ rest _ h1 hinv2
        rw [h2, endpoints_append, endpoints_cross_X_line g cur r hx]
        refine ⟨frac_X cur r (mesh_index_to_X_location g (cxi + dir_X cur r)) :: ts, ?_, ?_, ?_⟩
        · rw [e1]
          rfl
        · exact List.pairwise_cons.mpr ⟨fun u hu => (e3 u hu).1, e2⟩
        · intro u hu
          rcases List.mem_cons.mp hu with hu | hu
          · rw [hu]
            exact ⟨hle, hone⟩
          · exact ⟨le_trans hle (e3 u hu).1, (e3 u hu).2⟩
    · rw [general_loop_done g r _ _ cxi cyi xc yc evs hc h]
      exact ⟨[], rfl, List.Pairwise.nil, by simp⟩

/-- The emitted endpoints of a run are points of the requested path whose travel fractions do
not decrease and lie between 0 and 1. -/
theorem mesh_buffer_line_fracs (g : Blm) (hg : g.WF) (cur : Pos) (r : Req) (fuel : Nat)
    (evs : List Event) (he : mesh_buffer_line g cur r fuel = some evs) :
    ∃ ts : List ℚ, endpoints evs = ts.map (on_path cur r) ∧ ts.Pairwise (· ≤ ·) ∧
      ∀ u ∈ ts, 0 ≤ u ∧ u ≤ 1 := by
  have hfinal : ∀ (pre : List Event) (ts : List ℚ), endpoints pre = ts.map (on_path cur r) →
      ts.Pairwise (· ≤ ·) → (∀ u ∈ ts, 0 ≤ u ∧ u ≤ 1) →
      ∃ ts : List ℚ, endpoints (pre ++ FINAL_MOVE g r (get_cell_index_x g r.x_end)
          (get_cell_index_y g r.y_end)) = ts.map (on_path cur r) ∧ ts.Pairwise (· ≤ ·) ∧
        ∀ u ∈ ts, 0 ≤ u ∧ u ≤ 1 := by
    intro pre ts e1 e2 e3
    refine ⟨ts ++ [1], ?_, ?_, ?_⟩
    · rw [endpoints_append, endpoints_FINAL_MOVE, e1, List.map_append, List.map_singleton,
        on_path_one]
    · refine List.pairwise_append.mpr ⟨e2, List.pairwise_singleton _ _, ?_⟩
      intro u hu v hv
      rw [List.mem_singleton.mp hv]
      exact (e3 u hu).2
    · intro u hu
      rcases List.mem_append.mp hu with hu | hu
      · exact e3 u hu
      · rw [List.mem_singleton.mp hu]
        exact ⟨zero_le_one, le_refl _⟩
  by_cases hs : same_cell g cur r
  · refine ⟨[1], ?_, List.pairwise_singleton _ _, ?_⟩
    · rw [List.map_singleton, on_path_one]
      by_cases ho : dest_off_grid g r
      · rw [mesh_buffer_line_same_cell_off_grid g cur r fuel hs ho] at he
        injection he with he
        rw [← he]
        rfl
      · rw [mesh_buffer_line_same_cell_on_grid g cur r fuel hs ho] at he
        injection he with he
        rw [← he, endpoints_FINAL_MOVE]
    · intro u hu
      rw [List.mem_singleton.mp hu]
      exact ⟨zero_le_one, le_refl _⟩
  · have hs2 : ¬ ((setup g cur r).cell_start_xi = (setup g cur r).cell_dest_xi ∧
        (setup g cur r).cell_start_yi = (setup g cur r).cell_dest_yi) := hs
    by_cases hx : get_cell_index_x g cur.x = get_cell_index_x g r.x_end
    · have hy : get_cell_index_y g cur.y ≠ get_cell_index_y g r.y_end := fun e => hs ⟨hx, e⟩
      have hdxi := (setup_dxi_eq_zero_iff g cur r).mpr hx
      simp only [mesh_buffer_line, if_neg hs2, if_pos hdxi,
        finish_of_not_same_cell g cur r hs, Option.map_eq_some'] at he
      obtain ⟨pre, h1, h2⟩ := he
      obtain ⟨ts, e1, e2, e3⟩ := vertical_loop_fracs g hg cur r hy _ fuel _ pre 0 h1
        (vertical_inv_init g hg cur r hy)
      rw [← h2]
      exact hfinal pre ts e1 e2 e3
    · have hdxi : ¬ (setup g cur r).dxi = 0 :=
        fun e => hx ((setup_dxi_eq_zero_iff g cur r).mp e)
      by_cases hy : get_cell_index_y g cur.y = get_cell_index_y g r.y_end
      · have hdyi := (setup_dyi_eq_zero_iff g cur r).mpr hy
        simp only [mesh_buffer_line, if_neg hs2, if_neg hdxi, if_pos hdyi,
          finish_of_not_same_cell g cur r hs, Option.map_eq_some'] at he
        obtain ⟨pre, h1, h2⟩ := he
        obtain ⟨ts, e1, e2, e3⟩ := horizontal_loop_fracs g hg cur r hx _ fuel _ pre 0 h1
          (horizontal_inv_init g hg cur r hx)
        rw [← h2]
        exact hfinal pre ts e1 e2 e3
      · have hdyi : ¬ (setup g cur r).dyi = 0 :=
          fun e => hy ((setup_dyi_eq_zero_iff g cur r).mp e)
        simp only [mesh_buffer_line, if_neg hs2, if_neg hdxi, if_neg hdyi,
          finish_of_not_same_cell g cur r hs, Option.map_eq_some'] at he
        obtain ⟨pre, h1, h2⟩ := he
        obtain ⟨ts, e1, e2, e3⟩ := general_loop_fracs g hg cur r hx hy fuel _ _ _ _ pre 0 h1
          (general_inv_init g hg cur r hx hy)
        rw [← h2]
        exact hfinal pre ts e1 e2 e3

/-! ## The passes of the general loop -/

theorem general_sites_succ_some (g : Blm) (L : Locals) (fuel : Nat)
    (cxi cyi xc yc : Int) (ss : List Site) (hc : xc > 0 ∨ yc > 0)
    (h : general_sites g L (fuel + 1) cxi cyi xc yc = some ss) :
    (hits_Y_line_first L ((fin (mesh_index_to_Y_location g (cyi + L.dyi)) - L.c) / L.m)
        (mesh_index_to_X_location g (cxi + L.dxi)) = true ∧
      ∃ rest, general_sites g L fuel cxi (cyi + L.dyi) xc (yc - 1) = some rest ∧
        ss = Site.cross_Y cxi cyi :: rest) ∨
    (¬ hits_Y_line_first L ((fin (mesh_index_to_Y_location g (cyi + L.dyi)) - L.c) / L.m)
        (mesh_index_to_X_location g (cxi + L.dxi)) = true ∧
      ∃ rest, general_sites g L fuel (cxi + L.dxi) cyi (xc - 1) yc = some rest ∧
        ss = Site.cross_X cxi cyi :: rest) := by
  simp only [general_sites, if_pos hc] at h
  split at h
  · rename_i hh
    simp only [Option.map_eq_some'] at h
    obtain ⟨rest, h1, h2⟩ := h
    exact Or.inl ⟨hh, rest, h1, h2.symm⟩
  · rename_i hh
    simp only [Option.map_eq_some'] at h
    obtain ⟨rest, h1, h2⟩ := h
    exact Or.inr ⟨hh, rest, h1, h2.symm⟩

theorem general_sites_done (g : Blm) (L : Locals) (fuel : Nat) (cxi cyi xc yc : Int)
    (ss : List Site) (hc : ¬ (xc > 0 ∨ yc > 0))
    (h : general_sites g L fuel cxi cyi xc yc = some ss) : ss = [] := by
  cases fuel <;> simp only [general_sites, if_neg hc, Option.some.injEq] at h <;> exact h.symm

theorem general_sites_zero (g : Blm) (L : Locals) (cxi cyi xc yc : Int)
    (ss : List Site) (h : general_sites g L 0 cxi cyi xc yc = some ss) :
    ¬ (xc > 0 ∨ yc > 0) := by
  intro hc
  simp [general_sites, hc] at h

/-- Every pass of the general loop is entered with the loop invariant. -/
theorem general_sites_entered (g : Blm) (hg : g.WF) (cur : Pos) (r : Req)
    (hx : get_cell_index_x g cur.x ≠ get_cell_index_x g r.x_end)
    (hy : get_cell_index_y g cur.y ≠ get_cell_index_y g r.y_end) :
    ∀ (fuel : Nat) (cxi cyi xc yc : Int) (ss : List Site) (t : ℚ),
      general_sites g (setup g cur r) fuel cxi cyi xc yc = some ss →
      general_inv g cur r t cxi cyi xc yc → ∀ s ∈ ss, entered g cur r s := by
  have hdx := setup_dx_ne_zero g cur r hx
  have hdy := setup_dy_ne_zero g cur r hy
  intro fuel
  induction fuel with
  | zero =>
    intro cxi cyi xc yc ss t h _ s hs
    rw [general_sites_done g _ 0 cxi cyi xc yc ss (general_sites_zero g _ cxi cyi xc yc ss h) h]
      at hs
    simp at hs
  | succ f ih =>
    intro cxi cyi xc yc ss t h hinv s hs
    by_cases hc : xc > 0 ∨ yc > 0
    · rcases general_sites_succ_some g _ f cxi cyi xc yc ss hc h with
        ⟨hh, rest, h1, h2⟩ | ⟨hh, rest, h1, h2⟩
      · rw [setup_dxi_eq_dir g cur r hx, setup_dyi_eq_dir g cur r hy] at hh
        rw [setup_dyi_eq_dir g cur r hy] at h1
        have hlt := (hits_Y_line_first_iff g cur r hdx hdy _ _).mp hh
        obtain ⟨_, hinv2, _⟩ := general_step_Y g hg cur r hx hy t cxi cyi xc yc hinv hc hlt
        rw [h2] at hs
        rcases List.mem_cons.mp hs with hs | hs
        · rw [hs]
          exact ⟨t, xc, yc, hinv, hc, hlt⟩
        · exact ih _ _ _ _ rest _ h1 hinv2 s hs
      · rw [setup_dxi_eq_dir g cur r hx, setup_dyi_eq_dir g cur r hy] at hh
        rw [setup_dxi_eq_dir g cur r hx] at h1
        have hnlt : ¬ _ := fun e => hh ((hits_Y_line_first_iff g cur r hdx hdy _ _).mpr e)
        obtain ⟨_, hinv2, _⟩ := general_step_X g hg cur r hx hy t cxi cyi xc yc hinv hc hnlt
        rw [h2] at hs
        rcases List.mem_cons.mp hs with hs | hs
        · rw [hs]
          exact ⟨t, xc, yc, hinv, hc, not_lt.mp hnlt⟩
        · exact ih _ _ _ _ rest _ h1 hinv2 s hs
    · rw [general_sites_done g _ _ cxi cyi xc yc ss hc h] at hs
      simp at hs

/-- The passes of the general loop: as many through the branch "Crossing a Y Mesh Line next" as
the row counter says, and as many through the branch "Crossing a X Mesh Line next" as the
column counter says, or one more. -/
theorem general_sites_count (g : Blm) (hg : g.WF) (cur : Pos) (r : Req)
    (hx : get_cell_index_x g cur.x ≠ get_cell_index_x g r.x_end)
    (hy : get_cell_index_y g cur.y ≠ get_cell_index_y g r.y_end) :
    ∀ (fuel : Nat) (cxi cyi xc yc : Int) (ss : List Site) (t : ℚ),
      general_sites g (setup g cur r) fuel cxi cyi xc yc = some ss →
      general_inv g cur r t cxi cyi xc yc →
      ((ss.countP Site.crosses_Y : Nat) : Int) = yc ∧
        (((ss.countP Site.crosses_X : Nat) : Int) = xc ∨
          ((ss.countP Site.crosses_X : Nat) : Int) = xc + 1) ∧
        ss.length = ss.countP Site.crosses_X + ss.countP Site.crosses_Y := by
  have hdx := setup_dx_ne_zero g cur r hx
  have hdy := setup_dy_ne_zero g cur r hy
  have hdone : ∀ (fuel : Nat) (cxi cyi xc yc : Int) (ss : List Site) (t : ℚ),
      general_sites g (setup g cur r) fuel cxi cyi xc yc = some ss →
      general_inv g cur r t cxi cyi xc yc → ¬ (xc > 0 ∨ yc > 0) →
      ((ss.countP Site.crosses_Y : Nat) : Int) = yc ∧
        (((ss.countP Site.crosses_X : Nat) : Int) = xc ∨
          ((ss.countP Site.crosses_X : Nat) : Int) = xc + 1) ∧
        ss.length = ss.countP Site.crosses_X + ss.countP Site.crosses_Y := by
    intro fuel cxi cyi xc yc ss t h hinv hc
    rw [general_sites_done g _ fuel cxi cyi xc yc ss hc h]
    obtain ⟨_, _, i3, i4, _⟩ := hinv
    refine ⟨?_, ?_, rfl⟩
    · simp only [List.countP_nil, Nat.cast_zero]
      omega
    · simp only [List.countP_nil, Nat.cast_zero]
      omega
  intro fuel
  induction fuel with
  | zero =>
    intro cxi cyi xc yc ss t h hinv
    exact hdone 0 cxi cyi xc yc ss t h hinv (general_sites_zero g _ cxi cyi xc yc ss h)
  | succ f ih =>
    intro cxi cyi xc yc ss t h hinv
    by_cases hc : xc > 0 ∨ yc > 0
    · rcases general_sites_succ_some g _ f cxi cyi xc yc ss hc h with
        ⟨hh, rest, h1, h2⟩ | ⟨hh, rest, h1, h2⟩
      · rw [setup_dxi_eq_dir g cur r hx, setup_dyi_eq_dir g cur r hy] at hh
        rw [setup_dyi_eq_dir g cur r hy] at h1
        have hlt := (hits_Y_line_first_iff g cur r hdx hdy _ _).mp hh
        obtain ⟨_, hinv2, _⟩ := general_step_Y g hg cur r hx hy t cxi cyi xc yc hinv hc hlt
        obtain ⟨c1, c2, c3⟩ := ih _ _ _ _ rest _ h1 hinv2
        rw [h2]
        simp only [List.countP_cons, Site.crosses_Y, Site.crosses_X, List.length_cons, if_true,
          Bool.false_eq_true, if_false, add_zero]
        refine ⟨by push_cast; omega, c2, by omega⟩
      · rw [setup_dxi_eq_dir g cur r hx, setup_dyi_eq_dir g cur r hy] at hh
        rw [setup_dxi_eq_dir g cur r hx] at h1
        have hnlt : ¬ _ := fun e => hh ((hits_Y_line_first_iff g cur r hdx hdy _ _).mpr e)
        obtain ⟨_, hinv2, _⟩ := general_step_X g hg cur r hx hy t cxi cyi xc yc hinv hc hnlt
        obtain ⟨c1, c2, c3⟩ := ih _ _ _ _ rest _ h1 hinv2
        rw [h2]
        simp only [List.countP_cons, Site.crosses_Y, Site.crosses_X, List.length_cons, if_true,
          Bool.false_eq_true, if_false, add_zero]
        refine ⟨c1, by push_cast; omega, by omega⟩
    · exact hdone _ cxi cyi xc yc ss t h hinv hc

/-- The sites of a general-case run with enough fuel: passes of the general loop, each entered
with the loop invariant, then the tail.  The loop crosses as many Y mesh lines as there are
rows between start and destination, and as many X mesh lines as there are columns between
them, or one more. -/
theorem general_case_sites (g : Blm) (hg : g.WF) (cur : Pos) (r : Req)
    (hx : get_cell_index_x g cur.x ≠ get_cell_index_x g r.x_end)
    (hy : get_cell_index_y g cur.y ≠ get_cell_index_y g r.y_end) (fuel : Nat)
    (hf : enough_fuel g cur r ≤ fuel) :
    ∃ ps, mesh_buffer_line_sites g cur r fuel = some (ps ++ [Site.finish]) ∧
      (∀ s ∈ ps, entered g cur r s) ∧
      (∀ s ∈ ps, ∃ a b, s = Site.cross_Y a b ∨ s = Site.cross_X a b) ∧
      ps.countP Site.crosses_Y =
        (get_cell_index_y g cur.y - get_cell_index_y g r.y_end).natAbs ∧
      (ps.countP Site.crosses_X =
          (get_cell_index_x g cur.x - get_cell_index_x g r.x_end).natAbs ∨
        ps.countP Site.crosses_X =
          (get_cell_index_x g cur.x - get_cell_index_x g r.x_end).natAbs + 1) ∧
      ps.length = ps.countP Site.crosses_X + ps.countP Site.crosses_Y := by
  have hs2 : ¬ ((setup g cur r).cell_start_xi = (setup g cur r).cell_dest_xi ∧
      (setup g cur r).cell_start_yi = (setup g cur r).cell_dest_yi) := fun h => hx h.1
  have hdxi := setup_dxi_ne_zero g cur r hx
  have hdyi := setup_dyi_ne_zero g cur r hy
  obtain ⟨evs, he⟩ := mesh_buffer_line_some g hg cur r fuel hf
  rw [mesh_buffer_line_eq_sites] at he
  obtain ⟨ss, hss, _⟩ := Option.map_eq_some'.mp he
  have hss2 := hss
  simp only [mesh_buffer_line_sites, if_neg hs2, if_neg hdxi, if_neg hdyi,
    Option.map_eq_some'] at hss2
  obtain ⟨ps, h1, h2⟩ := hss2
  have hinv := general_inv_init g hg cur r hx hy
  have hent := general_sites_entered g hg cur r hx hy fuel _ _ _ _ ps 0 h1 hinv
  have hmem := general_sites_mem g _ fuel _ _ _ _ ps h1
  obtain ⟨c1, c2, c3⟩ := general_sites_count g hg cur r hx hy fuel
    (get_cell_index_x g cur.x + left_X cur r) (get_cell_index_y g cur.y + down_Y cur r)
    (if get_cell_index_x g cur.x - get_cell_index_x g r.x_end < 0
      then -(get_cell_index_x g cur.x - get_cell_index_x g r.x_end)
      else get_cell_index_x g cur.x - get_cell_index_x g r.x_end)
    (if get_cell_index_y g cur.y - get_cell_index_y g r.y_end < 0
      then -(get_cell_index_y g cur.y - get_cell_index_y g r.y_end)
      else get_cell_index_y g cur.y - get_cell_index_y g r.y_end) ps 0 h1 hinv
  refine ⟨ps, by rw [hss, h2], hent, hmem, ?_, ?_, c3⟩
  · split at c1 <;> omega
  · split at c2 <;> omega

/-- A run whose sites are known is the events of these sites. -/
theorem mesh_buffer_line_of_sites (g : Blm) (cur : Pos) (r : Req) (fuel : Nat) (ss : List Site)
    (h : mesh_buffer_line_sites g cur r fuel = some ss) :
    mesh_buffer_line g cur r fuel = some (events_at g cur r ss) := by
  rw [mesh_buffer_line_eq_sites, h]
  rfl


/-! ## Claim C21 -/

/-- C21: on a grid of positive pitch, a request that leaves its start cell terminates: with
enough fuel the run returns, after passes through one of the three loops and the tail.  A
single-column run makes exactly as many passes as there are rows between start and
destination, and returns exactly when the fuel covers them; a single-row run likewise with the
columns; in every case there are at most columns + rows + 1 passes. -/
theorem C21_crossing_loops_terminate (g : Blm) (hg : g.WF) (cur : Pos) (r : Req)
    (hs : ¬ same_cell g cur r) (fuel : Nat) (hf : enough_fuel g cur r ≤ fuel) :
    ∃ ps, mesh_buffer_line_sites g cur r fuel = some (ps ++ [Site.finish]) ∧
      mesh_buffer_line g cur r fuel = some (events_at g cur r (ps ++ [Site.finish])) ∧
      (∀ s ∈ ps, s.in_loop = true) ∧
      (get_cell_index_x g cur.x = get_cell_index_x g r.x_end →
        ps.length = (get_cell_index_y g cur.y - get_cell_index_y g r.y_end).natAbs ∧
        ∀ f, (mesh_buffer_line g cur r f).isSome = true ↔
          (get_cell_index_y g cur.y - get_cell_index_y g r.y_end).natAbs ≤ f) ∧
      (get_cell_index_y g cur.y = get_cell_index_y g r.y_end →
        ps.length = (get_cell_index_x g cur.x - get_cell_index_x g r.x_end).natAbs ∧
        ∀ f, (mesh_buffer_line g cur r f).isSome = true ↔
          (get_cell_index_x g cur.x - get_cell_index_x g r.x_end).natAbs ≤ f) ∧
      ps.length ≤ (get_cell_index_x g cur.x - get_cell_index_x g r.x_end).natAbs +
        (get_cell_index_y g cur.y - get_cell_index_y g r.y_end).natAbs + 1 := by
  unfold enough_fuel at hf
  by_cases hx : get_cell_index_x g cur.x = get_cell_index_x g r.x_end
  · have hy : get_cell_index_y g cur.y ≠ get_cell_index_y g r.y_end := fun e => hs ⟨hx, e⟩
    have hss := single_column_sites g hg cur r hx hy fuel (by omega)
    refine ⟨_, hss, mesh_buffer_line_of_sites g cur r fuel _ hss, ?_, ?_, ?_, ?_⟩
    · intro s hs
      obtain ⟨k, _, e⟩ := List.mem_map.mp hs
      rw [← e]
      rfl
    · intro _
      refine ⟨by simp, fun f => ⟨fun h => ?_, fun h => ?_⟩⟩
      · by_contra hn
        rw [single_column_none g hg cur r hx hy f (by omega)] at h
        simp at h
      · rw [mesh_buffer_line_of_sites g cur r f _ (single_column_sites g hg cur r hx hy f h)]
        rfl
    · intro e
      exact absurd e hy
    · simp
      omega
  · by_cases hy : get_cell_index_y g cur.y = get_cell_index_y g r.y_end
    · have hss := single_row_sites g hg cur r hx hy fuel (by omega)
      refine ⟨_, hss, mesh_buffer_line_of_sites g cur r fuel _ hss, ?_, ?_, ?_, ?_⟩
      · intro s hs
        obtain ⟨k, _, e⟩ := List.mem_map.mp hs
        rw [← e]
        rfl
      · intro e
        exact absurd e hx
      · intro _
        refine ⟨by simp, fun f => ⟨fun h => ?_, fun h => ?_⟩⟩
        · by_contra hn
          rw [single_row_none g hg cur r hx hy f (by omega)] at h
          simp at h
        · rw [mesh_buffer_line_of_sites g cur r f _ (single_row_sites g hg cur r hx hy f h)]
          rfl
      · simp
        omega
    · obtain ⟨ps, hss, _, hmem, c1, c2, c3⟩ := general_case_sites g hg cur r hx hy fuel hf
      refine ⟨ps, hss, mesh_buffer_line_of_sites g cur r fuel _ hss, ?_, ?_, ?_, ?_⟩
      · intro s hs
        obtain ⟨a, b, e | e⟩ := hmem s hs <;> rw [e] <;> rfl
      · intro e
        exact absurd e hx
      · intro e
        exact absurd e hy
      · omega

/-- C21, witness: the single-column move from (5,5) to (5,25) on the scenario grid, two rows
up. -/
theorem C21_crossing_loops_terminate_witness :
    (scenario_grid nan 1 0).WF ∧
      ¬ same_cell (scenario_grid nan 1 0) ⟨5, 5, 0, 0⟩ ⟨5, 25, 1, 1, 100, 0⟩ ∧
      ∃ ps, mesh_buffer_line_sites (scenario_grid nan 1 0) ⟨5, 5, 0, 0⟩
          ⟨5, 25, 1, 1, 100, 0⟩ 3 = some (ps ++ [Site.finish]) ∧
        mesh_buffer_line (scenario_grid nan 1 0) ⟨5, 5, 0, 0⟩ ⟨5, 25, 1, 1, 100, 0⟩ 3 =
          some (events_at (scenario_grid nan 1 0) ⟨5, 5, 0, 0⟩ ⟨5, 25, 1, 1, 100, 0⟩
            (ps ++ [Site.finish])) ∧
        (∀ s ∈ ps, s.in_loop = true) ∧
        (get_cell_index_x (scenario_grid nan 1 0) 5 = get_cell_index_x (scenario_grid nan 1 0) 5 →
          ps.length = (get_cell_index_y (scenario_grid nan 1 0) 5 -
            get_cell_index_y (scenario_grid nan 1 0) 25).natAbs ∧
          ∀ f, (mesh_buffer_line (scenario_grid nan 1 0) ⟨5, 5, 0, 0⟩
              ⟨5, 25, 1, 1, 100, 0⟩ f).isSome = true ↔
            (get_cell_index_y (scenario_grid nan 1 0) 5 -
              get_cell_index_y (scenario_grid nan 1 0) 25).natAbs ≤ f) ∧
        (get_cell_index_y (scenario_grid nan 1 0) 5 =
            get_cell_index_y (scenario_grid nan 1 0) 25 →
          ps.length = (get_cell_index_x (scenario_grid nan 1 0) 5 -
            get_cell_index_x (scenario_grid nan 1 0) 5).natAbs ∧
          ∀ f, (mesh_buffer_line (scenario_grid nan 1 0) ⟨5, 5, 0, 0⟩
              ⟨5, 25, 1, 1, 100, 0⟩ f).isSome = true ↔
            (get_cell_index_x (scenario_grid nan 1 0) 5 -
              get_cell_index_x (scenario_grid nan 1 0) 5).natAbs ≤ f) ∧
        ps.length ≤ (get_cell_index_x (scenario_grid nan 1 0) 5 -
            get_cell_index_x (scenario_grid nan 1 0) 5).natAbs +
          (get_cell_index_y (scenario_grid nan 1 0) 5 -
            get_cell_index_y (scenario_grid nan 1 0) 25).natAbs + 1 :=
  ⟨by decide!, by decide!,
    C21_crossing_loops_terminate (scenario_grid nan 1 0) (by decide!) ⟨5, 5, 0, 0⟩
      ⟨5, 25, 1, 1, 100, 0⟩ (by decide!) 3 (by decide!)⟩

/-! ## Claims C22 and C23 -/

/-- C22 (the code departs from the claim): the general-case move from (26,2) to (10,10) on the
scenario grid heads left and up to a grid corner, one column and one row away, so that
`xi_cnt = yi_cnt = 1`.  The loop makes three passes, not two (with fuel 2 it has not stopped):
it crosses `X = 20`, takes the branch "Crossing a X Mesh Line next" once more at `X = 10`
with `xi_cnt = 0`, which line 387 makes -1, and only then crosses `Y = 10`.  Two sub-moves
are emitted on X mesh lines, and the destination is emitted three times. -/
theorem C22_corner_destination_adds_a_pass :
    corner_left_up (scenario_grid nan 1 0) ⟨26, 2, 0, 0⟩ ⟨10, 10, 1, 1, 100, 0⟩ ∧
      (get_cell_index_x (scenario_grid nan 1 0) 26 -
        get_cell_index_x (scenario_grid nan 1 0) 10).natAbs = 1 ∧
      (get_cell_index_y (scenario_grid nan 1 0) 2 -
        get_cell_index_y (scenario_grid nan 1 0) 10).natAbs = 1 ∧
      mesh_buffer_line_sites (scenario_grid nan 1 0) ⟨26, 2, 0, 0⟩ ⟨10, 10, 1, 1, 100, 0⟩ 3 =
        some [Site.cross_X 3 0, Site.cross_X 2 0, Site.cross_Y 1 0, Site.finish] ∧
      mesh_buffer_line (scenario_grid nan 1 0) ⟨26, 2, 0, 0⟩ ⟨10, 10, 1, 1, 100, 0⟩ 2 = none ∧
      (mesh_buffer_line (scenario_grid nan 1 0) ⟨26, 2, 0, 0⟩ ⟨10, 10, 1, 1, 100, 0⟩ 3).map
        sub_moves = some [⟨fin 20, fin 5, fin (3 / 8), fin (3 / 8), 100, 0⟩,
          ⟨fin 10, fin 10, fin 2, fin 1, 100, 0⟩, ⟨fin 10, fin 10, fin 2, fin 1, 100, 0⟩,
          ⟨fin 10, fin 10, fin 2, fin 1, 100, 0⟩] ∧
      general_loop (scenario_grid nan 1 0) ⟨10, 10, 1, 1, 100, 0⟩
          (setup (scenario_grid nan 1 0) ⟨26, 2, 0, 0⟩ ⟨10, 10, 1, 1, 100, 0⟩) 3 3 0 1 1 =
        (general_loop (scenario_grid nan 1 0) ⟨10, 10, 1, 1, 100, 0⟩
          (setup (scenario_grid nan 1 0) ⟨26, 2, 0, 0⟩ ⟨10, 10, 1, 1, 100, 0⟩) 1 1 0 (-1) 1).map
          (fun rest => pass_at (scenario_grid nan 1 0) ⟨26, 2, 0, 0⟩ ⟨10, 10, 1, 1, 100, 0⟩
              (Site.cross_X 3 0) ++
            pass_at (scenario_grid nan 1 0) ⟨26, 2, 0, 0⟩ ⟨10, 10, 1, 1, 100, 0⟩
              (Site.cross_X 2 0) ++ rest) := by
  decide!

/-- C23 (the code departs from the claim): the single-column move from (2,2) to (6,10) on the
scenario grid travels upward to a destination on the mesh line `Y = 10`.  The one pass of the
loop emits the destination, and the tail, whose test of line 242 still sees the start
position, runs `FINAL_MOVE` and emits the destination a second time. -/
theorem C23_final_leg_repeats_destination :
    mesh_index_to_Y_location (scenario_grid nan 1 0)
        (get_cell_index_y (scenario_grid nan 1 0) 10) = 10 ∧
      mesh_buffer_line_sites (scenario_grid nan 1 0) ⟨2, 2, 0, 0⟩ ⟨6, 10, 1, 1, 100, 0⟩ 1 =
        some [Site.vertical 0 1, Site.finish] ∧
      sub_moves (pass_at (scenario_grid nan 1 0) ⟨2, 2, 0, 0⟩ ⟨6, 10, 1, 1, 100, 0⟩
        (Site.vertical 0 1)) = [⟨fin 6, fin 10, fin (8 / 5), fin 1, 100, 0⟩] ∧
      sub_moves (pass_at (scenario_grid nan 1 0) ⟨2, 2, 0, 0⟩ ⟨6, 10, 1, 1, 100, 0⟩
        Site.finish) = [⟨fin 6, fin 10, fin (8 / 5), fin 1, 100, 0⟩] ∧
      (mesh_buffer_line (scenario_grid nan 1 0) ⟨2, 2, 0, 0⟩ ⟨6, 10, 1, 1, 100, 0⟩ 1).map
        sub_moves = some [⟨fin 6, fin 10, fin (8 / 5), fin 1, 100, 0⟩,
          ⟨fin 6, fin 10, fin (8 / 5), fin 1, 100, 0⟩] := by
  decide!

/-! ## The mesh lines walked by the single-column and single-row loops -/

theorem mem_mesh_lines_from_up (k : Int) (n : Nat) :
    ∀ (s : Int), k ∈ mesh_lines_from s 1 n → s ≤ k := by
  induction n with
  | zero => intro s h; simp [mesh_lines_from] at h
  | succ n ih =>
    intro s h
    simp only [mesh_lines_from, List.mem_cons] at h
    rcases h with h | h
    · omega
    · have := ih _ h
      omega

/-- The point of the path on the line `Y = ly`, in the words of the claim. -/
theorem on_path_frac_Y (cur : Pos) (r : Req) (hy : r.y_end - cur.y ≠ 0) (ly : ℚ) :
    on_path cur r (frac_Y cur r ly) = (fin (spec_x_on_Y_line cur r ly), fin ly) := by
  unfold on_path
  rw [frac_Y_mul cur r hy]
  congr 2
  unfold spec_x_on_Y_line frac_Y
  by_cases hx : r.x_end - cur.x = 0
  · simp [hx]
  · simp only [if_neg hx]
    field_simp
    ring

/-- The point of the path on the line `X = lx`, in the words of the claim. -/
theorem on_path_frac_X (cur : Pos) (r : Req) (hx : r.x_end - cur.x ≠ 0) (lx : ℚ) :
    on_path cur r (frac_X cur r lx) = (fin lx, fin (spec_y_on_X_line cur r lx)) := by
  unfold on_path
  rw [frac_X_mul cur r hx]
  congr 2
  unfold spec_y_on_X_line frac_X
  field_simp
  ring

/-- The endpoints emitted by passes of the single-column loop over the mesh lines `ks`: one on
each line, except a line that is the start Y. -/
theorem endpoints_vertical_sites (g : Blm) (cur : Pos) (r : Req)
    (hy : get_cell_index_y g cur.y ≠ get_cell_index_y g r.y_end) (cxi : Int) (ks : List Int) :
    endpoints (events_at g cur r (ks.map (Site.vertical cxi))) =
      (ks.filter (fun k => decide (mesh_index_to_Y_location g k ≠ cur.y))).map
        (fun k => (fin (spec_x_on_Y_line cur r (mesh_index_to_Y_location g k)),
          fin (mesh_index_to_Y_location g k))) := by
  have hdy := setup_dy_ne_zero g cur r hy
  induction ks with
  | nil => rfl
  | cons k ks ih =>
    simp only [List.map_cons, events_at_cons, endpoints_append, ih, pass_at,
      endpoints_vertical_step g cur r hy, List.filter_cons]
    by_cases hp : mesh_index_to_Y_location g k ≠ cur.y
    · simp only [if_pos hp, decide_eq_true hp, if_true, List.map_cons, on_path_frac_Y cur r hdy,
        List.singleton_append]
    · simp only [if_neg hp, decide_eq_false hp, List.nil_append, Bool.false_eq_true, if_false]

/-- The endpoints emitted by passes of the single-row loop over the mesh lines `ks`. -/
theorem endpoints_horizontal_sites (g : Blm) (cur : Pos) (r : Req)
    (hx : get_cell_index_x g cur.x ≠ get_cell_index_x g r.x_end) (cyi : Int) (ks : List Int) :
    endpoints (events_at g cur r (ks.map (fun k => Site.horizontal k cyi))) =
      (ks.filter (fun k => decide (mesh_index_to_X_location g k ≠ cur.x))).map
        (fun k => (fin (mesh_index_to_X_location g k),
          fin (spec_y_on_X_line cur r (mesh_index_to_X_location g k)))) := by
  have hdx := setup_dx_ne_zero g cur r hx
  induction ks with
  | nil => rfl
  | cons k ks ih =>
    simp only [List.map_cons, events_at_cons, endpoints_append, ih, pass_at,
      endpoints_horizontal_step g cur r hx, List.filter_cons]
    by_cases hp : mesh_index_to_X_location g k ≠ cur.x
    · simp only [if_pos hp, decide_eq_true hp, if_true, List.map_cons, on_path_frac_X cur r hdx,
        List.singleton_append]
    · simp only [if_neg hp, decide_eq_false hp, List.nil_append, Bool.false_eq_true, if_false]

theorem endpoints_finish (g : Blm) (cur : Pos) (r : Req) (hs : ¬ same_cell g cur r) :
    endpoints (events_at g cur r [Site.finish]) = [(fin r.x_end, fin r.y_end)] := by
  simp only [events_at_cons, events_at_nil, List.append_nil, pass_at,
    finish_of_not_same_cell g cur r hs, endpoints_FINAL_MOVE]

/-! ## Claim C24 -/

/-- C24: on a grid of positive pitch, a single-column request (same X cell, Y cell `a` to Y
cell `b ≠ a`) with enough fuel returns.  Travelling up, its loop passes over the mesh lines
`a + 1, ..., b` in this order and emits one sub-move on each, `b - a` in all; travelling down,
it passes over the mesh lines `a, a - 1, ..., b + 1` in this order and emits one sub-move on
each except a line equal to `y_start`.  Every such sub-move has `Y = lineY(k)` and
`X = (lineY(k) - c) / m`, or `x_start` when `dx = 0`; the destination follows. -/
theorem C24_single_column_walk (g : Blm) (hg : g.WF) (cur : Pos) (r : Req)
    (hx : get_cell_index_x g cur.x = get_cell_index_x g r.x_end)
    (hy : get_cell_index_y g cur.y ≠ get_cell_index_y g r.y_end)
    (fuel : Nat) (hf : enough_fuel g cur r ≤ fuel) :
    ∃ evs, mesh_buffer_line g cur r fuel = some evs ∧
      (cur.y < r.y_end →
        mesh_buffer_line_sites g cur r fuel =
          some ((mesh_lines_from (get_cell_index_y g cur.y + 1) 1
              (get_cell_index_y g r.y_end - get_cell_index_y g cur.y).toNat).map
            (Site.vertical (get_cell_index_x g cur.x)) ++ [Site.finish]) ∧
        endpoints evs =
          (mesh_lines_from (get_cell_index_y g cur.y + 1) 1
              (get_cell_index_y g r.y_end - get_cell_index_y g cur.y).toNat).map
            (fun k => (fin (spec_x_on_Y_line cur r (mesh_index_to_Y_location g k)),
              fin (mesh_index_to_Y_location g k))) ++ [(fin r.x_end, fin r.y_end)]) ∧
      (r.y_end < cur.y →
        mesh_buffer_line_sites g cur r fuel =
          some ((mesh_lines_from (get_cell_index_y g cur.y) (-1)
              (get_cell_index_y g cur.y - get_cell_index_y g r.y_end).toNat).map
            (Site.vertical (get_cell_index_x g cur.x)) ++ [Site.finish]) ∧
        endpoints evs =
          ((mesh_lines_from (get_cell_index_y g cur.y) (-1)
              (get_cell_index_y g cur.y - get_cell_index_y g r.y_end).toNat).filter
            (fun k => decide (mesh_index_to_Y_location g k ≠ cur.y))).map
            (fun k => (fin (spec_x_on_Y_line cur r (mesh_index_to_Y_location g k)),
              fin (mesh_index_to_Y_location g k))) ++ [(fin r.x_end, fin r.y_end)]) := by
  have hs : ¬ same_cell g cur r := fun h => hy h.2
  unfold enough_fuel at hf
  have hss := single_column_sites g hg cur r hx hy fuel (by omega)
  have he := mesh_buffer_line_of_sites g cur r fuel _ hss
  refine ⟨_, he, ?_, ?_⟩
  · intro hup
    have hneg : ¬ r.y_end - cur.y < 0 := by linarith
    have hlt : get_cell_index_y g cur.y < get_cell_index_y g r.y_end :=
      start_yi_lt_of_up g hg cur r hy hneg
    have e1 : dir_Y cur r = 1 := by simp [dir_Y, hneg]
    have e2 : down_Y cur r = 0 := by simp [down_Y, hneg]
    have e3 : (get_cell_index_y g cur.y - get_cell_index_y g r.y_end).natAbs =
        (get_cell_index_y g r.y_end - get_cell_index_y g cur.y).toNat := by omega
    rw [e1, e2, e3, add_zero] at hss
    refine ⟨hss, ?_⟩
    rw [e1, e2, e3, add_zero, events_at_append, endpoints_append,
      endpoints_vertical_sites g cur r hy, endpoints_finish g cur r hs]
    congr 2
    apply List.filter_eq_self.mpr
    intro k hk
    have h1 := mem_mesh_lines_from_up k _ _ hk
    have h2 := Y_location_cell_succ_gt g hg cur.y
    have h3 := Y_location_mono g hg h1
    exact decide_eq_true (by linarith : mesh_index_to_Y_location g k ≠ cur.y)
  · intro hdown
    have hneg : r.y_end - cur.y < 0 := by linarith
    have hlt : get_cell_index_y g r.y_end < get_cell_index_y g cur.y :=
      dest_yi_lt_of_down g hg cur r hy hneg
    have e1 : dir_Y cur r = -1 := by simp [dir_Y, hneg]
    have e2 : down_Y cur r = 1 := by simp [down_Y, hneg]
    have e3 : (get_cell_index_y g cur.y - get_cell_index_y g r.y_end).natAbs =
        (get_cell_index_y g cur.y - get_cell_index_y g r.y_end).toNat := by omega
    have e4 : get_cell_index_y g cur.y + 1 + -1 = get_cell_index_y g cur.y := by ring
    rw [e1, e2, e3, e4] at hss
    refine ⟨hss, ?_⟩
    rw [e1, e2, e3, e4, events_at_append, endpoints_append,
      endpoints_vertical_sites g cur r hy, endpoints_finish g cur r hs]

/-- C24, witness: the single-column move from (8,20) down to (2,3) on the scenario grid, which
starts on the mesh line `Y = 20`. -/
theorem C24_single_column_walk_witness :
    (scenario_grid nan 1 0).WF ∧
      get_cell_index_x (scenario_grid nan 1 0) 8 = get_cell_index_x (scenario_grid nan 1 0) 2 ∧
      get_cell_index_y (scenario_grid nan 1 0) 20 ≠ get_cell_index_y (scenario_grid nan 1 0) 3 ∧
      ∃ evs, mesh_buffer_line (scenario_grid nan 1 0) ⟨8, 20, 0, 0⟩ ⟨2, 3, 1, 1, 100, 0⟩ 3 =
          some evs ∧
        ((20 : ℚ) < 3 →
          mesh_buffer_line_sites (scenario_grid nan 1 0) ⟨8, 20, 0, 0⟩ ⟨2, 3, 1, 1, 100, 0⟩ 3 =
            some ((mesh_lines_from (get_cell_index_y (scenario_grid nan 1 0) 20 + 1) 1
                (get_cell_index_y (scenario_grid nan 1 0) 3 -
                  get_cell_index_y (scenario_grid nan 1 0) 20).toNat).map
              (Site.vertical (get_cell_index_x (scenario_grid nan 1 0) 8)) ++ [Site.finish]) ∧
          endpoints evs =
            (mesh_lines_from (get_cell_index_y (scenario_grid nan 1 0) 20 + 1) 1
                (get_cell_index_y (scenario_grid nan 1 0) 3 -
                  get_cell_index_y (scenario_grid nan 1 0) 20).toNat).map
              (fun k => (fin (spec_x_on_Y_line ⟨8, 20, 0, 0⟩ ⟨2, 3, 1, 1, 100, 0⟩
                  (mesh_index_to_Y_location (scenario_grid nan 1 0) k)),
                fin (mesh_index_to_Y_location (scenario_grid nan 1 0) k))) ++
              [(fin 2, fin 3)]) ∧
        ((3 : ℚ) < 20 →
          mesh_buffer_line_sites (scenario_grid nan 1 0) ⟨8, 20, 0, 0⟩ ⟨2, 3, 1, 1, 100, 0⟩ 3 =
            some ((mesh_lines_from (get_cell_index_y (scenario_grid nan 1 0) 20) (-1)
                (get_cell_index_y (scenario_grid nan 1 0) 20 -
                  get_cell_index_y (scenario_grid nan 1 0) 3).toNat).map
              (Site.vertical (get_cell_index_x (scenario_grid nan 1 0) 8)) ++ [Site.finish]) ∧
          endpoints evs =
            ((mesh_lines_from (get_cell_index_y (scenario_grid nan 1 0) 20) (-1)
                (get_cell_index_y (scenario_grid nan 1 0) 20 -
                  get_cell_index_y (scenario_grid nan 1 0) 3).toNat).filter
              (fun k => decide (mesh_index_to_Y_location (scenario_grid nan 1 0) k ≠ 20))).map
              (fun k => (fin (spec_x_on_Y_line ⟨8, 20, 0, 0⟩ ⟨2, 3, 1, 1, 100, 0⟩
                  (mesh_index_to_Y_location (scenario_grid nan 1 0) k)),
                fin (mesh_index_to_Y_location (scenario_grid nan 1 0) k))) ++
              [(fin 2, fin 3)]) :=
  ⟨by decide!, by decide!, by decide!,
    C24_single_column_walk (scenario_grid nan 1 0) (by decide!) ⟨8, 20, 0, 0⟩
      ⟨2, 3, 1, 1, 100, 0⟩ (by decide!) (by decide!) 3 (by decide!)⟩

/-! ## Claim C25 -/

/-- The Y computed by the single-row and general loops on the line `X = lx`, in the words of
the claim. -/
theorem y_at_X_line_spec (g : Blm) (cur : Pos) (r : Req) (hx : r.x_end - cur.x ≠ 0) (lx : ℚ) :
    (setup g cur r).m * fin lx + (setup g cur r).c = fin (spec_y_on_X_line cur r lx) := by
  rw [setup_m_eq g cur r hx, setup_c_eq g cur r hx, Flt.fin_mul, Flt.fin_add]
  rfl

/-- The sub-moves emitted by passes of the single-row loop over the mesh lines `ks`, in the
start row: one on each line, except a line that is the start X. -/
theorem sub_moves_horizontal_sites (g : Blm) (cur : Pos) (r : Req)
    (hx : get_cell_index_x g cur.x ≠ get_cell_index_x g r.x_end) (ks : List Int) :
    sub_moves (events_at g cur r
        (ks.map (fun k => Site.horizontal k (get_cell_index_y g cur.y)))) =
      (ks.filter (fun k => decide (mesh_index_to_X_location g k ≠ cur.x))).map
        (spec_single_row_sub_move g cur r) := by
  have hdx := setup_dx_ne_zero g cur r hx
  have h1 : (setup g cur r).x_start = cur.x := rfl
  induction ks with
  | nil => rfl
  | cons k ks ih =>
    simp only [List.map_cons, events_at_cons, sub_moves_append, ih, pass_at,
      sub_moves_horizontal_step, List.filter_cons, h1]
    by_cases hp : mesh_index_to_X_location g k ≠ cur.x
    · simp only [if_pos hp, decide_eq_true hp, if_true, List.map_cons,
        y_at_X_line_spec g cur r hdx, List.singleton_append]
      rfl
    · simp only [if_neg hp, decide_eq_false hp, List.nil_append, Bool.false_eq_true, if_false]

theorem sub_moves_finish (g : Blm) (cur : Pos) (r : Req) (hs : ¬ same_cell g cur r) :
    sub_moves (events_at g cur r [Site.finish]) =
      sub_moves (FINAL_MOVE g r (get_cell_index_x g r.x_end) (get_cell_index_y g r.y_end)) := by
  simp only [events_at_cons, events_at_nil, List.append_nil, pass_at,
    finish_of_not_same_cell g cur r hs]

/-- C25: on a grid of positive pitch, a single-row request (same Y cell, X cell `a` to X cell
`b ≠ a`) with enough fuel returns.  Travelling right, its loop passes over the mesh lines
`a + 1, ..., b` in this order and emits one sub-move on each; travelling left, it passes over
the mesh lines `a, a - 1, ..., b + 1` in this order and emits one sub-move on each except a
line equal to `x_start`.  Every such sub-move has `X = lineX(k)`, `Y = m * lineX(k) + c` and
the correction `alongColumn(Y, k, cell_start_yi)`; the sub-move of the final leg follows. -/
theorem C25_single_row_walk (g : Blm) (hg : g.WF) (cur : Pos) (r : Req)
    (hx : get_cell_index_x g cur.x ≠ get_cell_index_x g r.x_end)
    (hy : get_cell_index_y g cur.y = get_cell_index_y g r.y_end)
    (fuel : Nat) (hf : enough_fuel g cur r ≤ fuel) :
    ∃ evs, mesh_buffer_line g cur r fuel = some evs ∧
      (cur.x < r.x_end →
        mesh_buffer_line_sites g cur r fuel =
          some ((mesh_lines_from (get_cell_index_x g cur.x + 1) 1
              (get_cell_index_x g r.x_end - get_cell_index_x g cur.x).toNat).map
            (fun k => Site.horizontal k (get_cell_index_y g cur.y)) ++ [Site.finish]) ∧
        sub_moves evs =
          (mesh_lines_from (get_cell_index_x g cur.x + 1) 1
              (get_cell_index_x g r.x_end - get_cell_index_x g cur.x).toNat).map
            (spec_single_row_sub_move g cur r) ++
          sub_moves (FINAL_MOVE g r (get_cell_index_x g r.x_end)
            (get_cell_index_y g r.y_end))) ∧
      (r.x_end < cur.x →
        mesh_buffer_line_sites g cur r fuel =
          some ((mesh_lines_from (get_cell_index_x g cur.x) (-1)
              (get_cell_index_x g cur.x - get_cell_index_x g r.x_end).toNat).map
            (fun k => Site.horizontal k (get_cell_index_y g cur.y)) ++ [Site.finish]) ∧
        sub_moves evs =
          ((mesh_lines_from (get_cell_index_x g cur.x) (-1)
              (get_cell_index_x g cur.x - get_cell_index_x g r.x_end).toNat).filter
            (fun k => decide (mesh_index_to_X_location g k ≠ cur.x))).map
            (spec_single_row_sub_move g cur r) ++
          sub_moves (FINAL_MOVE g r (get_cell_index_x g r.x_end)
            (get_cell_index_y g r.y_end))) := by
  have hs : ¬ same_cell g cur r := fun h => hx h.1
  unfold enough_fuel at hf
  have hss := single_row_sites g hg cur r hx hy fuel (by omega)
  have he := mesh_buffer_line_of_sites g cur r fuel _ hss
  refine ⟨_, he, ?_, ?_⟩
  · intro hright
    have hneg : ¬ r.x_end - cur.x < 0 := by linarith
    have hlt : get_cell_index_x g cur.x < get_cell_index_x g r.x_end :=
      start_xi_lt_of_right g hg cur r hx hneg
    have e1 : dir_X cur r = 1 := by simp [dir_X, hneg]
    have e2 : left_X cur r = 0 := by simp [left_X, hneg]
    have e3 : (get_cell_index_x g cur.x - get_cell_index_x g r.x_end).natAbs =
        (get_cell_index_x g r.x_end - get_cell_index_x g cur.x).toNat := by omega
    rw [e1, e2, e3, add_zero] at hss
    refine ⟨hss, ?_⟩
    rw [e1, e2, e3, add_zero, events_at_append, sub_moves_append,
      sub_moves_horizontal_sites g cur r hx, sub_moves_finish g cur r hs]
    congr 2
    apply List.filter_eq_self.mpr
    intro k hk
    have h1 := mem_mesh_lines_from_up k _ _ hk
    have h2 := X_location_cell_succ_gt g hg cur.x
    have h3 := X_location_mono g hg h1
    exact decide_eq_true (by linarith : mesh_index_to_X_location g k ≠ cur.x)
  · intro hleft
    have hneg : r.x_end - cur.x < 0 := by linarith
    have hlt : get_cell_index_x g r.x_end < get_cell_index_x g cur.x :=
      dest_xi_lt_of_left g hg cur r hx hneg
    have e1 : dir_X cur r = -1 := by simp [dir_X, hneg]
    have e2 : left_X cur r = 1 := by simp [left_X, hneg]
    have e3 : (get_cell_index_x g cur.x - get_cell_index_x g r.x_end).natAbs =
        (get_cell_index_x g cur.x - get_cell_index_x g r.x_end).toNat := by omega
    have e4 : get_cell_index_x g cur.x + 1 + -1 = get_cell_index_x g cur.x := by ring
    rw [e1, e2, e3, e4] at hss
    refine ⟨hss, ?_⟩
    rw [e1, e2, e3, e4, events_at_append, sub_moves_append,
      sub_moves_horizontal_sites g cur r hx, sub_moves_finish g cur r hs]

/-- C25, witness: the single-row move from (20,5) left to (3,8) on the scenario grid, which
starts on the mesh line `X = 20`. -/
theorem C25_single_row_walk_witness :
    (scenario_grid nan 1 0).WF ∧
      get_cell_index_x (scenario_grid nan 1 0) 20 ≠ get_cell_index_x (scenario_grid nan 1 0) 3 ∧
      get_cell_index_y (scenario_grid nan 1 0) 5 = get_cell_index_y (scenario_grid nan 1 0) 8 ∧
      ∃ evs, mesh_buffer_line (scenario_grid nan 1 0) ⟨20, 5, 0, 0⟩ ⟨3, 8, 1, 1, 100, 0⟩ 3 =
          some evs ∧
        ((20 : ℚ) < 3 →
          mesh_buffer_line_sites (scenario_grid nan 1 0) ⟨20, 5, 0, 0⟩ ⟨3, 8, 1, 1, 100, 0⟩ 3 =
            some ((mesh_lines_from (get_cell_index_x (scenario_grid nan 1 0) 20 + 1) 1
                (get_cell_index_x (scenario_grid nan 1 0) 3 -
                  get_cell_index_x (scenario_grid nan 1 0) 20).toNat).map
              (fun k => Site.horizontal k (get_cell_index_y (scenario_grid nan 1 0) 5)) ++
              [Site.finish]) ∧
          sub_moves evs =
            (mesh_lines_from (get_cell_index_x (scenario_grid nan 1 0) 20 + 1) 1
                (get_cell_index_x (scenario_grid nan 1 0) 3 -
                  get_cell_index_x (scenario_grid nan 1 0) 20).toNat).map
              (spec_single_row_sub_move (scenario_grid nan 1 0) ⟨20, 5, 0, 0⟩
                ⟨3, 8, 1, 1, 100, 0⟩) ++
            sub_moves (FINAL_MOVE (scenario_grid nan 1 0) ⟨3, 8, 1, 1, 100, 0⟩
              (get_cell_index_x (scenario_grid nan 1 0) 3)
              (get_cell_index_y (scenario_grid nan 1 0) 8))) ∧
        ((3 : ℚ) < 20 →
          mesh_buffer_line_sites (scenario_grid nan 1 0) ⟨20, 5, 0, 0⟩ ⟨3, 8, 1, 1, 100, 0⟩ 3 =
            some ((mesh_lines_from (get_cell_index_x (scenario_grid nan 1 0) 20) (-1)
                (get_cell_index_x (scenario_grid nan 1 0) 20 -
                  get_cell_index_x (scenario_grid nan 1 0) 3).toNat).map
              (fun k => Site.horizontal k (get_cell_index_y (scenario_grid nan 1 0) 5)) ++
              [Site.finish]) ∧
          sub_moves evs =
            ((mesh_lines_from (get_cell_index_x (scenario_grid nan 1 0) 20) (-1)
                (get_cell_index_x (scenario_grid nan 1 0) 20 -
                  get_cell_index_x (scenario_grid nan 1 0) 3).toNat).filter
              (fun k => decide (mesh_index_to_X_location (scenario_grid nan 1 0) k ≠ 20))).map
              (spec_single_row_sub_move (scenario_grid nan 1 0) ⟨20, 5, 0, 0⟩
                ⟨3, 8, 1, 1, 100, 0⟩) ++
            sub_moves (FINAL_MOVE (scenario_grid nan 1 0) ⟨3, 8, 1, 1, 100, 0⟩
              (get_cell_index_x (scenario_grid nan 1 0) 3)
              (get_cell_index_y (scenario_grid nan 1 0) 8))) :=
  ⟨by decide!, by decide!, by decide!,
    C25_single_row_walk (scenario_grid nan 1 0) (by decide!) ⟨20, 5, 0, 0⟩
      ⟨3, 8, 1, 1, 100, 0⟩ (by decide!) (by decide!) 3 (by decide!)⟩

/-! ## The extra pass of the general loop -/

/-- A pass through the branch "Crossing a X Mesh Line next" that is entered with the column
counter at 0 happens only when the destination is a grid corner approached heading left and
up. -/
theorem corner_of_extra_pass (g : Blm) (hg : g.WF) (cur : Pos) (r : Req)
    (hx : get_cell_index_x g cur.x ≠ get_cell_index_x g r.x_end)
    (hy : get_cell_index_y g cur.y ≠ get_cell_index_y g r.y_end)
    (t : ℚ) (cxi cyi yc : Int) (hinv : general_inv g cur r t cxi cyi 0 yc)
    (hc : (0 : Int) > 0 ∨ yc > 0)
    (hnlt : ¬ frac_Y cur r (mesh_index_to_Y_location g (cyi + dir_Y cur r)) <
      frac_X cur r (mesh_index_to_X_location g (cxi + dir_X cur r))) :
    corner_left_up g cur r := by
  have hdx := setup_dx_ne_zero g cur r hx
  have hdy := setup_dy_ne_zero g cur r hy
  obtain ⟨_, hinv2, _⟩ := general_step_X g hg cur r hx hy t cxi cyi 0 yc hinv hc hnlt
  obtain ⟨hneg, hline⟩ := hinv2.2.2.2.2.1 (by norm_num)
  obtain ⟨i1, i2, _⟩ := hinv
  have hyc : 1 ≤ yc := by omega
  have hle := not_lt.mp hnlt
  have a2 := frac_Y_next_le_one g hg cur r hdy yc hyc
  rw [i1, i2] at hle
  have hfx : frac_X cur r (mesh_index_to_X_location g
      (next_xi cur r (get_cell_index_x g r.x_end) 0)) = 1 := by
    unfold next_xi frac_X
    rw [if_pos hneg, add_zero, hline]
    exact div_self hdx
  rw [hfx] at hle
  have hfy : frac_Y cur r (mesh_index_to_Y_location g
      (next_yi cur r (get_cell_index_y g r.y_end) yc)) = 1 := le_antisymm a2 hle
  have hly := frac_Y_mul cur r hdy (mesh_index_to_Y_location g
    (next_yi cur r (get_cell_index_y g r.y_end) yc))
  rw [hfy, one_mul] at hly
  have hly2 : mesh_index_to_Y_location g (next_yi cur r (get_cell_index_y g r.y_end) yc) =
      r.y_end := by linarith
  have b1 := Y_location_cell_le g hg r.y_end
  have b2 := Y_location_cell_succ_gt g hg r.y_end
  unfold next_yi at hly2
  by_cases hdown : r.y_end - cur.y < 0
  · exfalso
    rw [if_pos hdown] at hly2
    have := Y_location_mono g hg
      (show get_cell_index_y g r.y_end + 1 ≤ get_cell_index_y g r.y_end + yc by omega)
    linarith
  · rw [if_neg hdown] at hly2
    have := Y_location_mono g hg
      (show get_cell_index_y g r.y_end + 1 - yc ≤ get_cell_index_y g r.y_end by omega)
    exact ⟨hneg, hdown, hline, by linarith⟩

/-- When the general loop crosses one X mesh line more than the column counter says, the
destination is a grid corner approached heading left and up. -/
theorem general_sites_extra_pass (g : Blm) (hg : g.WF) (cur : Pos) (r : Req)
    (hx : get_cell_index_x g cur.x ≠ get_cell_index_x g r.x_end)
    (hy : get_cell_index_y g cur.y ≠ get_cell_index_y g r.y_end) :
    ∀ (fuel : Nat) (cxi cyi xc yc : Int) (ss : List Site) (t : ℚ),
      general_sites g (setup g cur r) fuel cxi cyi xc yc = some ss →
      general_inv g cur r t cxi cyi xc yc → (xc = -1 → corner_left_up g cur r) →
      ((ss.countP Site.crosses_X : Nat) : Int) = xc + 1 → corner_left_up g cur r := by
  have hdx := setup_dx_ne_zero g cur r hx
  have hdy := setup_dy_ne_zero g cur r hy
  have hdone : ∀ (fuel : Nat) (cxi cyi xc yc : Int) (ss : List Site),
      general_sites g (setup g cur r) fuel cxi cyi xc yc = some ss →
      (xc = -1 → corner_left_up g cur r) → ¬ (xc > 0 ∨ yc > 0) →
      ((ss.countP Site.crosses_X : Nat) : Int) = xc + 1 → corner_left_up g cur r := by
    intro fuel cxi cyi xc yc ss h hcorner hc hcount
    rw [general_sites_done g _ fuel cxi cyi xc yc ss hc h] at hcount
    simp only [List.countP_nil, Nat.cast_zero] at hcount
    exact hcorner (by omega)
  intro fuel
  induction fuel with
  | zero =>
    intro cxi cyi xc yc ss t h _ hcorner hcount
    exact hdone 0 cxi cyi xc yc ss h hcorner (general_sites_zero g _ cxi cyi xc yc ss h) hcount
  | succ f ih =>
    intro cxi cyi xc yc ss t h hinv hcorner hcount
    by_cases hc : xc > 0 ∨ yc > 0
    · rcases general_sites_succ_some g _ f cxi cyi xc yc ss hc h with
        ⟨hh, rest, h1, h2⟩ | ⟨hh, rest, h1, h2⟩
      · rw [setup_dxi_eq_dir g cur r hx, setup_dyi_eq_dir g cur r hy] at hh
        rw [setup_dyi_eq_dir g cur r hy] at h1
        have hlt := (hits_Y_line_first_iff g cur r hdx hdy _ _).mp hh
        obtain ⟨_, hinv2, _⟩ := general_step_Y g hg cur r hx hy t cxi cyi xc yc hinv hc hlt
        rw [h2] at hcount
        simp only [List.countP_cons, Site.crosses_X, Bool.false_eq_true, if_false,
          add_zero] at hcount
        exact ih _ _ _ _ rest _ h1 hinv2 hcorner hcount
      · rw [setup_dxi_eq_dir g cur r hx, setup_dyi_eq_dir g cur r hy] at hh
        rw [setup_dxi_eq_dir g cur r hx] at h1
        have hnlt : ¬ _ := fun e => hh ((hits_Y_line_first_iff g cur r hdx hdy _ _).mpr e)
        obtain ⟨hxc, hinv2, _⟩ := general_step_X g hg cur r hx hy t cxi cyi xc yc hinv hc hnlt
        rw [h2] at hcount
        simp only [List.countP_cons, Site.crosses_X, if_true] at hcount
        refine ih _ _ _ _ rest _ h1 hinv2 ?_ (by push_cast at hcount; omega)
        intro h0
        have hx0 : xc = 0 := by omega
        subst hx0
        exact corner_of_extra_pass g hg cur r hx hy t cxi cyi yc hinv hc hnlt
    · exact hdone _ cxi cyi xc yc ss h hcorner hc hcount

/-- In a general-case run the loop crosses exactly as many X mesh lines as there are columns
between start and destination, unless the destination is a grid corner approached heading left
and up. -/
theorem general_case_extra_pass (g : Blm) (hg : g.WF) (cur : Pos) (r : Req)
    (hx : get_cell_index_x g cur.x ≠ get_cell_index_x g r.x_end)
    (hy : get_cell_index_y g cur.y ≠ get_cell_index_y g r.y_end) (fuel : Nat)
    (ps : List Site) (h : mesh_buffer_line_sites g cur r fuel = some (ps ++ [Site.finish]))
    (hn : ¬ corner_left_up g cur r) :
    ps.countP Site.crosses_X = (get_cell_index_x g cur.x - get_cell_index_x g r.x_end).natAbs ∧
      ps.length = (get_cell_index_x g cur.x - get_cell_index_x g r.x_end).natAbs +
        (get_cell_index_y g cur.y - get_cell_index_y g r.y_end).natAbs := by
  have hs2 : ¬ ((setup g cur r).cell_start_xi = (setup g cur r).cell_dest_xi ∧
      (setup g cur r).cell_start_yi = (setup g cur r).cell_dest_yi) := fun h => hx h.1
  have hdxi := setup_dxi_ne_zero g cur r hx
  have hdyi := setup_dyi_ne_zero g cur r hy
  simp only [mesh_buffer_line_sites, if_neg hs2, if_neg hdxi, if_neg hdyi,
    Option.map_eq_some'] at h
  obtain ⟨ps2, h1, h2⟩ := h
  have hps : ps2 = ps := List.append_cancel_right h2
  rw [hps] at h1
  have hinv := general_inv_init g hg cur r hx hy
  obtain ⟨c1, c2, c3⟩ := general_sites_count g hg cur r hx hy fuel
    (get_cell_index_x g cur.x + left_X cur r) (get_cell_index_y g cur.y + down_Y cur r)
    (if get_cell_index_x g cur.x - get_cell_index_x g r.x_end < 0
      then -(get_cell_index_x g cur.x - get_cell_index_x g r.x_end)
      else get_cell_index_x g cur.x - get_cell_index_x g r.x_end)
    (if get_cell_index_y g cur.y - get_cell_index_y g r.y_end < 0
      then -(get_cell_index_y g cur.y - get_cell_index_y g r.y_end)
      else get_cell_index_y g cur.y - get_cell_index_y g r.y_end) ps 0 h1 hinv
  have hextra := general_sites_extra_pass g hg cur r hx hy fuel
    (get_cell_index_x g cur.x + left_X cur r) (get_cell_index_y g cur.y + down_Y cur r)
    (if get_cell_index_x g cur.x - get_cell_index_x g r.x_end < 0
      then -(get_cell_index_x g cur.x - get_cell_index_x g r.x_end)
      else get_cell_index_x g cur.x - get_cell_index_x g r.x_end)
    (if get_cell_index_y g cur.y - get_cell_index_y g r.y_end < 0
      then -(get_cell_index_y g cur.y - get_cell_index_y g r.y_end)
      else get_cell_index_y g cur.y - get_cell_index_y g r.y_end) ps 0 h1 hinv
    (by intro e; exfalso; split at e <;> omega)
  have hcx : ((ps.countP Site.crosses_X : Nat) : Int) =
      if get_cell_index_x g cur.x - get_cell_index_x g r.x_end < 0
        then -(get_cell_index_x g cur.x - get_cell_index_x g r.x_end)
        else get_cell_index_x g cur.x - get_cell_index_x g r.x_end := by
    rcases c2 with c2 | c2
    · exact c2
    · exact absurd (hextra c2) hn
  constructor
  · split at hcx <;> omega
  · rw [c3]
    split at hcx <;> split at c1 <;> omega

/-! ## The Z of the interior sub-moves -/

/-- At a loop site the emitted Z is the apportioned Z, plus the value of the edge interpolation
scaled by the fade factor for `z_end` and guarded against NaN, plus the Z offset. -/
theorem site_z_eq (g : Blm) (cur : Pos) (r : Req) (s : Site) (hl : s.in_loop = true) :
    ∀ sm ∈ sub_moves (pass_at g cur r s),
      sm.z = apportioned_z g cur r s +
        nan_to_zero (along_value g cur r s * fin (g.fade r.z_end)) + fin g.z_offset := by
  intro sm hsm
  cases s with
  | vertical cxi cyi =>
    simp only [pass_at, sub_moves_vertical_step] at hsm
    split at hsm
    · rw [List.mem_singleton.mp hsm]
      rfl
    · simp at hsm
  | horizontal cxi cyi =>
    simp only [pass_at, sub_moves_horizontal_step] at hsm
    split at hsm
    · rw [List.mem_singleton.mp hsm]
      rfl
    · simp at hsm
  | cross_Y cxi cyi =>
    simp only [pass_at, sub_moves_append, sub_moves_cross_Y_line, sub_moves_read_X,
      sub_moves_read_Y, sub_moves_nil, List.nil_append, List.mem_singleton] at hsm
    rw [hsm]
    rfl
  | cross_X cxi cyi =>
    simp only [pass_at, sub_moves_append, sub_moves_cross_X_line, sub_moves_read_X,
      sub_moves_read_Y, sub_moves_nil, List.nil_append, List.mem_singleton] at hsm
    rw [hsm]
    rfl
  | finish => exact absurd hl (by decide)
  | final_move => exact absurd hl (by decide)
  | raw => exact absurd hl (by decide)

/-- At a loop site of its classification the apportioned Z is an ordinary number. -/
theorem apportioned_z_fin (g : Blm) (cur : Pos) (r : Req) (s : Site)
    (hc : site_in_class g cur r s) : ∃ za, apportioned_z g cur r s = fin za := by
  cases s with
  | vertical cxi cyi =>
    have hs : ¬ same_cell g cur r := fun h => hc.2 h.2
    simp only [apportioned_z, Flt.fin_sub, z_position_at_fin g cur r hs]
    exact ⟨_, rfl⟩
  | horizontal cxi cyi =>
    have hs : ¬ same_cell g cur r := fun h => hc.1 h.1
    simp only [apportioned_z, Flt.fin_sub, z_position_at_fin g cur r hs]
    exact ⟨_, rfl⟩
  | cross_Y cxi cyi =>
    have hs : ¬ same_cell g cur r := fun h => hc.1 h.1
    have hdx := setup_dx_ne_zero g cur r hc.1
    have hdy := setup_dy_ne_zero g cur r hc.2
    simp only [apportioned_z, x_at_Y_line g cur r hdx hdy, Flt.fin_sub]
    cases (setup g cur r).use_X_dist
    · simp only [Bool.false_eq_true, if_false, z_position_at_fin g cur r hs]
      exact ⟨_, rfl⟩
    · simp only [if_true, z_position_at_fin g cur r hs]
      exact ⟨_, rfl⟩
  | cross_X cxi cyi =>
    have hs : ¬ same_cell g cur r := fun h => hc.1 h.1
    have hdx := setup_dx_ne_zero g cur r hc.1
    simp only [apportioned_z, y_at_X_line g cur r hdx, Flt.fin_sub]
    cases (setup g cur r).use_X_dist
    · simp only [Bool.false_eq_true, if_false, z_position_at_fin g cur r hs]
      exact ⟨_, rfl⟩
    · simp only [if_true, z_position_at_fin g cur r hs]
      exact ⟨_, rfl⟩
  | finish => exact ⟨_, rfl⟩
  | final_move => exact ⟨_, rfl⟩
  | raw => exact ⟨_, rfl⟩

/-- With enough fuel a run is the events of its sites, each of its classification. -/
theorem mesh_buffer_line_sites_some (g : Blm) (hg : g.WF) (cur : Pos) (r : Req) (fuel : Nat)
    (hf : enough_fuel g cur r ≤ fuel) :
    ∃ ss, mesh_buffer_line_sites g cur r fuel = some ss ∧
      mesh_buffer_line g cur r fuel = some (events_at g cur r ss) ∧
      ∀ s ∈ ss, site_in_class g cur r s := by
  obtain ⟨evs, he⟩ := mesh_buffer_line_some g hg cur r fuel hf
  rw [mesh_buffer_line_eq_sites] at he
  obtain ⟨ss, hss, _⟩ := Option.map_eq_some'.mp he
  exact ⟨ss, hss, mesh_buffer_line_of_sites g cur r fuel ss hss,
    mesh_buffer_line_sites_in_class g cur r fuel ss hss⟩

/-! ## Claim C26 -/

/-- C26: on a grid of positive pitch a run with enough fuel returns, and every sub-move emitted
by a pass of the single-column, single-row or general loop has
`Z = z_apportioned + c_eff + z_offset`, sums of ordinary numbers, where `c_eff` is the fade
factor for the request's `z_end` times the value of the edge interpolation at the crossed mesh
line when that value is a number, and 0 when it is undefined. -/
theorem C26_interior_z_is_apportioned_plus_correction (g : Blm) (hg : g.WF) (cur : Pos)
    (r : Req) (fuel : Nat) (hf : enough_fuel g cur r ≤ fuel) :
    ∃ ss, mesh_buffer_line_sites g cur r fuel = some ss ∧
      mesh_buffer_line g cur r fuel = some (events_at g cur r ss) ∧
      ∀ s ∈ ss, s.in_loop = true → ∀ sm ∈ sub_moves (pass_at g cur r s),
        ∃ za, apportioned_z g cur r s = fin za ∧
          (∀ a, along_value g cur r s = fin a →
            sm.z = fin (za + g.fade r.z_end * a + g.z_offset)) ∧
          (along_value g cur r s = nan → sm.z = fin (za + 0 + g.z_offset)) := by
  obtain ⟨ss, hss, he, hcl⟩ := mesh_buffer_line_sites_some g hg cur r fuel hf
  refine ⟨ss, hss, he, ?_⟩
  intro s hs hl sm hsm
  obtain ⟨za, hza⟩ := apportioned_z_fin g cur r s (hcl s hs)
  have hz := site_z_eq g cur r s hl sm hsm
  rw [hza] at hz
  refine ⟨za, hza, ?_, ?_⟩
  · intro a ha
    rw [hz, ha, Flt.fin_mul, nan_to_zero_fin, Flt.fin_add, Flt.fin_add, mul_comm a]
  · intro ha
    rw [hz, ha, Flt.nan_mul, nan_to_zero_nan, Flt.fin_add, Flt.fin_add]

/-- C26, witness: the move from (5,5) to (15,15) on the scenario grid with fade factor 1/2 and
Z offset 3. -/
theorem C26_interior_z_is_apportioned_plus_correction_witness :
    (scenario_grid nan (1 / 2) 3).WF ∧
      ∃ ss, mesh_buffer_line_sites (scenario_grid nan (1 / 2) 3) ⟨5, 5, 0, 0⟩
          ⟨15, 15, 1, 1, 100, 0⟩ 3 = some ss ∧
        mesh_buffer_line (scenario_grid nan (1 / 2) 3) ⟨5, 5, 0, 0⟩ ⟨15, 15, 1, 1, 100, 0⟩ 3 =
          some (events_at (scenario_grid nan (1 / 2) 3) ⟨5, 5, 0, 0⟩ ⟨15, 15, 1, 1, 100, 0⟩ ss) ∧
        ∀ s ∈ ss, s.in_loop = true →
          ∀ sm ∈ sub_moves (pass_at (scenario_grid nan (1 / 2) 3) ⟨5, 5, 0, 0⟩
              ⟨15, 15, 1, 1, 100, 0⟩ s),
            ∃ za, apportioned_z (scenario_grid nan (1 / 2) 3) ⟨5, 5, 0, 0⟩
                ⟨15, 15, 1, 1, 100, 0⟩ s = fin za ∧
              (∀ a, along_value (scenario_grid nan (1 / 2) 3) ⟨5, 5, 0, 0⟩
                  ⟨15, 15, 1, 1, 100, 0⟩ s = fin a →
                sm.z = fin (za + (scenario_grid nan (1 / 2) 3).fade 1 * a +
                  (scenario_grid nan (1 / 2) 3).z_offset)) ∧
              (along_value (scenario_grid nan (1 / 2) 3) ⟨5, 5, 0, 0⟩
                  ⟨15, 15, 1, 1, 100, 0⟩ s = nan →
                sm.z = fin (za + 0 + (scenario_grid nan (1 / 2) 3).z_offset)) :=
  ⟨by decide!, C26_interior_z_is_apportioned_plus_correction (scenario_grid nan (1 / 2) 3)
    (by decide!) ⟨5, 5, 0, 0⟩ ⟨15, 15, 1, 1, 100, 0⟩ 3 (by decide!)⟩

/-! ## Apportioning in the general loop -/

theorem on_axis_distance_of_use_X_dist (g : Blm) (cur : Pos) (r : Req)
    (h : (setup g cur r).use_X_dist = true) : on_axis_distance cur r = r.x_end - cur.x := by
  have hu : (setup g cur r).use_X_dist =
      decide ((if r.x_end - cur.x < 0 then -(r.x_end - cur.x) else r.x_end - cur.x) >
        (if r.y_end - cur.y < 0 then -(r.y_end - cur.y) else r.y_end - cur.y)) := rfl
  rw [hu, decide_eq_true_iff] at h
  unfold on_axis_distance
  simp only [if_pos h]

theorem on_axis_distance_of_not_use_X_dist (g : Blm) (cur : Pos) (r : Req)
    (h : (setup g cur r).use_X_dist = false) : on_axis_distance cur r = r.y_end - cur.y := by
  have hu : (setup g cur r).use_X_dist =
      decide ((if r.x_end - cur.x < 0 then -(r.x_end - cur.x) else r.x_end - cur.x) >
        (if r.y_end - cur.y < 0 then -(r.y_end - cur.y) else r.y_end - cur.y)) := rfl
  rw [hu, decide_eq_false_iff_not] at h
  unfold on_axis_distance
  simp only [if_neg h]

/-- On a path that is neither vertical nor horizontal, the extrusion apportioned at the point
of travel fraction `t` is `e_start + t * (e_end - e_start)`, whichever axis is dominant. -/
theorem e_position_at_fraction (g : Blm) (cur : Pos) (r : Req) (hs : ¬ same_cell g cur r)
    (hdx : r.x_end - cur.x ≠ 0) (hdy : r.y_end - cur.y ≠ 0) (t d_x d_y : ℚ)
    (h1 : d_x = t * (r.x_end - cur.x)) (h2 : d_y = t * (r.y_end - cur.y)) :
    e_position_at (setup g cur r) (if (setup g cur r).use_X_dist then fin d_x else fin d_y) =
      fin (cur.e + t * (r.e_end - cur.e)) := by
  cases hU : (setup g cur r).use_X_dist
  · simp only [Bool.false_eq_true, if_false, e_position_at_fin g cur r hs,
      on_axis_distance_of_not_use_X_dist g cur r hU, h2]
    congr 1
    field_simp
    ring
  · simp only [if_true, e_position_at_fin g cur r hs,
      on_axis_distance_of_use_X_dist g cur r hU, h1]
    congr 1
    field_simp
    ring

/-- The same for the apportioned Z. -/
theorem z_position_at_fraction (g : Blm) (cur : Pos) (r : Req) (hs : ¬ same_cell g cur r)
    (hdx : r.x_end - cur.x ≠ 0) (hdy : r.y_end - cur.y ≠ 0) (t d_x d_y : ℚ)
    (h1 : d_x = t * (r.x_end - cur.x)) (h2 : d_y = t * (r.y_end - cur.y)) :
    z_position_at (setup g cur r) (if (setup g cur r).use_X_dist then fin d_x else fin d_y) =
      fin (cur.z + t * (r.z_end - cur.z)) := by
  cases hU : (setup g cur r).use_X_dist
  · simp only [Bool.false_eq_true, if_false, z_position_at_fin g cur r hs,
      on_axis_distance_of_not_use_X_dist g cur r hU, h2]
    congr 1
    field_simp
    ring
  · simp only [if_true, z_position_at_fin g cur r hs,
      on_axis_distance_of_use_X_dist g cur r hU, h1]
    congr 1
    field_simp
    ring

/-- The one sub-move of a pass of the general loop: the point of the path at the travel
fraction of the crossing, with extrusion and uncorrected Z apportioned by that fraction. -/
theorem cross_site_sub_move (g : Blm) (cur : Pos) (r : Req)
    (hx : get_cell_index_x g cur.x ≠ get_cell_index_x g r.x_end)
    (hy : get_cell_index_y g cur.y ≠ get_cell_index_y g r.y_end) (s : Site)
    (hcross : (∃ a b, s = Site.cross_Y a b ∨ s = Site.cross_X a b)) :
    sub_moves (pass_at g cur r s) =
        [⟨fin (cur.x + site_fraction g cur r s * (r.x_end - cur.x)),
          fin (cur.y + site_fraction g cur r s * (r.y_end - cur.y)),
          apportioned_z g cur r s +
            nan_to_zero (along_value g cur r s * fin (g.fade r.z_end)) + fin g.z_offset,
          fin (cur.e + site_fraction g cur r s * (r.e_end - cur.e)),
          r.feed_rate, r.extruder⟩] ∧
      apportioned_z g cur r s = fin (cur.z + site_fraction g cur r s * (r.z_end - cur.z)) := by
  have hs : ¬ same_cell g cur r := fun h => hx h.1
  have hdx := setup_dx_ne_zero g cur r hx
  have hdy := setup_dy_ne_zero g cur r hy
  have h1 : (setup g cur r).x_start = cur.x := rfl
  have h2 : (setup g cur r).y_start = cur.y := rfl
  obtain ⟨a, b, e | e⟩ := hcross
  · rw [e]
    have hfy := frac_Y_mul cur r hdy (mesh_index_to_Y_location g (b + dir_Y cur r))
    have he := e_position_at_fraction g cur r hs hdx hdy
      (frac_Y cur r (mesh_index_to_Y_location g (b + dir_Y cur r)))
      (cur.x + frac_Y cur r (mesh_index_to_Y_location g (b + dir_Y cur r)) *
        (r.x_end - cur.x) - cur.x)
      (mesh_index_to_Y_location g (b + dir_Y cur r) - cur.y) (by ring) (by linarith)
    have hz := z_position_at_fraction g cur r hs hdx hdy
      (frac_Y cur r (mesh_index_to_Y_location g (b + dir_Y cur r)))
      (cur.x + frac_Y cur r (mesh_index_to_Y_location g (b + dir_Y cur r)) *
        (r.x_end - cur.x) - cur.x)
      (mesh_index_to_Y_location g (b + dir_Y cur r) - cur.y) (by ring) (by linarith)
    have hza : apportioned_z g cur r (Site.cross_Y a b) =
        fin (cur.z + frac_Y cur r (mesh_index_to_Y_location g (b + dir_Y cur r)) *
          (r.z_end - cur.z)) := by
      simp only [apportioned_z, setup_dyi_eq_dir g cur r hy, x_at_Y_line g cur r hdx hdy,
        Flt.fin_sub, hz]
    refine ⟨?_, hza⟩
    simp only [pass_at, sub_moves_append, sub_moves_cross_Y_line, sub_moves_read_X,
      sub_moves_read_Y, sub_moves_nil, List.nil_append, site_fraction, along_value, hza,
      setup_dyi_eq_dir g cur r hy, x_at_Y_line g cur r hdx hdy, h1, h2, Flt.fin_sub, he, hz,
      hfy]
  · rw [e]
    have hfx := frac_X_mul cur r hdx (mesh_index_to_X_location g (a + dir_X cur r))
    have he := e_position_at_fraction g cur r hs hdx hdy
      (frac_X cur r (mesh_index_to_X_location g (a + dir_X cur r)))
      (mesh_index_to_X_location g (a + dir_X cur r) - cur.x)
      (cur.y + frac_X cur r (mesh_index_to_X_location g (a + dir_X cur r)) *
        (r.y_end - cur.y) - cur.y) (by linarith) (by ring)
    have hz := z_position_at_fraction g cur r hs hdx hdy
      (frac_X cur r (mesh_index_to_X_location g (a + dir_X cur r)))
      (mesh_index_to_X_location g (a + dir_X cur r) - cur.x)
      (cur.y + frac_X cur r (mesh_index_to_X_location g (a + dir_X cur r)) *
        (r.y_end - cur.y) - cur.y) (by linarith) (by ring)
    have hza : apportioned_z g cur r (Site.cross_X a b) =
        fin (cur.z + frac_X cur r (mesh_index_to_X_location g (a + dir_X cur r)) *
          (r.z_end - cur.z)) := by
      simp only [apportioned_z, setup_dxi_eq_dir g cur r hx, y_at_X_line g cur r hdx,
        Flt.fin_sub, hz]
    refine ⟨?_, hza⟩
    simp only [pass_at, sub_moves_append, sub_moves_cross_X_line, sub_moves_read_X,
      sub_moves_read_Y, sub_moves_nil, List.nil_append, site_fraction, along_value, hza,
      setup_dxi_eq_dir g cur r hx, y_at_X_line g cur r hdx, h1, h2, Flt.fin_sub, he, hz,
      hfx]

/-! ## Claim C27 -/

/-- C27: on a grid of positive pitch, a general-case request (both cell indices differ) has
`dx ≠ 0` and `dy ≠ 0`, and with enough fuel its run returns; every pass of the general loop
emits one sub-move, at a point `(x, y)` with `(x - x_start) / dx = (y - y_start) / dy = t`,
whose extrusion is `e_start + t * (e_end - e_start)` and whose Z is the uncorrected
`z_start + t * (z_end - z_start)` plus the guarded correction and the Z offset, whichever axis
is dominant and whichever branch the pass takes. -/
theorem C27_general_case_apportions_by_travel_fraction (g : Blm) (hg : g.WF) (cur : Pos)
    (r : Req) (hx : get_cell_index_x g cur.x ≠ get_cell_index_x g r.x_end)
    (hy : get_cell_index_y g cur.y ≠ get_cell_index_y g r.y_end)
    (fuel : Nat) (hf : enough_fuel g cur r ≤ fuel) :
    r.x_end - cur.x ≠ 0 ∧ r.y_end - cur.y ≠ 0 ∧
      ∃ ss, mesh_buffer_line_sites g cur r fuel = some ss ∧
        mesh_buffer_line g cur r fuel = some (events_at g cur r ss) ∧
        ∀ s ∈ ss, s.in_loop = true →
          ∃ sm x y, sub_moves (pass_at g cur r s) = [sm] ∧ sm.x = fin x ∧ sm.y = fin y ∧
            (x - cur.x) / (r.x_end - cur.x) = (y - cur.y) / (r.y_end - cur.y) ∧
            sm.e = fin (cur.e + (x - cur.x) / (r.x_end - cur.x) * (r.e_end - cur.e)) ∧
            apportioned_z g cur r s =
              fin (cur.z + (x - cur.x) / (r.x_end - cur.x) * (r.z_end - cur.z)) ∧
            sm.z = apportioned_z g cur r s +
              nan_to_zero (along_value g cur r s * fin (g.fade r.z_end)) + fin g.z_offset := by
  have hdx := setup_dx_ne_zero g cur r hx
  have hdy := setup_dy_ne_zero g cur r hy
  obtain ⟨ps, hss, _, hmem, _⟩ := general_case_sites g hg cur r hx hy fuel hf
  refine ⟨hdx, hdy, _, hss, mesh_buffer_line_of_sites g cur r fuel _ hss, ?_⟩
  intro s hs hl
  have hps : s ∈ ps := by
    rcases List.mem_append.mp hs with h | h
    · exact h
    · rw [List.mem_singleton.mp h] at hl
      exact absurd hl (by decide)
  obtain ⟨hsm, hza⟩ := cross_site_sub_move g cur r hx hy s (hmem s hps)
  have hfx : (cur.x + site_fraction g cur r s * (r.x_end - cur.x) - cur.x) /
      (r.x_end - cur.x) = site_fraction g cur r s := by
    field_simp
  have hfy : (cur.y + site_fraction g cur r s * (r.y_end - cur.y) - cur.y) /
      (r.y_end - cur.y) = site_fraction g cur r s := by
    field_simp
  refine ⟨_, _, _, hsm, rfl, rfl, ?_, ?_, ?_, rfl⟩
  · rw [hfx, hfy]
  · rw [hfx]
  · rw [hfx, hza]

/-- C27, witness: the move from (1,2) to (25,11) on the scenario grid, X-dominant, which
crosses `X = 10`, `Y = 10` and `X = 20`. -/
theorem C27_general_case_apportions_by_travel_fraction_witness :
    (scenario_grid nan 1 0).WF ∧
      get_cell_index_x (scenario_grid nan 1 0) 1 ≠ get_cell_index_x (scenario_grid nan 1 0) 25 ∧
      get_cell_index_y (scenario_grid nan 1 0) 2 ≠ get_cell_index_y (scenario_grid nan 1 0) 11 ∧
      (25 : ℚ) - 1 ≠ 0 ∧ (11 : ℚ) - 2 ≠ 0 ∧
      ∃ ss, mesh_buffer_line_sites (scenario_grid nan 1 0) ⟨1, 2, 0, 0⟩
          ⟨25, 11, 1, 1, 100, 0⟩ 4 = some ss ∧
        mesh_buffer_line (scenario_grid nan 1 0) ⟨1, 2, 0, 0⟩ ⟨25, 11, 1, 1, 100, 0⟩ 4 =
          some (events_at (scenario_grid nan 1 0) ⟨1, 2, 0, 0⟩ ⟨25, 11, 1, 1, 100, 0⟩ ss) ∧
        ∀ s ∈ ss, s.in_loop = true →
          ∃ sm x y, sub_moves (pass_at (scenario_grid nan 1 0) ⟨1, 2, 0, 0⟩
              ⟨25, 11, 1, 1, 100, 0⟩ s) = [sm] ∧ sm.x = fin x ∧ sm.y = fin y ∧
            (x - 1) / (25 - 1) = (y - 2) / (11 - 2) ∧
            sm.e = fin (0 + (x - 1) / (25 - 1) * (1 - 0)) ∧
            apportioned_z (scenario_grid nan 1 0) ⟨1, 2, 0, 0⟩ ⟨25, 11, 1, 1, 100, 0⟩ s =
              fin (0 + (x - 1) / (25 - 1) * (1 - 0)) ∧
            sm.z = apportioned_z (scenario_grid nan 1 0) ⟨1, 2, 0, 0⟩
                ⟨25, 11, 1, 1, 100, 0⟩ s +
              nan_to_zero (along_value (scenario_grid nan 1 0) ⟨1, 2, 0, 0⟩
                ⟨25, 11, 1, 1, 100, 0⟩ s * fin ((scenario_grid nan 1 0).fade 1)) +
              fin (scenario_grid nan 1 0).z_offset :=
  ⟨by decide!, by decide!, by decide!,
    C27_general_case_apportions_by_travel_fraction (scenario_grid nan 1 0) (by decide!)
      ⟨1, 2, 0, 0⟩ ⟨25, 11, 1, 1, 100, 0⟩ (by decide!) (by decide!) 4 (by decide!)⟩

/-! ## Claim C28 -/

/-- C28: on a grid of positive pitch a run with enough fuel returns, and the endpoint `(x, y)`
of every emitted sub-move is collinear with the start and the destination:
`(x - x_start) * (y_end - y_start) = (y - y_start) * (x_end - x_start)`. -/
theorem C28_endpoints_are_collinear (g : Blm) (hg : g.WF) (cur : Pos) (r : Req)
    (fuel : Nat) (hf : enough_fuel g cur r ≤ fuel) :
    ∃ evs, mesh_buffer_line g cur r fuel = some evs ∧
      ∀ sm ∈ sub_moves evs, ∃ x y, sm.x = fin x ∧ sm.y = fin y ∧
        (x - cur.x) * (r.y_end - cur.y) = (y - cur.y) * (r.x_end - cur.x) := by
  obtain ⟨evs, he⟩ := mesh_buffer_line_some g hg cur r fuel hf
  obtain ⟨ts, e1, _, _⟩ := mesh_buffer_line_fracs g hg cur r fuel evs he
  refine ⟨evs, he, ?_⟩
  intro sm hsm
  have hmem : (sm.x, sm.y) ∈ endpoints evs :=
    List.mem_map.mpr ⟨sm, hsm, rfl⟩
  rw [e1] at hmem
  obtain ⟨t, _, ht⟩ := List.mem_map.mp hmem
  unfold on_path at ht
  injection ht with h1 h2
  exact ⟨_, _, h1.symm, h2.symm, by ring⟩

/-- C28, witness: the move from (25,5) to (10,10) on the scenario grid. -/
theorem C28_endpoints_are_collinear_witness :
    (scenario_grid nan 1 0).WF ∧
      ∃ evs, mesh_buffer_line (scenario_grid nan 1 0) ⟨25, 5, 0, 0⟩
          ⟨10, 10, 1, 1, 100, 0⟩ 3 = some evs ∧
        ∀ sm ∈ sub_moves evs, ∃ x y, sm.x = fin x ∧ sm.y = fin y ∧
          (x - 25) * (10 - 5) = (y - 5) * (10 - 25) :=
  ⟨by decide!, C28_endpoints_are_collinear (scenario_grid nan 1 0) (by decide!)
    ⟨25, 5, 0, 0⟩ ⟨10, 10, 1, 1, 100, 0⟩ 3 (by decide!)⟩

/-! ## Claim C29 -/

/-- The endpoint of a pass of the general loop is the point of the path at its travel
fraction. -/
theorem cross_site_endpoint (g : Blm) (cur : Pos) (r : Req)
    (hx : get_cell_index_x g cur.x ≠ get_cell_index_x g r.x_end)
    (hy : get_cell_index_y g cur.y ≠ get_cell_index_y g r.y_end) (s : Site)
    (hcross : (∃ a b, s = Site.cross_Y a b ∨ s = Site.cross_X a b)) :
    endpoints (pass_at g cur r s) = [on_path cur r (site_fraction g cur r s)] := by
  unfold endpoints
  rw [(cross_site_sub_move g cur r hx hy s hcross).1]
  rfl

/-- The sites of a general-case run are entered with the loop invariant. -/
theorem general_case_entered (g : Blm) (hg : g.WF) (cur : Pos) (r : Req) (fuel : Nat)
    (ss : List Site) (hss : mesh_buffer_line_sites g cur r fuel = some ss)
    (s : Site) (hs : s ∈ ss) (hcross : (∃ a b, s = Site.cross_Y a b ∨ s = Site.cross_X a b)) :
    get_cell_index_x g cur.x ≠ get_cell_index_x g r.x_end ∧
      get_cell_index_y g cur.y ≠ get_cell_index_y g r.y_end ∧ entered g cur r s := by
  have hcl := mesh_buffer_line_sites_in_class g cur r fuel ss hss s hs
  have hxy : get_cell_index_x g cur.x ≠ get_cell_index_x g r.x_end ∧
      get_cell_index_y g cur.y ≠ get_cell_index_y g r.y_end := by
    obtain ⟨a, b, e | e⟩ := hcross <;> rw [e] at hcl <;> exact hcl
  obtain ⟨hx, hy⟩ := hxy
  refine ⟨hx, hy, ?_⟩
  have hs2 : ¬ ((setup g cur r).cell_start_xi = (setup g cur r).cell_dest_xi ∧
      (setup g cur r).cell_start_yi = (setup g cur r).cell_dest_yi) := fun h => hx h.1
  have hdxi := setup_dxi_ne_zero g cur r hx
  have hdyi := setup_dyi_ne_zero g cur r hy
  simp only [mesh_buffer_line_sites, if_neg hs2, if_neg hdxi, if_neg hdyi,
    Option.map_eq_some'] at hss
  obtain ⟨ps, h1, h2⟩ := hss
  rw [← h2] at hs
  have hps : s ∈ ps := by
    rcases List.mem_append.mp hs with h | h
    · exact h
    · obtain ⟨a, b, e | e⟩ := hcross <;> rw [e] at h <;> simp at h
  exact general_sites_entered g hg cur r hx hy fuel _ _ _ _ ps 0 h1
    (general_inv_init g hg cur r hx hy) s hps

/-- C29: on a grid of positive pitch a run with enough fuel returns; the endpoints of its
sub-moves are the points of the requested path at travel fractions that do not decrease from
one sub-move to the next and lie between 0 and 1; and each pass of the general loop emits the
point at the smaller of the travel fractions of the next X mesh line and the next Y mesh
line. -/
theorem C29_travel_fraction_does_not_decrease (g : Blm) (hg : g.WF) (cur : Pos) (r : Req)
    (fuel : Nat) (hf : enough_fuel g cur r ≤ fuel) :
    ∃ (ss : List Site) (evs : List Event) (ts : List ℚ),
      mesh_buffer_line_sites g cur r fuel = some ss ∧
      mesh_buffer_line g cur r fuel = some evs ∧
      endpoints evs = ts.map (on_path cur r) ∧ ts.Pairwise (· ≤ ·) ∧
      (∀ t ∈ ts, 0 ≤ t ∧ t ≤ 1) ∧
      ∀ cxi cyi,
        (Site.cross_Y cxi cyi ∈ ss →
          endpoints (pass_at g cur r (Site.cross_Y cxi cyi)) =
            [on_path cur r (min (frac_X cur r (mesh_index_to_X_location g (cxi + dir_X cur r)))
              (frac_Y cur r (mesh_index_to_Y_location g (cyi + dir_Y cur r))))]) ∧
        (Site.cross_X cxi cyi ∈ ss →
          endpoints (pass_at g cur r (Site.cross_X cxi cyi)) =
            [on_path cur r (min (frac_X cur r (mesh_index_to_X_location g (cxi + dir_X cur r)))
              (frac_Y cur r (mesh_index_to_Y_location g (cyi + dir_Y cur r))))]) := by
  obtain ⟨ss, hss, he, _⟩ := mesh_buffer_line_sites_some g hg cur r fuel hf
  obtain ⟨ts, e1, e2, e3⟩ := mesh_buffer_line_fracs g hg cur r fuel _ he
  refine ⟨ss, _, ts, hss, he, e1, e2, e3, ?_⟩
  intro cxi cyi
  constructor
  · intro hs
    obtain ⟨hx, hy, t, xc, yc, _, _, hlt⟩ :=
      general_case_entered g hg cur r fuel ss hss _ hs ⟨cxi, cyi, Or.inl rfl⟩
    rw [cross_site_endpoint g cur r hx hy _ ⟨cxi, cyi, Or.inl rfl⟩, min_eq_right hlt.le]
    rfl
  · intro hs
    obtain ⟨hx, hy, t, xc, yc, _, _, hle⟩ :=
      general_case_entered g hg cur r fuel ss hss _ hs ⟨cxi, cyi, Or.inr rfl⟩
    rw [cross_site_endpoint g cur r hx hy _ ⟨cxi, cyi, Or.inr rfl⟩, min_eq_left hle]
    rfl

/-- C29, witness: the move from (25,5) to (10,10) on the scenario grid. -/
theorem C29_travel_fraction_does_not_decrease_witness :
    (scenario_grid nan 1 0).WF ∧
      ∃ (ss : List Site) (evs : List Event) (ts : List ℚ),
        mesh_buffer_line_sites (scenario_grid nan 1 0) ⟨25, 5, 0, 0⟩
          ⟨10, 10, 1, 1, 100, 0⟩ 3 = some ss ∧
        mesh_buffer_line (scenario_grid nan 1 0) ⟨25, 5, 0, 0⟩ ⟨10, 10, 1, 1, 100, 0⟩ 3 =
          some evs ∧
        endpoints evs = ts.map (on_path ⟨25, 5, 0, 0⟩ ⟨10, 10, 1, 1, 100, 0⟩) ∧
        ts.Pairwise (· ≤ ·) ∧ (∀ t ∈ ts, 0 ≤ t ∧ t ≤ 1) ∧
        ∀ cxi cyi,
          (Site.cross_Y cxi cyi ∈ ss →
            endpoints (pass_at (scenario_grid nan 1 0) ⟨25, 5, 0, 0⟩ ⟨10, 10, 1, 1, 100, 0⟩
                (Site.cross_Y cxi cyi)) =
              [on_path ⟨25, 5, 0, 0⟩ ⟨10, 10, 1, 1, 100, 0⟩
                (min (frac_X ⟨25, 5, 0, 0⟩ ⟨10, 10, 1, 1, 100, 0⟩
                    (mesh_index_to_X_location (scenario_grid nan 1 0)
                      (cxi + dir_X ⟨25, 5, 0, 0⟩ ⟨10, 10, 1, 1, 100, 0⟩)))
                  (frac_Y ⟨25, 5, 0, 0⟩ ⟨10, 10, 1, 1, 100, 0⟩
                    (mesh_index_to_Y_location (scenario_grid nan 1 0)
                      (cyi + dir_Y ⟨25, 5, 0, 0⟩ ⟨10, 10, 1, 1, 100, 0⟩))))]) ∧
          (Site.cross_X cxi cyi ∈ ss →
            endpoints (pass_at (scenario_grid nan 1 0) ⟨25, 5, 0, 0⟩ ⟨10, 10, 1, 1, 100, 0⟩
                (Site.cross_X cxi cyi)) =
              [on_path ⟨25, 5, 0, 0⟩ ⟨10, 10, 1, 1, 100, 0⟩
                (min (frac_X ⟨25, 5, 0, 0⟩ ⟨10, 10, 1, 1, 100, 0⟩
                    (mesh_index_to_X_location (scenario_grid nan 1 0)
                      (cxi + dir_X ⟨25, 5, 0, 0⟩ ⟨10, 10, 1, 1, 100, 0⟩)))
                  (frac_Y ⟨25, 5, 0, 0⟩ ⟨10, 10, 1, 1, 100, 0⟩
                    (mesh_index_to_Y_location (scenario_grid nan 1 0)
                      (cyi + dir_Y ⟨25, 5, 0, 0⟩ ⟨10, 10, 1, 1, 100, 0⟩))))]) :=
  ⟨by decide!, C29_travel_fraction_does_not_decrease (scenario_grid nan 1 0) (by decide!)
    ⟨25, 5, 0, 0⟩ ⟨10, 10, 1, 1, 100, 0⟩ 3 (by decide!)⟩

/-! ## Claim C30 -/

theorem fraction_in_segment (lo hi x : ℚ) (h : lo < hi) (h1 : lo ≤ x) (h2 : x ≤ hi) :
    0 ≤ (x - lo) / (hi - lo) ∧ (x - lo) / (hi - lo) ≤ 1 := by
  have hpos : 0 < hi - lo := by linarith
  exact ⟨div_nonneg (by linarith) hpos.le, (div_le_one hpos).mpr (by linarith)⟩

/-- C30: on a grid of positive pitch a general-case run with enough fuel returns, and the
mesh-line segment queried in each pass of its loop contains the endpoint of the pass.  In the
branch "Crossing a Y Mesh Line next" the sub-move is at some X = `x`, the row interpolation is
called with `x` and the X index `i = current_xi - left_flag`, and
`lineX(i) ≤ x ≤ lineX(i+1)`; in the branch "Crossing a X Mesh Line next" the sub-move is at
some Y = `y`, the column interpolation is called with `y` and the Y index
`j = current_yi - down_flag`, and `lineY(j) ≤ y ≤ lineY(j+1)`.  In both the interpolation
fraction lies between 0 and 1. -/
theorem C30_queried_segment_contains_endpoint (g : Blm) (hg : g.WF) (cur : Pos) (r : Req)
    (hx : get_cell_index_x g cur.x ≠ get_cell_index_x g r.x_end)
    (hy : get_cell_index_y g cur.y ≠ get_cell_index_y g r.y_end)
    (fuel : Nat) (hf : enough_fuel g cur r ≤ fuel) :
    ∃ ss, mesh_buffer_line_sites g cur r fuel = some ss ∧
      mesh_buffer_line g cur r fuel = some (events_at g cur r ss) ∧
      ∀ cxi cyi,
        (Site.cross_Y cxi cyi ∈ ss →
          ∃ sm x, sub_moves (pass_at g cur r (Site.cross_Y cxi cyi)) = [sm] ∧ sm.x = fin x ∧
            sm.z = apportioned_z g cur r (Site.cross_Y cxi cyi) +
              nan_to_zero (get_z_correction_along_horizontal_mesh_line_at_specific_X g (fin x)
                (cxi - left_X cur r) (cyi + dir_Y cur r) * fin (g.fade r.z_end)) +
              fin g.z_offset ∧
            mesh_index_to_X_location g (cxi - left_X cur r) ≤ x ∧
            x ≤ mesh_index_to_X_location g (cxi - left_X cur r + 1) ∧
            0 ≤ (x - mesh_index_to_X_location g (cxi - left_X cur r)) /
              (mesh_index_to_X_location g (cxi - left_X cur r + 1) -
                mesh_index_to_X_location g (cxi - left_X cur r)) ∧
            (x - mesh_index_to_X_location g (cxi - left_X cur r)) /
              (mesh_index_to_X_location g (cxi - left_X cur r + 1) -
                mesh_index_to_X_location g (cxi - left_X cur r)) ≤ 1) ∧
        (Site.cross_X cxi cyi ∈ ss →
          ∃ sm y, sub_moves (pass_at g cur r (Site.cross_X cxi cyi)) = [sm] ∧ sm.y = fin y ∧
            sm.z = apportioned_z g cur r (Site.cross_X cxi cyi) +
              nan_to_zero (get_z_correction_along_vertical_mesh_line_at_specific_Y g (fin y)
                (cxi + dir_X cur r) (cyi - down_Y cur r) * fin (g.fade r.z_end)) +
              fin g.z_offset ∧
            mesh_index_to_Y_location g (cyi - down_Y cur r) ≤ y ∧
            y ≤ mesh_index_to_Y_location g (cyi - down_Y cur r + 1) ∧
            0 ≤ (y - mesh_index_to_Y_location g (cyi - down_Y cur r)) /
              (mesh_index_to_Y_location g (cyi - down_Y cur r + 1) -
                mesh_index_to_Y_location g (cyi - down_Y cur r)) ∧
            (y - mesh_index_to_Y_location g (cyi - down_Y cur r)) /
              (mesh_index_to_Y_location g (cyi - down_Y cur r + 1) -
                mesh_index_to_Y_location g (cyi - down_Y cur r)) ≤ 1) := by
  have hdx := setup_dx_ne_zero g cur r hx
  have hdy := setup_dy_ne_zero g cur r hy
  obtain ⟨ss, hss, he, _⟩ := mesh_buffer_line_sites_some g hg cur r fuel hf
  refine ⟨ss, hss, he, ?_⟩
  intro cxi cyi
  constructor
  · intro hs
    obtain ⟨_, _, t, xc, yc, hinv, hc, hlt⟩ :=
      general_case_entered g hg cur r fuel ss hss _ hs ⟨cxi, cyi, Or.inl rfl⟩
    obtain ⟨_, hinv2, _⟩ := general_step_Y g hg cur r hx hy t cxi cyi xc yc hinv hc hlt
    obtain ⟨_, _, _, _, _, i6, i7, _⟩ := hinv2
    obtain ⟨hsm, _⟩ := cross_site_sub_move g cur r hx hy _ ⟨cxi, cyi, Or.inl rfl⟩
    have hlo := X_location_strict_mono g hg
      (show cxi - left_X cur r < cxi - left_X cur r + 1 by omega)
    have hu := fraction_in_segment _ _ _ hlo i6 i7
    refine ⟨_, _, hsm, rfl, ?_, i6, i7, hu.1, hu.2⟩
    simp only [along_value, setup_dyi_eq_dir g cur r hy, setup_left_flag,
      x_at_Y_line g cur r hdx hdy, site_fraction]
  · intro hs
    obtain ⟨_, _, t, xc, yc, hinv, hc, hle⟩ :=
      general_case_entered g hg cur r fuel ss hss _ hs ⟨cxi, cyi, Or.inr rfl⟩
    obtain ⟨_, hinv2, _⟩ := general_step_X g hg cur r hx hy t cxi cyi xc yc hinv hc
      (not_lt.mpr hle)
    obtain ⟨_, _, _, _, _, _, _, i8, i9, _⟩ := hinv2
    obtain ⟨hsm, _⟩ := cross_site_sub_move g cur r hx hy _ ⟨cxi, cyi, Or.inr rfl⟩
    have hlo := Y_location_strict_mono g hg
      (show cyi - down_Y cur r < cyi - down_Y cur r + 1 by omega)
    have hu := fraction_in_segment _ _ _ hlo i8 i9
    refine ⟨_, _, hsm, rfl, ?_, i8, i9, hu.1, hu.2⟩
    simp only [along_value, setup_dxi_eq_dir g cur r hx, setup_down_flag,
      y_at_X_line g cur r hdx, site_fraction]

/-- C30, witness: the move from (25,5) to (10,10) on the scenario grid, which takes both
branches of the general loop. -/
theorem C30_queried_segment_contains_endpoint_witness :
    (scenario_grid nan 1 0).WF ∧
      get_cell_index_x (scenario_grid nan 1 0) 25 ≠ get_cell_index_x (scenario_grid nan 1 0) 10 ∧
      get_cell_index_y (scenario_grid nan 1 0) 5 ≠ get_cell_index_y (scenario_grid nan 1 0) 10 ∧
      ∃ ss, mesh_buffer_line_sites (scenario_grid nan 1 0)
          ⟨25, 5, 0, 0⟩ ⟨10, 10, 1, 1, 100, 0⟩ 3 = some ss ∧
        mesh_buffer_line (scenario_grid nan 1 0) ⟨25, 5, 0, 0⟩ ⟨10, 10, 1, 1, 100, 0⟩ 3 =
          some (events_at (scenario_grid nan 1 0) ⟨25, 5, 0, 0⟩ ⟨10, 10, 1, 1, 100, 0⟩ ss) ∧
        ∀ cxi cyi,
          (Site.cross_Y cxi cyi ∈ ss →
            ∃ sm x, sub_moves (pass_at (scenario_grid nan 1 0) ⟨25, 5, 0, 0⟩ ⟨10, 10, 1, 1, 100, 0⟩
                (Site.cross_Y cxi cyi)) = [sm] ∧ sm.x = fin x ∧
              sm.z = apportioned_z (scenario_grid nan 1 0) ⟨25, 5, 0, 0⟩ ⟨10, 10, 1, 1, 100, 0⟩
                  (Site.cross_Y cxi cyi) +
                nan_to_zero (get_z_correction_along_horizontal_mesh_line_at_specific_X
                  (scenario_grid nan 1 0) (fin x) (cxi - left_X
                      ⟨25, 5, 0, 0⟩ ⟨10, 10, 1, 1, 100, 0⟩)
                  (cyi + dir_Y ⟨25, 5, 0, 0⟩ ⟨10, 10, 1, 1, 100, 0⟩) *
                  fin ((scenario_grid nan 1 0).fade 1)) + fin (scenario_grid nan 1 0).z_offset ∧
              mesh_index_to_X_location (scenario_grid nan 1 0)
                (cxi - left_X ⟨25, 5, 0, 0⟩ ⟨10, 10, 1, 1, 100, 0⟩) ≤ x ∧
              x ≤ mesh_index_to_X_location (scenario_grid nan 1 0)
                (cxi - left_X ⟨25, 5, 0, 0⟩ ⟨10, 10, 1, 1, 100, 0⟩ + 1) ∧
              0 ≤ (x - mesh_index_to_X_location (scenario_grid nan 1 0)
                  (cxi - left_X ⟨25, 5, 0, 0⟩ ⟨10, 10, 1, 1, 100, 0⟩)) /
                (mesh_index_to_X_location (scenario_grid nan 1 0)
                    (cxi - left_X ⟨25, 5, 0, 0⟩ ⟨10, 10, 1, 1, 100, 0⟩ + 1) -
                  mesh_index_to_X_location (scenario_grid nan 1 0)
                    (cxi - left_X ⟨25, 5, 0, 0⟩ ⟨10, 10, 1, 1, 100, 0⟩)) ∧
              (x - mesh_index_to_X_location (scenario_grid nan 1 0)
                  (cxi - left_X ⟨25, 5, 0, 0⟩ ⟨10, 10, 1, 1, 100, 0⟩)) /
                (mesh_index_to_X_location (scenario_grid nan 1 0)
                    (cxi - left_X ⟨25, 5, 0, 0⟩ ⟨10, 10, 1, 1, 100, 0⟩ + 1) -
                  mesh_index_to_X_location (scenario_grid nan 1 0)
                    (cxi - left_X ⟨25, 5, 0, 0⟩ ⟨10, 10, 1, 1, 100, 0⟩)) ≤ 1) ∧
          (Site.cross_X cxi cyi ∈ ss →
            ∃ sm y, sub_moves (pass_at (scenario_grid nan 1 0) ⟨25, 5, 0, 0⟩ ⟨10, 10, 1, 1, 100, 0⟩
                (Site.cross_X cxi cyi)) = [sm] ∧ sm.y = fin y ∧
              sm.z = apportioned_z (scenario_grid nan 1 0) ⟨25, 5, 0, 0⟩ ⟨10, 10, 1, 1, 100, 0⟩
                  (Site.cross_X cxi cyi) +
                nan_to_zero (get_z_correction_along_vertical_mesh_line_at_specific_Y
                  (scenario_grid nan 1 0) (fin y) (cxi + dir_X ⟨25, 5, 0, 0⟩ ⟨10, 10, 1, 1, 100, 0⟩)
                  (cyi - down_Y ⟨25, 5, 0, 0⟩ ⟨10, 10, 1, 1, 100, 0⟩) *
                  fin ((scenario_grid nan 1 0).fade 1)) + fin (scenario_grid nan 1 0).z_offset ∧
              mesh_index_to_Y_location (scenario_grid nan 1 0)
                (cyi - down_Y ⟨25, 5, 0, 0⟩ ⟨10, 10, 1, 1, 100, 0⟩) ≤ y ∧
              y ≤ mesh_index_to_Y_location (scenario_grid nan 1 0)
                (cyi - down_Y ⟨25, 5, 0, 0⟩ ⟨10, 10, 1, 1, 100, 0⟩ + 1) ∧
              0 ≤ (y - mesh_index_to_Y_location (scenario_grid nan 1 0)
                  (cyi - down_Y ⟨25, 5, 0, 0⟩ ⟨10, 10, 1, 1, 100, 0⟩)) /
                (mesh_index_to_Y_location (scenario_grid nan 1 0)
                    (cyi - down_Y ⟨25, 5, 0, 0⟩ ⟨10, 10, 1, 1, 100, 0⟩ + 1) -
                  mesh_index_to_Y_location (scenario_grid nan 1 0)
                    (cyi - down_Y ⟨25, 5, 0, 0⟩ ⟨10, 10, 1, 1, 100, 0⟩)) ∧
              (y - mesh_index_to_Y_location (scenario_grid nan 1 0)
                  (cyi - down_Y ⟨25, 5, 0, 0⟩ ⟨10, 10, 1, 1, 100, 0⟩)) /
                (mesh_index_to_Y_location (scenario_grid nan 1 0)
                    (cyi - down_Y ⟨25, 5, 0, 0⟩ ⟨10, 10, 1, 1, 100, 0⟩ + 1) -
                  mesh_index_to_Y_location (scenario_grid nan 1 0)
                    (cyi - down_Y ⟨25, 5, 0, 0⟩ ⟨10, 10, 1, 1, 100, 0⟩)) ≤ 1) :=
  ⟨by decide!, by decide!, by decide!,
    C30_queried_segment_contains_endpoint (scenario_grid nan 1 0) (by decide!)
      ⟨25, 5, 0, 0⟩ ⟨10, 10, 1, 1, 100, 0⟩ (by decide!) (by decide!) 3 (by decide!)⟩

/-! ## Zero-length sub-moves at the start -/

theorem mem_sub_moves_events_at (g : Blm) (cur : Pos) (r : Req) (ss : List Site) (sm : SubMove)
    (h : sm ∈ sub_moves (events_at g cur r ss)) :
    ∃ s ∈ ss, sm ∈ sub_moves (pass_at g cur r s) := by
  induction ss with
  | nil => simp at h
  | cons s ss ih =>
    simp only [events_at_cons, sub_moves_append, List.mem_append] at h
    rcases h with h | h
    · exact ⟨s, List.mem_cons_self _ _, h⟩
    · obtain ⟨s2, hs2, hsm⟩ := ih h
      exact ⟨s2, List.mem_cons_of_mem _ hs2, hsm⟩

/-- A pass of the single-column loop or of the single-row loop, and the tail of a run that
left its start cell, never emit a sub-move whose endpoint is the start. -/
theorem pruned_site_never_emits_start (g : Blm) (cur : Pos) (r : Req) (s : Site)
    (hs : ¬ s.crosses_X ∧ ¬ s.crosses_Y) (hc : site_in_class g cur r s)
    (hn : ¬ same_cell g cur r) :
    ∀ sm ∈ sub_moves (pass_at g cur r s), ¬ (sm.x = fin cur.x ∧ sm.y = fin cur.y) := by
  intro sm hsm
  have hdest : ¬ (fin r.x_end = fin cur.x ∧ fin r.y_end = fin cur.y) := by
    rintro ⟨h1, h2⟩
    injection h1 with h1
    injection h2 with h2
    apply hn
    simp only [same_cell, h1, h2, and_self]
  cases s with
  | vertical cxi cyi =>
    simp only [pass_at, sub_moves_vertical_step] at hsm
    split at hsm
    · rename_i hy
      rw [List.mem_singleton.mp hsm]
      rintro ⟨_, h2⟩
      injection h2 with h2
      exact hy h2
    · simp at hsm
  | horizontal cxi cyi =>
    simp only [pass_at, sub_moves_horizontal_step] at hsm
    split at hsm
    · rename_i hx
      rw [List.mem_singleton.mp hsm]
      rintro ⟨h1, _⟩
      injection h1 with h1
      exact hx h1
    · simp at hsm
  | cross_Y cxi cyi => simp [Site.crosses_Y] at hs
  | cross_X cxi cyi => simp [Site.crosses_X] at hs
  | finish =>
    simp only [pass_at, finish] at hsm
    split at hsm
    · rw [sub_moves_FINAL_MOVE, List.mem_singleton] at hsm
      rw [hsm]
      exact hdest
    · simp at hsm
  | final_move => exact absurd hc hn
  | raw => exact absurd hc hn

/-- A run that stays in one column of cells or in one row of cells, and leaves its start
cell, emits no sub-move whose endpoint is the start: the check of lines 226 and 276 prunes
the move of length zero. -/
theorem single_line_run_never_emits_start (g : Blm) (cur : Pos) (r : Req) (fuel : Nat)
    (evs : List Event) (hn : ¬ same_cell g cur r)
    (h1 : get_cell_index_x g cur.x = get_cell_index_x g r.x_end ∨
      get_cell_index_y g cur.y = get_cell_index_y g r.y_end)
    (h : mesh_buffer_line g cur r fuel = some evs) :
    ∀ sm ∈ sub_moves evs, ¬ (sm.x = fin cur.x ∧ sm.y = fin cur.y) := by
  rw [mesh_buffer_line_eq_sites] at h
  obtain ⟨ss, hss, hev⟩ := Option.map_eq_some'.mp h
  subst hev
  intro sm hsm
  obtain ⟨s, hs, hsm⟩ := mem_sub_moves_events_at g cur r ss sm hsm
  have hc := mesh_buffer_line_sites_in_class g cur r fuel ss hss s hs
  refine pruned_site_never_emits_start g cur r s ?_ hc hn sm hsm
  cases s with
  | cross_Y cxi cyi =>
    rcases h1 with h1 | h1
    · exact absurd h1 hc.1
    · exact absurd h1 hc.2
  | cross_X cxi cyi =>
    rcases h1 with h1 | h1
    · exact absurd h1 hc.1
    · exact absurd h1 hc.2
  | _ => simp [Site.crosses_X, Site.crosses_Y]

/-! ## Claim C31 -/

/-- C31: in the general case the first sub-move can end at the start.  On the scenario grid,
from the tracked position (10, 6, 0, 0), which lies on the X mesh line 10, the request to
(2, 14, 1, 1) heads left and up across one column and one row; the run returns, and its first
sub-move ends at the start (10, 6) with the start's E.  The two sibling loops prune such a
move: from (5, 10), on the Y mesh line 10 and heading down one column, and from (10, 5), on
the X mesh line 10 and heading left along one row, the only sub-move is the final leg. -/
theorem C31_general_case_emits_the_start :
    get_cell_index_x (scenario_grid nan 1 0) 10 ≠ get_cell_index_x (scenario_grid nan 1 0) 2 ∧
      get_cell_index_y (scenario_grid nan 1 0) 6 ≠
        get_cell_index_y (scenario_grid nan 1 0) 14 ∧
      (mesh_buffer_line (scenario_grid nan 1 0) ⟨10, 6, 0, 0⟩
          ⟨2, 14, 1, 1, 100, 0⟩ 2).map sub_moves =
        some [⟨fin 10, fin 6, fin (3 / 5), fin 0, 100, 0⟩,
          ⟨fin 6, fin 10, fin (11 / 10), fin (1 / 2), 100, 0⟩,
          ⟨fin 2, fin 14, fin (28 / 25), fin 1, 100, 0⟩] ∧
      (mesh_buffer_line (scenario_grid nan 1 0) ⟨5, 10, 0, 0⟩
          ⟨5, 5, 1, 1, 100, 0⟩ 1).map endpoints = some [(fin 5, fin 5)] ∧
      (mesh_buffer_line (scenario_grid nan 1 0) ⟨10, 5, 0, 0⟩
          ⟨5, 5, 1, 1, 100, 0⟩ 1).map endpoints = some [(fin 5, fin 5)] := by
  decide!

/-! ## Bounds of the table and sample indices -/

theorem in_bounds_horizontal_reads (g : Blm) (i j : Int)
    (hi : 0 ≤ i ∧ i + 1 < g.MESH_NUM_X_POINTS) (hj : 0 ≤ j ∧ j < g.MESH_NUM_Y_POINTS) :
    ∀ ev ∈ horizontal_reads g i j, ev.in_bounds g := by
  intro ev hev
  unfold horizontal_reads at hev
  split at hev
  · simp at hev
  · simp only [List.mem_cons, List.mem_singleton, List.not_mem_nil, or_false] at hev
    rcases hev with h | h | h | h <;> subst h <;> simp only [Event.in_bounds] <;> omega

theorem in_bounds_vertical_reads (g : Blm) (i j : Int)
    (hi : 0 ≤ i ∧ i < g.MESH_NUM_X_POINTS) (hj : 0 ≤ j ∧ j + 1 < g.MESH_NUM_Y_POINTS) :
    ∀ ev ∈ vertical_reads g i j, ev.in_bounds g := by
  intro ev hev
  unfold vertical_reads at hev
  split at hev
  · simp at hev
  · simp only [List.mem_cons, List.mem_singleton, List.not_mem_nil, or_false] at hev
    rcases hev with h | h | h | h <;> subst h <;> simp only [Event.in_bounds] <;> omega

theorem in_bounds_FINAL_MOVE (g : Blm) (r : Req) (i j : Int)
    (hi : 0 ≤ i ∧ i + 1 < g.MESH_NUM_X_POINTS) (hj : 0 ≤ j ∧ j + 1 < g.MESH_NUM_Y_POINTS) :
    ∀ ev ∈ FINAL_MOVE g r i j, ev.in_bounds g := by
  intro ev hev
  simp only [FINAL_MOVE, List.mem_cons, List.mem_singleton, List.not_mem_nil, or_false] at hev
  rcases hev with h | h | h | h | h | h | h | h | h | h <;> subst h <;>
    simp only [Event.in_bounds] <;> omega

theorem in_bounds_vertical_step (g : Blm) (r : Req) (L : Locals) (i j : Int)
    (hi : 0 ≤ i ∧ i + 1 < g.MESH_NUM_X_POINTS) (hj : 0 ≤ j ∧ j < g.MESH_NUM_Y_POINTS) :
    ∀ ev ∈ vertical_step g r L i j, ev.in_bounds g := by
  intro ev hev
  simp only [vertical_step, List.mem_append, List.mem_singleton] at hev
  rcases hev with ((h | h) | h) | h
  · subst h
    simp only [Event.in_bounds]
    omega
  · exact in_bounds_horizontal_reads g i j hi hj ev h
  · subst h
    simp only [Event.in_bounds]
    omega
  · split at h
    · rw [List.mem_singleton.mp h]
      trivial
    · simp at h

theorem in_bounds_horizontal_step (g : Blm) (r : Req) (L : Locals) (i j : Int)
    (hi : 0 ≤ i ∧ i < g.MESH_NUM_X_POINTS) (hj : 0 ≤ j ∧ j + 1 < g.MESH_NUM_Y_POINTS) :
    ∀ ev ∈ horizontal_step g r L i j, ev.in_bounds g := by
  intro ev hev
  simp only [horizontal_step, List.mem_append, List.mem_singleton] at hev
  rcases hev with ((h | h) | h) | h
  · subst h
    simp only [Event.in_bounds]
    omega
  · exact in_bounds_vertical_reads g i j hi hj ev h
  · subst h
    simp only [Event.in_bounds]
    omega
  · split at h
    · rw [List.mem_singleton.mp h]
      trivial
    · simp at h

theorem in_bounds_cross_Y_line (g : Blm) (r : Req) (L : Locals) (cxi cyi : Int)
    (hi : 0 ≤ cxi - L.left_flag ∧ cxi - L.left_flag + 1 < g.MESH_NUM_X_POINTS)
    (hj : 0 ≤ cyi + L.dyi ∧ cyi + L.dyi < g.MESH_NUM_Y_POINTS) :
    ∀ ev ∈ cross_Y_line g r L cxi cyi, ev.in_bounds g := by
  intro ev hev
  simp only [cross_Y_line, List.mem_append, List.mem_singleton] at hev
  rcases hev with h | h
  · exact in_bounds_horizontal_reads g _ _ hi hj ev h
  · subst h
    trivial

theorem in_bounds_cross_X_line (g : Blm) (r : Req) (L : Locals) (cxi cyi : Int)
    (hi : 0 ≤ cxi + L.dxi ∧ cxi + L.dxi < g.MESH_NUM_X_POINTS)
    (hj : 0 ≤ cyi - L.down_flag ∧ cyi - L.down_flag + 1 < g.MESH_NUM_Y_POINTS) :
    ∀ ev ∈ cross_X_line g r L cxi cyi, ev.in_bounds g := by
  intro ev hev
  simp only [cross_X_line, List.mem_append, List.mem_singleton] at hev
  rcases hev with h | h
  · exact in_bounds_vertical_reads g _ _ hi hj ev h
  · subst h
    trivial

/-- The single-column loop visits only mesh lines after `current_yi` and up to its target
`cell_dest_yi + down_flag`, in the direction of travel. -/
theorem vertical_sites_between (L : Locals) (cxi : Int) :
    ∀ (fuel : Nat) (cyi : Int) (ss : List Site), vertical_sites L cxi fuel cyi = some ss →
      (L.dyi = 1 ∧ cyi ≤ L.cell_dest_yi + L.down_flag ∨
        L.dyi = -1 ∧ L.cell_dest_yi + L.down_flag ≤ cyi) →
      ∀ s ∈ ss, ∃ b, s = Site.vertical cxi b ∧
        (cyi < b ∧ b ≤ L.cell_dest_yi + L.down_flag ∨
          L.cell_dest_yi + L.down_flag ≤ b ∧ b < cyi) := by
  intro fuel
  induction fuel with
  | zero =>
    intro cyi ss h _ s hs
    simp only [vertical_sites] at h
    split at h
    · exact absurd h (by simp)
    · injection h with h
      rw [← h] at hs
      simp at hs
  | succ f ih =>
    intro cyi ss h hd s hs
    simp only [vertical_sites] at h
    split at h
    · rename_i hne
      simp only [Option.map_eq_some'] at h
      obtain ⟨rest, h1, h2⟩ := h
      rw [← h2] at hs
      rcases List.mem_cons.mp hs with hs | hs
      · refine ⟨_, hs, ?_⟩
        omega
      · obtain ⟨b, hb, hbb⟩ := ih _ _ h1 (by omega) s hs
        refine ⟨b, hb, ?_⟩
        omega
    · injection h with h
      rw [← h] at hs
      simp at hs

/-- The single-row loop visits only mesh lines after `current_xi` and up to its target
`cell_dest_xi + left_flag`, in the direction of travel. -/
theorem horizontal_sites_between (L : Locals) (cyi : Int) :
    ∀ (fuel : Nat) (cxi : Int) (ss : List Site), horizontal_sites L cyi fuel cxi = some ss →
      (L.dxi = 1 ∧ cxi ≤ L.cell_dest_xi + L.left_flag ∨
        L.dxi = -1 ∧ L.cell_dest_xi + L.left_flag ≤ cxi) →
      ∀ s ∈ ss, ∃ a, s = Site.horizontal a cyi ∧
        (cxi < a ∧ a ≤ L.cell_dest_xi + L.left_flag ∨
          L.cell_dest_xi + L.left_flag ≤ a ∧ a < cxi) := by
  intro fuel
  induction fuel with
  | zero =>
    intro cxi ss h _ s hs
    simp only [horizontal_sites] at h
    split at h
    · exact absurd h (by simp)
    · injection h with h
      rw [← h] at hs
      simp at hs
  | succ f ih =>
    intro cxi ss h hd s hs
    simp only [horizontal_sites] at h
    split at h
    · rename_i hne
      simp only [Option.map_eq_some'] at h
      obtain ⟨rest, h1, h2⟩ := h
      rw [← h2] at hs
      rcases List.mem_cons.mp hs with hs | hs
      · refine ⟨_, hs, ?_⟩
        omega
      · obtain ⟨a, ha, haa⟩ := ih _ _ h1 (by omega) s hs
        refine ⟨a, ha, ?_⟩
        omega
    · injection h with h
      rw [← h] at hs
      simp at hs

/-- Unless the destination is a grid corner approached heading left and up, every pass of
the general loop is entered with counters between 0 and their first values, and the counters
give the indices of the next two mesh lines. -/
theorem general_sites_counters (g : Blm) (hg : g.WF) (cur : Pos) (r : Req)
    (hx : get_cell_index_x g cur.x ≠ get_cell_index_x g r.x_end)
    (hy : get_cell_index_y g cur.y ≠ get_cell_index_y g r.y_end)
    (hn : ¬ corner_left_up g cur r) (X0 Y0 : Int) :
    ∀ (fuel : Nat) (cxi cyi xc yc : Int) (ss : List Site) (t : ℚ),
      general_sites g (setup g cur r) fuel cxi cyi xc yc = some ss →
      general_inv g cur r t cxi cyi xc yc → 0 ≤ xc → xc ≤ X0 → yc ≤ Y0 →
      ∀ s ∈ ss, ∃ a b xc1 yc1, (s = Site.cross_Y a b ∨ s = Site.cross_X a b) ∧
        0 ≤ xc1 ∧ xc1 ≤ X0 ∧ 0 ≤ yc1 ∧ yc1 ≤ Y0 ∧
        a + dir_X cur r = next_xi cur r (get_cell_index_x g r.x_end) xc1 ∧
        b + dir_Y cur r = next_yi cur r (get_cell_index_y g r.y_end) yc1 := by
  have hdx := setup_dx_ne_zero g cur r hx
  have hdy := setup_dy_ne_zero g cur r hy
  intro fuel
  induction fuel with
  | zero =>
    intro cxi cyi xc yc ss t h _ _ _ _ s hs
    rw [general_sites_done g _ 0 cxi cyi xc yc ss (general_sites_zero g _ cxi cyi xc yc ss h) h]
      at hs
    simp at hs
  | succ f ih =>
    intro cxi cyi xc yc ss t h hinv h0 hX hY s hs
    by_cases hc : xc > 0 ∨ yc > 0
    · have hhere : ∀ s2, (s2 = Site.cross_Y cxi cyi ∨ s2 = Site.cross_X cxi cyi) →
          ∃ a b xc1 yc1, (s2 = Site.cross_Y a b ∨ s2 = Site.cross_X a b) ∧
            0 ≤ xc1 ∧ xc1 ≤ X0 ∧ 0 ≤ yc1 ∧ yc1 ≤ Y0 ∧
            a + dir_X cur r = next_xi cur r (get_cell_index_x g r.x_end) xc1 ∧
            b + dir_Y cur r = next_yi cur r (get_cell_index_y g r.y_end) yc1 :=
        fun s2 hs2 => ⟨cxi, cyi, xc, yc, hs2, h0, hX, hinv.2.2.2.1, hY, hinv.1, hinv.2.1⟩
      rcases general_sites_succ_some g _ f cxi cyi xc yc ss hc h with
        ⟨hh, rest, h1, h2⟩ | ⟨hh, rest, h1, h2⟩
      · rw [setup_dxi_eq_dir g cur r hx, setup_dyi_eq_dir g cur r hy] at hh
        rw [setup_dyi_eq_dir g cur r hy] at h1
        have hlt := (hits_Y_line_first_iff g cur r hdx hdy _ _).mp hh
        obtain ⟨_, hinv2, _⟩ := general_step_Y g hg cur r hx hy t cxi cyi xc yc hinv hc hlt
        rw [h2] at hs
        rcases List.mem_cons.mp hs with hs | hs
        · exact hhere s (Or.inl hs)
        · exact ih _ _ _ _ rest _ h1 hinv2 h0 hX (by omega) s hs
      · rw [setup_dxi_eq_dir g cur r hx, setup_dyi_eq_dir g cur r hy] at hh
        rw [setup_dxi_eq_dir g cur r hx] at h1
        have hnlt : ¬ _ := fun e => hh ((hits_Y_line_first_iff g cur r hdx hdy _ _).mpr e)
        obtain ⟨_, hinv2, _⟩ := general_step_X g hg cur r hx hy t cxi cyi xc yc hinv hc hnlt
        have h1x : 1 ≤ xc := by
          by_contra hlt1
          have hx0 : xc = 0 := by omega
          subst hx0
          exact hn (corner_of_extra_pass g hg cur r hx hy t cxi cyi yc hinv hc hnlt)
        rw [h2] at hs
        rcases List.mem_cons.mp hs with hs | hs
        · exact hhere s (Or.inr hs)
        · exact ih _ _ _ _ rest _ h1 hinv2 (by omega) (by omega) hY s hs
    · rw [general_sites_done g _ _ cxi cyi xc yc ss hc h] at hs
      simp at hs

theorem mem_events_at (g : Blm) (cur : Pos) (r : Req) (ss : List Site) (ev : Event)
    (h : ev ∈ events_at g cur r ss) : ∃ s ∈ ss, ev ∈ pass_at g cur r s := by
  induction ss with
  | nil => simp [events_at] at h
  | cons s ss ih =>
    simp only [events_at_cons, List.mem_append] at h
    rcases h with h | h
    · exact ⟨s, List.mem_cons_self _ _, h⟩
    · obtain ⟨s2, hs2, hev⟩ := ih h
      exact ⟨s2, List.mem_cons_of_mem _ hs2, hev⟩

/-- The tail of a run between two cells inside the grid reads inside the bounds. -/
theorem in_bounds_finish (g : Blm) (cur : Pos) (r : Req) (hin : cells_inside g cur r) :
    ∀ ev ∈ finish g cur r (setup g cur r), ev.in_bounds g := by
  intro ev hev
  rw [finish_eq] at hev
  split at hev
  · exact in_bounds_FINAL_MOVE g r _ _ hin.2.2.1 hin.2.2.2 ev hev
  · rw [List.mem_singleton.mp hev]
    trivial

/-- A pass of the general loop entered with counters between 0 and their first values reads
inside the bounds, when start and destination lie in cells inside the grid. -/
theorem in_bounds_general_pass (g : Blm) (hg : g.WF) (cur : Pos) (r : Req)
    (hx : get_cell_index_x g cur.x ≠ get_cell_index_x g r.x_end)
    (hy : get_cell_index_y g cur.y ≠ get_cell_index_y g r.y_end)
    (hin : cells_inside g cur r) (s : Site) (a b xc yc : Int)
    (hs : s = Site.cross_Y a b ∨ s = Site.cross_X a b)
    (hxc : 0 ≤ xc ∧ xc ≤ (if get_cell_index_x g cur.x - get_cell_index_x g r.x_end < 0
        then -(get_cell_index_x g cur.x - get_cell_index_x g r.x_end)
        else get_cell_index_x g cur.x - get_cell_index_x g r.x_end))
    (hyc : 0 ≤ yc ∧ yc ≤ (if get_cell_index_y g cur.y - get_cell_index_y g r.y_end < 0
        then -(get_cell_index_y g cur.y - get_cell_index_y g r.y_end)
        else get_cell_index_y g cur.y - get_cell_index_y g r.y_end))
    (ha : a + dir_X cur r = next_xi cur r (get_cell_index_x g r.x_end) xc)
    (hb : b + dir_Y cur r = next_yi cur r (get_cell_index_y g r.y_end) yc) :
    ∀ ev ∈ pass_at g cur r s, ev.in_bounds g := by
  obtain ⟨⟨s1, s2⟩, ⟨s3, s4⟩, ⟨d1, d2⟩, ⟨d3, d4⟩⟩ := hin
  have hxlt := dest_xi_lt_of_left g hg cur r hx
  have hxgt := start_xi_lt_of_right g hg cur r hx
  have hylt := dest_yi_lt_of_down g hg cur r hy
  have hygt := start_yi_lt_of_up g hg cur r hy
  have e1 : (setup g cur r).cell_start_xi = get_cell_index_x g cur.x := rfl
  have e2 : (setup g cur r).cell_dest_xi = get_cell_index_x g r.x_end := rfl
  have e3 : (setup g cur r).cell_start_yi = get_cell_index_y g cur.y := rfl
  have e4 : (setup g cur r).cell_dest_yi = get_cell_index_y g r.y_end := rfl
  rw [e1, e2] at hxlt hxgt
  rw [e3, e4] at hylt hygt
  have hl : (setup g cur r).left_flag = left_X cur r := rfl
  have hd : (setup g cur r).down_flag = down_Y cur r := rfl
  have hdxi := setup_dxi_eq_dir g cur r hx
  have hdyi := setup_dyi_eq_dir g cur r hy
  have bx : 0 ≤ a + dir_X cur r ∧ a + dir_X cur r + 1 ≤ g.MESH_NUM_X_POINTS ∧
      0 ≤ a - left_X cur r ∧ a - left_X cur r + 1 < g.MESH_NUM_X_POINTS := by
    unfold dir_X left_X next_xi at *
    by_cases hneg : r.x_end - cur.x < 0
    · have := hxlt hneg
      simp only [if_pos hneg] at ha ⊢
      split at hxc <;> omega
    · have := hxgt hneg
      simp only [if_neg hneg] at ha ⊢
      split at hxc <;> omega
  have by_ : 0 ≤ b + dir_Y cur r ∧ b + dir_Y cur r + 1 ≤ g.MESH_NUM_Y_POINTS ∧
      0 ≤ b - down_Y cur r ∧ b - down_Y cur r + 1 < g.MESH_NUM_Y_POINTS := by
    unfold dir_Y down_Y next_yi at *
    by_cases hneg : r.y_end - cur.y < 0
    · have := hylt hneg
      simp only [if_pos hneg] at hb ⊢
      split at hyc <;> omega
    · have := hygt hneg
      simp only [if_neg hneg] at hb ⊢
      split at hyc <;> omega
  intro ev hev
  rcases hs with hs | hs
  · subst hs
    simp only [pass_at, List.mem_append, List.mem_cons, List.mem_singleton, List.not_mem_nil,
      or_false] at hev
    rcases hev with (h | h) | h
    · subst h
      simp only [Event.in_bounds, hdxi]
      omega
    · subst h
      simp only [Event.in_bounds, hdyi]
      omega
    · refine in_bounds_cross_Y_line g r _ a b ?_ ?_ ev h
      · rw [hl]
        omega
      · rw [hdyi]
        omega
  · subst hs
    simp only [pass_at, List.mem_append, List.mem_cons, List.mem_singleton, List.not_mem_nil,
      or_false] at hev
    rcases hev with (h | h) | h
    · subst h
      simp only [Event.in_bounds, hdxi]
      omega
    · subst h
      simp only [Event.in_bounds, hdyi]
      omega
    · refine in_bounds_cross_X_line g r _ a b ?_ ?_ ev h
      · rw [hdxi]
        omega
      · rw [hd]
        omega

/-- A run between two cells fully inside the grid reads the mesh-line tables and the sample
grid inside their bounds, unless the destination is a grid corner approached heading left and
up. -/
theorem reads_in_bounds (g : Blm) (hg : g.WF) (cur : Pos) (r : Req) (fuel : Nat)
    (evs : List Event) (hin : cells_inside g cur r) (hn : ¬ corner_left_up g cur r)
    (h : mesh_buffer_line g cur r fuel = some evs) : ∀ ev ∈ evs, ev.in_bounds g := by
  rw [mesh_buffer_line_eq_sites] at h
  obtain ⟨ss, hss, hev⟩ := Option.map_eq_some'.mp h
  subst hev
  intro ev hev
  obtain ⟨s, hs, hev⟩ := mem_events_at g cur r ss ev hev
  have hin2 := hin
  obtain ⟨⟨s1, s2⟩, ⟨s3, s4⟩, ⟨d1, d2⟩, ⟨d3, d4⟩⟩ := hin2
  have e1 : (setup g cur r).cell_start_xi = get_cell_index_x g cur.x := rfl
  have e2 : (setup g cur r).cell_dest_xi = get_cell_index_x g r.x_end := rfl
  have e3 : (setup g cur r).cell_start_yi = get_cell_index_y g cur.y := rfl
  have e4 : (setup g cur r).cell_dest_yi = get_cell_index_y g r.y_end := rfl
  have hl : (setup g cur r).left_flag = left_X cur r := rfl
  have hd : (setup g cur r).down_flag = down_Y cur r := rfl
  have hfin : ∀ ev ∈ pass_at g cur r Site.finish, ev.in_bounds g := in_bounds_finish g cur r hin
  simp only [mesh_buffer_line_sites] at hss
  split at hss
  · split at hss
    · injection hss with hss
      rw [← hss, List.mem_singleton] at hs
      subst hs
      simp only [pass_at, List.mem_cons, List.mem_singleton, List.not_mem_nil, or_false] at hev
      rcases hev with h | h <;> subst h <;> trivial
    · injection hss with hss
      rw [← hss, List.mem_singleton] at hs
      subst hs
      exact in_bounds_FINAL_MOVE g r _ _ ⟨d1, d2⟩ ⟨d3, d4⟩ ev hev
  · rename_i hsame
    split at hss
    · rename_i hdxi0
      have hxeq := (setup_dxi_eq_zero_iff g cur r).mp hdxi0
      have hy : get_cell_index_y g cur.y ≠ get_cell_index_y g r.y_end :=
        fun e => hsame ⟨hxeq, e⟩
      obtain ⟨vs, hvs, hss2⟩ := Option.map_eq_some'.mp hss
      rw [← hss2] at hs
      rcases List.mem_append.mp hs with hs | hs
      · have hdyi := setup_dyi_eq_dir g cur r hy
        have hylt := dest_yi_lt_of_down g hg cur r hy
        have hygt := start_yi_lt_of_up g hg cur r hy
        rw [e3, e4] at hylt hygt
        have hdir : (setup g cur r).dyi = 1 ∧ (setup g cur r).cell_start_yi +
              (setup g cur r).down_flag ≤
              (setup g cur r).cell_dest_yi + (setup g cur r).down_flag ∨
            (setup g cur r).dyi = -1 ∧ (setup g cur r).cell_dest_yi +
              (setup g cur r).down_flag ≤
              (setup g cur r).cell_start_yi + (setup g cur r).down_flag := by
          rw [hdyi, e3, e4]
          unfold dir_Y
          by_cases hneg : r.y_end - cur.y < 0
          · have := hylt hneg
            rw [if_pos hneg]
            right
            omega
          · have := hygt hneg
            rw [if_neg hneg]
            left
            omega
        obtain ⟨b, hb, hbb⟩ := vertical_sites_between _ _ fuel _ vs hvs hdir s hs
        subst hb
        rw [e3, e4, hd] at hbb
        refine in_bounds_vertical_step g r _ _ b ⟨s1, s2⟩ ?_ ev hev
        unfold down_Y at hbb
        split at hbb <;> omega
      · rw [List.mem_singleton] at hs
        subst hs
        exact hfin ev hev
    · rename_i hdxi0
      have hx : get_cell_index_x g cur.x ≠ get_cell_index_x g r.x_end :=
        fun e => hdxi0 ((setup_dxi_eq_zero_iff g cur r).mpr e)
      split at hss
      · rename_i hdyi0
        have hyeq := (setup_dyi_eq_zero_iff g cur r).mp hdyi0
        obtain ⟨hs2, hhs, hss2⟩ := Option.map_eq_some'.mp hss
        rw [← hss2] at hs
        rcases List.mem_append.mp hs with hs | hs
        · have hdxi := setup_dxi_eq_dir g cur r hx
          have hxlt := dest_xi_lt_of_left g hg cur r hx
          have hxgt := start_xi_lt_of_right g hg cur r hx
          rw [e1, e2] at hxlt hxgt
          have hdir : (setup g cur r).dxi = 1 ∧ (setup g cur r).cell_start_xi +
                (setup g cur r).left_flag ≤
                (setup g cur r).cell_dest_xi + (setup g cur r).left_flag ∨
              (setup g cur r).dxi = -1 ∧ (setup g cur r).cell_dest_xi +
                (setup g cur r).left_flag ≤
                (setup g cur r).cell_start_xi + (setup g cur r).left_flag := by
            rw [hdxi, e1, e2]
            unfold dir_X
            by_cases hneg : r.x_end - cur.x < 0
            · have := hxlt hneg
              rw [if_pos hneg]
              right
              omega
            · have := hxgt hneg
              rw [if_neg hneg]
              left
              omega
          obtain ⟨a, ha, haa⟩ := horizontal_sites_between _ _ fuel _ hs2 hhs hdir s hs
          subst ha
          rw [e1, e2, hl] at haa
          refine in_bounds_horizontal_step g r _ a _ ?_ ⟨s3, s4⟩ ev hev
          unfold left_X at haa
          split at haa <;> omega
        · rw [List.mem_singleton] at hs
          subst hs
          exact hfin ev hev
      · rename_i hdyi0
        have hy : get_cell_index_y g cur.y ≠ get_cell_index_y g r.y_end :=
          fun e => hdyi0 ((setup_dyi_eq_zero_iff g cur r).mpr e)
        obtain ⟨gs, hgs, hss2⟩ := Option.map_eq_some'.mp hss
        rw [← hss2] at hs
        rcases List.mem_append.mp hs with hs | hs
        · have hinit := general_inv_init g hg cur r hx hy
          obtain ⟨a, b, xc1, yc1, hsab, c1, c2, c3, c4, c5, c6⟩ :=
            general_sites_counters g hg cur r hx hy hn _ _ fuel _ _ _ _ gs 0 hgs hinit
              (by split <;> omega) (le_refl _) (le_refl _) s hs
          exact in_bounds_general_pass g hg cur r hx hy hin s a b xc1 yc1 hsab ⟨c1, c2⟩
            ⟨c3, c4⟩ c5 c6 ev hev
        · rw [List.mem_singleton] at hs
          subst hs
          exact hfin ev hev

/-! ## Claim C32 -/

/-- C32: a request between two cells fully inside the grid can read a mesh-line table outside
its bounds.  On the scenario grid, from the tracked position (16, 2, 0, 0) in cell (1, 0), the
request to (0, 10, 1, 1) in cell (0, 1) ends on a grid corner approached leftward and upward;
the run returns after three passes of the general loop, two through the X branch and one
through the Y branch, and the third pass reads `mesh_index_to_X_location[-1]`: that is the
one read of the run outside the bounds. -/
theorem C32_corner_destination_reads_index_minus_one :
    cells_inside (scenario_grid nan 1 0) ⟨16, 2, 0, 0⟩ ⟨0, 10, 1, 1, 100, 0⟩ ∧
      mesh_buffer_line_sites (scenario_grid nan 1 0) ⟨16, 2, 0, 0⟩ ⟨0, 10, 1, 1, 100, 0⟩ 3 =
        some [Site.cross_X 2 0, Site.cross_X 1 0, Site.cross_Y 0 0, Site.finish] ∧
      (pass_at (scenario_grid nan 1 0) ⟨16, 2, 0, 0⟩ ⟨0, 10, 1, 1, 100, 0⟩
          (Site.cross_Y 0 0)).head? = some (Event.read_X (-1)) ∧
      (mesh_buffer_line (scenario_grid nan 1 0) ⟨16, 2, 0, 0⟩ ⟨0, 10, 1, 1, 100, 0⟩ 3).map
          (fun evs => evs.filter (fun ev => decide (¬ ev.in_bounds (scenario_grid nan 1 0)))) =
        some [Event.read_X (-1)] := by
  decide!

/-! ## Independence from the height samples, the fade factor and the Z offset -/

theorem with_heights_of_same_tables (g1 g2 : Blm) (h : same_tables g1 g2) :
    g2 = with_heights g1 g2.z_values g2.fade g2.z_offset := by
  obtain ⟨h1, h2, h3, h4, h5, h6⟩ := h
  cases g1
  cases g2
  simp only at h1 h2 h3 h4 h5 h6
  subst h1 h2 h3 h4 h5 h6
  rfl

theorem setup_with_heights (g : Blm) (z : Int → Int → Flt) (f : ℚ → ℚ) (o : ℚ) (cur : Pos)
    (r : Req) : setup (with_heights g z f o) cur r = setup g cur r := rfl

theorem general_sites_with_heights (g : Blm) (z : Int → Int → Flt) (f : ℚ → ℚ) (o : ℚ)
    (L : Locals) :
    ∀ (fuel : Nat) (cxi cyi xc yc : Int),
      general_sites (with_heights g z f o) L fuel cxi cyi xc yc =
        general_sites g L fuel cxi cyi xc yc := by
  intro fuel
  induction fuel with
  | zero => intro cxi cyi xc yc; rfl
  | succ n ih =>
    intro cxi cyi xc yc
    simp only [general_sites, ih]
    rfl

/-- The sites of a run depend on the grid only through its tables. -/
theorem mesh_buffer_line_sites_with_heights (g : Blm) (z : Int → Int → Flt) (f : ℚ → ℚ)
    (o : ℚ) (cur : Pos) (r : Req) (fuel : Nat) :
    mesh_buffer_line_sites (with_heights g z f o) cur r fuel =
      mesh_buffer_line_sites g cur r fuel := by
  simp only [mesh_buffer_line_sites, setup_with_heights, general_sites_with_heights]
  rfl

/-- At every site, the sub-moves emitted on the two grids agree in everything except Z. -/
theorem site_without_z (g : Blm) (z : Int → Int → Flt) (f : ℚ → ℚ) (o : ℚ) (cur : Pos)
    (r : Req) (s : Site) :
    (sub_moves (pass_at (with_heights g z f o) cur r s)).map SubMove.without_z =
      (sub_moves (pass_at g cur r s)).map SubMove.without_z := by
  have hY : ∀ k, mesh_index_to_Y_location (with_heights g z f o) k =
      mesh_index_to_Y_location g k := fun _ => rfl
  have hX : ∀ k, mesh_index_to_X_location (with_heights g z f o) k =
      mesh_index_to_X_location g k := fun _ => rfl
  cases s with
  | vertical cxi cyi =>
    simp only [pass_at, sub_moves_vertical_step, setup_with_heights, hY]
    split <;> rfl
  | horizontal cxi cyi =>
    simp only [pass_at, sub_moves_horizontal_step, setup_with_heights, hX]
    split <;> rfl
  | cross_Y cxi cyi =>
    simp only [pass_at, sub_moves_append, sub_moves_cross_Y_line, setup_with_heights, hY]
    rfl
  | cross_X cxi cyi =>
    simp only [pass_at, sub_moves_append, sub_moves_cross_X_line, setup_with_heights, hX]
    rfl
  | finish =>
    simp only [pass_at, finish]
    split
    · simp only [sub_moves_FINAL_MOVE]
      rfl
    · rfl
  | final_move =>
    simp only [pass_at, sub_moves_FINAL_MOVE]
    rfl
  | raw => rfl

/-- At every site the feed rate and the extruder of an emitted sub-move are the request's. -/
theorem site_feed_rate_extruder (g : Blm) (cur : Pos) (r : Req) (s : Site) :
    ∀ sm ∈ sub_moves (pass_at g cur r s),
      sm.feed_rate = r.feed_rate ∧ sm.extruder = r.extruder := by
  intro sm hsm
  cases s with
  | vertical cxi cyi =>
    simp only [pass_at, sub_moves_vertical_step] at hsm
    split at hsm
    · rw [List.mem_singleton.mp hsm]
      exact ⟨rfl, rfl⟩
    · simp at hsm
  | horizontal cxi cyi =>
    simp only [pass_at, sub_moves_horizontal_step] at hsm
    split at hsm
    · rw [List.mem_singleton.mp hsm]
      exact ⟨rfl, rfl⟩
    · simp at hsm
  | cross_Y cxi cyi =>
    simp only [pass_at, sub_moves_append, sub_moves_cross_Y_line, sub_moves_read_X,
      sub_moves_read_Y, sub_moves_nil, List.nil_append, List.mem_singleton] at hsm
    rw [hsm]
    exact ⟨rfl, rfl⟩
  | cross_X cxi cyi =>
    simp only [pass_at, sub_moves_append, sub_moves_cross_X_line, sub_moves_read_X,
      sub_moves_read_Y, sub_moves_nil, List.nil_append, List.mem_singleton] at hsm
    rw [hsm]
    exact ⟨rfl, rfl⟩
  | finish =>
    simp only [pass_at, finish] at hsm
    split at hsm
    · rw [sub_moves_FINAL_MOVE, List.mem_singleton] at hsm
      rw [hsm]
      exact ⟨rfl, rfl⟩
    · simp at hsm
  | final_move =>
    simp only [pass_at] at hsm
    rw [sub_moves_FINAL_MOVE, List.mem_singleton] at hsm
    rw [hsm]
    exact ⟨rfl, rfl⟩
  | raw =>
    simp only [pass_at, sub_moves_buffer_line, sub_moves_set_current, sub_moves_nil,
      List.mem_singleton] at hsm
    rw [hsm]
    exact ⟨rfl, rfl⟩

theorem events_at_without_z (g : Blm) (z : Int → Int → Flt) (f : ℚ → ℚ) (o : ℚ) (cur : Pos)
    (r : Req) (ss : List Site) :
    (sub_moves (events_at (with_heights g z f o) cur r ss)).map SubMove.without_z =
      (sub_moves (events_at g cur r ss)).map SubMove.without_z := by
  induction ss with
  | nil => rfl
  | cons s ss ih =>
    simp only [events_at_cons, sub_moves_append, List.map_append, ih, site_without_z]

theorem events_at_feed_rate_extruder (g : Blm) (cur : Pos) (r : Req) (ss : List Site) :
    ∀ sm ∈ sub_moves (events_at g cur r ss),
      sm.feed_rate = r.feed_rate ∧ sm.extruder = r.extruder := by
  induction ss with
  | nil => intro sm hsm; simp at hsm
  | cons s ss ih =>
    intro sm hsm
    simp only [events_at_cons, sub_moves_append, List.mem_append] at hsm
    rcases hsm with hsm | hsm
    · exact site_feed_rate_extruder g cur r s sm hsm
    · exact ih sm hsm

/-! ## Claim C33 -/

/-- C33: two runs with the same start, destination, feed rate, extruder and mesh-line tables,
on grids that may differ in the height samples, the fade factor and the Z offset, behave alike
in everything except Z.  With any fuel, one returns exactly when the other does, and then the
two sequences of sub-moves agree in X, Y, E, feed rate and extruder, position by position; in
particular they have the same length.  On a grid of positive pitch with enough fuel both
runs return, and the feed rate and the extruder of every sub-move are the request's. -/
theorem C33_heights_change_only_z (g1 g2 : Blm) (h : same_tables g1 g2) (cur : Pos) (r : Req)
    (fuel : Nat) :
    (mesh_buffer_line g1 cur r fuel).map (fun evs => (sub_moves evs).map SubMove.without_z) =
        (mesh_buffer_line g2 cur r fuel).map
          (fun evs => (sub_moves evs).map SubMove.without_z) ∧
      (g1.WF → enough_fuel g1 cur r ≤ fuel →
        ∃ evs1 evs2, mesh_buffer_line g1 cur r fuel = some evs1 ∧
          mesh_buffer_line g2 cur r fuel = some evs2 ∧
          (sub_moves evs1).length = (sub_moves evs2).length ∧
          (sub_moves evs1).map SubMove.without_z = (sub_moves evs2).map SubMove.without_z ∧
          (∀ sm ∈ sub_moves evs1, sm.feed_rate = r.feed_rate ∧ sm.extruder = r.extruder) ∧
          ∀ sm ∈ sub_moves evs2, sm.feed_rate = r.feed_rate ∧ sm.extruder = r.extruder) := by
  have h2 := with_heights_of_same_tables g1 g2 h
  generalize g2.z_values = z at h2
  generalize g2.fade = f at h2
  generalize g2.z_offset = o at h2
  subst h2
  have key : ∀ ss, (sub_moves (events_at (with_heights g1 z f o) cur r ss)).map
      SubMove.without_z = (sub_moves (events_at g1 cur r ss)).map SubMove.without_z :=
    events_at_without_z g1 z f o cur r
  refine ⟨?_, ?_⟩
  · rw [mesh_buffer_line_eq_sites, mesh_buffer_line_eq_sites,
      mesh_buffer_line_sites_with_heights, Option.map_map, Option.map_map]
    congr 1
    funext ss
    exact (key ss).symm
  · intro hg hf
    obtain ⟨ss, hss, hrun, _⟩ := mesh_buffer_line_sites_some g1 hg cur r fuel hf
    have hss2 : mesh_buffer_line_sites (with_heights g1 z f o) cur r fuel = some ss := by
      rw [mesh_buffer_line_sites_with_heights]
      exact hss
    refine ⟨_, _, hrun, mesh_buffer_line_of_sites _ cur r fuel ss hss2, ?_, (key ss).symm,
      events_at_feed_rate_extruder g1 cur r ss, events_at_feed_rate_extruder _ cur r ss⟩
    have := congrArg List.length (key ss)
    simpa using this.symm

theorem C33_heights_change_only_z_witness :
    same_tables (scenario_grid nan 1 0)
        (with_heights (scenario_grid nan 1 0) (fun _ _ => fin 2) (fun _ => 1 / 2) 3) ∧
      (scenario_grid nan 1 0).WF ∧
      enough_fuel (scenario_grid nan 1 0) ⟨2, 2, 0, 0⟩ ⟨18, 14, 1, 1, 100, 0⟩ ≤ 3 ∧
      ∃ evs1 evs2,
        mesh_buffer_line (scenario_grid nan 1 0) ⟨2, 2, 0, 0⟩ ⟨18, 14, 1, 1, 100, 0⟩ 3 =
          some evs1 ∧
        mesh_buffer_line
            (with_heights (scenario_grid nan 1 0) (fun _ _ => fin 2) (fun _ => 1 / 2) 3)
            ⟨2, 2, 0, 0⟩ ⟨18, 14, 1, 1, 100, 0⟩ 3 = some evs2 ∧
        (sub_moves evs1).length = (sub_moves evs2).length ∧
        (sub_moves evs1).map SubMove.without_z = (sub_moves evs2).map SubMove.without_z ∧
        (∀ sm ∈ sub_moves evs1, sm.feed_rate = 100 ∧ sm.extruder = 0) ∧
        ∀ sm ∈ sub_moves evs2, sm.feed_rate = 100 ∧ sm.extruder = 0 :=
  ⟨by decide!, by decide!, by decide!,
    (C33_heights_change_only_z (scenario_grid nan 1 0)
      (with_heights (scenario_grid nan 1 0) (fun _ _ => fin 2) (fun _ => 1 / 2) 3)
      (by decide!) ⟨2, 2, 0, 0⟩ ⟨18, 14, 1, 1, 100, 0⟩ 3).2 (by decide!) (by decide!)⟩

/-! ## Ties in the general loop -/

theorem one_le_frac_X_next (g : Blm) (hg : g.WF) (cur : Pos) (r : Req)
    (hx : r.x_end - cur.x ≠ 0) (xc : Int) (h : xc ≤ 0) :
    1 ≤ frac_X cur r (mesh_index_to_X_location g
      (next_xi cur r (get_cell_index_x g r.x_end) xc)) := by
  unfold frac_X next_xi
  by_cases hneg : r.x_end - cur.x < 0
  · rw [if_pos hneg, one_le_div_of_neg hneg]
    have h1 := X_location_cell_le g hg r.x_end
    have h2 : mesh_index_to_X_location g (get_cell_index_x g r.x_end + xc) ≤
        mesh_index_to_X_location g (get_cell_index_x g r.x_end) :=
      X_location_mono g hg (by omega)
    linarith
  · have hpos : 0 < r.x_end - cur.x := lt_of_le_of_ne (not_lt.mp hneg) (Ne.symm hx)
    rw [if_neg hneg, one_le_div hpos]
    have h1 := X_location_cell_succ_gt g hg r.x_end
    have h2 : mesh_index_to_X_location g (get_cell_index_x g r.x_end + 1) ≤
        mesh_index_to_X_location g (get_cell_index_x g r.x_end + 1 - xc) :=
      X_location_mono g hg (by omega)
    linarith

/-- In a pass of the general loop entered with the loop invariant, a tie at a travel fraction
below 1, that is at a corner strictly before the destination, finds both counters positive. -/
theorem tie_before_destination (g : Blm) (hg : g.WF) (cur : Pos) (r : Req)
    (hx : get_cell_index_x g cur.x ≠ get_cell_index_x g r.x_end)
    (hy : get_cell_index_y g cur.y ≠ get_cell_index_y g r.y_end)
    (t : ℚ) (cxi cyi xc yc : Int) (hinv : general_inv g cur r t cxi cyi xc yc)
    (htie : frac_X cur r (mesh_index_to_X_location g (cxi + dir_X cur r)) =
      frac_Y cur r (mesh_index_to_Y_location g (cyi + dir_Y cur r)))
    (hlt : frac_X cur r (mesh_index_to_X_location g (cxi + dir_X cur r)) < 1) :
    0 < xc ∧ 0 < yc := by
  have hdx := setup_dx_ne_zero g cur r hx
  have hdy := setup_dy_ne_zero g cur r hy
  obtain ⟨i1, i2, _, i4, _⟩ := hinv
  constructor
  · by_contra hxc
    have h1 := one_le_frac_X_next g hg cur r hdx xc (by omega)
    rw [← i1] at h1
    linarith
  · by_contra hyc
    have hy0 : yc = 0 := by omega
    subst hy0
    have h1 := one_le_frac_Y_next g hg cur r hdy
    rw [← i2, ← htie] at h1
    linarith

/-! ## Claim C34 -/

/-- At a tie the test of line 330 fails, whatever the direction of travel: both of its
comparisons are strict. -/
theorem hits_Y_line_first_tie (L : Locals) (lx : ℚ) :
    hits_Y_line_first L (fin lx) lx = false := by
  simp [hits_Y_line_first, Flt.lt]

/-- After a tie, the X mesh line one column further lies strictly beyond the corner, so the
test of line 330 succeeds. -/
theorem hits_Y_line_first_after_tie (g : Blm) (hg : g.WF) (cur : Pos) (r : Req)
    (hx : get_cell_index_x g cur.x ≠ get_cell_index_x g r.x_end)
    (hy : get_cell_index_y g cur.y ≠ get_cell_index_y g r.y_end) (k : Int) (ly : ℚ)
    (htie : (fin ly - (setup g cur r).c) / (setup g cur r).m =
      fin (mesh_index_to_X_location g k)) :
    hits_Y_line_first (setup g cur r) ((fin ly - (setup g cur r).c) / (setup g cur r).m)
      (mesh_index_to_X_location g (k + (setup g cur r).dxi)) = true := by
  have hdx := setup_dx_ne_zero g cur r hx
  have hdy := setup_dy_ne_zero g cur r hy
  rw [hits_Y_line_first_iff g cur r hdx hdy, setup_dxi_eq_dir g cur r hx]
  rw [x_at_Y_line g cur r hdx hdy] at htie
  injection htie with htie
  have h1 : frac_Y cur r ly = frac_X cur r (mesh_index_to_X_location g k) := by
    rw [← htie]
    unfold frac_X
    field_simp
  rw [h1]
  exact frac_X_step g hg cur r hdx k

/-- A pass of the general loop in which the test of line 330 succeeds. -/
theorem general_loop_pass_Y (g : Blm) (r : Req) (L : Locals) (fuel : Nat)
    (cxi cyi xc yc : Int) (hc : xc > 0 ∨ yc > 0)
    (h : hits_Y_line_first L ((fin (mesh_index_to_Y_location g (cyi + L.dyi)) - L.c) / L.m)
      (mesh_index_to_X_location g (cxi + L.dxi)) = true) :
    general_loop g r L (fuel + 1) cxi cyi xc yc =
      (general_loop g r L fuel cxi (cyi + L.dyi) xc (yc - 1)).map
        (fun rest => [Event.read_X (cxi + L.dxi), Event.read_Y (cyi + L.dyi)] ++
          cross_Y_line g r L cxi cyi ++ rest) := by
  simp only [general_loop, if_pos hc, h, if_true]

/-- A pass of the general loop in which the test of line 330 fails. -/
theorem general_loop_pass_X (g : Blm) (r : Req) (L : Locals) (fuel : Nat)
    (cxi cyi xc yc : Int) (hc : xc > 0 ∨ yc > 0)
    (h : hits_Y_line_first L ((fin (mesh_index_to_Y_location g (cyi + L.dyi)) - L.c) / L.m)
      (mesh_index_to_X_location g (cxi + L.dxi)) = false) :
    general_loop g r L (fuel + 1) cxi cyi xc yc =
      (general_loop g r L fuel (cxi + L.dxi) cyi (xc - 1) yc).map
        (fun rest => [Event.read_X (cxi + L.dxi), Event.read_Y (cyi + L.dyi)] ++
          cross_X_line g r L cxi cyi ++ rest) := by
  simp only [general_loop, if_pos hc, h]
  rfl

/-- C34 (amended): in the general case, on a grid of positive pitch, take a pass of the loop
in which a column crossing and a row crossing both remain (`xi_cnt > 0` and `yi_cnt > 0`) and
the path meets the next Y mesh line exactly on the next X mesh line (`x = next_mesh_line_x`).
Whatever the direction of travel, that pass takes the branch of the X mesh line and the pass
after it takes the branch of the Y mesh line, with the column index advanced and the row
index unchanged; the loop goes on from there with both counters one lower, and the two
sub-moves end at the same point, the corner. -/
theorem C34_corner_is_emitted_twice (g : Blm) (hg : g.WF) (cur : Pos) (r : Req)
    (hx : get_cell_index_x g cur.x ≠ get_cell_index_x g r.x_end)
    (hy : get_cell_index_y g cur.y ≠ get_cell_index_y g r.y_end)
    (fuel : Nat) (cxi cyi xc yc : Int) (hxc : 0 < xc) (hyc : 0 < yc)
    (htie : (fin (mesh_index_to_Y_location g (cyi + (setup g cur r).dyi)) -
        (setup g cur r).c) / (setup g cur r).m =
      fin (mesh_index_to_X_location g (cxi + (setup g cur r).dxi))) :
    general_loop g r (setup g cur r) (fuel + 2) cxi cyi xc yc =
        (general_loop g r (setup g cur r) fuel (cxi + (setup g cur r).dxi)
            (cyi + (setup g cur r).dyi) (xc - 1) (yc - 1)).map
          (fun rest =>
            [Event.read_X (cxi + (setup g cur r).dxi),
                Event.read_Y (cyi + (setup g cur r).dyi)] ++
              cross_X_line g r (setup g cur r) cxi cyi ++
              ([Event.read_X (cxi + (setup g cur r).dxi + (setup g cur r).dxi),
                  Event.read_Y (cyi + (setup g cur r).dyi)] ++
                cross_Y_line g r (setup g cur r) (cxi + (setup g cur r).dxi) cyi ++ rest)) ∧
      endpoints (cross_X_line g r (setup g cur r) cxi cyi) =
        [(fin (mesh_index_to_X_location g (cxi + (setup g cur r).dxi)),
          fin (mesh_index_to_Y_location g (cyi + (setup g cur r).dyi)))] ∧
      endpoints (cross_Y_line g r (setup g cur r) (cxi + (setup g cur r).dxi) cyi) =
        [(fin (mesh_index_to_X_location g (cxi + (setup g cur r).dxi)),
          fin (mesh_index_to_Y_location g (cyi + (setup g cur r).dyi)))] := by
  have hdx := setup_dx_ne_zero g cur r hx
  have hdy := setup_dy_ne_zero g cur r hy
  have h1 : hits_Y_line_first (setup g cur r)
      ((fin (mesh_index_to_Y_location g (cyi + (setup g cur r).dyi)) - (setup g cur r).c) /
        (setup g cur r).m)
      (mesh_index_to_X_location g (cxi + (setup g cur r).dxi)) = false := by
    rw [htie]
    exact hits_Y_line_first_tie _ _
  have h2 := hits_Y_line_first_after_tie g hg cur r hx hy _ _ htie
  have hc1 : xc > 0 ∨ yc > 0 := Or.inl hxc
  have hc2 : xc - 1 > 0 ∨ yc > 0 := Or.inr hyc
  refine ⟨?_, ?_, ?_⟩
  · rw [general_loop_pass_X g r _ fuel.succ cxi cyi xc yc hc1 h1,
      general_loop_pass_Y g r _ fuel _ cyi _ yc hc2 h2, Option.map_map]
    rfl
  · have hy_at : (setup g cur r).m *
        fin (mesh_index_to_X_location g (cxi + (setup g cur r).dxi)) + (setup g cur r).c =
        fin (mesh_index_to_Y_location g (cyi + (setup g cur r).dyi)) := by
      rw [y_at_X_line g cur r hdx]
      rw [x_at_Y_line g cur r hdx hdy] at htie
      injection htie with htie
      congr 1
      have h3 : frac_X cur r (mesh_index_to_X_location g (cxi + (setup g cur r).dxi)) =
          frac_Y cur r (mesh_index_to_Y_location g (cyi + (setup g cur r).dyi)) := by
        rw [← htie]
        unfold frac_X
        field_simp
      rw [h3]
      exact frac_Y_mul cur r hdy _
    unfold endpoints
    simp only [sub_moves_cross_X_line, List.map_cons, List.map_nil, hy_at]
  · unfold endpoints
    simp only [sub_moves_cross_Y_line, List.map_cons, List.map_nil, htie]

theorem C34_corner_is_emitted_twice_witness :
    (scenario_grid nan 1 0).WF ∧
      get_cell_index_x (scenario_grid nan 1 0) 15 ≠ get_cell_index_x (scenario_grid nan 1 0) 5 ∧
      get_cell_index_y (scenario_grid nan 1 0) 5 ≠
        get_cell_index_y (scenario_grid nan 1 0) 15 ∧
      (0 : Int) < 1 ∧
      (fin (mesh_index_to_Y_location (scenario_grid nan 1 0)
            (0 + (setup (scenario_grid nan 1 0) ⟨15, 5, 0, 0⟩ ⟨5, 15, 1, 1, 100, 0⟩).dyi)) -
          (setup (scenario_grid nan 1 0) ⟨15, 5, 0, 0⟩ ⟨5, 15, 1, 1, 100, 0⟩).c) /
          (setup (scenario_grid nan 1 0) ⟨15, 5, 0, 0⟩ ⟨5, 15, 1, 1, 100, 0⟩).m =
        fin (mesh_index_to_X_location (scenario_grid nan 1 0)
          (2 + (setup (scenario_grid nan 1 0) ⟨15, 5, 0, 0⟩ ⟨5, 15, 1, 1, 100, 0⟩).dxi)) ∧
      (general_loop (scenario_grid nan 1 0) ⟨5, 15, 1, 1, 100, 0⟩
          (setup (scenario_grid nan 1 0) ⟨15, 5, 0, 0⟩ ⟨5, 15, 1, 1, 100, 0⟩)
          2 2 0 1 1).map endpoints = some [(fin 10, fin 10), (fin 10, fin 10)] ∧
      (mesh_buffer_line (scenario_grid nan 1 0) ⟨15, 5, 0, 0⟩
          ⟨5, 15, 1, 1, 100, 0⟩ 2).map endpoints =
        some [(fin 10, fin 10), (fin 10, fin 10), (fin 5, fin 15)] :=
  ⟨by decide!, by decide!, by decide!, by decide!, by decide!,
    (congrArg (Option.map endpoints)
      (C34_corner_is_emitted_twice (scenario_grid nan 1 0) (by decide!) ⟨15, 5, 0, 0⟩
        ⟨5, 15, 1, 1, 100, 0⟩ (by decide!) (by decide!) 0 2 0 1 1 (by decide!) (by decide!)
        (by decide!)).1).trans (by decide!),
    by decide!⟩

/-- C34: a tie at a corner destination reached rightward and downward is not followed by a
row crossing.  On the scenario grid, from the tracked position (2, 26, 0, 0) in cell (0, 2),
the request to (10, 10, 1, 1) in cell (1, 1) crosses the Y mesh line 20 first; in the second
pass of the loop, with `xi_cnt = 1` and `yi_cnt = 0`, the path meets the next Y mesh line, 10,
exactly on the next X mesh line, 10, the branch of the X mesh line is taken, and the loop
ends: the run makes the passes Y, X and the tail, and no pass crosses a Y mesh line at the
corner. -/
theorem C34_corner_destination_ends_the_loop :
    get_cell_index_x (scenario_grid nan 1 0) 2 ≠ get_cell_index_x (scenario_grid nan 1 0) 10 ∧
      get_cell_index_y (scenario_grid nan 1 0) 26 ≠
        get_cell_index_y (scenario_grid nan 1 0) 10 ∧
      (fin (mesh_index_to_Y_location (scenario_grid nan 1 0)
            (2 + (setup (scenario_grid nan 1 0) ⟨2, 26, 0, 0⟩ ⟨10, 10, 1, 1, 100, 0⟩).dyi)) -
          (setup (scenario_grid nan 1 0) ⟨2, 26, 0, 0⟩ ⟨10, 10, 1, 1, 100, 0⟩).c) /
          (setup (scenario_grid nan 1 0) ⟨2, 26, 0, 0⟩ ⟨10, 10, 1, 1, 100, 0⟩).m =
        fin (mesh_index_to_X_location (scenario_grid nan 1 0)
          (0 + (setup (scenario_grid nan 1 0) ⟨2, 26, 0, 0⟩ ⟨10, 10, 1, 1, 100, 0⟩).dxi)) ∧
      mesh_buffer_line_sites (scenario_grid nan 1 0) ⟨2, 26, 0, 0⟩
          ⟨10, 10, 1, 1, 100, 0⟩ 3 =
        some [Site.cross_Y 0 3, Site.cross_X 0 2, Site.finish] ∧
      general_loop (scenario_grid nan 1 0) ⟨10, 10, 1, 1, 100, 0⟩
          (setup (scenario_grid nan 1 0) ⟨2, 26, 0, 0⟩ ⟨10, 10, 1, 1, 100, 0⟩) 2 0 2 1 0 =
        some ([Event.read_X 1, Event.read_Y 1] ++
          cross_X_line (scenario_grid nan 1 0) ⟨10, 10, 1, 1, 100, 0⟩
            (setup (scenario_grid nan 1 0) ⟨2, 26, 0, 0⟩ ⟨10, 10, 1, 1, 100, 0⟩) 0 2) ∧
      (mesh_buffer_line (scenario_grid nan 1 0) ⟨2, 26, 0, 0⟩
          ⟨10, 10, 1, 1, 100, 0⟩ 3).map endpoints =
        some [(fin 5, fin 20), (fin 10, fin 10), (fin 10, fin 10)] := by
  decide!

end VoronUBL
